import Mathlib

/-!
# CsvHandler: a shallow embedding of the ingestion core

The C++ class `csvh::CsvHandler` (src/CsvHandler.cpp) is embedded function by
function.  A `std::string` is a list of characters, `int` positions are
integers with `std::string::npos` read back as `-1` (as the conversion
`size_t → int` does in the source), and a conversion `int → size_t` of a
negative value is a position beyond the end of every string (strings are
assumed shorter than `2^31` characters, the range of the `int` positions the
source itself uses).  A thrown exception is an error value (`none` or
`Except.error`).

The data members of the class are the fields of `CsvHandlerState`, and a member
function that changes them returns the state together with its result or its
exception, so that the state a throwing call leaves behind is kept.  The file
is its content `inFile`; the members of type `long long` are integers without
bound.  An execution that C++ leaves undefined (an index outside a vector, a
field whose value was never assigned) is the error `undefinedBehaviour`.

A member function that writes a file returns the text written, or the content of
the file after the call (`storeDataInFile`).  The positions of a line that the
tokenizer reads with `operator[]` are listed by `splitEntryByDelimiterReads`,
which walks the tokenizer's code once more and keeps the indices.
-/

namespace CsvHandler

/-- A `std::string`. -/
abbrev Str := List Char

/-! ## Constants of `CsvHandler.hpp` -/

def _whitespace : Str := [' ', '\t']
def _quotationMark : Char := '"'
def _space : Char := ' '
def _tab : Char := '\t'
def _CR : Char := '\r'
def _LF : Char := '\n'
def _emptyString : Str := []
def _leftBrace : Char := '\x7b'
def _rightBrace : Char := '\x7d'

/-! ## The `std::string` members used by the tokenizer -/

/-- The expression `s[i]`.  For `0 ≤ i < s.size()` it is the character at `i`; any
other index is outside the string and the byte read there is the unspecified
`oob` (the tokenizer never reads index `size()`, where C++ guarantees a NUL; the
only read outside the string is `s[-1]`, for a line that begins with the
delimiter). -/
def charAt (oob : Char) (s : Str) (i : Int) : Char :=
  if 0 ≤ i then s.getD i.toNat oob else oob

/-- The call `s.find_first_not_of(chars, pos)`: the first index `≥ pos` holding a
character outside `chars`, `-1` (npos) when there is none. -/
def find_first_not_of (s chars : Str) (pos : Int) : Int :=
  if pos < 0 then -1
  else
    let k := ((s.drop pos.toNat).takeWhile (fun c => chars.contains c)).length
    if pos.toNat + k < s.length then pos + k else -1

/-- The call `s.find_first_of(c, pos)` for a single character: the first index
`≥ pos` holding `c`, `-1` (npos) when there is none. -/
def find_first_of (s : Str) (c : Char) (pos : Int) : Int :=
  if pos < 0 then -1
  else
    let k := ((s.drop pos.toNat).takeWhile (fun x => x != c)).length
    if pos.toNat + k < s.length then pos + k else -1

/-- The call `s.find_last_not_of(chars, pos)`: the last index `≤ pos` holding a
character outside `chars`, `-1` (npos) when there is none.  A negative `pos` is
npos after conversion and searches the whole string. -/
def find_last_not_of (s chars : Str) (pos : Int) : Int :=
  let t := if pos < 0 then s else s.take (pos.toNat + 1)
  ((t.reverse.dropWhile (fun c => chars.contains c)).reverse.length : Int) - 1

/-- The call `s.substr(pos, count)`: throws `std::out_of_range` (`none`) when
`pos > s.size()`; a negative `count` is a huge `size_t` and takes the rest. -/
def substr (s : Str) (pos count : Int) : Option Str :=
  if pos < 0 ∨ (s.length : Int) < pos then none
  else if count < 0 then some (s.drop pos.toNat)
  else some ((s.drop pos.toNat).take count.toNat)

/-! ## Tokenizer (`splitEntryByDelimiter` and helpers) -/

/-- The `while` loop of `getDoubleQuottedFieldEnding`; `nqMarks` is an
`unsigned int`. -/
def getDoubleQuottedFieldEndingLoop (oob : Char) (lineToSplit : Str) (delimiter : Char) :
    Nat → Nat → Nat → Nat
  | 0, _, posc => posc
  | fuel + 1, nqMarks, posc =>
    if posc < lineToSplit.length ∧
        (nqMarks % 2 ≠ 0 ∨ charAt oob lineToSplit posc ≠ delimiter) then
      getDoubleQuottedFieldEndingLoop oob lineToSplit delimiter fuel
        (if charAt oob lineToSplit posc = _quotationMark then (nqMarks + 1) % 2 ^ 32
          else nqMarks)
        (posc + 1)
    else posc

/-- `CsvHandler::getDoubleQuottedFieldEnding`: the loop advances `posc` at every
turn and stops at `size()`, so `size()` turns are enough. -/
def getDoubleQuottedFieldEnding (oob : Char) (lineToSplit : Str) (poss : Int)
    (delimiter : Char) : Int :=
  getDoubleQuottedFieldEndingLoop oob lineToSplit delimiter lineToSplit.length 1
    (poss + 1).toNat

/-- `CsvHandler::emplaceSpacesFreeFieldInVector`; the result is the vector
`splittedLine` after the `emplace_back`. -/
def emplaceSpacesFreeFieldInVector (oob : Char) (lineToSplit : Str)
    (splittedLine : List Str) (poss pose : Int) : Option (List Str) :=
  if pose = -1 then
    let correctedPose : Int :=
      if charAt oob lineToSplit ((lineToSplit.length : Int) - 1) = _space
          ∨ charAt oob lineToSplit ((lineToSplit.length : Int) - 1) = _tab then
        let notSpaceFromLast := find_last_not_of lineToSplit _whitespace lineToSplit.length
        find_first_not_of lineToSplit _whitespace notSpaceFromLast + 1
      else pose
    (substr lineToSplit poss (correctedPose - poss)).map (fun f => splittedLine ++ [f])
  else
    let correctedPose : Int :=
      if (charAt oob lineToSplit (pose - 1) = _space
          ∨ charAt oob lineToSplit (pose - 1) = _tab) ∧ pose - poss > 1 then
        let notSpaceFromLast := find_last_not_of lineToSplit _whitespace (pose - 1)
        find_first_not_of lineToSplit _whitespace notSpaceFromLast + 1
      else pose
    (substr lineToSplit poss (correctedPose - poss)).map (fun f => splittedLine ++ [f])

/-- The `while` loop of `splitEntryByDelimiter`, one turn per unit of fuel;
`none` is an exception leaving the function (or the fuel running out). -/
def splitEntryByDelimiterLoop (oob : Char) (lineToSplit : Str) (delimiter : Char) :
    Nat → Int → Int → List Str → Option (List Str)
  | 0, _, _, _ => none
  | fuel + 1, poss, pose, splittedLine =>
    if poss ≤ (lineToSplit.length : Int) ∧ pose ≠ -1 then
      if poss = (lineToSplit.length : Int) then
        splitEntryByDelimiterLoop oob lineToSplit delimiter fuel poss (-1)
          (splittedLine ++ [_emptyString])
      else
        let poss1 := find_first_not_of lineToSplit _whitespace poss
        if poss1 = -1 then
          splitEntryByDelimiterLoop oob lineToSplit delimiter fuel (-1 + 1) (-1)
            (splittedLine ++ [_emptyString])
        else if charAt oob lineToSplit poss1 = _quotationMark then
          let pose1 := getDoubleQuottedFieldEnding oob lineToSplit poss1 delimiter
          match emplaceSpacesFreeFieldInVector oob lineToSplit splittedLine poss1 pose1 with
          | none => none
          | some v => splitEntryByDelimiterLoop oob lineToSplit delimiter fuel (pose1 + 1) pose1 v
        else
          let pose1 := find_first_of lineToSplit delimiter poss1
          match emplaceSpacesFreeFieldInVector oob lineToSplit splittedLine poss1 pose1 with
          | none => none
          | some v => splitEntryByDelimiterLoop oob lineToSplit delimiter fuel (pose1 + 1) pose1 v
    else some splittedLine

/-- `CsvHandler::splitEntryByDelimiter`, appending to `splittedLine`.  Every
turn but the last moves `poss` forward, so `size() + 2` turns are enough. -/
def splitEntryByDelimiter (oob : Char) (lineToSplit : Str) (splittedLine : List Str)
    (delimiter : Char) : Option (List Str) :=
  splitEntryByDelimiterLoop oob lineToSplit delimiter (lineToSplit.length + 2) 0 0 splittedLine

/-! ## Record extractor -/

/-- The `size_t` value of `_sourceFileColumnTypes.size() - 1`: the subtraction is
unsigned and wraps to `2^64 - 1` when the vector is empty. -/
def sizeMinusOne (columnTypesSize : Nat) : Nat :=
  (columnTypesSize + 2 ^ 64 - 1) % 2 ^ 64

/-- The `for` loop of `convertCharBufferIntoCSVentryStrings` over the characters
of the chunk, carrying `lineBuff` and `buff`. -/
def convertCharBufferIntoCSVentryStringsLoop (columnTypesSize : Nat) :
    List Char → List Str → Str → List Str × Str
  | [], lineBuff, buff => (lineBuff, buff)
  | character :: rest, lineBuff, buff =>
    if character ≠ _LF ∧ character ≠ _CR then
      convertCharBufferIntoCSVentryStringsLoop columnTypesSize rest lineBuff (buff ++ [character])
    else if buff.length ≠ 0 ∧ buff.length > sizeMinusOne columnTypesSize then
      convertCharBufferIntoCSVentryStringsLoop columnTypesSize rest (lineBuff ++ [buff]) []
    else
      convertCharBufferIntoCSVentryStringsLoop columnTypesSize rest lineBuff buff

/-- `CsvHandler::convertCharBufferIntoCSVentryStrings`.  The members it reads are
arguments (`_sourceFileColumnTypes.size()`, `_eofFlag`, `_buffLeftovers`); the
result is the returned `lineBuff` and the new `_buffLeftovers`. -/
def convertCharBufferIntoCSVentryStrings (columnTypesSize : Nat) (eofFlag : Bool)
    (buffLeftovers : Str) (partialData : List Char) : List Str × Str :=
  let r := convertCharBufferIntoCSVentryStringsLoop columnTypesSize partialData [] buffLeftovers
  let lineBuff := r.1
  let buff := r.2
  if buff.length ≠ 0 then
    if eofFlag = true ∧ buff.length > sizeMinusOne columnTypesSize then
      (lineBuff ++ [buff], buff)
    else (lineBuff, buff)
  else (lineBuff, [])

/-- Running the CSV extractor over consecutive chunks of one file: the carry-over
is threaded from call to call and `_eofFlag` is set for the last chunk only (as
`loadEntries` does).  The result is every emitted record, in order, and the
final carry-over. -/
def runCSVChunks (columnTypesSize : Nat) : Str → List (List Char) → List Str × Str
  | buffLeftovers, [] => ([], buffLeftovers)
  | buffLeftovers, [last] =>
    convertCharBufferIntoCSVentryStrings columnTypesSize true buffLeftovers last
  | buffLeftovers, chunk :: more =>
    let r := convertCharBufferIntoCSVentryStrings columnTypesSize false buffLeftovers chunk
    let r2 := runCSVChunks columnTypesSize r.2 more
    (r.1 ++ r2.1, r2.2)

/-- The last `}` of a brace-free-on-the-left segment: the segment before it and the
segment after it (`none` when the segment holds no `}`).  This is where the
greedy `[^\{]*` followed by `\}` ends. -/
def splitAtLastRightBrace : Str → Option (Str × Str)
  | [] => none
  | c :: cs =>
    match splitAtLastRightBrace cs with
    | some (a, b) => some (c :: a, b)
    | none => if c = _rightBrace then some ([], cs) else none

/-- The call `std::regex_search(searchStart, buff.cend(), matches, rEntry)` for
`rEntry = \{[^\{]*\}` (ECMAScript, leftmost match, greedy star): the first `{`
that is followed by a `}` with no `{` between them, matched up to the last such
`}`.  The result is `matches[0]` and `matches.suffix()`. -/
def regex_search_rEntry : Str → Option (Str × Str)
  | [] => none
  | c :: cs =>
    if c = _leftBrace then
      match splitAtLastRightBrace (cs.takeWhile (fun x => x != _leftBrace)) with
      | some (a, b) =>
        some (_leftBrace :: a ++ [_rightBrace], b ++ cs.dropWhile (fun x => x != _leftBrace))
      | none => regex_search_rEntry cs
    else regex_search_rEntry cs

/-- The `while (std::regex_search(...))` loop of
`convertCharBufferIntoJSONentryStrings`: the records pushed and the text left at
`searchStart`.  Every match consumes at least two characters, so the fuel
`size() + 1` is never used up. -/
def convertCharBufferIntoJSONentryStringsLoop : Nat → Str → List Str → List Str × Str
  | 0, searchStart, lineBuff => (lineBuff, searchStart)
  | fuel + 1, searchStart, lineBuff =>
    match regex_search_rEntry searchStart with
    | some (m, suffix) =>
      convertCharBufferIntoJSONentryStringsLoop fuel suffix
        (lineBuff ++ [(m.drop 1).take (m.length - 2)])
    | none => (lineBuff, searchStart)

/-- `CsvHandler::convertCharBufferIntoJSONentryStrings`: the returned `lineBuff`
and the new `_buffLeftovers`. -/
def convertCharBufferIntoJSONentryStrings (buffLeftovers : Str) (partialData : List Char) :
    List Str × Str :=
  let buff := buffLeftovers ++ partialData.filter (fun character =>
    character != _LF && character != _CR)
  convertCharBufferIntoJSONentryStringsLoop (buff.length + 1) buff []

/-! ## Exceptions (`CsvHandlerExceptions.hpp`) -/

/-- Which message `convertString` appended before throwing. -/
inductive ConvertFailure where
  | invalidArgument
  | indexOutOfRange
  | typeNotCorrect
  | convertDate
  deriving DecidableEq, Repr

/-- The exceptions thrown by the handler and by the library calls it makes.
`undefinedBehaviour` is no exception: it marks an execution that steps outside
the language (an `operator[]`, `erase` or `insert` outside its vector, a read of
a value that was never assigned, the use of a deleted field). -/
inductive Exception where
  | InvalidColumnCaptionException
  | HeaderNotAvailableException
  | UnableToOpenFileException
  | UnableToConvertFieldTypeException (why : ConvertFailure)
  | UnableToSplitEntryException (entryIndex : Int)
  | UnableToReadFileInChunks (fileSize : Int)
  | out_of_range
  | length_error
  | regex_error
  | undefinedBehaviour
  deriving DecidableEq, Repr

deriving instance DecidableEq for Except

/-! ## Column lookup -/

/-- The `for` loop of `getColumnId` from index `headerID` on. -/
def getColumnIdLoop (columnCaption : Str) : List Str → Nat → Except Exception Int
  | [], _ => .error .InvalidColumnCaptionException
  | h :: rest, headerID =>
    if h = columnCaption then .ok (headerID : Int)
    else getColumnIdLoop columnCaption rest (headerID + 1)

/-- `CsvHandler::getColumnId` on the header `_sourceFileHeader`. -/
def getColumnId (sourceFileHeader : List Str) (columnCaption : Str) : Except Exception Int :=
  if sourceFileHeader.isEmpty then .error .HeaderNotAvailableException
  else getColumnIdLoop columnCaption sourceFileHeader 0

/-! ## Type inferencer

`convertString<int>` and `convertString<double>` call `std::stoi` and `std::stod`,
that is `strtol` (base 10) and `strtod` in the "C" locale; `convertString<time_t>`
calls `std::get_time` and `mktime`.  These library functions are modelled from
the C and C++ standards. -/

def _tString : Str := "type_string".toList
def _tDouble : Str := "type_double".toList
def _tInt : Str := "type_int".toList
def _tDate : Str := "type_date".toList

/-- The exceptions of `std::stoi` / `std::stod`. -/
inductive StdException where
  | invalid_argument
  | out_of_range
  deriving DecidableEq, Repr

/-- The C function `isspace` in the "C" locale: space and `\t \n \v \f \r`. -/
def isspace (c : Char) : Bool := c = ' ' || (9 ≤ c.toNat && c.toNat ≤ 13)

/-- The value of a run of decimal digits. -/
def digitsValue (ds : List Char) : Nat :=
  ds.foldl (fun v c => 10 * v + (c.toNat - '0'.toNat)) 0

/-- An optional sign at the head of the subject sequence: whether it is `-`, and
the rest. -/
def takeSign : Str → Bool × Str
  | '-' :: t => (true, t)
  | '+' :: t => (false, t)
  | s => (false, s)

/-- The call `std::stoi(str, &idx)`: leading white space, an optional sign and a
non-empty run of decimal digits; `invalid_argument` when there is no digit,
`out_of_range` when the value is not an `int`.  The result is the value and
`idx`, the number of characters consumed. -/
def stoi (str : Str) : Except StdException (Int × Nat) :=
  let r1 := str.dropWhile isspace
  let sg := takeSign r1
  let ds := sg.2.takeWhile Char.isDigit
  if ds.isEmpty then .error .invalid_argument
  else
    let v : Int := if sg.1 then -(digitsValue ds : Int) else (digitsValue ds : Int)
    if v < -2147483648 ∨ 2147483647 < v then .error .out_of_range
    else .ok (v, str.length - sg.2.length + ds.length)

/-- `CsvHandler::convertString<int>`. -/
def convertString_int (toBeParsed : Str) : Except Exception Int :=
  match stoi toBeParsed with
  | .ok (parsedValue, sizeType) =>
    if sizeType = toBeParsed.length then .ok parsedValue
    else .error (.UnableToConvertFieldTypeException .typeNotCorrect)
  | .error .invalid_argument => .error (.UnableToConvertFieldTypeException .invalidArgument)
  | .error .out_of_range => .error (.UnableToConvertFieldTypeException .indexOutOfRange)

/-- What `strtod` read: a decimal or hexadecimal literal `mant * base ^ exp` kept
exactly (the `double` returned is the one nearest to it), an infinity or a
NaN. -/
inductive DoubleLiteral where
  | finite (negative : Bool) (base mant : Nat) (exp : Int)
  | inf (negative : Bool)
  | nan (negative : Bool)
  deriving DecidableEq, Repr

/-- Whether `strtod` reports `ERANGE` for the non-negative value
`mant * base ^ exp`: it rounds to a value above `DBL_MAX` (it is at least
`2^1024 - 2^970 = (2^54 - 1) * 2^970`), or it is non-zero, below the smallest
normal `double` `2^-1022` and not itself a multiple of `2^-1074`.  (`n <<< k` is
`n * 2^k`.) -/
def strtodERANGE (base mant : Nat) (exp : Int) : Bool :=
  if 0 ≤ exp then
    decide (((2 ^ 54 - 1) <<< 970) ≤ mant * base ^ exp.toNat)
  else
    let den := base ^ (-exp).toNat
    decide (((2 ^ 54 - 1) <<< 970) * den ≤ mant)
      || (mant != 0 && decide ((mant <<< 1022) < den) && (mant <<< 1074) % den != 0)

/-- Case-insensitive prefix test against a lower-case word. -/
def startsWithNoCase (word : List Char) (s : Str) : Bool :=
  word.length ≤ s.length && (s.take word.length).map Char.toLower == word

/-- A decimal exponent part `e[sign]digits` or a binary one `p[sign]digits`
(`marker` is the lower-case letter): its value and length, `(0, 0)` when the text
does not start with a complete exponent part. -/
def exponentPart (marker : Char) (s : Str) : Int × Nat :=
  match s with
  | c :: t =>
    if c.toLower = marker then
      let sg := takeSign t
      let ds := sg.2.takeWhile Char.isDigit
      if ds.isEmpty then (0, 0)
      else ((if sg.1 then -(digitsValue ds : Int) else (digitsValue ds : Int)),
        1 + (t.length - sg.2.length) + ds.length)
    else (0, 0)
  | [] => (0, 0)

/-- Whether `c` is a hexadecimal digit. -/
def isxdigit (c : Char) : Bool :=
  c.isDigit || ('a'.toNat ≤ c.toLower.toNat && c.toLower.toNat ≤ 'f'.toNat)

/-- The value of a run of hexadecimal digits. -/
def hexDigitsValue (ds : List Char) : Nat :=
  ds.foldl (fun v c => 16 * v +
    (if c.isDigit then c.toNat - '0'.toNat else c.toLower.toNat - 'a'.toNat + 10)) 0

/-- The digits of a mantissa `digits[.digits]`: the integer digits, the fraction
digits and the number of characters read (`isDig` selects the digits). -/
def mantissaPart (isDig : Char → Bool) (s : Str) : Str × Str × Nat :=
  let ip := s.takeWhile isDig
  match s.dropWhile isDig with
  | '.' :: t =>
    let fp := t.takeWhile isDig
    (ip, fp, ip.length + 1 + fp.length)
  | _ => (ip, [], ip.length)

/-- The subject sequence of `strtod` after white space and sign: the literal
read and its length, `none` when no conversion can be performed. -/
def strtodSubject (negative : Bool) (s : Str) : Option (DoubleLiteral × Nat) :=
  if startsWithNoCase "infinity".toList s then some (.inf negative, 8)
  else if startsWithNoCase "inf".toList s then some (.inf negative, 3)
  else if startsWithNoCase "nan".toList s then
    match s.drop 3 with
    | '(' :: t =>
      let body := t.takeWhile (fun c => c.isAlphanum || c = '_')
      match t.dropWhile (fun c => c.isAlphanum || c = '_') with
      | ')' :: _ => some (.nan negative, 3 + 1 + body.length + 1)
      | _ => some (.nan negative, 3)
    | _ => some (.nan negative, 3)
  else
    let hex := mantissaPart isxdigit (s.drop 2)
    if startsWithNoCase "0x".toList s ∧ ¬ (hex.1.isEmpty ∧ hex.2.1.isEmpty) then
      let n := hex.2.2
      let ex := exponentPart 'p' (s.drop (2 + n))
      some (.finite negative 2 (hexDigitsValue (hex.1 ++ hex.2.1))
        (ex.1 - 4 * (hex.2.1.length : Int)), 2 + n + ex.2)
    else
      let dec := mantissaPart Char.isDigit s
      if dec.1.isEmpty ∧ dec.2.1.isEmpty then none
      else
        let ex := exponentPart 'e' (s.drop dec.2.2)
        some (.finite negative 10 (digitsValue (dec.1 ++ dec.2.1))
          (ex.1 - (dec.2.1.length : Int)), dec.2.2 + ex.2)

/-- The call `std::stod(str, &idx)`: `invalid_argument` when `strtod` converts
nothing, `out_of_range` when it sets `ERANGE`; otherwise the literal read and
`idx`. -/
def stod (str : Str) : Except StdException (DoubleLiteral × Nat) :=
  let r1 := str.dropWhile isspace
  let sg := takeSign r1
  match strtodSubject sg.1 sg.2 with
  | none => .error .invalid_argument
  | some (lit, n) =>
    match lit with
    | .finite _ base mant exp =>
      if strtodERANGE base mant exp then .error .out_of_range
      else .ok (lit, str.length - sg.2.length + n)
    | _ => .ok (lit, str.length - sg.2.length + n)

/-- `CsvHandler::convertString<double>`. -/
def convertString_double (toBeParsed : Str) : Except Exception DoubleLiteral :=
  match stod toBeParsed with
  | .ok (parsedValue, sizeType) =>
    if sizeType = toBeParsed.length then .ok parsedValue
    else .error (.UnableToConvertFieldTypeException .typeNotCorrect)
  | .error .invalid_argument => .error (.UnableToConvertFieldTypeException .invalidArgument)
  | .error .out_of_range => .error (.UnableToConvertFieldTypeException .indexOutOfRange)

/-- The C `struct tm`. -/
structure Tm where
  tm_sec : Int
  tm_min : Int
  tm_hour : Int
  tm_mday : Int
  tm_mon : Int
  tm_year : Int
  tm_wday : Int
  tm_yday : Int
  tm_isdst : Int
  deriving DecidableEq, Repr

def _defaultDTFormat : Str := "%Y-%m-%d %H:%M:%S".toList

/-- A numeric field of `std::get_time`: between one and `len` decimal digits whose
value lies in `[lo, hi]`; the value and the rest of the input. -/
def extractNum (len lo hi : Nat) (s : Str) : Option (Nat × Str) :=
  let ds := (s.take len).takeWhile Char.isDigit
  if ds.isEmpty then none
  else if lo ≤ digitsValue ds ∧ digitsValue ds ≤ hi then some (digitsValue ds, s.drop ds.length)
  else none

/-- The format interpreter of `std::get_time` for the conversions of
`_defaultDTFormat`: a conversion stores its field in `tm`, white space in the
format skips white space in the input, any other character must be matched.  The
result is `tm` as far as it was written and whether the whole format matched
(otherwise the stream's `failbit` is set; the source never looks at it). -/
def get_timeLoop : List Char → Str → Tm → Tm × Bool
  | [], _, tm => (tm, true)
  | '%' :: 'Y' :: fmt, s, tm =>
    match extractNum 4 0 9999 s with
    | some (v, r) => get_timeLoop fmt r { tm with tm_year := (v : Int) - 1900 }
    | none => (tm, false)
  | '%' :: 'm' :: fmt, s, tm =>
    match extractNum 2 1 12 s with
    | some (v, r) => get_timeLoop fmt r { tm with tm_mon := (v : Int) - 1 }
    | none => (tm, false)
  | '%' :: 'd' :: fmt, s, tm =>
    match extractNum 2 1 31 s with
    | some (v, r) => get_timeLoop fmt r { tm with tm_mday := (v : Int) }
    | none => (tm, false)
  | '%' :: 'H' :: fmt, s, tm =>
    match extractNum 2 0 23 s with
    | some (v, r) => get_timeLoop fmt r { tm with tm_hour := (v : Int) }
    | none => (tm, false)
  | '%' :: 'M' :: fmt, s, tm =>
    match extractNum 2 0 59 s with
    | some (v, r) => get_timeLoop fmt r { tm with tm_min := (v : Int) }
    | none => (tm, false)
  | '%' :: 'S' :: fmt, s, tm =>
    match extractNum 2 0 60 s with
    | some (v, r) => get_timeLoop fmt r { tm with tm_sec := (v : Int) }
    | none => (tm, false)
  | c :: fmt, s, tm =>
    if isspace c then get_timeLoop fmt (s.dropWhile isspace) tm
    else
      match s with
      | x :: r => if x = c then get_timeLoop fmt r tm else (tm, false)
      | [] => (tm, false)

/-- The statement `dateStream >> std::get_time(&parsedValue, fmt)`: a formatted
input, so leading white space is skipped first. -/
def get_time (parsedValue : Tm) (fmt : List Char) (input : Str) : Tm × Bool :=
  get_timeLoop fmt (input.dropWhile isspace) parsedValue

/-- What `convertString<std::time_t>` takes from outside the program text: the C
library's `mktime` (it depends on the time zone of the process) and the contents
of the local `std::tm parsedValue`, which the source declares without an
initializer. -/
structure TimeEnv where
  mktime : Tm → Int
  parsedValue : Tm

/-- `CsvHandler::convertString<std::time_t>`: `mktime` is applied to `parsedValue`
whether or not `get_time` matched, and only the result `-1` throws. -/
def convertString_time_t (env : TimeEnv) (toBeParsed : Str) : Except Exception Int :=
  let parsedValue := (get_time env.parsedValue _defaultDTFormat toBeParsed).1
  let dt := env.mktime parsedValue
  if dt ≠ -1 then .ok dt
  else .error (.UnableToConvertFieldTypeException .convertDate)

/-- `CsvHandler::determineColumnType`. -/
def determineColumnType (env : TimeEnv) (value : Str) : Str :=
  if value.length > 1 ∧ value.head? = some _quotationMark then _tString
  else
    match convertString_int value with
    | .ok _ => _tInt
    | .error _ =>
      match convertString_double value with
      | .ok _ => _tDouble
      | .error _ =>
        match convertString_time_t env value with
        | .ok _ => _tDate
        | .error _ => _tString

/-- Days from 1970-01-01 to the first day of month `m` (`0 ≤ m < 12`) of year `y`
in the proleptic Gregorian calendar. -/
def daysFromCivil (y m : Int) : Int :=
  let y1 := if m < 2 then y - 1 else y
  let era := y1 / 400
  let yoe := y1 - era * 400
  let doy := (153 * (if m < 2 then m + 10 else m - 2) + 2) / 5
  era * 146097 + (yoe * 365 + yoe / 4 - yoe / 100 + doy) - 719468

/-- Modelled from the C standard: `mktime` for a process whose time zone is UTC
and whose `time_t` has 64 bits.  The fields are normalised (a month outside
`0..11` carries into the year, days and times count on from the first of the
month) and `-1` is returned only when the result is not a `time_t`. -/
def mktimeUTC (tm : Tm) : Int :=
  let y := tm.tm_year + 1900 + tm.tm_mon / 12
  let m := tm.tm_mon % 12
  let days := daysFromCivil y m + (tm.tm_mday - 1)
  let t := days * 86400 + tm.tm_hour * 3600 + tm.tm_min * 60 + tm.tm_sec
  if -(2 ^ 63) ≤ t ∧ t < 2 ^ 63 then t else -1

/-- A `struct tm` whose bytes are all zero. -/
def zeroTm : Tm := ⟨0, 0, 0, 0, 0, 0, 0, 0, 0⟩

/-- A platform with UTC `mktime` on which the uninitialised `parsedValue` happens to
hold zero bytes. -/
def utcZeroEnv : TimeEnv := ⟨mktimeUTC, zeroTm⟩


/-- Whether no two `}` of a text follow each other without a `{` between them;
`afterRight` tells that a `}` has been read since the last `{`. -/
def rightBracesSeparatedFrom : Bool → Str → Bool
  | _, [] => true
  | afterRight, c :: cs =>
    if c = _rightBrace then !afterRight && rightBracesSeparatedFrom true cs
    else if c = _leftBrace then rightBracesSeparatedFrom false cs
    else rightBracesSeparatedFrom afterRight cs

/-- Whether every `}` of the text is separated from the next `}` by a `{`: the text
of flat objects whose keys and values hold no brace is of this kind. -/
def rightBracesSeparated (s : Str) : Bool := rightBracesSeparatedFrom false s

/-- Running the JSON extractor on a first chunk and then, with the carry-over it
left, on a second chunk: every emitted record, in order, and the final
carry-over. -/
def runJSONTwoChunks (buffLeftovers : Str) (first second : List Char) : List Str × Str :=
  let r1 := convertCharBufferIntoJSONentryStrings buffLeftovers first
  let r2 := convertCharBufferIntoJSONentryStrings r1.2 second
  (r1.1 ++ r2.1, r2.2)

/-! ## Reference notions for the tokenizer claims -/

/-- Whether `c` is one of the characters of `_whitespace`. -/
def isWs (c : Char) : Bool := _whitespace.contains c

/-- A text without its trailing spaces and tabs. -/
def trimRight (s : Str) : Str := s.rdropWhile isWs

/-- A text without its leading and trailing spaces and tabs. -/
def trim (s : Str) : Str := trimRight (s.dropWhile isWs)

/-- The delimiter-separated segments of a line, in order: one more than there are
delimiters in the line. -/
def segments (d : Char) : Str → List Str
  | [] => [[]]
  | c :: cs =>
    if c = d then [] :: segments d cs
    else
      match segments d cs with
      | [] => [[c]]
      | s :: ss => (c :: s) :: ss

/-- The fields of a record joined with the delimiter, as `storeFieldsInFile_CSV`
writes a row: the first field, then the delimiter before every further field. -/
def joinFields (d : Char) : List Str → Str
  | [] => []
  | f :: fs => f ++ (fs.map (fun g => d :: g)).flatten

/-- How far the scan of `getDoubleQuottedFieldEnding` runs over the text after the
opening quote: up to the first delimiter met while the number of quotes read is
even, or to the end (`odd` is the parity of the quotes read so far). -/
def quotedRun (d : Char) : Bool → Str → Nat
  | _, [] => 0
  | odd, c :: cs =>
    if odd = false ∧ c = d then 0
    else 1 + quotedRun d (if c = _quotationMark then !odd else odd) cs

/-- One field read off the front of a text, as one turn of the tokenizer's loop
does: the field, and the text after the delimiter that ended it (`none` when
the field ran to the end of the text). -/
def nextField (d : Char) (text : Str) : Str × Option Str :=
  match text.dropWhile isWs with
  | [] => ([], none)
  | c :: u =>
    if c = _quotationMark then
      (trimRight (c :: u.take (quotedRun d true u)),
        match u.drop (quotedRun d true u) with
        | [] => none
        | _ :: rest => some rest)
    else
      (trimRight ((c :: u).takeWhile (fun x => x != d)),
        match (c :: u).dropWhile (fun x => x != d) with
        | [] => none
        | _ :: rest => some rest)

/-- The fields of a text read one after the other with `nextField` (at most `fuel`
of them). -/
def fieldsFuel (d : Char) : Nat → Str → List Str
  | 0, _ => []
  | fuel + 1, text =>
    match nextField d text with
    | (f, none) => [f]
    | (f, some rest) => f :: fieldsFuel d fuel rest

/-- The fields of a text: every field ends at least one character further, so
`length + 1` turns reach the end. -/
def fields (d : Char) (text : Str) : List Str := fieldsFuel d (text.length + 1) text

/-- The parity of the number of quotes read after the text `p`, starting from the
parity `odd`. -/
def parityAfter : Bool → Str → Bool
  | odd, [] => odd
  | odd, c :: cs => parityAfter (if c = _quotationMark then !odd else odd) cs

/-! ## The handler: enumerations, fields and data members -/

inductive _dataTypes where
  | type_double
  | type_int
  | type_string
  | type_date
  deriving DecidableEq, Repr

inductive _headerMode where
  | include_header
  | skip_header
  | no_header
  deriving DecidableEq, Repr

inductive _errorHandlingMode where
  | ignore_errors
  | stop_on_error
  deriving DecidableEq, Repr

inductive _loadDataMode where
  | load_in_chunks
  | load_whole_file
  deriving DecidableEq, Repr

inductive _fileFormat where
  | CSV
  | JSON
  deriving DecidableEq, Repr

/-- What the handler takes from the platform it runs on: the byte found by a read
before the start of a line (`charAt`), the time library (`TimeEnv`) and the text
that `operator<<` produces for a `double`. -/
structure Platform where
  oob : Char
  time : TimeEnv
  showDouble : DoubleLiteral → Str

/-- A field object (`CsvEntryElement.hpp`): `CsvTypedEntryElement<int>`,
`<double>` or `<std::string>` with its `_value` and `_isSet`.  The constructor
does not assign `_value`, so a new `int` or `double` field holds no value
(`none`); a new string field holds the empty string. -/
inductive CsvEntryElement where
  | csv_intField (value : Option Int) (isSet : Bool)
  | csv_doubleField (value : Option DoubleLiteral) (isSet : Bool)
  | csv_stringField (value : Str) (isSet : Bool)
  deriving DecidableEq, Repr

/-- The text `operator<<` writes for an `int`. -/
def intToStr (v : Int) : Str :=
  if v < 0 then '-' :: Nat.toDigits 10 v.natAbs else Nat.toDigits 10 v.natAbs

/-- `CsvEntryElement::isSet`. -/
def CsvEntryElement.isSet : CsvEntryElement → Bool
  | .csv_intField _ b => b
  | .csv_doubleField _ b => b
  | .csv_stringField _ b => b

/-- `CsvEntryElement::notSet`. -/
def CsvEntryElement.notSet : CsvEntryElement → CsvEntryElement
  | .csv_intField v _ => .csv_intField v false
  | .csv_doubleField v _ => .csv_doubleField v false
  | .csv_stringField v _ => .csv_stringField v false

/-- `CsvTypedEntryElement<T>::getStringValue`: `_value` written to a string
stream; reading a value that was never assigned is undefined. -/
def CsvEntryElement.getStringValue (pf : Platform) : CsvEntryElement → Except Exception Str
  | .csv_intField (some v) _ => .ok (intToStr v)
  | .csv_intField none _ => .error .undefinedBehaviour
  | .csv_doubleField (some v) _ => .ok (pf.showDouble v)
  | .csv_doubleField none _ => .error .undefinedBehaviour
  | .csv_stringField v _ => .ok v

/-- The expression `v[i]` on a `std::vector`: undefined outside `0 ≤ i < size()`. -/
def vecIndex {α : Type} (v : List α) (i : Int) : Except Exception α :=
  if 0 ≤ i then
    match v[i.toNat]? with
    | some x => .ok x
    | none => .error .undefinedBehaviour
  else .error .undefinedBehaviour

/-- The call `v.at(i)`: throws `std::out_of_range` outside `0 ≤ i < size()`. -/
def vecAt {α : Type} (v : List α) (i : Int) : Except Exception α :=
  if 0 ≤ i then
    match v[i.toNat]? with
    | some x => .ok x
    | none => .error .out_of_range
  else .error .out_of_range

/-- The call `v.erase(v.begin() + i)`: undefined outside `0 ≤ i < size()`. -/
def vecErase {α : Type} (v : List α) (i : Int) : Except Exception (List α) :=
  if 0 ≤ i ∧ i.toNat < v.length then .ok (v.eraseIdx i.toNat) else .error .undefinedBehaviour

/-- The call `v.insert(v.begin() + i, x)`: undefined outside `0 ≤ i ≤ size()`. -/
def vecInsert {α : Type} (v : List α) (i : Int) (x : α) : Except Exception (List α) :=
  if 0 ≤ i ∧ i.toNat ≤ v.length then .ok (v.take i.toNat ++ x :: v.drop i.toNat)
  else .error .undefinedBehaviour

/-- The order of `std::string` keys in a `std::map`: lexicographic by character
code. -/
def strLt : Str → Str → Bool
  | [], [] => false
  | [], _ :: _ => true
  | _ :: _, [] => false
  | a :: as, b :: bs =>
    if a.toNat < b.toNat then true
    else if b.toNat < a.toNat then false
    else strLt as bs

/-- A `std::map<std::string, _dataTypes>`: its entries in key order. -/
abbrev DataTypesMap := List (Str × _dataTypes)

/-- The value stored under `key`, if any. -/
def mapFind : DataTypesMap → Str → Option _dataTypes
  | [], _ => none
  | (k, v) :: rest, key => if k = key then some v else mapFind rest key

/-- A new entry put at its place in the key order. -/
def mapInsert : DataTypesMap → Str → _dataTypes → DataTypesMap
  | [], key, v => [(key, v)]
  | (k, w) :: rest, key, v =>
    if strLt key k then (key, v) :: (k, w) :: rest else (k, w) :: mapInsert rest key v

/-- The call `m.insert(std::make_pair(key, v))`: nothing happens when the key is
present. -/
def mapInsertPair (m : DataTypesMap) (key : Str) (v : _dataTypes) : DataTypesMap :=
  match mapFind m key with
  | some _ => m
  | none => mapInsert m key v

/-- The expression `m[key]`: a key that is absent is first inserted with the
value-initialised `_dataTypes`, which is `type_double`.  The result is the value
and the map afterwards. -/
def mapSubscript (m : DataTypesMap) (key : Str) : _dataTypes × DataTypesMap :=
  match mapFind m key with
  | some v => (v, m)
  | none => (.type_double, mapInsert m key .type_double)

/-- The data members of `class CsvHandler`.  `inFile` is the content of the file
named `_inFileName`. -/
structure CsvHandlerState where
  inFile : List Char
  _csvDelimiter : Char
  _inFileLineEnding : Char
  _entriesInCurrentChunk : Int
  _inFileColumnTypes : List Str
  _inFileHeader : List Str
  _headerModeFlag : _headerMode
  _loadDataModeFlag : _loadDataMode
  _inFileFormatFlag : _fileFormat
  _eofFlag : Bool
  _inFileStreamSize : Int
  _inFileReadLastPosition : Int
  _absoluteBeginningIndex : Int
  _absoluteEndingIndex : Int
  _chunksCount : Int
  _buffLeftovers : Str
  _readBufferSize : Int
  _sourceFileVector : List (List CsvEntryElement)
  _sourceFileHeader : List Str
  _sourceFileColumnTypes : List Str
  _CRLF : Bool
  _dataTypesMap : DataTypesMap
  deriving DecidableEq, Repr

/-- What a member function leaves behind: the object after the call (also when
the call throws) and the value returned or the exception thrown. -/
abbrev Outcome (α : Type) := CsvHandlerState × Except Exception α

/-- `CsvHandler::getDataTypeAsString`: the first key, in key order, that maps to
`dataType`. -/
def getDataTypeAsString (s : CsvHandlerState) (dataType : _dataTypes) : Str :=
  match s._dataTypesMap.find? (fun p => p.2 = dataType) with
  | some p => p.1
  | none => _emptyString

/-- `CsvHandler::determineLineEnding` on the content of the file: the line ending
returned and the new value of `_CRLF` (`false` before the call). -/
def determineLineEnding : List Char → Char × Bool
  | [] => (_LF, false)
  | currentChar :: rest =>
    if currentChar = _CR then
      match rest with
      | next :: _ => if next = _LF then (_LF, true) else (_CR, false)
      | [] => (_CR, false)
    else if currentChar = _LF then (_LF, false)
    else determineLineEnding rest

/-- The object that the constructor of `CsvHandler` and `classInitializer` build.
The buffer size `_readBufferSize`, `32 MiB` in the source, is an argument; in
whole-file mode it is replaced by the size of the file. -/
def constructed (inFile : List Char) (readBufferSize : Int)
    (loadDataMode : _loadDataMode) (fileFormat : _fileFormat) (delimiter : Char)
    (headerMode : _headerMode) : CsvHandlerState :=
  { inFile := inFile
    _csvDelimiter := delimiter
    _inFileLineEnding := (determineLineEnding inFile).1
    _entriesInCurrentChunk := 0
    _inFileColumnTypes := []
    _inFileHeader := []
    _headerModeFlag := headerMode
    _loadDataModeFlag := loadDataMode
    _inFileFormatFlag := fileFormat
    _eofFlag := if loadDataMode = .load_in_chunks then false else true
    _inFileStreamSize := inFile.length
    _inFileReadLastPosition := 0
    _absoluteBeginningIndex := 0
    _absoluteEndingIndex := 0
    _chunksCount := if loadDataMode = .load_in_chunks then 0 else 1
    _buffLeftovers := []
    _readBufferSize := if loadDataMode = .load_in_chunks then readBufferSize else inFile.length
    _sourceFileVector := []
    _sourceFileHeader := []
    _sourceFileColumnTypes := []
    _CRLF := (determineLineEnding inFile).2
    _dataTypesMap :=
      mapInsertPair (mapInsertPair (mapInsertPair (mapInsertPair [] _tDouble .type_double)
        _tInt .type_int) _tString .type_string) _tDate .type_date }

/-- The constructor of `CsvHandler` with `classInitializer`: in chunk mode it
throws `UnableToReadFileInChunks` when `_readBufferSize` is larger than the
file. -/
def CsvHandler_new (inFile : List Char) (readBufferSize : Int)
    (loadDataMode : _loadDataMode) (fileFormat : _fileFormat) (delimiter : Char)
    (headerMode : _headerMode) : Except Exception CsvHandlerState :=
  if loadDataMode = .load_in_chunks ∧ readBufferSize > (inFile.length : Int) then
    .error (.UnableToReadFileInChunks inFile.length)
  else .ok (constructed inFile readBufferSize loadDataMode fileFormat delimiter headerMode)

/-! ## Loading entries -/

/-- `CsvHandler::clearStorage`: every field is deleted and the table emptied. -/
def clearStorage (s : CsvHandlerState) : CsvHandlerState :=
  { s with _sourceFileVector := [] }

/-- `CsvHandler::loadHeader(std::vector<std::string>)`. -/
def loadHeader (entryLine : List Str) (s : CsvHandlerState) : CsvHandlerState × Bool :=
  if s._chunksCount = 1 then
    if s._headerModeFlag = .include_header then
      ({ s with _sourceFileHeader := entryLine, _inFileHeader := entryLine }, true)
    else if s._headerModeFlag = .skip_header then (s, true)
    else (s, false)
  else (s, false)

/-- A thrown `std::out_of_range` for the tokenizer's `none`. -/
def splitEntry (pf : Platform) (lineToSplit : Str) (splittedLine : List Str) (delimiter : Char) :
    Except Exception (List Str) :=
  match splitEntryByDelimiter pf.oob lineToSplit splittedLine delimiter with
  | some v => .ok v
  | none => .error .out_of_range

/-- `CsvHandler::loadHeader(std::string&)`. -/
def loadHeaderLine (pf : Platform) (line : Str) (s : CsvHandlerState) : Outcome Bool :=
  match splitEntry pf line [] s._csvDelimiter with
  | .ok splittedLine => ((loadHeader splittedLine s).1, .ok (loadHeader splittedLine s).2)
  | .error e => (s, .error e)

/-- The call `std::getline(stream, line, delim)` on what is left of an input file
(`none`: the stream is no longer good).  The result is the line read (`none`
when nothing could be extracted) and what is left of the stream. -/
def getline (stream : Option (List Char)) (delim : Char) : Option Str × Option (List Char) :=
  match stream with
  | none => (none, none)
  | some [] => (none, none)
  | some (c :: cs) =>
    match (c :: cs).dropWhile (fun x => x != delim) with
    | [] => (some ((c :: cs).takeWhile (fun x => x != delim)), none)
    | _ :: rest => (some ((c :: cs).takeWhile (fun x => x != delim)), some rest)

/-- `CsvHandler::autoDetectTypesForColumns(csv_entryLine&)`. -/
def autoDetectTypesForColumnsFrom (pf : Platform) (firstLineElements : List Str)
    (s : CsvHandlerState) : CsvHandlerState :=
  { s with
    _sourceFileColumnTypes :=
      s._sourceFileColumnTypes ++ firstLineElements.map (determineColumnType pf.time)
    _inFileColumnTypes :=
      s._sourceFileColumnTypes ++ firstLineElements.map (determineColumnType pf.time) }

/-- `CsvHandler::autoDetectTypesForColumns()`: the first data line of the file is
read again and split. -/
def autoDetectTypesForColumns (pf : Platform) (s : CsvHandlerState) : Outcome Unit :=
  let stream1 : Option (List Char) :=
    if s._headerModeFlag = .include_header ∨ s._headerModeFlag = .skip_header then
      (getline (some s.inFile) s._inFileLineEnding).2
    else some s.inFile
  match (getline stream1 s._inFileLineEnding).1 with
  | some line =>
    match splitEntry pf line [] s._csvDelimiter with
    | .ok firstLineElements => (autoDetectTypesForColumnsFrom pf firstLineElements s, .ok ())
    | .error e => (s, .error e)
  | none => (autoDetectTypesForColumnsFrom pf [] s, .ok ())

/-- A field as `new EntryType()` makes it, for a column of the given type: a
`double` field, an `int` field, and a string field in every other case. -/
def newField : _dataTypes → CsvEntryElement
  | .type_double => .csv_doubleField none false
  | .type_int => .csv_intField none false
  | _ => .csv_stringField [] false

/-- `CsvHandler::initializeEntriesForColumn<EntryType>`: `_entriesInCurrentChunk`
new fields; `reserve` throws `std::length_error` for a negative count. -/
def initializeEntriesForColumn (dataColumnType : _dataTypes) (s : CsvHandlerState) :
    Except Exception (List CsvEntryElement) :=
  if s._entriesInCurrentChunk < 0 then .error .length_error
  else .ok (List.replicate s._entriesInCurrentChunk.toNat (newField dataColumnType))

/-- The `for` loop of `initializeStorage` over the remaining column types. -/
def initializeStorageLoop : List Str → CsvHandlerState → Outcome Unit
  | [], s => (s, .ok ())
  | typeName :: rest, s =>
    let r := mapSubscript s._dataTypesMap typeName
    let s1 := { s with _dataTypesMap := r.2 }
    match initializeEntriesForColumn r.1 s1 with
    | .ok column =>
      initializeStorageLoop rest
        { s1 with _sourceFileVector := s1._sourceFileVector ++ [column] }
    | .error e => (s1, .error e)

/-- `CsvHandler::initializeStorage`. -/
def initializeStorage (s : CsvHandlerState) : Outcome Unit :=
  initializeStorageLoop s._sourceFileColumnTypes s

/-- `CsvHandler::loadChunkOfFile` for the buffer `data` of `_readBufferSize`
bytes: the bytes read.  The read fails, and `UnableToOpenFileException` is
thrown, when fewer than `_readBufferSize` bytes are left at
`_inFileReadLastPosition`.  (For an empty buffer `&data[0]` is only handed to a
`read` of no byte.) -/
def loadChunkOfFile (s : CsvHandlerState) : Outcome (List Char) :=
  if s._readBufferSize < 0 then (s, .error .length_error)
  else if s._inFileReadLastPosition < 0 then (s, .error .UnableToOpenFileException)
  else if s._readBufferSize = 0 then (s, .ok [])
  else if s._inFileReadLastPosition + s._readBufferSize ≤ (s.inFile.length : Int) then
    ({ s with _inFileReadLastPosition := s._inFileReadLastPosition + s._readBufferSize },
      .ok ((s.inFile.drop s._inFileReadLastPosition.toNat).take s._readBufferSize.toNat))
  else (s, .error .UnableToOpenFileException)

/-- The `for` loop of `buildEntryLineFromJSONentry` over the remaining
properties; `i`, `propertyToValue` and `entryLine` are the loop's variables. -/
def buildEntryLineFromJSONentryLoop (pf : Platform) (s : CsvHandlerState) (jsonFieldType : Int)
    (hm : _headerMode) : List Str → Int → List Str → List Str → Except Exception (List Str)
  | [], _, _, entryLine => .ok entryLine
  | p :: rest, i, propertyToValue, entryLine =>
    match splitEntry pf p propertyToValue ':' with
    | .error e => .error e
    | .ok ptv =>
      if ptv.length = 2 then
        match vecAt ptv jsonFieldType with
        | .error e => .error e
        | .ok value =>
          if hm = .no_header then
            match vecAt entryLine i with
            | .error e => .error e
            | .ok old =>
              buildEntryLineFromJSONentryLoop pf s jsonFieldType hm rest (i + 1) []
                (entryLine.set i.toNat (old ++ value))
          else
            match vecAt ptv 0 with
            | .error e => .error e
            | .ok property =>
              match getColumnId s._sourceFileHeader property with
              | .error e => .error e
              | .ok colPos =>
                match vecAt entryLine colPos with
                | .error e => .error e
                | .ok old =>
                  buildEntryLineFromJSONentryLoop pf s jsonFieldType hm rest (i + 1) []
                    (entryLine.set colPos.toNat (old ++ value))
      else buildEntryLineFromJSONentryLoop pf s jsonFieldType hm rest (i + 1) ptv entryLine

/-- `CsvHandler::buildEntryLineFromJSONentry`: the vector `entryLine` after the
call. -/
def buildEntryLineFromJSONentry (pf : Platform) (s : CsvHandlerState) (jsonEntry : Str)
    (entryLine : List Str) (jsonFieldType : Int) (hm : _headerMode) :
    Except Exception (List Str) :=
  match splitEntry pf jsonEntry [] ',' with
  | .error e => .error e
  | .ok properties =>
    buildEntryLineFromJSONentryLoop pf s jsonFieldType hm properties 0 []
      (entryLine ++ List.replicate properties.length _emptyString)

/-- `CsvHandler::buildPropertyLineFromJSONentry`. -/
def buildPropertyLineFromJSONentry (pf : Platform) (s : CsvHandlerState) (jsonEntry : Str)
    (entryLine : List Str) : Except Exception (List Str) :=
  buildEntryLineFromJSONentry pf s jsonEntry entryLine 0 .no_header

/-- The value handed to `setSingleEntryElementValue<V>`. -/
inductive FieldValue where
  | ofInt (v : Int)
  | ofDouble (v : DoubleLiteral)
  | ofString (v : Str)
  deriving DecidableEq, Repr

/-- The `double` `0.0`. -/
def zeroDouble : DoubleLiteral := .finite false 10 0 0

/-- `CsvHandler::setSingleEntryElementValue<V>` on the field `toBeSetted`: when the
field is a `CsvTypedEntryElement<V>` its value is set.  Otherwise the source
deletes the field and lets only its local pointer point to a new string field,
so the table keeps a pointer to a deleted object, which the next `delete` of the
table's fields uses: such an execution is undefined. -/
def setSingleEntryElementValue (toBeSetted : CsvEntryElement) (value : FieldValue) :
    Except Exception CsvEntryElement :=
  match toBeSetted, value with
  | .csv_intField _ _, .ofInt v => .ok (.csv_intField (some v) true)
  | .csv_doubleField _ _, .ofDouble v => .ok (.csv_doubleField (some v) true)
  | .csv_stringField _ _, .ofString v => .ok (.csv_stringField v true)
  | _, _ => .error .undefinedBehaviour

/-- The field `_sourceFileVector[columnIndex][entryIndex]`. -/
def fieldAt (s : CsvHandlerState) (columnIndex entryIndex : Int) :
    Except Exception CsvEntryElement :=
  match vecIndex s._sourceFileVector columnIndex with
  | .ok column => vecIndex column entryIndex
  | .error e => .error e

/-- The table with the field `_sourceFileVector[columnIndex][entryIndex]`
replaced. -/
def putFieldAt (s : CsvHandlerState) (columnIndex entryIndex : Int) (f : CsvEntryElement) :
    CsvHandlerState :=
  { s with _sourceFileVector :=
      (s._sourceFileVector.modify (fun column => column.set entryIndex.toNat f)
        columnIndex.toNat) }

/-- One `case` of the `switch` in `setColumnsForEntry`: the converted value is
set in the field; when the conversion throws, `ignore_errors` sets the zero of
the type and marks the field unset, `stop_on_error` throws the exception on.
(The conversion is evaluated before the field is looked up.) -/
def setConverted (s : CsvHandlerState) (columnIndex entryIndex : Int)
    (converted : Except Exception FieldValue) (zero : FieldValue)
    (errorHandlingMode : _errorHandlingMode) : Outcome Unit :=
  match converted with
  | .ok value =>
    match fieldAt s columnIndex entryIndex with
    | .error e => (s, .error e)
    | .ok field =>
      match setSingleEntryElementValue field value with
      | .error e => (s, .error e)
      | .ok field1 => (putFieldAt s columnIndex entryIndex field1, .ok ())
  | .error exc =>
    if errorHandlingMode = .ignore_errors then
      match fieldAt s columnIndex entryIndex with
      | .error e => (s, .error e)
      | .ok field =>
        match setSingleEntryElementValue field zero with
        | .error e => (s, .error e)
        | .ok field1 => (putFieldAt s columnIndex entryIndex field1.notSet, .ok ())
    else (s, .error exc)

/-- The `for` loop of `setColumnsForEntry` over the remaining elements of the
entry. -/
def setColumnsForEntryLoop (entryIndex : Int) (errorHandlingMode : _errorHandlingMode) :
    List Str → Int → CsvHandlerState → Outcome Unit
  | [], _, s => (s, .ok ())
  | entryElement :: rest, columnIndex, s =>
    match vecIndex s._sourceFileColumnTypes columnIndex with
    | .error e => (s, .error e)
    | .ok typeName =>
      let r := mapSubscript s._dataTypesMap typeName
      let s1 := { s with _dataTypesMap := r.2 }
      let step : Outcome Unit :=
        match r.1 with
        | .type_double =>
          setConverted s1 columnIndex entryIndex
            ((convertString_double entryElement).map FieldValue.ofDouble)
            (.ofDouble zeroDouble) errorHandlingMode
        | .type_int =>
          setConverted s1 columnIndex entryIndex
            ((convertString_int entryElement).map FieldValue.ofInt)
            (.ofInt 0) errorHandlingMode
        | _ =>
          setConverted s1 columnIndex entryIndex (.ok (.ofString entryElement))
            (.ofString entryElement) errorHandlingMode
      match step.2 with
      | .ok _ =>
        setColumnsForEntryLoop entryIndex errorHandlingMode rest (columnIndex + 1) step.1
      | .error e => (step.1, .error e)

/-- `CsvHandler::setColumnsForEntry`. -/
def setColumnsForEntry (entry : List Str) (entryIndex : Int)
    (errorHandlingMode : _errorHandlingMode) (s : CsvHandlerState) : Outcome Unit :=
  setColumnsForEntryLoop entryIndex errorHandlingMode entry 0 s

/-- The fields of one record, as `emplaceEntriesInStorage` splits it: the
tokenizer for CSV, `buildEntryLineFromJSONentry` for JSON. -/
def splitRecord (pf : Platform) (s : CsvHandlerState) (fileFormat : _fileFormat) (line : Str) :
    Except Exception (List Str) :=
  match fileFormat with
  | .CSV => splitEntry pf line [] s._csvDelimiter
  | .JSON => buildEntryLineFromJSONentry pf s line [] 1 .include_header

/-- The inner `for` loop of `emplaceEntriesInStorage` that deletes and erases the
field `cEntry` of every column. -/
def eraseEntryInColumns (cEntry : Int) :
    List (List CsvEntryElement) → Except Exception (List (List CsvEntryElement))
  | [] => .ok []
  | cCol :: rest =>
    match vecErase cCol cEntry with
    | .error e => .error e
    | .ok cCol1 =>
      match eraseEntryInColumns cEntry rest with
      | .error e => .error e
      | .ok rest1 => .ok (cCol1 :: rest1)

/-- The `for` loop of `emplaceEntriesInStorage`, one turn per unit of fuel, with
its counter `cEntry` and the vector `entryLines`, which the function receives by
reference and shortens.  No turn leaves `entryLines.size() - cEntry` as it was,
so `entryLines.size()` turns are enough. -/
def emplaceEntriesInStorageLoop (pf : Platform) (fileFormat : _fileFormat)
    (errorHandlingMode : _errorHandlingMode) :
    Nat → Nat → List Str → CsvHandlerState → Outcome (List Str)
  | 0, _, entryLines, s => (s, .ok entryLines)
  | fuel + 1, cEntry, entryLines, s =>
    match entryLines[cEntry]? with
    | none => (s, .ok entryLines)
    | some line =>
      match splitRecord pf s fileFormat line with
      | .error e => (s, .error e)
      | .ok splittedEntryHolder =>
        if splittedEntryHolder.length = s._inFileColumnTypes.length then
          match setColumnsForEntry splittedEntryHolder cEntry errorHandlingMode s with
          | (s1, .ok _) =>
            emplaceEntriesInStorageLoop pf fileFormat errorHandlingMode fuel (cEntry + 1)
              entryLines s1
          | (s1, .error e) => (s1, .error e)
        else if errorHandlingMode = .stop_on_error then
          (s, .error (.UnableToSplitEntryException (s._absoluteBeginningIndex + cEntry)))
        else
          match eraseEntryInColumns cEntry s._sourceFileVector with
          | .error e => (s, .error e)
          | .ok columns =>
            emplaceEntriesInStorageLoop pf fileFormat errorHandlingMode fuel (cEntry + 1)
              (entryLines.eraseIdx cEntry)
              { s with
                _sourceFileVector := columns
                _entriesInCurrentChunk := s._entriesInCurrentChunk - 1
                _absoluteEndingIndex := s._absoluteEndingIndex - 1 }

/-- `CsvHandler::emplaceEntriesInStorage`; the value returned is `entryLines`
after the call. -/
def emplaceEntriesInStorage (pf : Platform) (entryLines : List Str) (fileFormat : _fileFormat)
    (errorHandlingMode : _errorHandlingMode) (s : CsvHandlerState) : Outcome (List Str) :=
  emplaceEntriesInStorageLoop pf fileFormat errorHandlingMode entryLines.length 0 entryLines s

/-- The statements of `loadEntries_CSV` and `loadEntries_JSON` from
`_sourceFileColumnTypes = _inFileColumnTypes` on. -/
def storeEntryLines (pf : Platform) (entryLines : List Str) (fileFormat : _fileFormat)
    (errMode : _errorHandlingMode) (s : CsvHandlerState) : Outcome Unit :=
  let s1 : CsvHandlerState :=
    { s with
      _sourceFileColumnTypes := s._inFileColumnTypes
      _sourceFileHeader := s._inFileHeader
      _absoluteEndingIndex := s._absoluteEndingIndex + entryLines.length
      _absoluteBeginningIndex := s._absoluteEndingIndex + entryLines.length - entryLines.length
      _entriesInCurrentChunk := entryLines.length }
  match initializeStorage s1 with
  | (s2, .error e) => (s2, .error e)
  | (s2, .ok _) =>
    match emplaceEntriesInStorage pf entryLines fileFormat errMode s2 with
    | (s3, .error e) => (s3, .error e)
    | (s3, .ok _) => (s3, .ok ())

/-- `CsvHandler::loadEntries_CSV`. -/
def loadEntries_CSV (pf : Platform) (data : List Char) (errMode : _errorHandlingMode)
    (s : CsvHandlerState) : Outcome Unit :=
  let detected : Outcome Unit :=
    if s._sourceFileColumnTypes.isEmpty then autoDetectTypesForColumns pf s else (s, .ok ())
  match detected with
  | (s1, .error e) => (s1, .error e)
  | (s1, .ok _) =>
    let r := convertCharBufferIntoCSVentryStrings s1._sourceFileColumnTypes.length s1._eofFlag
      s1._buffLeftovers data
    let s2 := { s1 with _buffLeftovers := r.2 }
    match r.1 with
    | [] => (s2, .ok ())
    | front :: more =>
      match loadHeaderLine pf front s2 with
      | (s3, .error e) => (s3, .error e)
      | (s3, .ok isHeader) =>
        storeEntryLines pf (if isHeader then more else front :: more) .CSV errMode s3

/-- `CsvHandler::loadEntries_JSON`. -/
def loadEntries_JSON (pf : Platform) (data : List Char) (errMode : _errorHandlingMode)
    (s : CsvHandlerState) : Outcome Unit :=
  let r := convertCharBufferIntoJSONentryStrings s._buffLeftovers data
  let s1 := { s with _buffLeftovers := r.2 }
  match r.1 with
  | [] => (s1, .ok ())
  | front :: more =>
    let withHeader : Outcome Unit :=
      if s1._headerModeFlag = .include_header then
        match buildPropertyLineFromJSONentry pf s1 front [] with
        | .error e => (s1, .error e)
        | .ok firstLine => ((loadHeader firstLine s1).1, .ok ())
      else (s1, .ok ())
    match withHeader with
    | (s2, .error e) => (s2, .error e)
    | (s2, .ok _) =>
      let withTypes : Outcome Unit :=
        if s2._sourceFileColumnTypes.isEmpty then
          match buildEntryLineFromJSONentry pf s2 front [] 1 .include_header with
          | .error e => (s2, .error e)
          | .ok firstLine => (autoDetectTypesForColumnsFrom pf firstLine s2, .ok ())
        else (s2, .ok ())
      match withTypes with
      | (s3, .error e) => (s3, .error e)
      | (s3, .ok _) => storeEntryLines pf (front :: more) .JSON errMode s3

/-- The `if` of `loadEntries` before the buffer is made: in chunk mode, when one
more whole chunk would pass the end of the file, `_readBufferSize` becomes what
is left of the file and `_eofFlag` is set. -/
def sizeLastChunk (s1 : CsvHandlerState) : CsvHandlerState :=
  if s1._loadDataModeFlag = .load_in_chunks
      ∧ (s1._chunksCount + 1) * s1._readBufferSize > s1._inFileStreamSize then
    { s1 with
      _readBufferSize := s1._inFileStreamSize - s1._readBufferSize * s1._chunksCount
      _eofFlag := true }
  else s1

/-- The last `if` of `loadEntries`: the entries of the buffer are loaded by
`loadEntries_CSV` or `loadEntries_JSON`. -/
def loadEntriesOfFormat (pf : Platform) (data : List Char)
    (errorHandlingMode : _errorHandlingMode) (s4 : CsvHandlerState) : Outcome Unit :=
  match s4._inFileFormatFlag with
  | .CSV => loadEntries_CSV pf data errorHandlingMode s4
  | .JSON => loadEntries_JSON pf data errorHandlingMode s4

/-- `CsvHandler::loadEntries` after its first `if`: the table is cleared, the
last chunk is sized, the chunk is read and its entries are loaded. -/
def loadEntriesRead (pf : Platform) (errorHandlingMode : _errorHandlingMode)
    (s : CsvHandlerState) : Outcome Bool :=
  match loadChunkOfFile (sizeLastChunk (clearStorage s)) with
  | (s3, .error e) => (s3, .error e)
  | (s3, .ok data) =>
    let s4 : CsvHandlerState :=
      if s3._loadDataModeFlag = .load_in_chunks then
        { s3 with _chunksCount := s3._chunksCount + 1 }
      else s3
    match loadEntriesOfFormat pf data errorHandlingMode s4 with
    | (s5, .error e) => (s5, .error e)
    | (s5, .ok _) => (s5, .ok true)

/-- `CsvHandler::loadEntries`. -/
def loadEntries (pf : Platform) (errorHandlingMode : _errorHandlingMode)
    (s : CsvHandlerState) : Outcome Bool :=
  if s._loadDataModeFlag = .load_in_chunks then
    if s._eofFlag = true then
      ({ s with _inFileReadLastPosition := 0, _absoluteEndingIndex := 0, _chunksCount := 0 },
        .ok false)
    else loadEntriesRead pf errorHandlingMode s
  else
    loadEntriesRead pf errorHandlingMode
      { s with _inFileReadLastPosition := 0, _absoluteEndingIndex := 0 }

/-! ## Access to the table -/

/-- `CsvHandler::getField(int, int)`; `none` is the null pointer. -/
def getField (s : CsvHandlerState) (columnIndex rowIndex : Int) :
    Except Exception (Option CsvEntryElement) :=
  if rowIndex ≥ s._absoluteBeginningIndex ∧ rowIndex < s._absoluteEndingIndex
      ∧ columnIndex < (s._sourceFileColumnTypes.length : Int) then
    (fieldAt s columnIndex
      (s._entriesInCurrentChunk - (s._absoluteEndingIndex - rowIndex))).map some
  else if s._eofFlag = true ∧ rowIndex ≥ s._absoluteEndingIndex then .error .out_of_range
  else .ok none

/-- `CsvHandler::getField(std::string, int)`: only
`InvalidColumnCaptionException` is caught (and thrown again with a message). -/
def getFieldByCaption (s : CsvHandlerState) (columnCaption : Str) (rowIndex : Int) :
    Except Exception (Option CsvEntryElement) :=
  match getColumnId s._sourceFileHeader columnCaption with
  | .ok colID => getField s colID rowIndex
  | .error .InvalidColumnCaptionException => .error .InvalidColumnCaptionException
  | .error e => .error e

/-- The `for` loop of `getRow` from column `colID` on, `fuel` columns being left. -/
def getRowLoop (pf : Platform) (s : CsvHandlerState) (row : Int) :
    Nat → Int → List Str → Except Exception (List Str)
  | 0, _, entry => .ok entry
  | fuel + 1, colID, entry =>
    match fieldAt s colID row with
    | .error e => .error e
    | .ok field =>
      match field.getStringValue pf with
      | .error e => .error e
      | .ok text => getRowLoop pf s row fuel (colID + 1) (entry ++ [text])

/-- `CsvHandler::getRow`. -/
def getRow (pf : Platform) (s : CsvHandlerState) (rowIndex : Int) : Except Exception (List Str) :=
  if rowIndex ≥ s._absoluteBeginningIndex ∧ rowIndex < s._absoluteEndingIndex then
    getRowLoop pf s (s._entriesInCurrentChunk - (s._absoluteEndingIndex - rowIndex))
      s._sourceFileColumnTypes.length 0 []
  else if s._eofFlag = true ∧ rowIndex ≥ s._absoluteEndingIndex then .error .out_of_range
  else .ok []

/-- `CsvHandler::getColumn(int)`. -/
def getColumn (s : CsvHandlerState) (columnIndex : Int) :
    Except Exception (List CsvEntryElement) :=
  if columnIndex < (s._sourceFileColumnTypes.length : Int) then
    vecIndex s._sourceFileVector columnIndex
  else .error .out_of_range

/-- `CsvHandler::getColumn(std::string)`. -/
def getColumnByCaption (s : CsvHandlerState) (columnCaption : Str) :
    Except Exception (List CsvEntryElement) :=
  match getColumnId s._sourceFileHeader columnCaption with
  | .ok colID => vecIndex s._sourceFileVector colID
  | .error .InvalidColumnCaptionException => .error .InvalidColumnCaptionException
  | .error e => .error e

/-- `CsvHandler::removeColumn(int)`. -/
def removeColumn (columnIndex : Int) (s : CsvHandlerState) : Outcome Unit :=
  match vecErase s._sourceFileColumnTypes columnIndex with
  | .error e => (s, .error e)
  | .ok types =>
    let s1 := { s with _sourceFileColumnTypes := types }
    let erasedHeader : Except Exception (List Str) :=
      if s1._sourceFileHeader.isEmpty then .ok s1._sourceFileHeader
      else vecErase s1._sourceFileHeader columnIndex
    match erasedHeader with
    | .error e => (s1, .error e)
    | .ok header =>
      let s2 := { s1 with _sourceFileHeader := header }
      match vecErase s2._sourceFileVector columnIndex with
      | .error e => (s2, .error e)
      | .ok columns => ({ s2 with _sourceFileVector := columns }, .ok ())

/-- `CsvHandler::removeColumn(std::string)`. -/
def removeColumnByCaption (columnCaption : Str) (s : CsvHandlerState) : Outcome Unit :=
  match getColumnId s._sourceFileHeader columnCaption with
  | .ok colId => removeColumn colId s
  | .error .InvalidColumnCaptionException => (s, .error .InvalidColumnCaptionException)
  | .error e => (s, .error e)

/-- The `for` loop of `removeRow` from column `colID` on: the field `pos` of the
column is deleted and erased (`at` throws outside the column). -/
def removeRowLoop (pos : Int) : Nat → Int → CsvHandlerState → Outcome Unit
  | 0, _, s => (s, .ok ())
  | fuel + 1, colID, s =>
    match vecIndex s._sourceFileVector colID with
    | .error e => (s, .error e)
    | .ok column =>
      match vecAt column pos with
      | .error e => (s, .error e)
      | .ok _ =>
        match vecErase column pos with
        | .error e => (s, .error e)
        | .ok column1 =>
          removeRowLoop pos fuel (colID + 1)
            { s with _sourceFileVector := s._sourceFileVector.set colID.toNat column1 }

/-- `CsvHandler::removeRow`. -/
def removeRow (rowIndex : Int) (s : CsvHandlerState) : Outcome Unit :=
  if rowIndex ≥ s._absoluteBeginningIndex ∧ rowIndex < s._absoluteEndingIndex then
    match removeRowLoop (s._entriesInCurrentChunk - (s._absoluteEndingIndex - rowIndex))
        s._sourceFileColumnTypes.length 0 s with
    | (s1, .error e) => (s1, .error e)
    | (s1, .ok _) =>
      ({ s1 with
          _entriesInCurrentChunk := s1._entriesInCurrentChunk - 1
          _absoluteEndingIndex := s1._absoluteEndingIndex - 1 }, .ok ())
  else if s._eofFlag = true ∧ rowIndex > s._absoluteEndingIndex then (s, .error .out_of_range)
  else (s, .ok ())

/-- The `for` loop of `initializeNewEntry` over the remaining column types, from
column `columnId` on. -/
def initializeNewEntryLoop (newEntryPos : Int) : List Str → Int → CsvHandlerState → Outcome Unit
  | [], _, s => (s, .ok ())
  | typeName :: rest, columnId, s =>
    let r := mapSubscript s._dataTypesMap typeName
    let s1 := { s with _dataTypesMap := r.2 }
    match vecIndex s1._sourceFileVector columnId with
    | .error e => (s1, .error e)
    | .ok column =>
      match vecInsert column newEntryPos (newField r.1) with
      | .error e => (s1, .error e)
      | .ok column1 =>
        initializeNewEntryLoop newEntryPos rest (columnId + 1)
          { s1 with _sourceFileVector := s1._sourceFileVector.set columnId.toNat column1 }

/-- `CsvHandler::initializeNewEntry`. -/
def initializeNewEntry (newEntryPos : Int) (s : CsvHandlerState) : Outcome Unit :=
  initializeNewEntryLoop newEntryPos s._sourceFileColumnTypes 0 s

/-- The four statements shared by the two inserting branches of `insertRow`. -/
def insertRowAt (entry : List Str) (newEntryPos : Int) (errorHandlingMode : _errorHandlingMode)
    (s : CsvHandlerState) : Outcome Unit :=
  match initializeNewEntry newEntryPos s with
  | (s1, .error e) => (s1, .error e)
  | (s1, .ok _) =>
    match setColumnsForEntry entry newEntryPos errorHandlingMode s1 with
    | (s2, .error e) => (s2, .error e)
    | (s2, .ok _) =>
      ({ s2 with
          _entriesInCurrentChunk := s2._entriesInCurrentChunk + 1
          _absoluteEndingIndex := s2._absoluteEndingIndex + 1 }, .ok ())

/-- `CsvHandler::insertRow(csv_entryLine, int, _errorHandlingMode)`. -/
def insertRow (entry : List Str) (pos : Int) (errorHandlingMode : _errorHandlingMode)
    (s : CsvHandlerState) : Outcome Unit :=
  if pos = -1 ∧ s._eofFlag = true then
    insertRowAt entry s._entriesInCurrentChunk errorHandlingMode s
  else if pos ≥ s._absoluteBeginningIndex ∧ pos < s._absoluteEndingIndex then
    insertRowAt entry (s._entriesInCurrentChunk - s._absoluteEndingIndex - pos)
      errorHandlingMode s
  else if s._eofFlag = true ∧ pos > s._absoluteEndingIndex then (s, .error .out_of_range)
  else (s, .ok ())

/-! ## Writing the table as CSV -/

/-- What `storeFieldsInFile_CSV` writes for one field: its string value when it is
set, nothing otherwise. -/
def fieldText (pf : Platform) (field : CsvEntryElement) : Except Exception Str :=
  if field.isSet then field.getStringValue pf else .ok []

/-- The inner `for` loop of `storeFieldsInFile_CSV` over the columns after the
first: for each the delimiter and the field `currEntry`. -/
def storeFieldsInFile_CSV_columns (pf : Platform) (delimiter : Char) (currEntry : Int) :
    List (List CsvEntryElement) → Except Exception (List Char)
  | [] => .ok []
  | column :: rest =>
    match vecAt column currEntry with
    | .error e => .error e
    | .ok field =>
      match fieldText pf field with
      | .error e => .error e
      | .ok text =>
        match storeFieldsInFile_CSV_columns pf delimiter currEntry rest with
        | .error e => .error e
        | .ok more => .ok (delimiter :: text ++ more)

/-- The line `storeFieldsInFile_CSV` writes for the entry `currEntry`; `front()` of
an empty table is undefined. -/
def storeFieldsInFile_CSV_line (pf : Platform) (s : CsvHandlerState) (delimiter : Char)
    (currEntry : Int) : Except Exception (List Char) :=
  match s._sourceFileVector with
  | [] => .error .undefinedBehaviour
  | front :: rest =>
    match vecAt front currEntry with
    | .error e => .error e
    | .ok field =>
      match fieldText pf field with
      | .error e => .error e
      | .ok text =>
        match storeFieldsInFile_CSV_columns pf delimiter currEntry rest with
        | .error e => .error e
        | .ok more =>
          .ok (text ++ more ++ (if s._CRLF = true then [_CR] else []) ++ [s._inFileLineEnding])

/-- The outer `for` loop of `storeFieldsInFile_CSV` from entry `currEntry` on. -/
def storeFieldsInFile_CSV_loop (pf : Platform) (s : CsvHandlerState) (delimiter : Char) :
    Nat → Int → Except Exception (List Char)
  | 0, _ => .ok []
  | fuel + 1, currEntry =>
    match storeFieldsInFile_CSV_line pf s delimiter currEntry with
    | .error e => .error e
    | .ok line =>
      match storeFieldsInFile_CSV_loop pf s delimiter fuel (currEntry + 1) with
      | .error e => .error e
      | .ok more => .ok (line ++ more)

/-- `CsvHandler::storeFieldsInFile_CSV`: the text written to the file. -/
def storeFieldsInFile_CSV (pf : Platform) (s : CsvHandlerState) (delimiter : Char) :
    Except Exception (List Char) :=
  storeFieldsInFile_CSV_loop pf s delimiter s._entriesInCurrentChunk.toNat 0

/-! ## States and platform for the examples -/

/-- A platform for the examples: `s[-1]` reads a NUL, `mktime` is that of UTC with
a zero-filled `parsedValue`; no example holds a `double` field, so nothing is
written for one. -/
def refPlatform : Platform := ⟨'\x00', utcZeroEnv, fun _ => []⟩

/-- The handler after `n` calls of `loadEntries`, whatever they returned. -/
def loadEntriesTimes (pf : Platform) (errorHandlingMode : _errorHandlingMode) :
    Nat → CsvHandlerState → CsvHandlerState
  | 0, s => s
  | n + 1, s => loadEntriesTimes pf errorHandlingMode n (loadEntries pf errorHandlingMode s).1

/-- The number of bytes that the next call of `loadEntries` asks
`loadChunkOfFile` to read: `_readBufferSize` when the buffer is made. -/
def requestedReadSize (s : CsvHandlerState) : Int :=
  (sizeLastChunk (clearStorage s))._readBufferSize

/-- A CSV handler with delimiter `,` as the constructor builds it, after `n` calls
of `loadEntries`. -/
def loadedHandler (inFile : Str) (readBufferSize : Int) (loadDataMode : _loadDataMode)
    (headerMode : _headerMode) (errorHandlingMode : _errorHandlingMode) (n : Nat) :
    CsvHandlerState :=
  loadEntriesTimes refPlatform errorHandlingMode n
    (constructed inFile readBufferSize loadDataMode .CSV ',' headerMode)

/-! ## Notions used in the statements about the handler -/

/-- The string representations of the fields of a row, in order, as `getRow`
collects them: the first field whose value cannot be read ends the collection. -/
def stringValues (pf : Platform) : List CsvEntryElement → Except Exception (List Str)
  | [] => .ok []
  | field :: rest =>
    match field.getStringValue pf with
    | .error e => .error e
    | .ok text =>
      match stringValues pf rest with
      | .error e => .error e
      | .ok texts => .ok (text :: texts)

/-- A projection of the handler that does not read the fields which the loading
of entries writes: the table, the column types, the header, the window, the
carry-over and the map of types. -/
def IgnoresLoadedData {α : Type} (π : CsvHandlerState → α) : Prop :=
  ∀ (s : CsvHandlerState) a b c d e f g h i j,
    π { s with
        _entriesInCurrentChunk := a, _inFileColumnTypes := b, _inFileHeader := c,
        _absoluteBeginningIndex := d, _absoluteEndingIndex := e, _buffLeftovers := f,
        _sourceFileVector := g, _sourceFileHeader := h, _sourceFileColumnTypes := i,
        _dataTypesMap := j } = π s

/-- A projection of the handler that does not read the fields which the loading
of entries writes, the window apart: the table, the column types, the header,
the carry-over and the map of types. -/
def IgnoresTable {α : Type} (π : CsvHandlerState → α) : Prop :=
  ∀ (s : CsvHandlerState) b c f g h i j,
    π { s with
        _inFileColumnTypes := b, _inFileHeader := c, _buffLeftovers := f,
        _sourceFileVector := g, _sourceFileHeader := h, _sourceFileColumnTypes := i,
        _dataTypesMap := j } = π s

/-- The handler that the constructor builds in chunk mode for a buffer of
`readBufferSize` bytes, after `k` calls of `loadEntries`. -/
def chunkedHandler (pf : Platform) (errorHandlingMode : _errorHandlingMode)
    (inFile : List Char) (readBufferSize : Int) (fileFormat : _fileFormat) (delimiter : Char)
    (headerMode : _headerMode) (k : Nat) : CsvHandlerState :=
  loadEntriesTimes pf errorHandlingMode k
    (constructed inFile readBufferSize .load_in_chunks fileFormat delimiter headerMode)

/-- Whether two fields are objects of the same class `CsvTypedEntryElement<T>`. -/
def sameClass : CsvEntryElement → CsvEntryElement → Bool
  | .csv_intField _ _, .csv_intField _ _ => true
  | .csv_doubleField _ _, .csv_doubleField _ _ => true
  | .csv_stringField _ _, .csv_stringField _ _ => true
  | _, _ => false

/-- Whether the table has a type name for the column `c` and, at `entryIndex` of
that column, a field of the class that `initializeStorage` makes for the
type. -/
def cellReady (s : CsvHandlerState) (entryIndex : Int) (c : Nat) : Bool :=
  match s._sourceFileColumnTypes[c]?, fieldAt s c entryIndex with
  | some typeName, .ok field =>
    sameClass (newField (mapSubscript s._dataTypesMap typeName).1) field
  | _, _ => false

/-- What one turn of the loop of `setColumnsForEntry` does for the text
`entryElement` in a column of type `dt` whose field is of the class of the type:
the field it leaves there, or the exception it throws. -/
def cellOutcome (errorHandlingMode : _errorHandlingMode) (dt : _dataTypes)
    (entryElement : Str) : Except Exception CsvEntryElement :=
  match dt with
  | .type_double =>
    match convertString_double entryElement with
    | .ok v => .ok (.csv_doubleField (some v) true)
    | .error exc =>
      if errorHandlingMode = .ignore_errors then .ok (.csv_doubleField (some zeroDouble) false)
      else .error exc
  | .type_int =>
    match convertString_int entryElement with
    | .ok v => .ok (.csv_intField (some v) true)
    | .error exc =>
      if errorHandlingMode = .ignore_errors then .ok (.csv_intField (some 0) false)
      else .error exc
  | _ => .ok (.csv_stringField entryElement true)

/-- The window is as long as the chunk has rows:
`_absoluteEndingIndex - _absoluteBeginningIndex = _entriesInCurrentChunk`. -/
def windowInvariant (s : CsvHandlerState) : Prop :=
  s._absoluteEndingIndex - s._absoluteBeginningIndex = s._entriesInCurrentChunk

/-- The window of the handler and its number of rows. -/
def windowOf (s : CsvHandlerState) : Int × Int × Int :=
  (s._absoluteBeginningIndex, s._absoluteEndingIndex, s._entriesInCurrentChunk)

/-! ## Types given by the caller and new columns -/

/-- `CsvHandler::provideTypesForColumns(unsigned int, _dataTypes*)` for an array
`dataTypes` of `amountOfColumns` elements. -/
def provideTypesForColumns (dataTypes : List _dataTypes) (s : CsvHandlerState) :
    CsvHandlerState :=
  { s with
    _sourceFileColumnTypes :=
      s._sourceFileColumnTypes ++ dataTypes.map (getDataTypeAsString s)
    _inFileColumnTypes :=
      s._sourceFileColumnTypes ++ dataTypes.map (getDataTypeAsString s) }

/-- `CsvHandler::initializeNewColumn`. -/
def initializeNewColumn (type : _dataTypes) (s : CsvHandlerState) :
    Except Exception (List CsvEntryElement) :=
  match type with
  | .type_double => initializeEntriesForColumn .type_double s
  | .type_int => initializeEntriesForColumn .type_int s
  | _ => initializeEntriesForColumn .type_string s

/-- `CsvHandler::insertColumn(std::vector<CsvEntryElement*>&, _dataTypes, int)`. -/
def insertColumn (columnVector : List CsvEntryElement) (type : _dataTypes) (pos : Int)
    (s : CsvHandlerState) : Outcome Unit :=
  if pos ≠ -1 ∧ pos > (s._sourceFileColumnTypes.length : Int) then (s, .error .out_of_range)
  else
    let newColPos : Int := if pos = -1 then (s._sourceFileColumnTypes.length : Int) else pos
    match vecInsert s._sourceFileVector newColPos columnVector with
    | .error e => (s, .error e)
    | .ok columns =>
      let s1 := { s with _sourceFileVector := columns }
      match vecInsert s1._sourceFileColumnTypes newColPos (getDataTypeAsString s1 type) with
      | .error e => (s1, .error e)
      | .ok types => ({ s1 with _sourceFileColumnTypes := types }, .ok ())

/-- `CsvHandler::insertColumn(std::vector<CsvEntryElement*>&, const std::string&,
_dataTypes, int)`. -/
def insertColumnCaption (columnVector : List CsvEntryElement) (caption : Str)
    (type : _dataTypes) (pos : Int) (s : CsvHandlerState) : Outcome Unit :=
  if s._sourceFileHeader.isEmpty then (s, .error .HeaderNotAvailableException)
  else
    let newColPos : Int := if pos = -1 then (s._sourceFileColumnTypes.length : Int) else pos
    match insertColumn columnVector type pos s with
    | (s1, .error e) => (s1, .error e)
    | (s1, .ok _) =>
      match vecInsert s1._sourceFileHeader newColPos caption with
      | .error e => (s1, .error e)
      | .ok header => ({ s1 with _sourceFileHeader := header }, .ok ())

/-- `CsvHandler::insertColumn(_dataTypes, int)`. -/
def insertColumnEmpty (type : _dataTypes) (pos : Int) (s : CsvHandlerState) : Outcome Unit :=
  if pos > (s._sourceFileColumnTypes.length : Int) then (s, .error .out_of_range)
  else
    let newColPos : Int := if pos = -1 then (s._sourceFileColumnTypes.length : Int) else pos
    match vecInsert s._sourceFileColumnTypes newColPos (getDataTypeAsString s type) with
    | .error e => (s, .error e)
    | .ok types =>
      let s1 := { s with _sourceFileColumnTypes := types }
      match initializeNewColumn type s1 with
      | .error e => (s1, .error e)
      | .ok column =>
        match vecInsert s1._sourceFileVector newColPos column with
        | .error e => (s1, .error e)
        | .ok columns => ({ s1 with _sourceFileVector := columns }, .ok ())

/-- `CsvHandler::insertColumn(const std::string&, _dataTypes, int)`: the caption is
put in the header only while `_chunksCount` is `1`. -/
def insertColumnEmptyCaption (caption : Str) (type : _dataTypes) (pos : Int)
    (s : CsvHandlerState) : Outcome Unit :=
  if s._sourceFileHeader.isEmpty then (s, .error .HeaderNotAvailableException)
  else
    let newColPos : Int := if pos = -1 then (s._sourceFileColumnTypes.length : Int) else pos
    match insertColumnEmpty type pos s with
    | (s1, .error e) => (s1, .error e)
    | (s1, .ok _) =>
      if s1._chunksCount = 1 then
        match vecInsert s1._sourceFileHeader newColPos caption with
        | .error e => (s1, .error e)
        | .ok header => ({ s1 with _sourceFileHeader := header }, .ok ())
      else (s1, .ok ())

/-! ## Regular expressions and `replaceAll` -/

/-- What the handler uses of `<regex>` with the ECMAScript grammar, its default:
whether `std::regex r(regex)` accepts the pattern (it throws `std::regex_error`
otherwise); the sub-matches that `std::regex_search(s, matches, r)` leaves in
`matches`, the whole match first and then one per capture group, none when
nothing matches; and the string `std::regex_replace(s, r, replacement)`. -/
structure RegexLib where
  valid : Str → Bool
  regex_search : Str → Str → List Str
  regex_replace : Str → Str → Str → Str

/-- The inner `for` loop of `replaceAll` over the sub-matches `ms` left to visit,
for the field `field` and the counter `replaced`; `newValue` is
`std::regex_replace(s, r, replacement)`.  A `dynamic_cast` of a field that is no
string field gives a null pointer, whose use is undefined. -/
def replaceAllMatches (newValue : Str) :
    List Str → CsvEntryElement → Int → CsvEntryElement × Except Exception Int
  | [], field, replaced => (field, .ok replaced)
  | ms :: more, field, replaced =>
    if ms ≠ [] then
      match field with
      | .csv_stringField _ _ =>
        replaceAllMatches newValue more (.csv_stringField newValue true) (replaced + 1)
      | _ => (field, .error .undefinedBehaviour)
    else replaceAllMatches newValue more field replaced

/-- The outer `for` loop of `replaceAll` over the remaining fields of the column:
the fields afterwards and the counter. -/
def replaceAllLoop (rx : RegexLib) (pf : Platform) (regex replacement : Str) :
    List CsvEntryElement → Int → List CsvEntryElement × Except Exception Int
  | [], replaced => ([], .ok replaced)
  | field :: rest, replaced =>
    match field.getStringValue pf with
    | .error e => (field :: rest, .error e)
    | .ok s =>
      match replaceAllMatches (rx.regex_replace s regex replacement) (rx.regex_search s regex)
          field replaced with
      | (field1, .error e) => (field1 :: rest, .error e)
      | (field1, .ok replaced1) =>
        ((field1 :: (replaceAllLoop rx pf regex replacement rest replaced1).1),
          (replaceAllLoop rx pf regex replacement rest replaced1).2)

/-- `CsvHandler::replaceAll(int, std::string, std::string)`. -/
def replaceAll (rx : RegexLib) (pf : Platform) (columnPos : Int) (regex replacement : Str)
    (s : CsvHandlerState) : Outcome Int :=
  if columnPos < (s._sourceFileColumnTypes.length : Int) then
    match vecAt s._sourceFileColumnTypes columnPos with
    | .error e => (s, .error e)
    | .ok typeName =>
      if typeName = _tString then
        if rx.valid regex = true then
          match vecAt s._sourceFileVector columnPos with
          | .error e => (s, .error e)
          | .ok column =>
            ({ s with _sourceFileVector :=
                (s._sourceFileVector.set columnPos.toNat
                  (replaceAllLoop rx pf regex replacement column 0).1) },
              (replaceAllLoop rx pf regex replacement column 0).2)
        else (s, .error .regex_error)
      else (s, .error .out_of_range)
  else (s, .error .out_of_range)

/-- `CsvHandler::replaceAll(std::string, std::string, std::string)`. -/
def replaceAllByCaption (rx : RegexLib) (pf : Platform) (columnCaption regex replacement : Str)
    (s : CsvHandlerState) : Outcome Int :=
  match getColumnId s._sourceFileHeader columnCaption with
  | .ok colId => replaceAll rx pf colId regex replacement s
  | .error e => (s, .error e)

/-! ## A matcher for a fragment of the ECMAScript grammar

The examples need the answers of `<regex>` for some patterns.  `fragmentRegex`
gives them for the patterns made of pattern characters, `.`, `^`, `$` and
capture groups, for which one walk along the pattern decides a match.  Every
other pattern is outside the fragment and is answered as a pattern that the
constructor rejects; no example uses one. -/

/-- The syntax characters of the grammar that the fragment leaves out. -/
def fragmentLeftOut : List Char := ['\\', '*', '+', '?', '[', ']', '\x7b', '\x7d', '|']

/-- A line terminator, which `.` does not match. -/
def isLineTerminator (c : Char) : Bool :=
  c = '\n' || c = '\r' || c.toNat = 0x2028 || c.toNat = 0x2029

/-- One walk along what is left of the pattern with the subject read up to `pos`:
`opened` holds the groups that are open, each with its number and the position
where it began, `closed` the groups that are closed, each with its number and
its two ends, and `next` is the number of the next group.  The result is the end
of the match and the groups. -/
def matchFrom (subject : Str) :
    List Char → Nat → List (Nat × Nat) → List (Nat × Nat × Nat) → Nat →
      Option (Nat × List (Nat × Nat × Nat))
  | [], pos, [], closed, _ => some (pos, closed)
  | [], _, _ :: _, _, _ => none
  | p :: ps, pos, opened, closed, next =>
    if p = '(' then matchFrom subject ps pos ((next, pos) :: opened) closed (next + 1)
    else if p = ')' then
      match opened with
      | [] => none
      | (g, start) :: rest => matchFrom subject ps pos rest ((g, start, pos) :: closed) next
    else if p = '^' then
      if pos = 0 then matchFrom subject ps pos opened closed next else none
    else if p = '$' then
      if pos = subject.length then matchFrom subject ps pos opened closed next else none
    else
      match subject[pos]? with
      | none => none
      | some c =>
        if p = '.' then
          if isLineTerminator c then none
          else matchFrom subject ps (pos + 1) opened closed next
        else if c = p then matchFrom subject ps (pos + 1) opened closed next
        else none

/-- Whether the parentheses of the pattern are balanced, `depth` groups being
open. -/
def groupsBalanced : List Char → Nat → Bool
  | [], depth => depth = 0
  | p :: ps, depth =>
    if p = '(' then groupsBalanced ps (depth + 1)
    else if p = ')' then
      match depth with
      | 0 => false
      | d + 1 => groupsBalanced ps d
    else groupsBalanced ps depth

/-- The patterns of the fragment. -/
def fragmentValid (regex : Str) : Bool :=
  regex.all (fun p => !fragmentLeftOut.contains p) && groupsBalanced regex 0

/-- The first match at or after `start`, `fuel` positions being left to try: where
it begins, where it ends, and its groups. -/
def searchFrom (subject regex : Str) : Nat → Nat → Option (Nat × Nat × List (Nat × Nat × Nat))
  | 0, _ => none
  | fuel + 1, start =>
    match matchFrom subject regex start [] [] 1 with
    | some (stop, closed) => some (start, stop, closed)
    | none => searchFrom subject regex fuel (start + 1)

/-- The characters of `subject` from `start` up to `stop`. -/
def slice (subject : Str) (start stop : Nat) : Str :=
  (subject.drop start).take (stop - start)

/-- The sub-matches of a match: the whole match and then the groups by their
number. -/
def subMatches (subject regex : Str) (start stop : Nat) (closed : List (Nat × Nat × Nat)) :
    List Str :=
  slice subject start stop ::
    (List.range (regex.count '(')).map (fun g =>
      match closed.find? (fun c => c.1 = g + 1) with
      | some c => slice subject c.2.1 c.2.2
      | none => [])

/-- The sub-matches that `std::regex_search` leaves for a pattern of the
fragment. -/
def fragmentSearch (subject regex : Str) : List Str :=
  if fragmentValid regex then
    match searchFrom subject regex (subject.length + 1) 0 with
    | some (start, stop, closed) => subMatches subject regex start stop closed
    | none => []
  else []

/-- The value of a decimal digit. -/
def digitValue (c : Char) : Nat := c.toNat - '0'.toNat

/-- Where `match_results::format` is in the replacement: in plain text, after a
dollar sign, or after a dollar sign and a digit. -/
inductive FormatState where
  | plain
  | dollar
  | digit (d : Char)

/-- The text that `match_results::format` makes of what is left of the
replacement, for a match with the sub-matches `subs`, the text `before` the
match and the text `after` it: `$$` is a dollar sign, `$&` the match, a dollar
sign with a grave accent or an apostrophe the text before or after the match,
and a dollar sign with one or two digits the sub-match of that number, or
nothing when there is none; any other dollar sign stands for itself. -/
def formatFrom (subs : List Str) (before after : Str) : FormatState → List Char → Str
  | .plain, [] => []
  | .plain, c :: rest =>
    if c = '$' then formatFrom subs before after .dollar rest
    else c :: formatFrom subs before after .plain rest
  | .dollar, [] => ['$']
  | .dollar, d :: rest =>
    if d = '$' then '$' :: formatFrom subs before after .plain rest
    else if d = '&' then subs.headD [] ++ formatFrom subs before after .plain rest
    else if d.toNat = 96 then before ++ formatFrom subs before after .plain rest
    else if d.toNat = 39 then after ++ formatFrom subs before after .plain rest
    else if d.isDigit then formatFrom subs before after (.digit d) rest
    else '$' :: d :: formatFrom subs before after .plain rest
  | .digit d, [] => subs.getD (digitValue d) []
  | .digit d, e :: rest =>
    if e.isDigit then
      subs.getD (digitValue d * 10 + digitValue e) [] ++ formatFrom subs before after .plain rest
    else if e = '$' then subs.getD (digitValue d) [] ++ formatFrom subs before after .dollar rest
    else subs.getD (digitValue d) [] ++ e :: formatFrom subs before after .plain rest

/-- `match_results::format` for the replacement `fmt`. -/
def formatMatch (subs : List Str) (before after : Str) (fmt : List Char) : Str :=
  formatFrom subs before after .plain fmt

/-- The loop of `std::regex_replace` over the matches, as `std::regex_iterator`
finds them: the search goes on at `start`, the subject is copied up to `copied`.
After a match that is not empty the search goes on at its end; after an empty
match, which in the fragment no other match at the same place can follow, one
character further. -/
def replaceFrom (subject regex fmt : Str) : Nat → Nat → Nat → Str
  | 0, _, copied => subject.drop copied
  | fuel + 1, start, copied =>
    match searchFrom subject regex (subject.length + 1 - start) start with
    | none => subject.drop copied
    | some (b, e, closed) =>
      slice subject copied b ++
        formatMatch (subMatches subject regex b e closed) (subject.take b) (subject.drop e) fmt ++
        (if e = b then
          if b = subject.length then []
          else replaceFrom subject regex fmt fuel (b + 1) e
        else replaceFrom subject regex fmt fuel e e)

/-- The string that `std::regex_replace` returns for a pattern of the fragment. -/
def fragmentReplace (subject regex fmt : Str) : Str :=
  if fragmentValid regex then replaceFrom subject regex fmt (subject.length + 1) 0 0
  else subject

/-- The library `<regex>` on the patterns of the fragment. -/
def fragmentRegex : RegexLib := ⟨fragmentValid, fragmentSearch, fragmentReplace⟩

/-! ## Notions used in the statements about rows and columns -/

/-- A CSV handler with delimiter `,` for a file read as a whole, with the column
types given by the caller, after one call of `loadEntries`. -/
def typedHandler (inFile : Str) (dataTypes : List _dataTypes) (headerMode : _headerMode)
    (errorHandlingMode : _errorHandlingMode) : CsvHandlerState :=
  loadEntriesTimes refPlatform errorHandlingMode 1
    (provideTypesForColumns dataTypes
      (constructed inFile 0 .load_whole_file .CSV ',' headerMode))

/-- The fields at position `k` of the columns, in column order (`none` for a
column without such a field). -/
def rowCells (columns : List (List CsvEntryElement)) (k : Nat) :
    List (Option CsvEntryElement) :=
  columns.map (fun column => column[k]?)

/-- There are as many type tags as columns and, when there is a header, as many
captions as columns. -/
def lockstep (s : CsvHandlerState) : Prop :=
  s._sourceFileColumnTypes.length = s._sourceFileVector.length ∧
    (s._sourceFileHeader ≠ [] → s._sourceFileHeader.length = s._sourceFileVector.length)

/-- Every column has as many fields as `_entriesInCurrentChunk` tells. -/
def rectangular (s : CsvHandlerState) : Prop :=
  ∀ column ∈ s._sourceFileVector, (column.length : Int) = s._entriesInCurrentChunk

/-- The fields that `setColumnsForEntry` makes of the texts of an entry for columns
of the given type names, or the first exception. -/
def entryCells (errorHandlingMode : _errorHandlingMode) (m : DataTypesMap) :
    List Str → List Str → Except Exception (List CsvEntryElement)
  | [], _ => .ok []
  | _ :: _, [] => .error .undefinedBehaviour
  | text :: entry, typeName :: types =>
    match cellOutcome errorHandlingMode (mapSubscript m typeName).1 text with
    | .error e => .error e
    | .ok cell =>
      match entryCells errorHandlingMode m entry types with
      | .error e => .error e
      | .ok cells => .ok (cell :: cells)

/-- The columns after `initializeNewEntry`: each column has a new field of the class
of its type at the position `p`. -/
def withNewEntry (m : DataTypesMap) (p : Nat) :
    List (List CsvEntryElement) → List Str → List (List CsvEntryElement)
  | column :: columns, typeName :: types =>
    (column.take p ++ newField (mapSubscript m typeName).1 :: column.drop p) ::
      withNewEntry m p columns types
  | _, _ => []


/-! ## `findAll` and `findAllRows` -/

/-- The inner `for` loop of `findAll` over the sub-matches left to visit: the field
is pushed once for every sub-match that is not empty. -/
def findAllMatches (field : CsvEntryElement) :
    List Str → List CsvEntryElement → List CsvEntryElement
  | [], fFields => fFields
  | ms :: more, fFields =>
    if ms ≠ [] then findAllMatches field more (fFields ++ [field])
    else findAllMatches field more fFields

/-- The outer `for` loop of `findAll` over the remaining fields of the column. -/
def findAllLoop (rx : RegexLib) (pf : Platform) (regex : Str) :
    List CsvEntryElement → List CsvEntryElement → Except Exception (List CsvEntryElement)
  | [], fFields => .ok fFields
  | field :: rest, fFields =>
    match field.getStringValue pf with
    | .error e => .error e
    | .ok s => findAllLoop rx pf regex rest (findAllMatches field (rx.regex_search s regex) fFields)

/-- `CsvHandler::findAll(int, std::string)`; the fields returned are the objects of
the table (pointers in the source). -/
def findAll (rx : RegexLib) (pf : Platform) (columnPos : Int) (regex : Str)
    (s : CsvHandlerState) : Except Exception (List CsvEntryElement) :=
  if columnPos < (s._sourceFileColumnTypes.length : Int) then
    if rx.valid regex = true then
      match vecAt s._sourceFileVector columnPos with
      | .error e => .error e
      | .ok column => findAllLoop rx pf regex column []
    else .error .regex_error
  else .error .out_of_range

/-- `CsvHandler::findAll(std::string, std::string)`. -/
def findAllByCaption (rx : RegexLib) (pf : Platform) (columnCaption regex : Str)
    (s : CsvHandlerState) : Except Exception (List CsvEntryElement) :=
  match getColumnId s._sourceFileHeader columnCaption with
  | .ok colId => findAll rx pf colId regex s
  | .error e => .error e

/-- The inner `for` loop of `findAllRows` over the sub-matches left to visit:
`getRow(rowIndex)` is pushed once for every sub-match that is not empty. -/
def findAllRowsMatches (pf : Platform) (s : CsvHandlerState) (rowIndex : Int) :
    List Str → List (List Str) → Except Exception (List (List Str))
  | [], rows => .ok rows
  | ms :: more, rows =>
    if ms ≠ [] then
      match getRow pf s rowIndex with
      | .error e => .error e
      | .ok row => findAllRowsMatches pf s rowIndex more (rows ++ [row])
    else findAllRowsMatches pf s rowIndex more rows

/-- The outer `for` loop of `findAllRows` over the remaining fields of the column,
with its counter `rowIndex`, which starts at `0` for the first field of the
column. -/
def findAllRowsLoop (rx : RegexLib) (pf : Platform) (s : CsvHandlerState) (regex : Str) :
    List CsvEntryElement → Int → List (List Str) → Except Exception (List (List Str))
  | [], _, rows => .ok rows
  | field :: rest, rowIndex, rows =>
    match field.getStringValue pf with
    | .error e => .error e
    | .ok text =>
      match findAllRowsMatches pf s rowIndex (rx.regex_search text regex) rows with
      | .error e => .error e
      | .ok rows1 => findAllRowsLoop rx pf s regex rest (rowIndex + 1) rows1

/-- `CsvHandler::findAllRows(int, std::string)`. -/
def findAllRows (rx : RegexLib) (pf : Platform) (columnPos : Int) (regex : Str)
    (s : CsvHandlerState) : Except Exception (List (List Str)) :=
  if columnPos < (s._sourceFileColumnTypes.length : Int) then
    if rx.valid regex = true then
      match vecAt s._sourceFileVector columnPos with
      | .error e => .error e
      | .ok column => findAllRowsLoop rx pf s regex column 0 []
    else .error .regex_error
  else .error .out_of_range

/-- `CsvHandler::findAllRows(std::string, std::string)`. -/
def findAllRowsByCaption (rx : RegexLib) (pf : Platform) (columnCaption regex : Str)
    (s : CsvHandlerState) : Except Exception (List (List Str)) :=
  match getColumnId s._sourceFileHeader columnCaption with
  | .ok colId => findAllRows rx pf colId regex s
  | .error e => .error e

/-! ## Quotation marks and the JSON writer -/

def _leftSquare : Char := '['
def _rightSquare : Char := ']'
def _comma : Char := ','

/-- `CsvHandler::isFieldDoubleQuotted`. -/
def isFieldDoubleQuotted (field : Str) : Bool :=
  if field.length ≠ 0 then
    match field with
    | c :: _ => if c = _quotationMark then true else false
    | [] => false
  else false

/-- `CsvHandler::addQuotationMarks`. -/
def addQuotationMarks (field : Str) : Str :=
  '"' :: (field ++ ['"'])

/-- The `for` loop of `surroundFieldsInVectorWithQuotationMarks(std::vector<
std::string>&)` from `pos` on, `fuel` elements being left. -/
def surroundFieldsInVectorWithQuotationMarksLoop :
    Nat → Int → List Str → Except Exception (List Str)
  | 0, _, vect => .ok vect
  | fuel + 1, pos, vect =>
    match vecAt vect pos with
    | .error e => .error e
    | .ok field =>
      if !isFieldDoubleQuotted field then
        surroundFieldsInVectorWithQuotationMarksLoop fuel (pos + 1)
          (vect.set pos.toNat (addQuotationMarks field))
      else surroundFieldsInVectorWithQuotationMarksLoop fuel (pos + 1) vect

/-- `CsvHandler::surroundFieldsInVectorWithQuotationMarks(std::vector<
std::string>&)`: the vector after the call. -/
def surroundFieldsInVectorWithQuotationMarks (vect : List Str) : Except Exception (List Str) :=
  surroundFieldsInVectorWithQuotationMarksLoop vect.length 0 vect

/-- `CsvHandler::surroundFieldsInVectorWithQuotationMarks(std::vector<
CsvEntryElement*>&)`: the fields after the call.  The `dynamic_cast` of a field
that is no string field gives a null pointer, whose use is undefined; `setValue`
marks the field as set. -/
def surroundFieldsInVectorWithQuotationMarksOfFields :
    List CsvEntryElement → List CsvEntryElement × Except Exception Unit
  | [] => ([], .ok ())
  | field :: rest =>
    match field with
    | .csv_stringField value _ =>
      ((if !isFieldDoubleQuotted value then .csv_stringField (addQuotationMarks value) true
          else field) :: (surroundFieldsInVectorWithQuotationMarksOfFields rest).1,
        (surroundFieldsInVectorWithQuotationMarksOfFields rest).2)
    | _ => (field :: rest, .error .undefinedBehaviour)

/-- The `for` loop of `surroundStringFieldsWithQuotationMarks` over the remaining
columns, with its counter `currentColumnId`: the columns after the call
(`isColumnStringType` reads `_sourceFileColumnTypes[columnId]`). -/
def surroundStringFieldsWithQuotationMarksLoop (sourceFileColumnTypes : List Str) :
    List (List CsvEntryElement) → Int → List (List CsvEntryElement) × Except Exception Unit
  | [], _ => ([], .ok ())
  | columnV :: rest, currentColumnId =>
    match vecIndex sourceFileColumnTypes currentColumnId with
    | .error e => (columnV :: rest, .error e)
    | .ok typeName =>
      if typeName = _tString then
        match surroundFieldsInVectorWithQuotationMarksOfFields columnV with
        | (columnV1, .error e) => (columnV1 :: rest, .error e)
        | (columnV1, .ok _) =>
          (columnV1 :: (surroundStringFieldsWithQuotationMarksLoop sourceFileColumnTypes rest
              (currentColumnId + 1)).1,
            (surroundStringFieldsWithQuotationMarksLoop sourceFileColumnTypes rest
              (currentColumnId + 1)).2)
      else
        (columnV :: (surroundStringFieldsWithQuotationMarksLoop sourceFileColumnTypes rest
            (currentColumnId + 1)).1,
          (surroundStringFieldsWithQuotationMarksLoop sourceFileColumnTypes rest
            (currentColumnId + 1)).2)

/-- `CsvHandler::surroundStringFieldsWithQuotationMarks`. -/
def surroundStringFieldsWithQuotationMarks (s : CsvHandlerState) : Outcome Unit :=
  ({ s with _sourceFileVector :=
      (surroundStringFieldsWithQuotationMarksLoop s._sourceFileColumnTypes
        s._sourceFileVector 0).1 },
    (surroundStringFieldsWithQuotationMarksLoop s._sourceFileColumnTypes
      s._sourceFileVector 0).2)

/-- What `if (_CRLF == true) file << _CR; file << _inFileLineEnding;` writes. -/
def lineEnd (s : CsvHandlerState) : List Char :=
  (if s._CRLF = true then [_CR] else []) ++ [s._inFileLineEnding]

/-- The inner `for` loop of `storeFieldsInFile_JSON` over the columns from
`colIndex` on, `fuel` columns being left, for the entry `cEntry`: the text
written. -/
def storeFieldsInFile_JSON_columns (pf : Platform) (s : CsvHandlerState) (cEntry : Int) :
    Nat → Int → Except Exception (List Char)
  | 0, _ => .ok []
  | fuel + 1, colIndex =>
    match vecAt s._sourceFileHeader colIndex with
    | .error e => .error e
    | .ok caption =>
      match vecAt s._sourceFileVector colIndex with
      | .error e => .error e
      | .ok column =>
        match vecAt column cEntry with
        | .error e => .error e
        | .ok field =>
          match (if field.isSet then field.getStringValue pf
              else .ok [_quotationMark, _quotationMark]) with
          | .error e => .error e
          | .ok value =>
            match storeFieldsInFile_JSON_columns pf s cEntry fuel (colIndex + 1) with
            | .error e => .error e
            | .ok more =>
              .ok (caption ++ " : ".toList ++ value ++
                (if colIndex < (s._sourceFileColumnTypes.length : Int) - 1 then [_comma]
                  else []) ++ lineEnd s ++ more)

/-- The outer `for` loop of `storeFieldsInFile_JSON` over the entries from `cEntry`
on, `fuel` entries being left: the text written. -/
def storeFieldsInFile_JSON_entries (pf : Platform) (s : CsvHandlerState) :
    Nat → Int → Except Exception (List Char)
  | 0, _ => .ok []
  | fuel + 1, cEntry =>
    match storeFieldsInFile_JSON_columns pf s cEntry s._sourceFileColumnTypes.length 0 with
    | .error e => .error e
    | .ok pairs =>
      match storeFieldsInFile_JSON_entries pf s fuel (cEntry + 1) with
      | .error e => .error e
      | .ok more =>
        .ok (lineEnd s ++ [_leftBrace] ++ lineEnd s ++ pairs ++ [_rightBrace] ++
          (if cEntry < s._entriesInCurrentChunk - 1 then [_comma] else []) ++ more)

/-- `CsvHandler::storeFieldsInFile_JSON`: the handler after the call and the text
written to the file. -/
def storeFieldsInFile_JSON (pf : Platform) (s : CsvHandlerState) : Outcome (List Char) :=
  if s._sourceFileHeader.isEmpty then (s, .error .HeaderNotAvailableException)
  else
    match surroundFieldsInVectorWithQuotationMarks s._sourceFileHeader with
    | .error e => (s, .error e)
    | .ok header =>
      match surroundStringFieldsWithQuotationMarks { s with _sourceFileHeader := header } with
      | (s1, .error e) => (s1, .error e)
      | (s1, .ok _) =>
        match storeFieldsInFile_JSON_entries pf s1 s1._entriesInCurrentChunk.toNat 0 with
        | .error e => (s1, .error e)
        | .ok objects =>
          (s1, .ok ((if s1._chunksCount = 1 then [_leftSquare] else []) ++ objects ++
            (if s1._eofFlag = true then lineEnd s1 ++ [_rightSquare] else [])))

/-- `CsvHandler::storeHeaderInFile_CSV`: the content of the file after the call,
`file` being its content before (empty for a file that does not exist).  The
stream is opened without `app`, so what the file held is dropped. -/
def storeHeaderInFile_CSV (s : CsvHandlerState) (delimiter : Char) (file : List Char) :
    List Char :=
  if s._chunksCount = 1 then
    match s._sourceFileHeader with
    | hItem :: rest => hItem ++ (rest.map (fun h => delimiter :: h)).flatten ++ lineEnd s
    | [] => []
  else file

/-- `CsvHandler::storeDataInFile`: the handler after the call and the content of
the file after it, `file` being its content before.  The rows are appended to
the file; the JSON text replaces the content of the file when `_chunksCount` is
`1` and is appended to it otherwise.  For an empty table only a message is
printed. -/
def storeDataInFile (pf : Platform) (file : List Char) (outFormat : _fileFormat)
    (delimiter : Char) (s : CsvHandlerState) : Outcome (List Char) :=
  if !s._sourceFileVector.isEmpty then
    match outFormat with
    | .CSV =>
      match storeFieldsInFile_CSV pf s delimiter with
      | .error e => (s, .error e)
      | .ok rows => (s, .ok (storeHeaderInFile_CSV s delimiter file ++ rows))
    | .JSON =>
      match storeFieldsInFile_JSON pf s with
      | (s1, .error e) => (s1, .error e)
      | (s1, .ok text) => (s1, .ok ((if s._chunksCount = 1 then [] else file) ++ text))
  else (s, .ok file)


/-! ## Notions used in the statements about the JSON writer -/

/-- The indices `i` of the reads `lineToSplit[i]` that the `while` loop of
`getDoubleQuottedFieldEnding` makes, in order: one in the condition, when
`posc < lineToSplit.size()` holds and `nqMarks` is even, and one in the body. -/
def getDoubleQuottedFieldEndingReads (oob : Char) (lineToSplit : Str) (delimiter : Char) :
    Nat → Nat → Nat → List Int
  | 0, _, _ => []
  | fuel + 1, nqMarks, posc =>
    if posc < lineToSplit.length then
      if nqMarks % 2 ≠ 0 then
        (posc : Int) :: getDoubleQuottedFieldEndingReads oob lineToSplit delimiter fuel
          (if charAt oob lineToSplit posc = _quotationMark then (nqMarks + 1) % 2 ^ 32
            else nqMarks)
          (posc + 1)
      else if charAt oob lineToSplit posc ≠ delimiter then
        (posc : Int) :: (posc : Int) ::
          getDoubleQuottedFieldEndingReads oob lineToSplit delimiter fuel
            (if charAt oob lineToSplit posc = _quotationMark then (nqMarks + 1) % 2 ^ 32
              else nqMarks)
            (posc + 1)
      else [(posc : Int)]
    else []

/-- The indices of the reads `lineToSplit[i]` that
`emplaceSpacesFreeFieldInVector` makes: the last position of the line when
`pose` is `-1`, the position `pose - 1` otherwise, read again for the comparison
with the tab when the character is no space. -/
def emplaceSpacesFreeFieldInVectorReads (oob : Char) (lineToSplit : Str) (pose : Int) :
    List Int :=
  if pose = -1 then
    if charAt oob lineToSplit ((lineToSplit.length : Int) - 1) = _space then
      [(lineToSplit.length : Int) - 1]
    else [(lineToSplit.length : Int) - 1, (lineToSplit.length : Int) - 1]
  else
    if charAt oob lineToSplit (pose - 1) = _space then [pose - 1]
    else [pose - 1, pose - 1]

/-- The indices of the reads `lineToSplit[i]` that the `while` loop of
`splitEntryByDelimiter` and the helpers it calls make, in order. -/
def splitEntryByDelimiterLoopReads (oob : Char) (lineToSplit : Str) (delimiter : Char) :
    Nat → Int → Int → List Int
  | 0, _, _ => []
  | fuel + 1, poss, pose =>
    if poss ≤ (lineToSplit.length : Int) ∧ pose ≠ -1 then
      if poss = (lineToSplit.length : Int) then
        splitEntryByDelimiterLoopReads oob lineToSplit delimiter fuel poss (-1)
      else
        let poss1 := find_first_not_of lineToSplit _whitespace poss
        if poss1 = -1 then
          splitEntryByDelimiterLoopReads oob lineToSplit delimiter fuel (-1 + 1) (-1)
        else if charAt oob lineToSplit poss1 = _quotationMark then
          let pose1 := getDoubleQuottedFieldEnding oob lineToSplit poss1 delimiter
          poss1 ::
            (getDoubleQuottedFieldEndingReads oob lineToSplit delimiter lineToSplit.length 1
                (poss1 + 1).toNat ++
              emplaceSpacesFreeFieldInVectorReads oob lineToSplit pose1 ++
              match emplaceSpacesFreeFieldInVector oob lineToSplit [] poss1 pose1 with
              | none => []
              | some _ =>
                splitEntryByDelimiterLoopReads oob lineToSplit delimiter fuel (pose1 + 1) pose1)
        else
          let pose1 := find_first_of lineToSplit delimiter poss1
          poss1 ::
            (emplaceSpacesFreeFieldInVectorReads oob lineToSplit pose1 ++
              match emplaceSpacesFreeFieldInVector oob lineToSplit [] poss1 pose1 with
              | none => []
              | some _ =>
                splitEntryByDelimiterLoopReads oob lineToSplit delimiter fuel (pose1 + 1) pose1)
    else []

/-- The indices of the reads `lineToSplit[i]` of a call of
`splitEntryByDelimiter`. -/
def splitEntryByDelimiterReads (oob : Char) (lineToSplit : Str) (delimiter : Char) : List Int :=
  splitEntryByDelimiterLoopReads oob lineToSplit delimiter (lineToSplit.length + 2) 0 0

/-! # Theorems -/

theorem getColumnIdLoop_not_mem (caption : Str) (l : List Str) (k : Nat)
    (h : caption ∉ l) :
    getColumnIdLoop caption l k = .error .InvalidColumnCaptionException := by
  induction l generalizing k with
  | nil => rfl
  | cons x xs ih =>
    have hx : x ≠ caption := fun e => h (by simp [e])
    have hxs : caption ∉ xs := fun e => h (by simp [e])
    simp [getColumnIdLoop, hx, ih (k + 1) hxs]

theorem getColumnIdLoop_mem (caption : Str) (l : List Str) (k : Nat)
    (h : caption ∈ l) :
    ∃ i : Nat, getColumnIdLoop caption l k = .ok ((k + i : Nat) : Int) ∧
      l[i]? = some caption ∧ ∀ j, j < i → l[j]? ≠ some caption := by
  induction l generalizing k with
  | nil => simp at h
  | cons x xs ih =>
    by_cases hx : x = caption
    · exact ⟨0, by simp [getColumnIdLoop, hx], by simp [hx], by simp⟩
    · have hxs : caption ∈ xs := by
        rcases List.mem_cons.1 h with e | e
        · exact absurd e.symm hx
        · exact e
      obtain ⟨i, h1, h2, h3⟩ := ih (k + 1) hxs
      refine ⟨i + 1, ?_, by simpa using h2, ?_⟩
      · simp only [getColumnIdLoop, hx, if_false, h1]
        congr 2
        omega
      · intro j hj
        cases j with
        | zero => simpa using hx
        | succ j => simpa using h3 j (by omega)

/-- C10: `getColumnId` fails with `HeaderNotAvailableException` on an empty header,
with `InvalidColumnCaptionException` when a non-empty header does not contain the
caption, and otherwise returns the smallest index whose caption equals the one
asked for; on the header `["name","age"]` the caption `"age"` gives `1`. -/
theorem getColumnId_first_index (header : List Str) (caption : Str) :
    (header = [] → getColumnId header caption = .error .HeaderNotAvailableException) ∧
    (header ≠ [] → caption ∉ header →
      getColumnId header caption = .error .InvalidColumnCaptionException) ∧
    (header ≠ [] → caption ∈ header →
      ∃ i : Nat, getColumnId header caption = .ok (i : Int) ∧
        header[i]? = some caption ∧ ∀ j, j < i → header[j]? ≠ some caption) ∧
    getColumnId ["name".toList, "age".toList] "age".toList = .ok 1 := by
  refine ⟨?_, ?_, ?_, by decide⟩
  · intro h
    simp [getColumnId, h]
  · intro hne hmem
    have : header.isEmpty = false := by cases header <;> simp_all
    simp [getColumnId, this, getColumnIdLoop_not_mem caption header 0 hmem]
  · intro hne hmem
    have : header.isEmpty = false := by cases header <;> simp_all
    obtain ⟨i, h1, h2, h3⟩ := getColumnIdLoop_mem caption header 0 hmem
    exact ⟨i, by simpa [getColumnId, this] using h1, h2, h3⟩

/-- C10 at the header `["id","name","name"]`: the first `"name"` is found. -/
theorem getColumnId_first_index_witness :
    ∃ i : Nat, getColumnId ["id".toList, "name".toList, "name".toList] "name".toList
        = .ok (i : Int) ∧
      ["id".toList, "name".toList, "name".toList][i]? = some "name".toList ∧
      ∀ j, j < i → ["id".toList, "name".toList, "name".toList][j]? ≠ some "name".toList :=
  (getColumnId_first_index ["id".toList, "name".toList, "name".toList] "name".toList).2.2.1
    (by decide) (by decide)

/-! ## CSV record extractor (C4, C5, C6) -/

theorem csvLoop_acc (n : Nat) (data : List Char) (lineBuff : List Str) (buff : Str) :
    convertCharBufferIntoCSVentryStringsLoop n data lineBuff buff =
      (lineBuff ++ (convertCharBufferIntoCSVentryStringsLoop n data [] buff).1,
        (convertCharBufferIntoCSVentryStringsLoop n data [] buff).2) := by
  induction data generalizing lineBuff buff with
  | nil => simp [convertCharBufferIntoCSVentryStringsLoop]
  | cons c cs ih =>
    simp only [convertCharBufferIntoCSVentryStringsLoop]
    split_ifs
    · exact ih _ _
    · rw [ih (lineBuff ++ [buff]) [], ih ([] ++ [buff]) []]
      simp
    · exact ih _ _

theorem csvLoop_append (n : Nat) (a b : List Char) (lineBuff : List Str) (buff : Str) :
    convertCharBufferIntoCSVentryStringsLoop n (a ++ b) lineBuff buff =
      convertCharBufferIntoCSVentryStringsLoop n b
        (convertCharBufferIntoCSVentryStringsLoop n a lineBuff buff).1
        (convertCharBufferIntoCSVentryStringsLoop n a lineBuff buff).2 := by
  induction a generalizing lineBuff buff with
  | nil => simp [convertCharBufferIntoCSVentryStringsLoop]
  | cons c cs ih =>
    simp only [List.cons_append, convertCharBufferIntoCSVentryStringsLoop]
    split_ifs <;> exact ih _ _

theorem csv_not_eof (n : Nat) (leftover : Str) (data : List Char) :
    convertCharBufferIntoCSVentryStrings n false leftover data =
      convertCharBufferIntoCSVentryStringsLoop n data [] leftover := by
  simp only [convertCharBufferIntoCSVentryStrings]
  by_cases h : (convertCharBufferIntoCSVentryStringsLoop n data [] leftover).2.length = 0
  · have h2 : (convertCharBufferIntoCSVentryStringsLoop n data [] leftover).2 = [] :=
      List.length_eq_zero.1 h
    rw [if_neg (by simpa using h)]
    exact Prod.ext rfl h2.symm
  · rw [if_pos h]
    simp

theorem csv_eof_append (n : Nat) (leftover : Str) (a b : List Char) :
    convertCharBufferIntoCSVentryStrings n true leftover (a ++ b) =
      ((convertCharBufferIntoCSVentryStringsLoop n a [] leftover).1 ++
        (convertCharBufferIntoCSVentryStrings n true
          (convertCharBufferIntoCSVentryStringsLoop n a [] leftover).2 b).1,
        (convertCharBufferIntoCSVentryStrings n true
          (convertCharBufferIntoCSVentryStringsLoop n a [] leftover).2 b).2) := by
  simp only [convertCharBufferIntoCSVentryStrings, csvLoop_append]
  rw [csvLoop_acc n b (convertCharBufferIntoCSVentryStringsLoop n a [] leftover).1]
  simp only []
  split_ifs <;> simp

/-- C4: the CSV record extractor is invariant under chunking.  For every column
count, every starting carry-over and every non-empty list of consecutive chunks,
running `convertCharBufferIntoCSVentryStrings` chunk by chunk (carry-over
threaded, `_eofFlag` set for the last chunk only) emits the same records, and
leaves the same carry-over, as one run over the concatenated chunks with
`_eofFlag` set. -/
theorem csv_extraction_chunking_invariant (n : Nat) (leftover : Str)
    (chunks : List (List Char)) (hne : chunks ≠ []) :
    runCSVChunks n leftover chunks =
      convertCharBufferIntoCSVentryStrings n true leftover chunks.flatten := by
  induction chunks generalizing leftover with
  | nil => exact absurd rfl hne
  | cons c cs ih =>
    cases cs with
    | nil => simp [runCSVChunks]
    | cons d ds =>
      have hI := ih (convertCharBufferIntoCSVentryStringsLoop n c [] leftover).2 (by simp)
      rw [runCSVChunks]
      · simp only [List.flatten_cons, csv_not_eof] at hI ⊢
        rw [csv_eof_append n leftover c, hI]
      · intro h
        cases h

/-- C4 on the file `ab,c⏎de,f⏎g,h` cut inside the second record and inside the
third. -/
theorem csv_extraction_chunking_invariant_witness :
    runCSVChunks 2 [] ["ab,c\nd".toList, "e,f\ng".toList, ",h".toList] =
      convertCharBufferIntoCSVentryStrings 2 true []
        ["ab,c\nd".toList, "e,f\ng".toList, ",h".toList].flatten :=
  csv_extraction_chunking_invariant 2 [] ["ab,c\nd".toList, "e,f\ng".toList, ",h".toList]
    (by decide)


theorem sizeMinusOne_lt (n : Nat) (hn : 1 ≤ n) : sizeMinusOne n < n := by
  unfold sizeMinusOne
  norm_num
  omega

theorem csvLoop_line (n : Nat) (l : Str) (rest : List Char) (lineBuff : List Str) (buff : Str)
    (hfree : _LF ∉ l ∧ _CR ∉ l) :
    convertCharBufferIntoCSVentryStringsLoop n (l ++ rest) lineBuff buff =
      convertCharBufferIntoCSVentryStringsLoop n rest lineBuff (buff ++ l) := by
  induction l generalizing buff with
  | nil => simp
  | cons c cs ih =>
    have h1 : c ≠ _LF := fun e => hfree.1 (by simp [e])
    have h2 : c ≠ _CR := fun e => hfree.2 (by simp [e])
    have h3 : _LF ∉ cs ∧ _CR ∉ cs :=
      ⟨fun e => hfree.1 (by simp [e]), fun e => hfree.2 (by simp [e])⟩
    simp only [List.cons_append, convertCharBufferIntoCSVentryStringsLoop, h1, h2, ne_eq,
      not_false_eq_true, and_self, if_true, List.append_eq]
    rw [ih _ h3]
    simp

theorem csvLoop_terminated (n : Nat) (hn : 1 ≤ n) (lines : List Str) (rest : List Char)
    (lineBuff : List Str)
    (hfree : ∀ l ∈ lines, _LF ∉ l ∧ _CR ∉ l) (hlen : ∀ l ∈ lines, n ≤ l.length) :
    convertCharBufferIntoCSVentryStringsLoop n
        ((lines.map (fun l => l ++ [_LF])).flatten ++ rest) lineBuff [] =
      convertCharBufferIntoCSVentryStringsLoop n rest (lineBuff ++ lines) [] := by
  induction lines generalizing lineBuff with
  | nil => simp
  | cons l ls ih =>
    have hl := hfree l (by simp)
    have hn2 := hlen l (by simp)
    have hs := sizeMinusOne_lt n hn
    simp only [List.map_cons, List.flatten_cons, List.append_assoc]
    rw [csvLoop_line n l _ lineBuff [] hl]
    simp only [List.nil_append, List.singleton_append, convertCharBufferIntoCSVentryStringsLoop]
    rw [if_neg (by simp), if_pos ⟨by omega, by omega⟩]
    simp only [List.append_eq, List.nil_append]
    rw [ih (lineBuff ++ [l]) (fun x hx => hfree x (by simp [hx]))
      (fun x hx => hlen x (by simp [hx]))]
    simp

/-- C5: with at least one column, a chunk made of lines that are free of CR/LF and
at least as long as the column count, each followed by LF, is emitted line by
line from an empty carry-over and leaves the carry-over empty; a last line
without terminator is kept as carry-over, and it is emitted as a record exactly
when `_eofFlag` is set. -/
theorem csv_extraction_emits_lines (n : Nat) (hn : 1 ≤ n) (lines : List Str) (last : Str)
    (eof : Bool)
    (hfree : ∀ l ∈ lines, _LF ∉ l ∧ _CR ∉ l) (hlen : ∀ l ∈ lines, n ≤ l.length)
    (hlastfree : _LF ∉ last ∧ _CR ∉ last) (hlastlen : n ≤ last.length) :
    convertCharBufferIntoCSVentryStrings n eof []
        (lines.map (fun l => l ++ [_LF])).flatten = (lines, []) ∧
    convertCharBufferIntoCSVentryStrings n false []
        ((lines.map (fun l => l ++ [_LF])).flatten ++ last) = (lines, last) ∧
    convertCharBufferIntoCSVentryStrings n true []
        ((lines.map (fun l => l ++ [_LF])).flatten ++ last) = (lines ++ [last], last) := by
  have hs := sizeMinusOne_lt n hn
  have h1 := csvLoop_terminated n hn lines [] [] hfree hlen
  have h2 := csvLoop_terminated n hn lines (last ++ []) [] hfree hlen
  rw [csvLoop_line n last [] _ [] hlastfree] at h2
  simp only [List.append_nil, List.nil_append, convertCharBufferIntoCSVentryStringsLoop] at h1 h2
  refine ⟨?_, ?_, ?_⟩
  · simp [convertCharBufferIntoCSVentryStrings, h1]
  · rw [csv_not_eof, h2]
  · simp only [convertCharBufferIntoCSVentryStrings, h2]
    have hlast : last.length ≠ 0 := by omega
    simp [hlast]
    omega

/-- C5 on the two records `ab,c` and `de,f` of a two-column file, followed by the
unterminated record `g,h`. -/
theorem csv_extraction_emits_lines_witness :
    convertCharBufferIntoCSVentryStrings 2 false []
        (["ab,c".toList, "de,f".toList].map (fun l => l ++ [_LF])).flatten
      = (["ab,c".toList, "de,f".toList], []) ∧
    convertCharBufferIntoCSVentryStrings 2 false []
        ((["ab,c".toList, "de,f".toList].map (fun l => l ++ [_LF])).flatten ++ "g,h".toList)
      = (["ab,c".toList, "de,f".toList], "g,h".toList) ∧
    convertCharBufferIntoCSVentryStrings 2 true []
        ((["ab,c".toList, "de,f".toList].map (fun l => l ++ [_LF])).flatten ++ "g,h".toList)
      = (["ab,c".toList, "de,f".toList] ++ ["g,h".toList], "g,h".toList) :=
  csv_extraction_emits_lines 2 (by decide) ["ab,c".toList, "de,f".toList] "g,h".toList false
    (by decide) (by decide) (by decide) (by decide)

/-- C6 at the failing input: with an empty column-type list the chunk `ab⏎cd⏎`
emits no record at all; the two lines are glued together in the carry-over,
because `_sourceFileColumnTypes.size() - 1` wraps to `2^64 - 1`. -/
theorem csv_extraction_no_types_emits_nothing :
    convertCharBufferIntoCSVentryStrings 0 false [] "ab\ncd\n".toList = ([], "abcd".toList) ∧
    convertCharBufferIntoCSVentryStrings 0 true [] "ab\ncd\n".toList = ([], "abcd".toList) := by
  decide


/-! ## Type inferencer (C8, C9) -/

theorem isDigit_toNat (c : Char) (h : c.isDigit = true) : 48 ≤ c.toNat ∧ c.toNat ≤ 57 := by
  simp only [Char.isDigit, Bool.and_eq_true, decide_eq_true_eq] at h
  exact ⟨h.1, h.2⟩

theorem isspace_of_isDigit (c : Char) (h : c.isDigit = true) : isspace c = false := by
  have hb := isDigit_toNat c h
  have h1 : c ≠ ' ' := by
    rintro rfl
    exact absurd h (by decide)
  simp only [isspace, Bool.or_eq_false_iff, decide_eq_false_iff_not, Bool.and_eq_false_iff]
  exact ⟨h1, Or.inr (by omega)⟩

theorem takeSign_of_isDigit (c : Char) (cs : Str) (h : c.isDigit = true) :
    takeSign (c :: cs) = (false, c :: cs) := by
  unfold takeSign
  split
  · rename_i heq
    simp only [List.cons.injEq] at heq
    rw [heq.1] at h
    exact absurd h (by decide)
  · rename_i heq
    simp only [List.cons.injEq] at heq
    rw [heq.1] at h
    exact absurd h (by decide)
  · rfl

theorem stoi_digits (s : Str) (hne : s ≠ []) (hd : ∀ c ∈ s, c.isDigit = true)
    (hv : digitsValue s ≤ 2147483647) :
    stoi s = .ok ((digitsValue s : Int), s.length) := by
  obtain ⟨c, cs, rfl⟩ := List.exists_cons_of_ne_nil hne
  have hc := hd c (by simp)
  have htw : (c :: cs).takeWhile Char.isDigit = c :: cs :=
    List.takeWhile_eq_self_iff.2 hd
  have hdw : (c :: cs).dropWhile isspace = c :: cs := by
    simp [List.dropWhile, isspace_of_isDigit c hc]
  simp only [stoi, hdw, takeSign_of_isDigit c cs hc, htw]
  simp
  omega

/-- C9, as amended: a non-empty field of decimal digits whose value does not
exceed `INT_MAX = 2147483647` is classified `type_int`, whatever the platform. -/
theorem determineColumnType_digits_int (env : TimeEnv) (s : Str) (hne : s ≠ [])
    (hd : ∀ c ∈ s, c.isDigit = true) (hv : digitsValue s ≤ 2147483647) :
    determineColumnType env s = _tInt := by
  have hq : s.head? ≠ some _quotationMark := by
    obtain ⟨c, cs, rfl⟩ := List.exists_cons_of_ne_nil hne
    have hc := hd c (by simp)
    simp only [List.head?_cons, ne_eq, Option.some.injEq]
    rintro rfl
    exact absurd hc (by decide)
  simp [determineColumnType, hq, convertString_int, stoi_digits s hne hd hv]

/-- C9 (amended) at the field `2147483647`, the largest `int`. -/
theorem determineColumnType_digits_int_witness :
    determineColumnType utcZeroEnv "2147483647".toList = _tInt :=
  determineColumnType_digits_int utcZeroEnv "2147483647".toList (by decide) (by decide)
    (by decide)

/-- C9 as stated fails: the all-digit field `2147483648` does not fit an `int`,
`std::stoi` throws `out_of_range`, and the field is classified `type_double`. -/
theorem determineColumnType_digits_double_counterexample :
    (∀ c ∈ "2147483648".toList, c.isDigit = true) ∧
    determineColumnType utcZeroEnv "2147483648".toList = _tDouble := by
  decide

/-- C8 at the failing input: on a platform whose `mktime` normalises its argument
(UTC, zero-filled `parsedValue`) the field `42.5x`, which is neither an integer,
nor a floating-point number, nor a date, is classified `type_date`; so is the
plain word `abc`.  The other four examples of the claim come out as stated. -/
theorem determineColumnType_non_date_is_date :
    determineColumnType utcZeroEnv "42.5x".toList = _tDate ∧
    determineColumnType utcZeroEnv "abc".toList = _tDate ∧
    (get_time zeroTm _defaultDTFormat "42.5x".toList).2 = false ∧
    determineColumnType utcZeroEnv "42".toList = _tInt ∧
    determineColumnType utcZeroEnv "42.5".toList = _tDouble ∧
    determineColumnType utcZeroEnv "2024-01-02 10:00:00".toList = _tDate ∧
    determineColumnType utcZeroEnv "\"42\"".toList = _tString := by
  decide


/-! ## JSON record extractor (C7) -/

theorem splitAtLastRightBrace_append (x y a b : Str)
    (h : splitAtLastRightBrace x = some (a, b)) (hy : _rightBrace ∉ y) :
    splitAtLastRightBrace (x ++ y) = some (a, b ++ y) := by
  have hnone : splitAtLastRightBrace y = none := by
    induction y with
    | nil => rfl
    | cons c cs ih =>
      have hc : c ≠ _rightBrace := fun e => hy (by simp [e])
      have hcs : _rightBrace ∉ cs := fun e => hy (by simp [e])
      simp [splitAtLastRightBrace, ih hcs, hc]
  induction x generalizing a b with
  | nil => simp [splitAtLastRightBrace] at h
  | cons c cs ih =>
    simp only [splitAtLastRightBrace, List.cons_append] at h ⊢
    cases hcs : splitAtLastRightBrace cs with
    | some p =>
      obtain ⟨a1, b1⟩ := p
      simp only [hcs, Option.some.injEq, Prod.mk.injEq] at h
      simp [ih a1 b1 hcs, ← h.1, ← h.2]
    | none =>
      simp only [hcs] at h
      have hcy : splitAtLastRightBrace (cs ++ y) = none := by
        clear ih h
        induction cs with
        | nil => simpa using hnone
        | cons d ds ihd =>
          simp only [splitAtLastRightBrace] at hcs
          cases hds : splitAtLastRightBrace ds with
          | some q => simp [hds] at hcs
          | none =>
            simp only [hds] at hcs
            have hd : d ≠ _rightBrace := by
              intro e
              simp [e] at hcs
            simp [splitAtLastRightBrace, ihd hds, hd]
      by_cases hc : c = _rightBrace
      · simp only [hc, if_true, Option.some.injEq, Prod.mk.injEq] at h
        simp [hcy, hc, ← h.1, ← h.2]
      · simp [hc] at h

theorem splitAtLastRightBrace_some (x a b : Str)
    (h : splitAtLastRightBrace x = some (a, b)) : x = a ++ _rightBrace :: b := by
  induction x generalizing a b with
  | nil => simp [splitAtLastRightBrace] at h
  | cons c cs ih =>
    simp only [splitAtLastRightBrace] at h
    cases hcs : splitAtLastRightBrace cs with
    | some p =>
      obtain ⟨a1, b1⟩ := p
      simp only [hcs, Option.some.injEq, Prod.mk.injEq] at h
      rw [← h.1, ← h.2, ih a1 b1 hcs]
      simp
    | none =>
      simp only [hcs] at h
      by_cases hc : c = _rightBrace
      · simp only [hc, if_true, Option.some.injEq, Prod.mk.injEq] at h
        simp [hc, ← h.1, ← h.2]
      · simp [hc] at h

theorem rightBracesSeparatedFrom_weaken (ac : Bool) (s : Str)
    (h : rightBracesSeparatedFrom ac s = true) : rightBracesSeparatedFrom false s = true := by
  cases s with
  | nil => rfl
  | cons c cs =>
    simp only [rightBracesSeparatedFrom] at h ⊢
    split_ifs at h ⊢ with h1 h2
    · simp only [Bool.and_eq_true] at h
      simp [h.2]
    · exact h
    · cases ac
      · exact h
      · clear h1 h2
        induction cs with
        | nil => rfl
        | cons d ds ih =>
          simp only [rightBracesSeparatedFrom] at h ⊢
          split_ifs at h ⊢ with h3 h4
          · simp at h
          · exact h
          · exact ih h

theorem rightBracesSeparatedFrom_suffix (ac : Bool) (p s : Str)
    (h : rightBracesSeparatedFrom ac (p ++ s) = true) :
    rightBracesSeparatedFrom false s = true := by
  induction p generalizing ac with
  | nil => exact rightBracesSeparatedFrom_weaken ac s h
  | cons c cs ih =>
    simp only [List.cons_append, rightBracesSeparatedFrom] at h
    split_ifs at h
    · simp only [Bool.and_eq_true] at h
      exact ih true h.2
    · exact ih false h
    · exact ih ac h

theorem rightBracesSeparatedFrom_true_takeWhile (t : Str)
    (h : rightBracesSeparatedFrom true t = true) :
    _rightBrace ∉ t.takeWhile (fun x => x != _leftBrace) := by
  induction t with
  | nil => simp
  | cons c cs ih =>
    simp only [rightBracesSeparatedFrom] at h
    split_ifs at h with h1 h2
    · simp at h
    · simp [List.takeWhile, h2]
    · have hne : (c != _leftBrace) = true := by simpa using h2
      simp only [List.takeWhile, hne, List.mem_cons, not_or]
      exact ⟨fun e => h1 e.symm, ih h⟩

theorem rightBracesSeparatedFrom_after (ac : Bool) (x t : Str)
    (h : rightBracesSeparatedFrom ac (x ++ t) = true)
    (hl : _leftBrace ∉ x) (hr : _rightBrace ∈ x) :
    rightBracesSeparatedFrom true t = true := by
  induction x generalizing ac with
  | nil => simp at hr
  | cons c cs ih =>
    have hcl : c ≠ _leftBrace := fun e => hl (by simp [e])
    have hcsl : _leftBrace ∉ cs := fun e => hl (by simp [e])
    simp only [List.cons_append, rightBracesSeparatedFrom, hcl, if_false] at h
    by_cases hc : c = _rightBrace
    · simp only [hc, if_true, Bool.and_eq_true] at h
      by_cases hcs : _rightBrace ∈ cs
      · exact ih true h.2 hcsl hcs
      · clear ih hr hl
        have h2 := h.2
        clear h
        induction cs with
        | nil => simpa using h2
        | cons d ds ihd =>
          have hd1 : d ≠ _leftBrace := fun e => hcsl (by simp [e])
          have hd2 : d ≠ _rightBrace := fun e => hcs (by simp [e])
          simp only [List.cons_append, rightBracesSeparatedFrom, hd1, hd2, if_false] at h2
          exact ihd (fun e => hcsl (by simp [e])) (fun e => hcs (by simp [e])) h2
    · simp only [hc, if_false] at h
      have hcs : _rightBrace ∈ cs := by
        rcases List.mem_cons.1 hr with e | e
        · exact absurd e.symm hc
        · exact e
      exact ih ac h hcsl hcs


theorem takeWhile_append_of_all (p : Char → Bool) (cs t : Str) (h : ∀ x ∈ cs, p x = true) :
    (cs ++ t).takeWhile p = cs ++ t.takeWhile p ∧ (cs ++ t).dropWhile p = t.dropWhile p := by
  induction cs with
  | nil => simp
  | cons c cs ih =>
    have hc := h c (by simp)
    have := ih (fun x hx => h x (by simp [hx]))
    simp [List.takeWhile, List.dropWhile, hc, this.1, this.2]

theorem takeWhile_append_of_exists (p : Char → Bool) (cs t : Str)
    (h : ∃ x ∈ cs, p x = false) :
    (cs ++ t).takeWhile p = cs.takeWhile p ∧ (cs ++ t).dropWhile p = cs.dropWhile p ++ t := by
  induction cs with
  | nil => simp at h
  | cons c cs ih =>
    by_cases hc : p c = true
    · have h2 : ∃ x ∈ cs, p x = false := by
        obtain ⟨x, hx, hpx⟩ := h
        rcases List.mem_cons.1 hx with e | e
        · rw [e, hc] at hpx
          cases hpx
        · exact ⟨x, e, hpx⟩
      have := ih h2
      simp [List.takeWhile, List.dropWhile, hc, this.1, this.2]
    · simp [List.takeWhile, List.dropWhile, hc]

theorem regex_search_rEntry_none_of_no_leftBrace (s : Str) (h : _leftBrace ∉ s) :
    regex_search_rEntry s = none := by
  induction s with
  | nil => rfl
  | cons c cs ih =>
    have hc : c ≠ _leftBrace := fun e => h (by simp [e])
    simp [regex_search_rEntry, hc, ih (fun e => h (by simp [e]))]

theorem regex_search_rEntry_some (s m suf : Str) (h : regex_search_rEntry s = some (m, suf)) :
    ∃ pre a, s = pre ++ m ++ suf ∧ m = _leftBrace :: a ++ [_rightBrace] := by
  induction s with
  | nil => simp [regex_search_rEntry] at h
  | cons c cs ih =>
    simp only [regex_search_rEntry] at h
    by_cases hc : c = _leftBrace
    · simp only [hc, if_true] at h
      cases hsp : splitAtLastRightBrace (cs.takeWhile (fun x => x != _leftBrace)) with
      | some p =>
        obtain ⟨a, b⟩ := p
        simp only [hsp, Option.some.injEq, Prod.mk.injEq] at h
        refine ⟨[], a, ?_, h.1.symm⟩
        have h1 := splitAtLastRightBrace_some _ a b hsp
        have h2 := List.takeWhile_append_dropWhile (fun x => x != _leftBrace) cs
        rw [← h.1, ← h.2, hc]
        simp only [List.nil_append, List.cons_append, List.append_assoc, List.singleton_append,
          List.cons.injEq, true_and]
        conv_lhs => rw [← h2, h1]
        simp
      | none =>
        simp only [hsp] at h
        obtain ⟨pre, a, h1, h2⟩ := ih h
        exact ⟨c :: pre, a, by simp [h1], h2⟩
    · simp only [hc, if_false] at h
      obtain ⟨pre, a, h1, h2⟩ := ih h
      exact ⟨c :: pre, a, by simp [h1], h2⟩

theorem regex_search_rEntry_append (ac : Bool) (s t m suf : Str)
    (h : regex_search_rEntry s = some (m, suf))
    (hsep : rightBracesSeparatedFrom ac (s ++ t) = true) :
    regex_search_rEntry (s ++ t) = some (m, suf ++ t) := by
  induction s generalizing ac with
  | nil => simp [regex_search_rEntry] at h
  | cons c cs ih =>
    have hsep2 : rightBracesSeparatedFrom false (cs ++ t) = true :=
      rightBracesSeparatedFrom_suffix ac [c] (cs ++ t) (by simpa using hsep)
    simp only [regex_search_rEntry, List.cons_append, List.append_eq] at h ⊢
    by_cases hc : c = _leftBrace
    · simp only [hc, if_true] at h ⊢
      by_cases hall : ∀ x ∈ cs, (x != _leftBrace) = true
      · -- no further `{` in the first text: the segment runs on into `t`
        have hT := takeWhile_append_of_all (fun x => x != _leftBrace) cs t hall
        have htw : cs.takeWhile (fun x => x != _leftBrace) = cs :=
          List.takeWhile_eq_self_iff.2 hall
        have hdw : cs.dropWhile (fun x => x != _leftBrace) = [] :=
          List.dropWhile_eq_nil_iff.2 hall
        have hnl : _leftBrace ∉ cs := fun e => by simpa using hall _ e
        rw [htw, hdw] at h
        cases hsp : splitAtLastRightBrace cs with
        | some p =>
          obtain ⟨a, b⟩ := p
          simp only [hsp, Option.some.injEq, Prod.mk.injEq, List.append_nil] at h
          have hr : _rightBrace ∈ cs := by
            rw [splitAtLastRightBrace_some cs a b hsp]
            simp
          have h3 := rightBracesSeparatedFrom_true_takeWhile t
            (rightBracesSeparatedFrom_after false cs t hsep2 hnl hr)
          rw [hT.1, hT.2, splitAtLastRightBrace_append cs _ a b hsp h3]
          simp only [Option.some.injEq, Prod.mk.injEq]
          refine ⟨h.1, ?_⟩
          rw [← h.2, List.append_assoc, List.takeWhile_append_dropWhile]
        | none =>
          simp only [hsp] at h
          rw [regex_search_rEntry_none_of_no_leftBrace cs hnl] at h
          cases h
      · have hex : ∃ x ∈ cs, (x != _leftBrace) = false := by
          by_contra hcon
          apply hall
          intro x hx
          by_contra hx2
          exact hcon ⟨x, hx, by simpa using hx2⟩
        have hT := takeWhile_append_of_exists (fun x => x != _leftBrace) cs t hex
        rw [hT.1, hT.2]
        cases hsp : splitAtLastRightBrace (cs.takeWhile (fun x => x != _leftBrace)) with
        | some p =>
          obtain ⟨a, b⟩ := p
          simp only [hsp, Option.some.injEq, Prod.mk.injEq] at h ⊢
          exact ⟨h.1, by rw [← h.2, List.append_assoc]⟩
        | none =>
          simp only [hsp] at h ⊢
          exact ih false h hsep2
    · simp only [hc, if_false] at h ⊢
      exact ih false h hsep2


theorem jsonLoop_acc (fuel : Nat) (s : Str) (acc : List Str) :
    convertCharBufferIntoJSONentryStringsLoop fuel s acc =
      (acc ++ (convertCharBufferIntoJSONentryStringsLoop fuel s []).1,
        (convertCharBufferIntoJSONentryStringsLoop fuel s []).2) := by
  induction fuel generalizing s acc with
  | zero => simp [convertCharBufferIntoJSONentryStringsLoop]
  | succ f ih =>
    simp only [convertCharBufferIntoJSONentryStringsLoop]
    cases regex_search_rEntry s with
    | none => simp
    | some p =>
      obtain ⟨m, suf⟩ := p
      simp only []
      rw [ih suf (acc ++ _), ih suf ([] ++ _)]
      simp

theorem regex_search_rEntry_length (s m suf : Str)
    (h : regex_search_rEntry s = some (m, suf)) : suf.length + 2 ≤ s.length := by
  obtain ⟨pre, a, h1, h2⟩ := regex_search_rEntry_some s m suf h
  rw [h1, h2]
  simp
  omega

theorem jsonLoop_fuel (f1 f2 : Nat) (s : Str) (acc : List Str)
    (h1 : s.length < f1) (h2 : s.length < f2) :
    convertCharBufferIntoJSONentryStringsLoop f1 s acc =
      convertCharBufferIntoJSONentryStringsLoop f2 s acc := by
  induction f1 generalizing f2 s acc with
  | zero => omega
  | succ f ih =>
    cases f2 with
    | zero => omega
    | succ g =>
      simp only [convertCharBufferIntoJSONentryStringsLoop]
      cases hr : regex_search_rEntry s with
      | none => rfl
      | some p =>
        obtain ⟨m, suf⟩ := p
        have hl := regex_search_rEntry_length s m suf hr
        exact ih g suf _ (by omega) (by omega)

theorem jsonLoop_append (fuel : Nat) (s t : Str) (acc : List Str) (f2 f3 : Nat)
    (hf : s.length < fuel) (hsep : rightBracesSeparatedFrom false (s ++ t) = true)
    (hf2 : (s ++ t).length < f2)
    (hf3 : ((convertCharBufferIntoJSONentryStringsLoop fuel s acc).2 ++ t).length < f3) :
    convertCharBufferIntoJSONentryStringsLoop f2 (s ++ t) acc =
      convertCharBufferIntoJSONentryStringsLoop f3
        ((convertCharBufferIntoJSONentryStringsLoop fuel s acc).2 ++ t)
        (convertCharBufferIntoJSONentryStringsLoop fuel s acc).1 := by
  induction fuel generalizing s acc f2 with
  | zero => omega
  | succ f ih =>
    simp only [convertCharBufferIntoJSONentryStringsLoop] at hf3 ⊢
    cases hr : regex_search_rEntry s with
    | none =>
      simp only [hr] at hf3 ⊢
      exact jsonLoop_fuel f2 f3 (s ++ t) acc hf2 hf3
    | some p =>
      obtain ⟨m, suf⟩ := p
      simp only [hr] at hf3 ⊢
      have hl := regex_search_rEntry_length s m suf hr
      have hr2 := regex_search_rEntry_append false s t m suf hr hsep
      obtain ⟨pre, a, h1, -⟩ := regex_search_rEntry_some s m suf hr
      have hsep2 : rightBracesSeparatedFrom false (suf ++ t) = true := by
        apply rightBracesSeparatedFrom_suffix false (pre ++ m) (suf ++ t)
        rw [h1] at hsep
        simpa using hsep
      cases f2 with
      | zero => omega
      | succ g =>
        simp only [convertCharBufferIntoJSONentryStringsLoop, hr2]
        exact ih suf _ g (by omega) hsep2 (by simp at hf2 ⊢; omega) hf3

/-- C7, as amended: for every carry-over and every two consecutive chunks such that
no two `}` of the text (carry-over followed by the chunks without CR/LF) follow
each other without a `{` between them, running the JSON extractor on the first
chunk and then on the second emits the same records, and leaves the same
carry-over, as one run over both chunks. -/
theorem json_extraction_two_chunks_invariant (leftover : Str) (first second : List Char)
    (hsep : rightBracesSeparated (leftover ++ (first ++ second).filter (fun character =>
      character != _LF && character != _CR)) = true) :
    runJSONTwoChunks leftover first second =
      convertCharBufferIntoJSONentryStrings leftover (first ++ second) := by
  simp only [runJSONTwoChunks, convertCharBufferIntoJSONentryStrings, List.filter_append,
    rightBracesSeparated] at hsep ⊢
  rw [← List.append_assoc] at hsep ⊢
  rw [jsonLoop_append _ _ _ [] _ _ (Nat.lt_succ_self _) hsep (Nat.lt_succ_self _)
    (Nat.lt_succ_self _)]
  rw [jsonLoop_acc _ _ (convertCharBufferIntoJSONentryStringsLoop _ _ []).1]

/-- C7 (amended) on two flat objects cut inside the second one. -/
theorem json_extraction_two_chunks_invariant_witness :
    runJSONTwoChunks [] "[\x7b\"a\":1\x7d,\n\x7b\"b\"".toList ":2\x7d]".toList =
      convertCharBufferIntoJSONentryStrings []
        ("[\x7b\"a\":1\x7d,\n\x7b\"b\"".toList ++ ":2\x7d]".toList) :=
  json_extraction_two_chunks_invariant [] "[\x7b\"a\":1\x7d,\n\x7b\"b\"".toList ":2\x7d]".toList
    (by decide)

/-- C7 as stated fails: the object `{"a":"}"}` cut after the first `}` yields the
record `"a":"` from the first chunk and nothing from the second, whereas one run
over the whole text yields the record `"a":"}"`. -/
theorem json_extraction_two_chunks_counterexample :
    (runJSONTwoChunks [] "\x7b\"a\":\"\x7d".toList "\"\x7d".toList).1 = ["\"a\":\"".toList] ∧
    (convertCharBufferIntoJSONentryStrings [] ("\x7b\"a\":\"\x7d".toList ++ "\"\x7d".toList)).1
      = ["\"a\":\"\x7d\"".toList] := by
  decide


/-! ## Tokenizer (C1, C2, C3)

The loop of `splitEntryByDelimiter` is first shown to compute `fields` on the
text from `poss` on; the claims are then proved on `fields`. -/

theorem takeWhile_length_add_dropWhile_length (p : Char → Bool) (s : Str) :
    (s.takeWhile p).length + (s.dropWhile p).length = s.length := by
  rw [← List.length_append, List.takeWhile_append_dropWhile]

theorem find_first_not_of_at (pre suf : Str) :
    find_first_not_of (pre ++ suf) _whitespace (pre.length : Int) =
      if suf.dropWhile isWs = [] then -1
      else ((pre.length + (suf.takeWhile isWs).length : Nat) : Int) := by
  have hlen := takeWhile_length_add_dropWhile_length isWs suf
  have hfun : (fun c => _whitespace.contains c) = isWs := rfl
  simp only [find_first_not_of, hfun, Int.toNat_ofNat, List.drop_left, List.length_append]
  rw [if_neg (by omega)]
  by_cases h : suf.dropWhile isWs = []
  · rw [if_pos h, if_neg]
    rw [h] at hlen
    simp at hlen
    omega
  · rw [if_neg h, if_pos]
    · push_cast
      rfl
    · have : 0 < (suf.dropWhile isWs).length := List.length_pos.2 h
      omega

theorem find_first_of_at (pre suf : Str) (d : Char) :
    find_first_of (pre ++ suf) d (pre.length : Int) =
      if suf.dropWhile (fun x => x != d) = [] then -1
      else ((pre.length + (suf.takeWhile (fun x => x != d)).length : Nat) : Int) := by
  have hlen := takeWhile_length_add_dropWhile_length (fun x => x != d) suf
  simp only [find_first_of, Int.toNat_ofNat, List.drop_left, List.length_append]
  rw [if_neg (by omega)]
  by_cases h : suf.dropWhile (fun x => x != d) = []
  · rw [if_pos h, if_neg]
    rw [h] at hlen
    simp at hlen
    omega
  · rw [if_neg h, if_pos]
    · push_cast
      rfl
    · have : 0 < (suf.dropWhile (fun x => x != d)).length := List.length_pos.2 h
      omega

theorem charAt_at (oob : Char) (pre : Str) (c : Char) (u : Str) :
    charAt oob (pre ++ c :: u) (pre.length : Int) = c := by
  simp only [charAt, Int.toNat_ofNat, List.getD_eq_getElem?_getD]
  rw [if_pos (by omega), List.getElem?_append_right (le_refl _)]
  simp

theorem substr_at (pre suf : Str) (count : Int) :
    substr (pre ++ suf) (pre.length : Int) count =
      some (if count < 0 then suf else suf.take count.toNat) := by
  simp only [substr, Int.toNat_ofNat, List.drop_left, List.length_append]
  rw [if_neg (by push_cast; omega)]
  split_ifs <;> rfl

theorem find_last_not_of_eq (line : Str) (pos : Int) (hpos : 0 ≤ pos) :
    find_last_not_of line _whitespace pos =
      (((line.take (pos.toNat + 1)).rdropWhile isWs).length : Int) - 1 := by
  have hfun : (fun c => _whitespace.contains c) = isWs := rfl
  simp only [find_last_not_of, hfun, if_neg (not_lt.2 hpos), List.rdropWhile]


theorem isWs_iff (c : Char) : isWs c = true ↔ c = _space ∨ c = _tab := by
  simp [isWs, _whitespace, _space, _tab]

theorem trimRight_prefix (s : Str) : ∃ tail, s = trimRight s ++ tail := by
  obtain ⟨t, ht⟩ := List.rdropWhile_prefix isWs (l := s)
  exact ⟨t, ht.symm⟩

theorem trimRight_ne_nil_of_head (h : Char) (t : Str) (hh : isWs h = false) :
    trimRight (h :: t) ≠ [] := by
  intro hnil
  have := (List.rdropWhile_eq_nil_iff).1 hnil h (by simp)
  rw [hh] at this
  cases this

theorem trimRight_append_of_ne_nil (pre raw : Str) (hne : trimRight raw ≠ []) :
    trimRight (pre ++ raw) = pre ++ trimRight raw := by
  induction raw using List.reverseRecOn with
  | nil => exact absurd rfl hne
  | append_singleton l x ih =>
    by_cases hx : isWs x = true
    · have h1 : trimRight (l ++ [x]) = trimRight l := List.rdropWhile_concat_pos isWs l x hx
      rw [h1] at hne ⊢
      rw [← List.append_assoc]
      have h2 : trimRight (pre ++ l ++ [x]) = trimRight (pre ++ l) :=
        List.rdropWhile_concat_pos isWs _ x hx
      rw [h2, ih hne]
    · have h1 : trimRight (l ++ [x]) = l ++ [x] := List.rdropWhile_concat_neg isWs l x hx
      have h2 : trimRight (pre ++ l ++ [x]) = pre ++ l ++ [x] :=
        List.rdropWhile_concat_neg isWs _ x hx
      rw [h1, ← List.append_assoc, h2]

theorem trimRight_last (s : Str) (hne : trimRight s ≠ []) :
    ∃ init l, trimRight s = init ++ [l] ∧ isWs l = false := by
  refine ⟨(trimRight s).dropLast, (trimRight s).getLast hne,
    (List.dropLast_append_getLast hne).symm, ?_⟩
  have := List.rdropWhile_last_not isWs s hne
  simpa using this

theorem trimRight_eq_self_of_last (init : Str) (l : Char) (hl : isWs l = false) :
    trimRight (init ++ [l]) = init ++ [l] :=
  List.rdropWhile_concat_neg isWs init l (by simp [hl])

theorem take_trimRight (raw after : Str) :
    (raw ++ after).take (trimRight raw).length = trimRight raw := by
  obtain ⟨tail, h4⟩ := trimRight_prefix raw
  have e : raw ++ after = trimRight raw ++ (tail ++ after) := by
    rw [← List.append_assoc, ← h4]
  rw [e, List.take_left]

theorem trim_position (pre raw after : Str) (pos : Int) (hpos : 0 ≤ pos)
    (htake : (pre ++ raw ++ after).take (pos.toNat + 1) = pre ++ raw)
    (hne : trimRight raw ≠ []) :
    find_first_not_of (pre ++ raw ++ after) _whitespace
        (find_last_not_of (pre ++ raw ++ after) _whitespace pos) + 1 =
      ((pre.length + (trimRight raw).length : Nat) : Int) := by
  rw [find_last_not_of_eq _ _ hpos, htake]
  have h1 : (pre ++ raw).rdropWhile isWs = pre ++ trimRight raw :=
    trimRight_append_of_ne_nil pre raw hne
  obtain ⟨init, l, h2, h3⟩ := trimRight_last raw hne
  obtain ⟨tail, h4⟩ := trimRight_prefix raw
  rw [h1, h2]
  have h5 : pre ++ raw ++ after = (pre ++ init) ++ (l :: (tail ++ after)) := by
    rw [h4, h2]
    simp
  have h6 : (((pre ++ (init ++ [l])).length : Nat) : Int) - 1 = ((pre ++ init).length : Int) := by
    simp
    omega
  rw [h6, h5, find_first_not_of_at]
  simp [List.dropWhile, List.takeWhile, h3]
  omega

theorem emplace_at_delimiter (oob : Char) (pre raw after : Str) (acc : List Str)
    (hraw : ∀ h t, raw = h :: t → isWs h = false) :
    emplaceSpacesFreeFieldInVector oob (pre ++ raw ++ after) acc (pre.length : Int)
        ((pre.length + raw.length : Nat) : Int) = some (acc ++ [trimRight raw]) := by
  have hpose : ((pre.length + raw.length : Nat) : Int) ≠ -1 := by omega
  simp only [emplaceSpacesFreeFieldInVector, if_neg hpose]
  by_cases hC : (charAt oob (pre ++ raw ++ after) (((pre.length + raw.length : Nat) : Int) - 1)
      = _space ∨ charAt oob (pre ++ raw ++ after) (((pre.length + raw.length : Nat) : Int) - 1)
      = _tab) ∧ ((pre.length + raw.length : Nat) : Int) - (pre.length : Int) > 1
  · rw [if_pos hC]
    have hlen : 1 < raw.length := by
      have := hC.2
      omega
    obtain ⟨h, t, rfl⟩ : ∃ h t, raw = h :: t := by
      cases raw with
      | nil => simp at hlen
      | cons h t => exact ⟨h, t, rfl⟩
    have hne := trimRight_ne_nil_of_head h t (hraw h t rfl)
    have htake : (pre ++ h :: t ++ after).take
        ((((pre.length + (h :: t).length : Nat) : Int) - 1).toNat + 1) = pre ++ h :: t := by
      have : (((pre.length + (h :: t).length : Nat) : Int) - 1).toNat + 1
          = (pre ++ h :: t).length := by
        simp
        omega
      rw [this, List.take_left]
    rw [trim_position pre (h :: t) after _ (by simp; omega) htake hne, List.append_assoc,
      substr_at]
    have h5 : ¬ (((pre.length + (trimRight (h :: t)).length : Nat) : Int) - (pre.length : Int) < 0) := by
      omega
    have h6 : (((pre.length + (trimRight (h :: t)).length : Nat) : Int) - (pre.length : Int)).toNat
        = (trimRight (h :: t)).length := by omega
    rw [if_neg h5, h6, take_trimRight]
    rfl
  · rw [if_neg hC, List.append_assoc, substr_at]
    have h5 : ¬ (((pre.length + raw.length : Nat) : Int) - (pre.length : Int) < 0) := by omega
    have h6 : (((pre.length + raw.length : Nat) : Int) - (pre.length : Int)).toNat
        = raw.length := by omega
    rw [if_neg h5, h6]
    simp only [List.take_left, Option.map_some', Option.some.injEq, List.append_cancel_left_eq,
      List.cons.injEq, and_true]
    -- the field is already free of trailing white space
    induction raw using List.reverseRecOn with
    | nil => rfl
    | append_singleton init l _ =>
      cases init with
      | nil =>
        exact (trimRight_eq_self_of_last [] l (hraw l [] rfl)).symm
      | cons h t =>
        have hc : charAt oob (pre ++ (h :: t ++ [l]) ++ after)
            (((pre.length + (h :: t ++ [l]).length : Nat) : Int) - 1) = l := by
          have e1 : pre ++ (h :: t ++ [l]) ++ after = (pre ++ h :: t) ++ l :: after := by simp
          have e2 : ((pre.length + (h :: t ++ [l]).length : Nat) : Int) - 1
              = ((pre ++ h :: t).length : Int) := by
            simp
            omega
          rw [e1, e2, charAt_at]
        rw [hc] at hC
        have hl : isWs l = false := by
          cases hw : isWs l with
          | false => rfl
          | true =>
            exfalso
            apply hC
            refine ⟨(isWs_iff l).1 hw, ?_⟩
            have : (h :: t ++ [l]).length = t.length + 2 := by simp
            omega
        exact (trimRight_eq_self_of_last (h :: t) l hl).symm

theorem emplace_at_end (oob : Char) (pre : Str) (h : Char) (u : Str) (acc : List Str)
    (hh : isWs h = false) :
    emplaceSpacesFreeFieldInVector oob (pre ++ h :: u) acc (pre.length : Int) (-1)
      = some (acc ++ [trimRight (h :: u)]) := by
  simp only [emplaceSpacesFreeFieldInVector, if_true]
  have hne := trimRight_ne_nil_of_head h u hh
  obtain ⟨init, l, hil⟩ : ∃ init l, h :: u = init ++ [l] :=
    ⟨(h :: u).dropLast, (h :: u).getLast (by simp),
      (List.dropLast_append_getLast (by simp)).symm⟩
  have hc : charAt oob (pre ++ h :: u) (((pre ++ h :: u).length : Int) - 1) = l := by
    have e1 : pre ++ h :: u = (pre ++ init) ++ l :: [] := by
      rw [hil]
      simp
    have e2 : ((pre ++ h :: u).length : Int) - 1 = ((pre ++ init).length : Int) := by
      rw [hil]
      simp
      omega
    rw [e2]
    conv_lhs => rw [e1]
    rw [charAt_at]
  rw [hc]
  by_cases hw : isWs l = true
  · rw [if_pos ((isWs_iff l).1 hw)]
    have htake : (pre ++ h :: u ++ []).take
        ((((pre ++ h :: u).length : Nat) : Int).toNat + 1) = pre ++ h :: u := by
      simp
      omega
    have := trim_position pre (h :: u) [] ((pre ++ h :: u).length : Int) (by omega) htake hne
    simp only [List.append_nil] at this
    rw [this, substr_at]
    have h5 : ¬ (((pre.length + (trimRight (h :: u)).length : Nat) : Int) - (pre.length : Int) < 0) := by
      omega
    have h6 : (((pre.length + (trimRight (h :: u)).length : Nat) : Int) - (pre.length : Int)).toNat
        = (trimRight (h :: u)).length := by omega
    rw [if_neg h5, h6]
    have h7 := take_trimRight (h :: u) []
    rw [List.append_nil] at h7
    rw [h7]
    rfl
  · have hl : isWs l = false := by simpa using hw
    have hnot : ¬ (l = _space ∨ l = _tab) := fun e => hw ((isWs_iff l).2 e)
    rw [if_neg hnot, substr_at, if_pos (by omega), hil, trimRight_eq_self_of_last init l hl]
    rfl


theorem quotedLoop_eq (oob d : Char) (u : Str) :
    ∀ (p : Str) (fuel nq : Nat) (odd : Bool), u.length ≤ fuel →
      (nq % 2 ≠ 0 ↔ odd = true) →
      getDoubleQuottedFieldEndingLoop oob (p ++ u) d fuel nq p.length
        = p.length + quotedRun d odd u := by
  induction u with
  | nil =>
    intro p fuel nq odd _ _
    cases fuel with
    | zero => simp [getDoubleQuottedFieldEndingLoop, quotedRun]
    | succ f => simp [getDoubleQuottedFieldEndingLoop, quotedRun]
  | cons c cs ih =>
    intro p fuel nq odd hf hodd
    cases fuel with
    | zero => simp at hf
    | succ f =>
      have hc : charAt oob (p ++ c :: cs) (p.length : Int) = c := charAt_at oob p c cs
      have hc2 : charAt oob (p ++ c :: cs) ((p.length : Nat) : Int) = c := hc
      simp only [getDoubleQuottedFieldEndingLoop, quotedRun, hc2]
      have hlt : p.length < (p ++ c :: cs).length := by simp
      by_cases hcond : nq % 2 ≠ 0 ∨ c ≠ d
      · rw [if_pos ⟨hlt, hcond⟩]
        have hq : ¬ (odd = false ∧ c = d) := by
          rintro ⟨h1, h2⟩
          rcases hcond with h | h
          · rw [hodd.1 h] at h1
            cases h1
          · exact h h2
        rw [if_neg hq]
        have e1 : p ++ c :: cs = (p ++ [c]) ++ cs := by simp
        have e2 : p.length + 1 = (p ++ [c]).length := by simp
        rw [e1, e2, ih (p ++ [c]) f _ (if c = _quotationMark then !odd else odd)
          (by simpa using hf)]
        · simp
          omega
        · by_cases hqm : c = _quotationMark
          · simp only [hqm, if_true]
            cases odd with
            | false =>
              have : ¬ (nq % 2 ≠ 0) := fun h => by simpa using hodd.1 h
              simp
              omega
            | true =>
              have : nq % 2 ≠ 0 := hodd.2 rfl
              simp
              omega
          · simp only [hqm, if_false]
            exact hodd
      · rw [if_neg (fun h => hcond h.2)]
        have hq : odd = false ∧ c = d := by
          constructor
          · cases odd with
            | false => rfl
            | true => exact absurd (Or.inl (hodd.2 rfl)) hcond
          · by_contra h
            exact hcond (Or.inr h)
        rw [if_pos hq]
        rfl

theorem getDoubleQuottedFieldEnding_at (oob d : Char) (pre u : Str) :
    getDoubleQuottedFieldEnding oob (pre ++ _quotationMark :: u) (pre.length : Int) d =
      ((pre.length + (1 + quotedRun d true u) : Nat) : Int) := by
  have e1 : pre ++ _quotationMark :: u = (pre ++ [_quotationMark]) ++ u := by simp
  have e2 : ((pre.length : Int) + 1).toNat = (pre ++ [_quotationMark]).length := by
    rw [List.length_append, List.length_singleton]
    omega
  simp only [getDoubleQuottedFieldEnding]
  rw [e2, e1, quotedLoop_eq oob d u (pre ++ [_quotationMark]) _ 1 true (by simp; omega)
    (by simp)]
  simp
  omega

theorem quotedRun_le (d : Char) (u : Str) (odd : Bool) : quotedRun d odd u ≤ u.length := by
  induction u generalizing odd with
  | nil => simp [quotedRun]
  | cons c cs ih =>
    simp only [quotedRun]
    by_cases hq : odd = false ∧ c = d
    · rw [if_pos hq]
      exact Nat.zero_le _
    · rw [if_neg hq]
      have := ih (if c = _quotationMark then !odd else odd)
      simp only [List.length_cons]
      omega

theorem splitLoop_exit_pose (oob d : Char) (line : Str) (fuel : Nat) (poss : Int)
    (acc : List Str) :
    splitEntryByDelimiterLoop oob line d (fuel + 1) poss (-1) acc = some acc := by
  simp [splitEntryByDelimiterLoop]

theorem splitLoop_exit_poss (oob d : Char) (line : Str) (fuel : Nat) (poss pose : Int)
    (acc : List Str) (h : (line.length : Int) < poss) :
    splitEntryByDelimiterLoop oob line d (fuel + 1) poss pose acc = some acc := by
  simp only [splitEntryByDelimiterLoop]
  rw [if_neg (fun hc => by omega)]

theorem dropWhile_head_false (p : Char → Bool) (s : Str) (c : Char) (u : Str)
    (h : s.dropWhile p = c :: u) : p c = false := by
  induction s with
  | nil => simp at h
  | cons x xs ih =>
    by_cases hx : p x = true
    · simp only [List.dropWhile, hx] at h
      exact ih h
    · simp only [List.dropWhile, hx] at h
      simp only [List.cons.injEq] at h
      rw [← h.1]
      simpa using hx

theorem nextField_rest_length (d : Char) (text f rest : Str)
    (h : nextField d text = (f, some rest)) : rest.length + 1 ≤ text.length := by
  have hlen := takeWhile_length_add_dropWhile_length isWs text
  simp only [nextField] at h
  cases hdw : text.dropWhile isWs with
  | nil => simp [hdw] at h
  | cons c u =>
    rw [hdw] at hlen
    simp only [hdw] at h
    by_cases hq : c = _quotationMark
    · simp only [hq, if_true, Prod.mk.injEq] at h
      cases hdr : u.drop (quotedRun d true u) with
      | nil => simp [hdr] at h
      | cons x r =>
        simp only [hdr, Option.some.injEq] at h
        have h1 : (u.drop (quotedRun d true u)).length = r.length + 1 := by simp [hdr]
        rw [List.length_drop] at h1
        rw [← h.2]
        simp at hlen
        omega
    · simp only [hq, if_false, Prod.mk.injEq] at h
      have hlen2 := takeWhile_length_add_dropWhile_length (fun x => x != d) (c :: u)
      cases hdr : (c :: u).dropWhile (fun x => x != d) with
      | nil => simp [hdr] at h
      | cons x r =>
        simp only [hdr, Option.some.injEq] at h
        rw [hdr] at hlen2
        rw [← h.2]
        simp at hlen hlen2
        omega


theorem splitLoop_eq_fields (oob d : Char) :
    ∀ (fuel : Nat) (pre suf : Str) (pose : Int) (acc : List Str) (f2 : Nat),
      pose ≠ -1 → suf.length + 2 ≤ fuel → suf.length + 1 ≤ f2 →
      splitEntryByDelimiterLoop oob (pre ++ suf) d fuel (pre.length : Int) pose acc =
        some (acc ++ fieldsFuel d f2 suf) := by
  intro fuel
  induction fuel with
  | zero =>
    intro pre suf pose acc f2 _ h
    omega
  | succ f ih =>
    intro pre suf pose acc f2 hpose hf hf2
    obtain ⟨g, hg⟩ : ∃ g, f = g + 1 := ⟨f - 1, by omega⟩
    obtain ⟨k, rfl⟩ : ∃ k, f2 = k + 1 := ⟨f2 - 1, by omega⟩
    rw [splitEntryByDelimiterLoop]
    have hcond : ((pre.length : Int) ≤ ((pre ++ suf).length : Int)) ∧ pose ≠ -1 :=
      ⟨by simp, hpose⟩
    rw [if_pos hcond]
    have hlen := takeWhile_length_add_dropWhile_length isWs suf
    have hsplit := List.takeWhile_append_dropWhile isWs suf
    cases hdw : suf.dropWhile isWs with
    | nil =>
      have hnf : nextField d suf = ([], none) := by simp [nextField, hdw]
      simp only [fieldsFuel, hnf]
      by_cases hs : suf = []
      · subst hs
        rw [if_pos (by simp), hg, splitLoop_exit_pose]
        rfl
      · have hne : ¬ ((pre.length : Int) = ((pre ++ suf).length : Int)) := by
          have := List.length_pos.2 hs
          rw [List.length_append]
          push_cast
          omega
        rw [if_neg hne]
        simp only [find_first_not_of_at, hdw, if_true]
        rw [hg, splitLoop_exit_pose]
        rfl
    | cons c u =>
      rw [hdw] at hlen hsplit
      have hcws : isWs c = false := dropWhile_head_false isWs suf c u hdw
      have hs : suf ≠ [] := by
        intro e
        rw [e] at hdw
        simp at hdw
      have hne : ¬ ((pre.length : Int) = ((pre ++ suf).length : Int)) := by
        have := List.length_pos.2 hs
        rw [List.length_append]
        push_cast
        omega
      rw [if_neg hne]
      have hff : find_first_not_of (pre ++ suf) _whitespace (pre.length : Int) =
          (((pre ++ suf.takeWhile isWs).length : Nat) : Int) := by
        rw [find_first_not_of_at, hdw, if_neg (by simp), List.length_append]
      have hline : pre ++ suf = (pre ++ suf.takeWhile isWs) ++ c :: u := by
        rw [List.append_assoc, hsplit]
      simp only [hff]
      rw [if_neg (by omega)]
      generalize hP : pre ++ suf.takeWhile isWs = P at hline
      have hPlen : P.length = pre.length + (suf.takeWhile isWs).length := by
        rw [← hP, List.length_append]
      rw [hline, charAt_at]
      by_cases hq : c = _quotationMark
      · -- a quoted field
        subst hq
        rw [if_pos rfl, getDoubleQuottedFieldEnding_at]
        have hkle := quotedRun_le d u true
        have hu := List.take_append_drop (quotedRun d true u) u
        have hraw : ∀ h t, _quotationMark :: u.take (quotedRun d true u) = h :: t →
            isWs h = false := by
          intro h t e
          simp only [List.cons.injEq] at e
          rw [← e.1]
          exact hcws
        have hrawlen : (_quotationMark :: u.take (quotedRun d true u)).length
            = 1 + quotedRun d true u := by
          simp [List.length_take]
          omega
        have hline2 : P ++ _quotationMark :: u = P ++ (_quotationMark :: u.take (quotedRun d true u))
            ++ u.drop (quotedRun d true u) := by
          simp [hu]
        have hem := emplace_at_delimiter oob P (_quotationMark :: u.take (quotedRun d true u))
          (u.drop (quotedRun d true u)) acc hraw
        rw [hrawlen, ← hline2] at hem
        rw [hem]
        simp only []
        cases hdr : u.drop (quotedRun d true u) with
        | nil =>
          have hnf : nextField d suf =
              (trimRight (_quotationMark :: u.take (quotedRun d true u)), none) := by
            simp [nextField, hdw, hdr]
          simp only [fieldsFuel, hnf]
          have hul : u.length = quotedRun d true u := by
            have := congrArg List.length hdr
            simp at this
            omega
          rw [hg, splitLoop_exit_poss]
          simp
          omega
        | cons x rest =>
          have hnf : nextField d suf =
              (trimRight (_quotationMark :: u.take (quotedRun d true u)), some rest) := by
            simp [nextField, hdw, hdr]
          simp only [fieldsFuel, hnf]
          have hul : u.length = quotedRun d true u + (rest.length + 1) := by
            have := congrArg List.length hdr
            simp at this
            omega
          have hline3 : P ++ _quotationMark :: u =
              (P ++ (_quotationMark :: u.take (quotedRun d true u)) ++ [x]) ++ rest := by
            rw [hline2, hdr]
            simp
          have hposs : ((P.length + (1 + quotedRun d true u) : Nat) : Int) + 1 =
              (((P ++ (_quotationMark :: u.take (quotedRun d true u)) ++ [x]).length : Nat) : Int) := by
            rw [List.length_append, List.length_append, hrawlen]
            simp
          simp only [List.length_cons] at hlen
          rw [hposs, hline3, ih _ rest _ _ k (by omega) (by omega) (by omega)]
          simp
      · -- an unquoted field
        rw [if_neg hq, find_first_of_at]
        have hlen2 := takeWhile_length_add_dropWhile_length (fun x => x != d) (c :: u)
        have hsplit2 := List.takeWhile_append_dropWhile (fun x => x != d) (c :: u)
        cases hdr : (c :: u).dropWhile (fun x => x != d) with
        | nil =>
          have hnf : nextField d suf = (trimRight (c :: u), none) := by
            rw [hdr, List.append_nil] at hsplit2
            simp only [nextField, hdw, hq, if_false, hdr, hsplit2]
          simp only [fieldsFuel, hnf, if_true]
          rw [emplace_at_end oob P c u acc hcws]
          simp only []
          rw [hg, splitLoop_exit_pose]
        | cons x rest =>
          have hnf : nextField d suf =
              (trimRight ((c :: u).takeWhile (fun x => x != d)), some rest) := by
            simp only [nextField, hdw, hq, if_false, hdr]
          simp only [fieldsFuel, hnf]
          rw [if_neg (by simp)]
          rw [hdr] at hlen2 hsplit2
          have hraw : ∀ h t, (c :: u).takeWhile (fun x => x != d) = h :: t →
              isWs h = false := by
            intro h t e
            by_cases hcd : (c != d) = true
            · simp only [List.takeWhile, hcd, List.cons.injEq] at e
              rw [← e.1]
              exact hcws
            · simp [List.takeWhile, hcd] at e
          have hline2 : P ++ c :: u = P ++ (c :: u).takeWhile (fun x => x != d)
              ++ x :: rest := by
            rw [List.append_assoc, hsplit2]
          have hem := emplace_at_delimiter oob P ((c :: u).takeWhile (fun x => x != d))
            (x :: rest) acc hraw
          rw [← hline2] at hem
          rw [hem]
          simp only []
          have hline3 : P ++ c :: u =
              (P ++ (c :: u).takeWhile (fun x => x != d) ++ [x]) ++ rest := by
            rw [hline2]
            simp
          have hposs : ((P.length + ((c :: u).takeWhile (fun x => x != d)).length : Nat) : Int)
              + 1 = (((P ++ (c :: u).takeWhile (fun x => x != d) ++ [x]).length : Nat) : Int) := by
            rw [List.length_append, List.length_append]
            simp
          simp only [List.length_cons] at hlen2 hlen
          rw [hposs, hline3, ih _ rest _ _ k (by omega) (by omega) (by omega)]
          simp

theorem fieldsFuel_eq (d : Char) (f1 f2 : Nat) (text : Str)
    (h1 : text.length + 1 ≤ f1) (h2 : text.length + 1 ≤ f2) :
    fieldsFuel d f1 text = fieldsFuel d f2 text := by
  induction f1 generalizing f2 text with
  | zero => omega
  | succ f ih =>
    cases f2 with
    | zero => omega
    | succ g =>
      simp only [fieldsFuel]
      cases hnf : nextField d text with
      | mk fld o =>
        cases o with
        | none => rfl
        | some rest =>
          have := nextField_rest_length d text fld rest hnf
          simp only []
          rw [ih g rest (by omega) (by omega)]

/-- The tokenizer computes `fields`: it never throws and never runs out of the
turns granted to its loop. -/
theorem splitEntryByDelimiter_eq_fields (oob d : Char) (line : Str) (acc : List Str) :
    splitEntryByDelimiter oob line acc d = some (acc ++ fields d line) := by
  have := splitLoop_eq_fields oob d (line.length + 2) [] line 0 acc (line.length + 1)
    (by decide) (le_refl _) (le_refl _)
  simpa [splitEntryByDelimiter, fields] using this

theorem fields_unfold (d : Char) (text : Str) :
    fields d text =
      match nextField d text with
      | (f, none) => [f]
      | (f, some rest) => f :: fields d rest := by
  show fieldsFuel d (text.length + 1) text = _
  rw [fieldsFuel]
  cases hnf : nextField d text with
  | mk fld o =>
    cases o with
    | none => rfl
    | some rest =>
      have := nextField_rest_length d text fld rest hnf
      simp only [fields]
      rw [fieldsFuel_eq d text.length (rest.length + 1) rest (by omega) (le_refl _)]


theorem segments_unfold (d : Char) (s : Str) :
    segments d s = s.takeWhile (fun x => x != d) ::
      (match s.dropWhile (fun x => x != d) with
        | [] => []
        | _ :: rest => segments d rest) := by
  induction s with
  | nil => rfl
  | cons c cs ih =>
    by_cases hc : c = d
    · simp [segments, hc, List.takeWhile, List.dropWhile]
    · have hne : (c != d) = true := by simpa using hc
      rw [segments, if_neg hc, ih]
      simp [List.takeWhile, List.dropWhile, hne]

theorem segments_length (d : Char) (s : Str) : (segments d s).length = s.count d + 1 := by
  induction s with
  | nil => rfl
  | cons c cs ih =>
    by_cases hc : c = d
    · subst hc
      simp [segments, ih]
    · rw [segments, if_neg hc]
      have hcount : (c :: cs).count d = cs.count d := by
        rw [List.count_cons]
        simp [hc]
      cases hs : segments d cs with
      | nil => simp [hs] at ih
      | cons x xs =>
        rw [hs] at ih
        simp only [List.length_cons] at ih ⊢
        omega

theorem segments_append_delimiter (d : Char) (s : Str) :
    segments d (s ++ [d]) = segments d s ++ [[]] := by
  induction s with
  | nil => simp [segments]
  | cons c cs ih =>
    by_cases hc : c = d
    · simp [segments, hc, ih]
    · simp only [List.cons_append, segments, if_neg hc, List.append_eq]
      rw [ih]
      cases hs : segments d cs with
      | nil =>
        have := segments_length d cs
        rw [hs] at this
        simp at this
      | cons x xs => simp

theorem isWs_ne_delimiter (d c : Char) (hd : d ≠ _space ∧ d ≠ _tab) (hc : isWs c = true) :
    (c != d) = true := by
  rcases (isWs_iff c).1 hc with e | e
  · simp [e, Ne.symm hd.1]
  · simp [e, Ne.symm hd.2]

theorem trim_segment_eq (d : Char) (hd : d ≠ _space ∧ d ≠ _tab) (s : Str) (c : Char) (u : Str)
    (hdw : s.dropWhile isWs = c :: u) :
    trim (s.takeWhile (fun x => x != d)) = trimRight ((c :: u).takeWhile (fun x => x != d)) ∧
    s.dropWhile (fun x => x != d) = (c :: u).dropWhile (fun x => x != d) := by
  have hsplit := List.takeWhile_append_dropWhile isWs s
  rw [hdw] at hsplit
  have hall : ∀ x ∈ s.takeWhile isWs, (fun x => x != d) x = true := by
    intro x hx
    exact isWs_ne_delimiter d x hd (List.mem_takeWhile_imp hx)
  have h := takeWhile_append_of_all (fun x => x != d) (s.takeWhile isWs) (c :: u) hall
  rw [hsplit] at h
  refine ⟨?_, h.2⟩
  rw [h.1, trim]
  congr 1
  have hcws : isWs c = false := dropWhile_head_false isWs s c u hdw
  have hallws : ∀ x ∈ s.takeWhile isWs, isWs x = true := fun x hx => List.mem_takeWhile_imp hx
  by_cases hcd : (c != d) = true
  · have : (c :: u).takeWhile (fun x => x != d) = c :: u.takeWhile (fun x => x != d) := by
      simp [List.takeWhile, hcd]
    rw [this, (takeWhile_append_of_all isWs _ _ hallws).2]
    simp [List.dropWhile, hcws]
  · have : (c :: u).takeWhile (fun x => x != d) = [] := by
      simp [List.takeWhile, hcd]
    rw [this, (takeWhile_append_of_all isWs _ _ hallws).2]
    rfl

theorem fields_eq_segments (d : Char) (hd : d ≠ _space ∧ d ≠ _tab) :
    ∀ (n : Nat) (line : Str), line.length ≤ n → _quotationMark ∉ line →
      fields d line = (segments d line).map trim := by
  intro n
  induction n with
  | zero =>
    intro line hl _
    have : line = [] := List.length_eq_zero.1 (by omega)
    subst this
    rfl
  | succ n ih =>
    intro line hl hq
    rw [fields_unfold, segments_unfold]
    cases hdw : line.dropWhile isWs with
    | nil =>
      have hall : ∀ x ∈ line, isWs x = true := List.dropWhile_eq_nil_iff.1 hdw
      have hall2 : ∀ x ∈ line, (fun x => x != d) x = true :=
        fun x hx => isWs_ne_delimiter d x hd (hall x hx)
      have h1 : line.takeWhile (fun x => x != d) = line := List.takeWhile_eq_self_iff.2 hall2
      have h2 : line.dropWhile (fun x => x != d) = [] := List.dropWhile_eq_nil_iff.2 hall2
      simp only [nextField, hdw, h1, h2, List.map_cons, List.map_nil, trim]
      rfl
    | cons c u =>
      have hsplit := List.takeWhile_append_dropWhile isWs line
      rw [hdw] at hsplit
      have hcq : c ≠ _quotationMark := by
        intro e
        apply hq
        rw [← hsplit, e]
        simp
      obtain ⟨h1, h2⟩ := trim_segment_eq d hd line c u hdw
      simp only [nextField, hdw, if_neg hcq, List.map_cons, h1, h2]
      cases hdr : (c :: u).dropWhile (fun x => x != d) with
      | nil => simp
      | cons x rest =>
        simp only [List.cons.injEq, true_and]
        have hlen := nextField_rest_length d line
          (trimRight ((c :: u).takeWhile (fun x => x != d))) rest
          (by simp only [nextField, hdw, if_neg hcq, hdr])
        apply ih rest (by omega)
        intro hmem
        apply hq
        have hsub : rest.Sublist line := by
          have e1 : (x :: rest).Sublist (c :: u) := by
            rw [← hdr]
            exact (List.dropWhile_suffix _).sublist
          have e2 : (c :: u).Sublist line := by
            rw [← hdw]
            exact (List.dropWhile_suffix _).sublist
          exact ((List.sublist_cons_self x rest).trans e1).trans e2
        exact hsub.subset hmem

/-- C3: on a line without double quote, for a delimiter other than space and tab,
`splitEntryByDelimiter` returns the delimiter-separated segments of the line in
order, each without its leading and trailing spaces and tabs; there is one field
more than there are delimiters, and a line ending with the delimiter yields a
final empty field. -/
theorem splitEntryByDelimiter_unquoted (oob d : Char) (line : Str)
    (hq : _quotationMark ∉ line) (hd : d ≠ _space ∧ d ≠ _tab) :
    splitEntryByDelimiter oob line [] d = some ((segments d line).map trim) ∧
    ((segments d line).map trim).length = line.count d + 1 ∧
    (∀ init, line = init ++ [d] → ((segments d line).map trim).getLast? = some []) := by
  refine ⟨?_, ?_, ?_⟩
  · rw [splitEntryByDelimiter_eq_fields, fields_eq_segments d hd line.length line (le_refl _) hq]
    rfl
  · rw [List.length_map, segments_length]
  · intro init hinit
    rw [hinit, segments_append_delimiter, List.map_append]
    simp [trim, trimRight]

/-- C3 on the line `a b , c,` with delimiter `,`. -/
theorem splitEntryByDelimiter_unquoted_witness :
    splitEntryByDelimiter 'x' " a b , c,".toList [] ',' =
        some ((segments ',' " a b , c,".toList).map trim) ∧
    ((segments ',' " a b , c,".toList).map trim).length = " a b , c,".toList.count ',' + 1 ∧
    (∀ init, " a b , c,".toList = init ++ [','] →
      ((segments ',' " a b , c,".toList).map trim).getLast? = some []) :=
  splitEntryByDelimiter_unquoted 'x' ',' " a b , c,".toList (by decide) (by decide)


theorem quotedRun_append (d : Char) (p q : Str) (odd : Bool) :
    quotedRun d odd (p ++ q) =
      if quotedRun d odd p < p.length then quotedRun d odd p
      else p.length + quotedRun d (parityAfter odd p) q := by
  induction p generalizing odd with
  | nil => simp [quotedRun, parityAfter]
  | cons c cs ih =>
    simp only [List.cons_append, quotedRun, parityAfter, List.length_cons, List.append_eq]
    by_cases hstop : odd = false ∧ c = d
    · rw [if_pos hstop, if_pos hstop]
      simp
    · rw [if_neg hstop, if_neg hstop, ih]
      split_ifs <;> omega

theorem quotedRun_no_quote (d : Char) (s : Str) (hs : _quotationMark ∉ s) :
    quotedRun d true s = s.length ∧ parityAfter true s = true := by
  induction s with
  | nil => simp [quotedRun, parityAfter]
  | cons c cs ih =>
    have hc : c ≠ _quotationMark := fun e => hs (by simp [e])
    have := ih (fun e => hs (by simp [e]))
    simp only [quotedRun, parityAfter, if_neg hc, this.1, this.2, List.length_cons]
    simp
    omega

theorem parityAfter_append (odd : Bool) (p q : Str) :
    parityAfter odd (p ++ q) = parityAfter (parityAfter odd p) q := by
  induction p generalizing odd with
  | nil => rfl
  | cons c cs ih => simp only [List.cons_append, parityAfter, List.append_eq, ih]

theorem parityAfter_no_quote (odd : Bool) (s : Str) (hs : _quotationMark ∉ s) :
    parityAfter odd s = odd := by
  induction s with
  | nil => rfl
  | cons c cs ih =>
    have hc : c ≠ _quotationMark := fun e => hs (by simp [e])
    simp only [parityAfter, if_neg hc]
    exact ih (fun e => hs (by simp [e]))

theorem isWs_quotationMark : isWs _quotationMark = false := by decide

theorem nextField_quoted (d : Char) (s rest : Str) (hs : _quotationMark ∉ s) :
    nextField d (_quotationMark :: s ++ _quotationMark :: d :: rest) =
      (_quotationMark :: s ++ [_quotationMark], some rest) := by
  have h1 := quotedRun_no_quote d s hs
  have hrun : quotedRun d true (s ++ _quotationMark :: d :: rest) = s.length + 1 := by
    rw [quotedRun_append, h1.1, if_neg (lt_irrefl _), h1.2]
    simp [quotedRun]
  have e1 : s ++ _quotationMark :: d :: rest = (s ++ [_quotationMark]) ++ d :: rest := by simp
  have e2 : s.length + 1 = (s ++ [_quotationMark]).length := by simp
  simp only [nextField, List.cons_append, List.dropWhile, isWs_quotationMark, if_true,
    List.append_eq, hrun]
  rw [e1, e2, List.take_left, List.drop_left]
  simp only [Prod.mk.injEq, and_true]
  have := trimRight_eq_self_of_last (_quotationMark :: s) _quotationMark isWs_quotationMark
  simpa using this

/-- C2: for every text `s` without double quote, every delimiter `d` and every text
`rest`, `splitEntryByDelimiter` applied to `"s"` followed by `d` and `rest`
returns the field `"s"` (quotes kept, the delimiters inside `s` not splitting it)
followed by exactly the fields it returns for `rest`. -/
theorem splitEntryByDelimiter_quoted_field (oob d : Char) (s rest : Str)
    (hs : _quotationMark ∉ s) :
    ∃ fs, splitEntryByDelimiter oob rest [] d = some fs ∧
      splitEntryByDelimiter oob (_quotationMark :: s ++ _quotationMark :: d :: rest) [] d =
        some ((_quotationMark :: s ++ [_quotationMark]) :: fs) := by
  refine ⟨fields d rest, ?_, ?_⟩
  · rw [splitEntryByDelimiter_eq_fields]
    rfl
  · rw [splitEntryByDelimiter_eq_fields, fields_unfold, nextField_quoted d s rest hs]
    rfl

/-- C2 on the record `"a, b",c,d`. -/
theorem splitEntryByDelimiter_quoted_field_witness :
    ∃ fs, splitEntryByDelimiter 'x' "c,d".toList [] ',' = some fs ∧
      splitEntryByDelimiter 'x'
          (_quotationMark :: "a, b".toList ++ _quotationMark :: ',' :: "c,d".toList) [] ',' =
        some ((_quotationMark :: "a, b".toList ++ [_quotationMark]) :: fs) :=
  splitEntryByDelimiter_quoted_field 'x' ',' "a, b".toList "c,d".toList (by decide)


theorem trimRight_cons_of_not_ws (h : Char) (p : Str) (hh : isWs h = false) :
    trimRight (h :: p) = h :: trimRight p := by
  by_cases hp : trimRight p = []
  · rw [hp]
    have hall : ∀ x ∈ p, isWs x = true := List.rdropWhile_eq_nil_iff.1 hp
    clear hp
    induction p using List.reverseRecOn with
    | nil => exact trimRight_eq_self_of_last [] h hh
    | append_singleton l x ih =>
      have hx : isWs x = true := hall x (by simp)
      have e : trimRight (h :: (l ++ [x])) = trimRight (h :: l) :=
        List.rdropWhile_concat_pos isWs (h :: l) x hx
      rw [e]
      exact ih (fun y hy => hall y (by simp [hy]))
  · exact trimRight_append_of_ne_nil [h] p hp

theorem trimRight_tail_ws (p : Str) :
    ∃ tail, p = trimRight p ++ tail ∧ ∀ x ∈ tail, isWs x = true := by
  induction p using List.reverseRecOn with
  | nil => exact ⟨[], rfl, by simp⟩
  | append_singleton l x ih =>
    by_cases hx : isWs x = true
    · obtain ⟨tail, h1, h2⟩ := ih
      have e : trimRight (l ++ [x]) = trimRight l := List.rdropWhile_concat_pos isWs l x hx
      refine ⟨tail ++ [x], ?_, ?_⟩
      · rw [e, ← List.append_assoc, ← h1]
      · intro y hy
        rcases List.mem_append.1 hy with h | h
        · exact h2 y h
        · simp at h
          rw [h]
          exact hx
    · have e : trimRight (l ++ [x]) = l ++ [x] := List.rdropWhile_concat_neg isWs l x hx
      exact ⟨[], by rw [e, List.append_nil], by simp⟩

theorem trimRight_idem (p : Str) : trimRight (trimRight p) = trimRight p := by
  by_cases hp : trimRight p = []
  · rw [hp]
    rfl
  · obtain ⟨init, l, h1, h2⟩ := trimRight_last p hp
    rw [h1]
    exact trimRight_eq_self_of_last init l h2

theorem ws_no_quote (tail : Str) (h : ∀ x ∈ tail, isWs x = true) : _quotationMark ∉ tail := by
  intro hm
  have := h _ hm
  rw [isWs_quotationMark] at this
  cases this

theorem isWs_delimiter (d : Char) (hd : d ≠ _space ∧ d ≠ _tab) : isWs d = false := by
  cases h : isWs d with
  | false => rfl
  | true =>
    rcases (isWs_iff d).1 h with e | e
    · exact absurd e hd.1
    · exact absurd e hd.2

/-- A field that `nextField` returns is read back unchanged, at the end of a text
and in front of a delimiter. -/
theorem nextField_stable (d : Char)
    (hd : d ≠ _space ∧ d ≠ _tab ∧ d ≠ _quotationMark) (r f : Str) (o : Option Str)
    (hnf : nextField d r = (f, o)) :
    (o = none → nextField d f = (f, none)) ∧
    (∀ rest, o = some rest → ∀ y, nextField d (f ++ d :: y) = (f, some y)) := by
  have hdws : isWs d = false := isWs_delimiter d ⟨hd.1, hd.2.1⟩
  simp only [nextField] at hnf
  cases hdw : r.dropWhile isWs with
  | nil =>
    simp only [hdw, Prod.mk.injEq] at hnf
    rw [← hnf.1, ← hnf.2]
    exact ⟨fun _ => rfl, fun rest h => by cases h⟩
  | cons c u =>
    have hcws : isWs c = false := dropWhile_head_false isWs r c u hdw
    simp only [hdw] at hnf
    by_cases hq : c = _quotationMark
    · -- the field is a quoted field
      subst hq
      simp only [if_true, Prod.mk.injEq] at hnf
      obtain ⟨hf, ho⟩ := hnf
      have hkle := quotedRun_le d u true
      have hu := List.take_append_drop (quotedRun d true u) u
      have hplen : (u.take (quotedRun d true u)).length = quotedRun d true u := by
        rw [List.length_take]
        omega
      have hQ := quotedRun_append d (u.take (quotedRun d true u)) (u.drop (quotedRun d true u))
        true
      rw [hu, hplen] at hQ
      have hple := quotedRun_le d (u.take (quotedRun d true u)) true
      rw [hplen] at hple
      have hp1 : quotedRun d true (u.take (quotedRun d true u)) = quotedRun d true u := by
        by_contra hne
        rw [if_pos (by omega)] at hQ
        exact hne hQ.symm
      rw [if_neg (by omega)] at hQ
      obtain ⟨tail, ht1, ht2⟩ := trimRight_tail_ws (u.take (quotedRun d true u))
      have hf2 : f = _quotationMark :: trimRight (u.take (quotedRun d true u)) := by
        rw [← hf, trimRight_cons_of_not_ws _ _ hcws]
      have hQ2 := quotedRun_append d (trimRight (u.take (quotedRun d true u))) tail true
      rw [← ht1, hp1] at hQ2
      have hlen2 : (u.take (quotedRun d true u)).length =
          (trimRight (u.take (quotedRun d true u))).length + tail.length := by
        conv_lhs => rw [ht1]
        rw [List.length_append]
      have hfle := quotedRun_le d (trimRight (u.take (quotedRun d true u))) true
      have hf1 : quotedRun d true (trimRight (u.take (quotedRun d true u))) =
          (trimRight (u.take (quotedRun d true u))).length := by
        by_contra hne
        rw [if_pos (by omega)] at hQ2
        omega
      have hstable : trimRight (_quotationMark :: trimRight (u.take (quotedRun d true u))) =
          _quotationMark :: trimRight (u.take (quotedRun d true u)) := by
        rw [trimRight_cons_of_not_ws _ _ hcws, trimRight_idem]
      constructor
      · intro _
        rw [hf2]
        simp only [nextField, List.dropWhile, hcws, if_true, hf1, List.take_length,
          List.drop_length, hstable]
      · intro rest hrest y
        rw [hrest] at ho
        cases hdr : u.drop (quotedRun d true u) with
        | nil => simp [hdr] at ho
        | cons x rest2 =>
          rw [hdr] at hQ
          have hzero : quotedRun d (parityAfter true (u.take (quotedRun d true u))) (x :: rest2)
              = 0 := by omega
          have hstop : parityAfter true (u.take (quotedRun d true u)) = false ∧ x = d := by
            by_contra hc
            simp only [quotedRun, if_neg hc] at hzero
            omega
          have hpar : parityAfter true (trimRight (u.take (quotedRun d true u))) = false := by
            have e := parityAfter_append true (trimRight (u.take (quotedRun d true u))) tail
            rw [← ht1, parityAfter_no_quote _ tail (ws_no_quote tail ht2)] at e
            rw [← e]
            exact hstop.1
          have hrun : quotedRun d true (trimRight (u.take (quotedRun d true u)) ++ d :: y) =
              (trimRight (u.take (quotedRun d true u))).length := by
            rw [quotedRun_append, hf1, if_neg (lt_irrefl _), hpar]
            simp [quotedRun]
          rw [hf2]
          simp only [nextField, List.cons_append, List.dropWhile, hcws, if_true,
            List.append_eq, hrun, List.take_left, List.drop_left, hstable]
    · -- the field is not quoted
      simp only [if_neg hq, Prod.mk.injEq] at hnf
      obtain ⟨hf, ho⟩ := hnf
      have hdq : d ≠ _quotationMark := hd.2.2
      by_cases hcd : c = d
      · subst hcd
        have hseg : (c :: u).takeWhile (fun x => x != c) = [] := by simp [List.takeWhile]
        have hdrop : (c :: u).dropWhile (fun x => x != c) = c :: u := by simp [List.dropWhile]
        rw [hseg] at hf
        rw [hdrop] at ho
        have hfnil : f = [] := hf.symm
        constructor
        · intro h
          rw [h] at ho
          cases ho
        · intro rest _ y
          have hseg2 : (c :: y).takeWhile (fun x => x != c) = [] := by simp [List.takeWhile]
          have hdrop2 : (c :: y).dropWhile (fun x => x != c) = c :: y := by
            simp [List.dropWhile]
          have hws2 : (c :: y).dropWhile isWs = c :: y := by simp [List.dropWhile, hcws]
          rw [hfnil]
          simp only [List.nil_append, nextField, hws2, if_neg hdq, hseg2, hdrop2]
          rfl
      · have hne : (c != d) = true := by simpa using hcd
        have hseg : (c :: u).takeWhile (fun x => x != d) = c :: u.takeWhile (fun x => x != d) := by
          simp [List.takeWhile, hne]
        have hf2 : f = c :: trimRight (u.takeWhile (fun x => x != d)) := by
          rw [← hf, hseg, trimRight_cons_of_not_ws _ _ hcws]
        have hfall : ∀ x ∈ f, (fun x => x != d) x = true := by
          intro x hx
          obtain ⟨tail, ht⟩ := trimRight_prefix ((c :: u).takeWhile (fun x => x != d))
          have hx2 : x ∈ (c :: u).takeWhile (fun x => x != d) := by
            rw [ht, hf]
            exact List.mem_append_left _ hx
          exact List.mem_takeWhile_imp (p := fun x => x != d) hx2
        have hstable : trimRight f = f := by
          rw [← hf, trimRight_idem]
        constructor
        · intro _
          have h1 : f.takeWhile (fun x => x != d) = f := List.takeWhile_eq_self_iff.2 hfall
          have h2 : f.dropWhile (fun x => x != d) = [] := List.dropWhile_eq_nil_iff.2 hfall
          have h3 : f.dropWhile isWs = f := by
            rw [hf2]
            simp [List.dropWhile, hcws]
          simp only [nextField, h3]
          rw [hf2] at h1 h2 hstable ⊢
          simp only [if_neg hq, h1, h2, hstable]
        · intro rest _ y
          have hT := takeWhile_append_of_all (fun x => x != d) f (d :: y) hfall
          have h1 : (f ++ d :: y).takeWhile (fun x => x != d) = f := by
            rw [hT.1]
            simp [List.takeWhile]
          have h2 : (f ++ d :: y).dropWhile (fun x => x != d) = d :: y := by
            rw [hT.2]
            simp [List.dropWhile]
          have h3 : (f ++ d :: y).dropWhile isWs = f ++ d :: y := by
            rw [hf2]
            simp [List.dropWhile, hcws]
          simp only [nextField, h3]
          rw [hf2] at h1 h2 hstable ⊢
          simp only [List.cons_append] at h1 h2 ⊢
          simp only [if_neg hq, h1, h2, hstable]

theorem joinFields_cons_cons (d : Char) (f g : Str) (gs : List Str) :
    joinFields d (f :: g :: gs) = f ++ d :: joinFields d (g :: gs) := by
  simp [joinFields]

theorem fields_ne_nil (d : Char) (r : Str) : fields d r ≠ [] := by
  rw [fields_unfold]
  cases nextField d r with
  | mk f o =>
    cases o <;> simp

theorem fields_joinFields (d : Char) (hd : d ≠ _space ∧ d ≠ _tab ∧ d ≠ _quotationMark) :
    ∀ (n : Nat) (r : Str), r.length ≤ n →
      fields d (joinFields d (fields d r)) = fields d r := by
  intro n
  induction n with
  | zero =>
    intro r hr
    have : r = [] := List.length_eq_zero.1 (by omega)
    subst this
    rfl
  | succ n ih =>
    intro r hr
    rw [fields_unfold d r]
    cases hnf : nextField d r with
    | mk f o =>
      obtain ⟨h1, h2⟩ := nextField_stable d hd r f o hnf
      cases o with
      | none =>
        simp only [joinFields, List.map_nil, List.flatten_nil, List.append_nil]
        rw [fields_unfold, h1 rfl]
      | some rest =>
        simp only []
        have hlen := nextField_rest_length d r f rest hnf
        have hI := ih rest (by omega)
        obtain ⟨g, gs, hg⟩ := List.exists_cons_of_ne_nil (fields_ne_nil d rest)
        rw [hg] at hI ⊢
        rw [joinFields_cons_cons, fields_unfold, h2 rest rfl]
        simp only [hI]

/-- C1: for every record and every delimiter that is not a space, a tab or a double
quote, splitting the record with `splitEntryByDelimiter`, joining the fields with
the delimiter and splitting the joined text again gives the same fields (quoted
fields that contain the delimiter included). -/
theorem splitEntryByDelimiter_join_roundtrip (oob d : Char) (r : Str)
    (hd : d ≠ _space ∧ d ≠ _tab ∧ d ≠ _quotationMark) :
    ∃ fs, splitEntryByDelimiter oob r [] d = some fs ∧
      splitEntryByDelimiter oob (joinFields d fs) [] d = some fs := by
  refine ⟨fields d r, ?_, ?_⟩
  · rw [splitEntryByDelimiter_eq_fields]
    rfl
  · rw [splitEntryByDelimiter_eq_fields, fields_joinFields d hd r.length r (le_refl _)]
    rfl

/-- C1 on the record ` x , "a,b" ,, y ` whose second field is quoted and contains
the delimiter. -/
theorem splitEntryByDelimiter_join_roundtrip_witness :
    ∃ fs, splitEntryByDelimiter 'x' " x , \"a,b\" ,, y ".toList [] ',' = some fs ∧
      splitEntryByDelimiter 'x' (joinFields ',' fs) [] ',' = some fs :=
  splitEntryByDelimiter_join_roundtrip 'x' ',' " x , \"a,b\" ,, y ".toList (by decide)


/-! ## Column lookup by caption and row access (C11, C12, C13, C14) -/

/-- C11, as amended: looking a column up by caption (`getField`, `getColumn`,
`removeColumn`) fails with `HeaderNotAvailableException` when no header is loaded,
and with `InvalidColumnCaptionException` when the header is not empty and holds
no such caption; `removeColumn` then leaves the handler as it was. -/
theorem caption_lookup_failures (s : CsvHandlerState) (caption : Str) (rowIndex : Int) :
    (s._sourceFileHeader = [] →
      getFieldByCaption s caption rowIndex = .error .HeaderNotAvailableException ∧
      getColumnByCaption s caption = .error .HeaderNotAvailableException ∧
      removeColumnByCaption caption s = (s, .error .HeaderNotAvailableException)) ∧
    (s._sourceFileHeader ≠ [] → caption ∉ s._sourceFileHeader →
      getFieldByCaption s caption rowIndex = .error .InvalidColumnCaptionException ∧
      getColumnByCaption s caption = .error .InvalidColumnCaptionException ∧
      removeColumnByCaption caption s = (s, .error .InvalidColumnCaptionException)) := by
  constructor
  · intro h
    have hid : getColumnId s._sourceFileHeader caption = .error .HeaderNotAvailableException := by
      simp [getColumnId, h]
    simp [getFieldByCaption, getColumnByCaption, removeColumnByCaption, hid]
  · intro hne hmem
    have hemp : s._sourceFileHeader.isEmpty = false := by
      cases hh : s._sourceFileHeader with
      | nil => exact absurd hh hne
      | cons a b => rfl
    have hid : getColumnId s._sourceFileHeader caption
        = .error .InvalidColumnCaptionException := by
      simp [getColumnId, hemp, getColumnIdLoop_not_mem caption _ 0 hmem]
    simp [getFieldByCaption, getColumnByCaption, removeColumnByCaption, hid]

set_option maxRecDepth 100000 in
/-- C11 (amended) on the loaded file `name,age⏎Alice,30⏎` and the caption `city`. -/
theorem caption_lookup_failures_witness :
    getFieldByCaption (loadedHandler "name,age\nAlice,30\n".toList 0 .load_whole_file
        .include_header .stop_on_error 1) "city".toList 0
      = .error .InvalidColumnCaptionException ∧
    getColumnByCaption (loadedHandler "name,age\nAlice,30\n".toList 0 .load_whole_file
        .include_header .stop_on_error 1) "city".toList
      = .error .InvalidColumnCaptionException ∧
    removeColumnByCaption "city".toList (loadedHandler "name,age\nAlice,30\n".toList 0
        .load_whole_file .include_header .stop_on_error 1)
      = (loadedHandler "name,age\nAlice,30\n".toList 0 .load_whole_file .include_header
          .stop_on_error 1, .error .InvalidColumnCaptionException) :=
  (caption_lookup_failures (loadedHandler "name,age\nAlice,30\n".toList 0 .load_whole_file
    .include_header .stop_on_error 1) "city".toList 0).2 (by decide) (by decide)

set_option maxRecDepth 100000 in
/-- C11 as stated fails: on a loaded handler without header (the file `a,b⏎c,d⏎`
read without header) the lookup by caption throws `HeaderNotAvailableException`,
which `InvalidColumnCaptionException` is not. -/
theorem caption_lookup_no_header_counterexample :
    (loadedHandler "a,b\nc,d\n".toList 0 .load_whole_file .no_header .stop_on_error 1
      )._sourceFileHeader = [] ∧
    getFieldByCaption (loadedHandler "a,b\nc,d\n".toList 0 .load_whole_file .no_header
        .stop_on_error 1) "a".toList 0 = .error .HeaderNotAvailableException ∧
    getColumnByCaption (loadedHandler "a,b\nc,d\n".toList 0 .load_whole_file .no_header
        .stop_on_error 1) "a".toList = .error .HeaderNotAvailableException ∧
    (removeColumnByCaption "a".toList (loadedHandler "a,b\nc,d\n".toList 0 .load_whole_file
        .no_header .stop_on_error 1)).2 = .error .HeaderNotAvailableException := by
  decide

/-- C12: for a row index at or after the window end, `getRow` and `getField` throw
`std::out_of_range` exactly when `_eofFlag` is set; while it is not set they throw
nothing and return an empty row and the null pointer. -/
theorem row_access_after_window (pf : Platform) (s : CsvHandlerState)
    (columnIndex rowIndex : Int) (h : s._absoluteEndingIndex ≤ rowIndex) :
    (getRow pf s rowIndex = .error .out_of_range ↔ s._eofFlag = true) ∧
    (getField s columnIndex rowIndex = .error .out_of_range ↔ s._eofFlag = true) ∧
    (s._eofFlag = false →
      getRow pf s rowIndex = .ok [] ∧ getField s columnIndex rowIndex = .ok none) := by
  have h1 : ¬ (rowIndex ≥ s._absoluteBeginningIndex ∧ rowIndex < s._absoluteEndingIndex) :=
    fun hc => by omega
  have h2 : ¬ (rowIndex ≥ s._absoluteBeginningIndex ∧ rowIndex < s._absoluteEndingIndex
      ∧ columnIndex < (s._sourceFileColumnTypes.length : Int)) := fun hc => by omega
  simp only [getRow, getField, if_neg h1, if_neg h2]
  cases he : s._eofFlag with
  | false => simp
  | true => simp [h]

set_option maxRecDepth 100000 in
/-- C12 on the second chunk of the file `a,b⏎c,d⏎` read in chunks of four bytes:
the window is `[1, 2)` and `_eofFlag` is not yet set. -/
theorem row_access_after_window_witness :
    (getRow refPlatform (loadedHandler "a,b\nc,d\n".toList 4 .load_in_chunks .no_header
        .stop_on_error 2) 2 = .error .out_of_range ↔
      (loadedHandler "a,b\nc,d\n".toList 4 .load_in_chunks .no_header
        .stop_on_error 2)._eofFlag = true) ∧
    (getField (loadedHandler "a,b\nc,d\n".toList 4 .load_in_chunks .no_header
        .stop_on_error 2) 0 2 = .error .out_of_range ↔
      (loadedHandler "a,b\nc,d\n".toList 4 .load_in_chunks .no_header
        .stop_on_error 2)._eofFlag = true) ∧
    ((loadedHandler "a,b\nc,d\n".toList 4 .load_in_chunks .no_header
        .stop_on_error 2)._eofFlag = false →
      getRow refPlatform (loadedHandler "a,b\nc,d\n".toList 4 .load_in_chunks .no_header
        .stop_on_error 2) 2 = .ok [] ∧
      getField (loadedHandler "a,b\nc,d\n".toList 4 .load_in_chunks .no_header
        .stop_on_error 2) 0 2 = .ok none) :=
  row_access_after_window refPlatform (loadedHandler "a,b\nc,d\n".toList 4 .load_in_chunks
    .no_header .stop_on_error 2) 0 2 (by decide)

/-- C13, as amended: in a state whose window is not reversed
(`_absoluteBeginningIndex ≤ _absoluteEndingIndex`), for every row index before the
window start `getRow` and `getField` throw nothing: they return an empty row and
the null pointer. -/
theorem row_access_before_window (pf : Platform) (s : CsvHandlerState)
    (columnIndex rowIndex : Int)
    (hwin : s._absoluteBeginningIndex ≤ s._absoluteEndingIndex)
    (h : rowIndex < s._absoluteBeginningIndex) :
    getRow pf s rowIndex = .ok [] ∧ getField s columnIndex rowIndex = .ok none := by
  have h1 : ¬ (rowIndex ≥ s._absoluteBeginningIndex ∧ rowIndex < s._absoluteEndingIndex) :=
    fun hc => by omega
  have h2 : ¬ (rowIndex ≥ s._absoluteBeginningIndex ∧ rowIndex < s._absoluteEndingIndex
      ∧ columnIndex < (s._sourceFileColumnTypes.length : Int)) := fun hc => by omega
  have h3 : ¬ (s._eofFlag = true ∧ rowIndex ≥ s._absoluteEndingIndex) := fun hc => by omega
  simp only [getRow, getField, if_neg h1, if_neg h2, if_neg h3, and_self]


set_option maxRecDepth 100000 in
/-- C13 (amended) on the second chunk of the file `a,b⏎c,d⏎` read in chunks of four
bytes, whose window is `[1, 2)`, and the row index `0`. -/
theorem row_access_before_window_witness :
    getRow refPlatform (loadedHandler "a,b\nc,d\n".toList 4 .load_in_chunks .no_header
        .stop_on_error 2) 0 = .ok [] ∧
    getField (loadedHandler "a,b\nc,d\n".toList 4 .load_in_chunks .no_header
        .stop_on_error 2) 0 0 = .ok none :=
  row_access_before_window refPlatform (loadedHandler "a,b\nc,d\n".toList 4 .load_in_chunks
    .no_header .stop_on_error 2) 0 0 (by decide) (by decide)

set_option maxRecDepth 100000 in
/-- C13 as stated fails: after the last chunk of the file `a,b⏎c,d⏎e,f⏎` read in
chunks of five bytes the window is `[2, 3)` and `_eofFlag` is set, and the row
index `0`, before the window, makes `getRow` return an empty row and `getField`
the null pointer; nothing is thrown. -/
theorem row_access_before_window_counterexample :
    (loadedHandler "a,b\nc,d\ne,f\n".toList 5 .load_in_chunks .no_header .stop_on_error 3
      )._absoluteBeginningIndex = 2 ∧
    (loadedHandler "a,b\nc,d\ne,f\n".toList 5 .load_in_chunks .no_header .stop_on_error 3
      )._eofFlag = true ∧
    getRow refPlatform (loadedHandler "a,b\nc,d\ne,f\n".toList 5 .load_in_chunks .no_header
        .stop_on_error 3) 0 = .ok [] ∧
    getField (loadedHandler "a,b\nc,d\ne,f\n".toList 5 .load_in_chunks .no_header
        .stop_on_error 3) 0 0 = .ok none := by
  decide

theorem vecIndex_natCast {α : Type} (v : List α) (i : Nat) (x : α) (h : v[i]? = some x) :
    vecIndex v (i : Int) = .ok x := by
  simp [vecIndex, h]

theorem stringValues_append_error (pf : Platform) (e : Exception) :
    ∀ (fs : List CsvEntryElement) (acc : List Str),
      (match stringValues pf fs with
        | .error e => (.error e : Except Exception (List Str))
        | .ok texts => .ok (acc ++ texts)) = .error e ↔ stringValues pf fs = .error e := by
  intro fs acc
  cases stringValues pf fs <;> simp

theorem getRowLoop_eq (pf : Platform) (s : CsvHandlerState) (k : Nat)
    (fields : List CsvEntryElement)
    (hf : s._sourceFileVector.map (fun column => column[k]?) = fields.map some) :
    ∀ (n c : Nat) (acc : List Str), c + n = fields.length →
      getRowLoop pf s (k : Int) n (c : Int) acc =
        match stringValues pf (fields.drop c) with
        | .error e => .error e
        | .ok texts => .ok (acc ++ texts) := by
  intro n
  induction n with
  | zero =>
    intro c acc hc
    have : fields.drop c = [] := List.drop_eq_nil_of_le (by omega)
    simp [getRowLoop, this, stringValues]
  | succ n ih =>
    intro c acc hc
    have hlen : s._sourceFileVector.length = fields.length := by
      have := congrArg List.length hf
      simpa using this
    have hc1 : c < fields.length := by omega
    have hc2 : c < s._sourceFileVector.length := by omega
    have hcol : (s._sourceFileVector[c])[k]? = some fields[c] := by
      have := congrArg (fun l => l[c]?) hf
      simpa [List.getElem?_map, List.getElem?_eq_getElem hc1, List.getElem?_eq_getElem hc2]
        using this
    have hfa : fieldAt s (c : Int) (k : Int) = .ok fields[c] := by
      unfold fieldAt
      rw [vecIndex_natCast _ c _ (List.getElem?_eq_getElem hc2)]
      exact vecIndex_natCast _ k _ hcol
    have hdrop : fields.drop c = fields[c] :: fields.drop (c + 1) :=
      List.drop_eq_getElem_cons hc1
    rw [getRowLoop, hfa, hdrop]
    simp only [stringValues]
    cases hs : fields[c].getStringValue pf with
    | error e => rfl
    | ok text =>
      simp only []
      have := ih (c + 1) (acc ++ [text]) (by omega)
      rw [Nat.cast_add, Nat.cast_one] at this
      rw [this]
      cases stringValues pf (List.drop (c + 1) fields) <;> simp

/-- C14 (amended): in a state whose window is as long as the chunk has rows
(`_absoluteEndingIndex - _absoluteBeginningIndex = _entriesInCurrentChunk`), with
one column of that many fields per column type, and for a row index in the
window: every column has a field at the chunk-local position
`rowIndex - _absoluteBeginningIndex`, `getRow` returns the string
representations of these fields in column order, and `getField` returns the
field of column `c` for every `c` below the number of columns. -/
theorem getRow_getField_in_window (pf : Platform) (s : CsvHandlerState) (rowIndex : Int)
    (hrows : s._absoluteEndingIndex - s._absoluteBeginningIndex = s._entriesInCurrentChunk)
    (hcols : s._sourceFileVector.length = s._sourceFileColumnTypes.length)
    (hlen : ∀ column ∈ s._sourceFileVector, (column.length : Int) = s._entriesInCurrentChunk)
    (hlo : s._absoluteBeginningIndex ≤ rowIndex) (hhi : rowIndex < s._absoluteEndingIndex) :
    ∃ fields : List CsvEntryElement,
      fields.length = s._sourceFileColumnTypes.length ∧
      s._sourceFileVector.map
          (fun column => column[(rowIndex - s._absoluteBeginningIndex).toNat]?)
        = fields.map some ∧
      getRow pf s rowIndex = stringValues pf fields ∧
      ∀ (c : Nat) (field : CsvEntryElement), fields[c]? = some field →
        getField s (c : Int) rowIndex = .ok (some field) := by
  obtain ⟨k, hk⟩ : ∃ k : Nat, rowIndex - s._absoluteBeginningIndex = (k : Int) :=
    ⟨(rowIndex - s._absoluteBeginningIndex).toNat, by omega⟩
  have hrow : s._entriesInCurrentChunk - (s._absoluteEndingIndex - rowIndex) = (k : Int) := by
    omega
  have hex : ∀ columns : List (List CsvEntryElement),
      (∀ column ∈ columns, (column.length : Int) = s._entriesInCurrentChunk) →
      ∃ fields : List CsvEntryElement,
        columns.map (fun column => column[k]?) = fields.map some := by
    intro columns
    induction columns with
    | nil => intro _; exact ⟨[], rfl⟩
    | cons column rest ih =>
      intro h
      obtain ⟨fs, hfs⟩ := ih (fun c hc => h c (List.mem_cons_of_mem _ hc))
      have hl := h column (List.mem_cons_self _ _)
      have hk2 : k < column.length := by omega
      exact ⟨column[k] :: fs, by simp [hfs, List.getElem?_eq_getElem hk2]⟩
  obtain ⟨fields, hf⟩ := hex s._sourceFileVector hlen
  have hfl : fields.length = s._sourceFileColumnTypes.length := by
    have := congrArg List.length hf
    simp at this
    omega
  refine ⟨fields, hfl, ?_, ?_, ?_⟩
  · rw [hk]; simpa using hf
  · unfold getRow
    rw [if_pos ⟨hlo, hhi⟩, hrow]
    have := getRowLoop_eq pf s k fields hf s._sourceFileColumnTypes.length 0 []
      (by omega)
    rw [Nat.cast_zero] at this
    rw [this]
    simp only [List.drop_zero, List.nil_append]
    cases stringValues pf fields <;> rfl
  · intro c field hc
    have hc1 : c < fields.length := by
      rcases Nat.lt_or_ge c fields.length with h | h
      · exact h
      · rw [List.getElem?_eq_none h] at hc; cases hc
    have hc2 : c < s._sourceFileVector.length := by omega
    have hcol : (s._sourceFileVector[c])[k]? = some field := by
      have := congrArg (fun l => l[c]?) hf
      simp only [List.getElem?_map, List.getElem?_eq_getElem hc2, hc, Option.map_some']
        at this
      exact Option.some.inj this
    unfold getField
    rw [if_pos ⟨hlo, hhi, by omega⟩, hrow]
    unfold fieldAt
    rw [vecIndex_natCast _ c _ (List.getElem?_eq_getElem hc2)]
    simp only []
    rw [vecIndex_natCast _ k _ hcol]
    rfl

set_option maxRecDepth 100000 in
/-- C14 (amended) on the loaded file `name,age⏎Alice,30⏎Bob,45⏎` and its row `1`. -/
theorem getRow_getField_in_window_witness :
    ∃ fields : List CsvEntryElement,
      fields.length = (loadedHandler "name,age\nAlice,30\nBob,45\n".toList 0 .load_whole_file
        .include_header .stop_on_error 1)._sourceFileColumnTypes.length ∧
      (loadedHandler "name,age\nAlice,30\nBob,45\n".toList 0 .load_whole_file
        .include_header .stop_on_error 1)._sourceFileVector.map
          (fun column => column[((1 : Int) - (loadedHandler
            "name,age\nAlice,30\nBob,45\n".toList 0 .load_whole_file .include_header
            .stop_on_error 1)._absoluteBeginningIndex).toNat]?)
        = fields.map some ∧
      getRow refPlatform (loadedHandler "name,age\nAlice,30\nBob,45\n".toList 0
        .load_whole_file .include_header .stop_on_error 1) 1 = stringValues refPlatform fields ∧
      ∀ (c : Nat) (field : CsvEntryElement), fields[c]? = some field →
        getField (loadedHandler "name,age\nAlice,30\nBob,45\n".toList 0 .load_whole_file
          .include_header .stop_on_error 1) (c : Int) 1 = .ok (some field) :=
  getRow_getField_in_window refPlatform (loadedHandler "name,age\nAlice,30\nBob,45\n".toList 0
    .load_whole_file .include_header .stop_on_error 1) 1 (by decide) (by decide) (by decide)
    (by decide) (by decide)


/-! ## Rejected records and the window after the end of the file (C15, C16, C18) -/

set_option maxRecDepth 100000 in
/-- C18 fails on the file `a,b⏎c,d,e⏎f,g⏎h,i⏎` loaded as a whole in
`ignore_errors` mode: `emplaceEntriesInStorage` erases the record `c,d,e` at
`cEntry = 1` and then increments `cEntry`, so the record `f,g`, which has moved
to position `1`, is never stored: the table holds the rows `a,b`, an empty unset
row and `h,i`, while the row count and the window end are `3`. -/
theorem emplaceEntriesInStorage_ignore_errors_skips_next_record :
    (loadEntries refPlatform .ignore_errors
        (constructed "a,b\nc,d,e\nf,g\nh,i\n".toList 0 .load_whole_file .CSV ','
          .no_header)).2 = .ok true ∧
    (loadedHandler "a,b\nc,d,e\nf,g\nh,i\n".toList 0 .load_whole_file .no_header
        .ignore_errors 1)._sourceFileVector
      = [[.csv_stringField "a".toList true, .csv_stringField [] false,
            .csv_stringField "h".toList true],
         [.csv_stringField "b".toList true, .csv_stringField [] false,
            .csv_stringField "i".toList true]] ∧
    getRow refPlatform (loadedHandler "a,b\nc,d,e\nf,g\nh,i\n".toList 0 .load_whole_file
        .no_header .ignore_errors 1) 1 = .ok [[], []] ∧
    (loadedHandler "a,b\nc,d,e\nf,g\nh,i\n".toList 0 .load_whole_file .no_header
        .ignore_errors 1)._entriesInCurrentChunk = 3 ∧
    (loadedHandler "a,b\nc,d,e\nf,g\nh,i\n".toList 0 .load_whole_file .no_header
        .ignore_errors 1)._absoluteEndingIndex = 3 := by
  decide

set_option maxRecDepth 100000 in
/-- C15 fails for the call of `loadEntries` that returns `false`: the file
`a,b⏎c,d⏎e,f⏎` is read in chunks of five bytes; after the third call the window
is `[2, 3)` with one row, and the fourth call, which returns `false`, sets
`_absoluteEndingIndex` to `0` and leaves `_absoluteBeginningIndex = 2` and
`_entriesInCurrentChunk = 1`. -/
theorem window_invariant_broken_by_false_call :
    (loadedHandler "a,b\nc,d\ne,f\n".toList 5 .load_in_chunks .no_header .stop_on_error 3
      )._absoluteEndingIndex
      - (loadedHandler "a,b\nc,d\ne,f\n".toList 5 .load_in_chunks .no_header .stop_on_error 3
      )._absoluteBeginningIndex
      = (loadedHandler "a,b\nc,d\ne,f\n".toList 5 .load_in_chunks .no_header .stop_on_error 3
      )._entriesInCurrentChunk ∧
    (loadEntries refPlatform .stop_on_error (loadedHandler "a,b\nc,d\ne,f\n".toList 5
      .load_in_chunks .no_header .stop_on_error 3)).2 = .ok false ∧
    (loadedHandler "a,b\nc,d\ne,f\n".toList 5 .load_in_chunks .no_header .stop_on_error 4
      )._absoluteEndingIndex = 0 ∧
    (loadedHandler "a,b\nc,d\ne,f\n".toList 5 .load_in_chunks .no_header .stop_on_error 4
      )._absoluteBeginningIndex = 2 ∧
    (loadedHandler "a,b\nc,d\ne,f\n".toList 5 .load_in_chunks .no_header .stop_on_error 4
      )._entriesInCurrentChunk = 1 := by
  decide

set_option maxRecDepth 100000 in
/-- C16 fails on the file `a,b⏎c,d⏎` read in chunks of three bytes: the third call
of `loadEntries` reaches the end of the file, the fourth returns `false` and
sets `_absoluteEndingIndex` and `_chunksCount` to `0`, but `_eofFlag` stays set
and `_absoluteBeginningIndex` stays `1`, and the fifth call returns `false`
again and changes nothing. -/
theorem loadEntries_after_eof_no_fresh_pass :
    (loadedHandler "a,b\nc,d\n".toList 3 .load_in_chunks .no_header .stop_on_error 3
      )._eofFlag = true ∧
    (loadEntries refPlatform .stop_on_error (loadedHandler "a,b\nc,d\n".toList 3
      .load_in_chunks .no_header .stop_on_error 3)).2 = .ok false ∧
    (loadedHandler "a,b\nc,d\n".toList 3 .load_in_chunks .no_header .stop_on_error 4
      )._absoluteEndingIndex = 0 ∧
    (loadedHandler "a,b\nc,d\n".toList 3 .load_in_chunks .no_header .stop_on_error 4
      )._chunksCount = 0 ∧
    (loadedHandler "a,b\nc,d\n".toList 3 .load_in_chunks .no_header .stop_on_error 4
      )._absoluteBeginningIndex = 1 ∧
    (loadedHandler "a,b\nc,d\n".toList 3 .load_in_chunks .no_header .stop_on_error 4
      )._eofFlag = true ∧
    (loadEntries refPlatform .stop_on_error (loadedHandler "a,b\nc,d\n".toList 3
      .load_in_chunks .no_header .stop_on_error 4)).2 = .ok false ∧
    loadedHandler "a,b\nc,d\n".toList 3 .load_in_chunks .no_header .stop_on_error 5
      = loadedHandler "a,b\nc,d\n".toList 3 .load_in_chunks .no_header .stop_on_error 4 := by
  decide


/-! ## What `setColumnsForEntry` leaves alone -/

theorem setConverted_frame {α : Type} (π : CsvHandlerState → α)
    (hπ : ∀ (s : CsvHandlerState) m v,
      π { s with _dataTypesMap := m, _sourceFileVector := v } = π s)
    (s : CsvHandlerState) (columnIndex entryIndex : Int)
    (converted : Except Exception FieldValue) (zero : FieldValue)
    (errorHandlingMode : _errorHandlingMode) :
    π (setConverted s columnIndex entryIndex converted zero errorHandlingMode).1 = π s := by
  have hput : ∀ f, π (putFieldAt s columnIndex entryIndex f) = π s := fun f =>
    hπ s s._dataTypesMap _
  unfold setConverted
  cases converted with
  | ok value =>
    simp only []
    cases fieldAt s columnIndex entryIndex with
    | error e => rfl
    | ok field =>
      simp only []
      cases setSingleEntryElementValue field value with
      | error e => rfl
      | ok field1 => exact hput _
  | error exc =>
    simp only []
    split
    · cases fieldAt s columnIndex entryIndex with
      | error e => rfl
      | ok field =>
        simp only []
        cases setSingleEntryElementValue field zero with
        | error e => rfl
        | ok field1 => exact hput _
    · rfl

theorem setColumnsForEntryLoop_frame {α : Type} (π : CsvHandlerState → α)
    (hπ : ∀ (s : CsvHandlerState) m v,
      π { s with _dataTypesMap := m, _sourceFileVector := v } = π s)
    (entryIndex : Int) (errorHandlingMode : _errorHandlingMode) :
    ∀ (entry : List Str) (columnIndex : Int) (s : CsvHandlerState),
      π (setColumnsForEntryLoop entryIndex errorHandlingMode entry columnIndex s).1 = π s := by
  intro entry
  induction entry with
  | nil => intro columnIndex s; rfl
  | cons entryElement rest ih =>
    intro columnIndex s
    unfold setColumnsForEntryLoop
    cases vecIndex s._sourceFileColumnTypes columnIndex with
    | error e => rfl
    | ok typeName =>
      simp only []
      have hs1 : π { s with _dataTypesMap := (mapSubscript s._dataTypesMap typeName).2 } = π s :=
        hπ s _ s._sourceFileVector
      split
      · rename_i u hu
        rw [ih]
        split at hu <;>
          (rw [← hs1]; exact setConverted_frame π hπ _ _ _ _ _ _)
      · rename_i e he
        simp only []
        split <;>
          (rw [← hs1]; exact setConverted_frame π hπ _ _ _ _ _ _)

/-! ## The first bad record in `stop_on_error` mode (C19) -/

theorem ignoresTable_of_ignoresLoadedData {α : Type} (π : CsvHandlerState → α)
    (hπ : IgnoresLoadedData π) : IgnoresTable π :=
  fun s _ _ _ _ _ _ _ => hπ s _ _ _ _ _ _ _ _ _ _

theorem autoDetectTypesForColumns_frame {α : Type} (π : CsvHandlerState → α)
    (hπ : IgnoresTable π) (pf : Platform) (s : CsvHandlerState) :
    π (autoDetectTypesForColumns pf s).1 = π s := by
  have h : ∀ l, π (autoDetectTypesForColumnsFrom pf l s) = π s := fun l =>
    hπ s _ _ _ _ _ _ _
  unfold autoDetectTypesForColumns
  simp only []
  split
  · split
    · exact h _
    · rfl
  · exact h _

theorem loadHeader_frame {α : Type} (π : CsvHandlerState → α)
    (hπ : IgnoresTable π) (entryLine : List Str) (s : CsvHandlerState) :
    π (loadHeader entryLine s).1 = π s := by
  unfold loadHeader
  split
  · split
    · exact hπ s _ _ _ _ _ _ _
    · split <;> rfl
  · rfl

theorem loadHeaderLine_frame {α : Type} (π : CsvHandlerState → α)
    (hπ : IgnoresTable π) (pf : Platform) (line : Str) (s : CsvHandlerState) :
    π (loadHeaderLine pf line s).1 = π s := by
  unfold loadHeaderLine
  split
  · exact loadHeader_frame π hπ _ _
  · rfl

theorem initializeStorageLoop_frame {α : Type} (π : CsvHandlerState → α)
    (hπ : IgnoresTable π) :
    ∀ (types : List Str) (s : CsvHandlerState), π (initializeStorageLoop types s).1 = π s := by
  intro types
  induction types with
  | nil => intro s; rfl
  | cons typeName rest ih =>
    intro s
    unfold initializeStorageLoop
    simp only []
    split
    · rw [ih]; exact hπ s _ _ _ _ _ _ _
    · exact hπ s _ _ _ _ _ _ _

theorem emplaceEntriesInStorageLoop_frame {α : Type} (π : CsvHandlerState → α)
    (hπ : IgnoresLoadedData π) (pf : Platform) (fileFormat : _fileFormat)
    (errorHandlingMode : _errorHandlingMode) :
    ∀ (fuel cEntry : Nat) (entryLines : List Str) (s : CsvHandlerState),
      π (emplaceEntriesInStorageLoop pf fileFormat errorHandlingMode fuel cEntry entryLines s).1
        = π s := by
  have hπ1 : ∀ (s : CsvHandlerState) m v,
      π { s with _dataTypesMap := m, _sourceFileVector := v } = π s :=
    fun s m v => hπ s _ _ _ _ _ _ _ _ _ _
  intro fuel
  induction fuel with
  | zero => intros; rfl
  | succ fuel ih =>
    intro cEntry entryLines s
    unfold emplaceEntriesInStorageLoop
    split
    · rfl
    · split
      · rfl
      · split
        · have hset := setColumnsForEntryLoop_frame π hπ1 (cEntry : Int) errorHandlingMode
            ‹List Str› 0 s
          unfold setColumnsForEntry
          split
          · rename_i s1 u heq
            rw [heq] at hset
            rw [ih]; exact hset
          · rename_i s1 e heq
            rw [heq] at hset
            exact hset
        · split
          · rfl
          · split
            · rfl
            · rw [ih]; exact hπ s _ _ _ _ _ _ _ _ _ _


theorem storeEntryLines_frame {α : Type} (π : CsvHandlerState → α)
    (hπ : IgnoresLoadedData π) (pf : Platform) (entryLines : List Str)
    (fileFormat : _fileFormat) (errMode : _errorHandlingMode) (s : CsvHandlerState) :
    π (storeEntryLines pf entryLines fileFormat errMode s).1 = π s := by
  unfold storeEntryLines
  simp only []
  have h1 : ∀ t, π (initializeStorage t).1 = π t := fun t =>
    initializeStorageLoop_frame π (ignoresTable_of_ignoresLoadedData π hπ) _ t
  have h2 : ∀ t, π (emplaceEntriesInStorage pf entryLines fileFormat errMode t).1 = π t :=
    fun t => emplaceEntriesInStorageLoop_frame π hπ pf fileFormat errMode _ _ _ t
  split
  · rename_i s2 e heq
    have e1 := (congrArg (fun r : Outcome Unit => π r.1) heq).symm.trans (h1 _)
    exact e1.trans (hπ s _ _ _ _ _ _ _ _ _ _)
  · rename_i s2 u heq
    have e1 := (congrArg (fun r : Outcome Unit => π r.1) heq).symm.trans (h1 _)
    have e2 : π s2 = π s := e1.trans (hπ s _ _ _ _ _ _ _ _ _ _)
    split
    · rename_i s3 e heq3
      have e3 := (congrArg (fun r : Outcome (List Str) => π r.1) heq3).symm.trans (h2 _)
      exact e3.trans e2
    · rename_i s3 u3 heq3
      have e3 := (congrArg (fun r : Outcome (List Str) => π r.1) heq3).symm.trans (h2 _)
      exact e3.trans e2

theorem loadEntries_CSV_frame {α : Type} (π : CsvHandlerState → α)
    (hπ : IgnoresLoadedData π) (pf : Platform) (data : List Char)
    (errMode : _errorHandlingMode) (s : CsvHandlerState) :
    π (loadEntries_CSV pf data errMode s).1 = π s := by
  unfold loadEntries_CSV
  simp only []
  have hdet : π (if s._sourceFileColumnTypes.isEmpty = true then autoDetectTypesForColumns pf s
      else (s, Except.ok ())).1 = π s := by
    split
    · exact autoDetectTypesForColumns_frame π (ignoresTable_of_ignoresLoadedData π hπ) pf s
    · rfl
  split
  · rename_i s1 e heq
    rw [heq] at hdet; exact hdet
  · rename_i s1 u heq
    rw [heq] at hdet
    have hs2 : ∀ l, π { s1 with _buffLeftovers := l } = π s := fun l => by
      rw [← hdet]; exact hπ s1 _ _ _ _ _ _ _ _ _ _
    split
    · exact hs2 _
    · rename_i front more hl
      have hhl := loadHeaderLine_frame π (ignoresTable_of_ignoresLoadedData π hπ) pf front
        { s1 with _buffLeftovers := (convertCharBufferIntoCSVentryStrings
            s1._sourceFileColumnTypes.length s1._eofFlag s1._buffLeftovers data).2 }
      split
      · rename_i s3 e heq3
        rw [heq3] at hhl
        rw [hhl]; exact hs2 _
      · rename_i s3 isHeader heq3
        rw [heq3] at hhl
        rw [storeEntryLines_frame π hπ, hhl]; exact hs2 _

theorem loadEntries_JSON_frame {α : Type} (π : CsvHandlerState → α)
    (hπ : IgnoresLoadedData π) (pf : Platform) (data : List Char)
    (errMode : _errorHandlingMode) (s : CsvHandlerState) :
    π (loadEntries_JSON pf data errMode s).1 = π s := by
  unfold loadEntries_JSON
  simp only []
  have hs1 : ∀ l, π { s with _buffLeftovers := l } = π s := fun l =>
    hπ s _ _ _ _ _ _ _ _ _ _
  split
  · exact hs1 _
  · rename_i front more hl
    split
    · rename_i s2 e heq
      have : π s2 = π s := by
        split at heq
        · split at heq
          · rw [← (Prod.mk.inj heq).1]; exact hs1 _
          · rw [← (Prod.mk.inj heq).1, loadHeader_frame π (ignoresTable_of_ignoresLoadedData π hπ)]; exact hs1 _
        · rw [← (Prod.mk.inj heq).1]; exact hs1 _
      exact this
    · rename_i s2 u heq
      have h2 : π s2 = π s := by
        split at heq
        · split at heq
          · rw [← (Prod.mk.inj heq).1]; exact hs1 _
          · rw [← (Prod.mk.inj heq).1, loadHeader_frame π (ignoresTable_of_ignoresLoadedData π hπ)]; exact hs1 _
        · rw [← (Prod.mk.inj heq).1]; exact hs1 _
      split
      · rename_i s3 e heq3
        split at heq3
        · split at heq3
          · rw [← (Prod.mk.inj heq3).1]; exact h2
          · rw [← (Prod.mk.inj heq3).1, ← h2]; exact hπ s2 _ _ _ _ _ _ _ _ _ _
        · rw [← (Prod.mk.inj heq3).1]; exact h2
      · rename_i s3 u3 heq3
        rw [storeEntryLines_frame π hπ]
        split at heq3
        · split at heq3
          · rw [← (Prod.mk.inj heq3).1]; exact h2
          · rw [← (Prod.mk.inj heq3).1, ← h2]; exact hπ s2 _ _ _ _ _ _ _ _ _ _
        · rw [← (Prod.mk.inj heq3).1]; exact h2

theorem loadEntriesOfFormat_frame {α : Type} (π : CsvHandlerState → α)
    (hπ : IgnoresLoadedData π) (pf : Platform) (data : List Char)
    (errMode : _errorHandlingMode) (s : CsvHandlerState) :
    π (loadEntriesOfFormat pf data errMode s).1 = π s := by
  unfold loadEntriesOfFormat
  split
  · exact loadEntries_CSV_frame π hπ pf data errMode s
  · exact loadEntries_JSON_frame π hπ pf data errMode s


/-! ## The sizes of the chunks (C17) -/

theorem loadEntriesTimes_succ (pf : Platform) (mode : _errorHandlingMode) :
    ∀ (k : Nat) (s : CsvHandlerState),
      loadEntriesTimes pf mode (k + 1) s
        = (loadEntries pf mode (loadEntriesTimes pf mode k s)).1 := by
  intro k
  induction k with
  | zero => intro s; rfl
  | succ k ih =>
    intro s
    rw [loadEntriesTimes, ih]
    rfl

theorem requestedReadSize_whole_chunk (s : CsvHandlerState)
    (hfit : (s._chunksCount + 1) * s._readBufferSize ≤ s._inFileStreamSize) :
    requestedReadSize s = s._readBufferSize := by
  unfold requestedReadSize sizeLastChunk clearStorage
  rw [if_neg]
  rintro ⟨_, h⟩
  simp only [] at h
  omega

theorem requestedReadSize_last_chunk (s : CsvHandlerState)
    (hm : s._loadDataModeFlag = .load_in_chunks)
    (hlast : (s._chunksCount + 1) * s._readBufferSize > s._inFileStreamSize) :
    requestedReadSize s = s._inFileStreamSize - s._readBufferSize * s._chunksCount := by
  unfold requestedReadSize sizeLastChunk clearStorage
  rw [if_pos ⟨hm, hlast⟩]

theorem sizeLastChunk_fields (s1 : CsvHandlerState) :
    (sizeLastChunk s1).inFile = s1.inFile ∧
    (sizeLastChunk s1)._loadDataModeFlag = s1._loadDataModeFlag ∧
    (sizeLastChunk s1)._inFileStreamSize = s1._inFileStreamSize ∧
    (sizeLastChunk s1)._inFileReadLastPosition = s1._inFileReadLastPosition ∧
    (sizeLastChunk s1)._chunksCount = s1._chunksCount := by
  unfold sizeLastChunk
  split <;> exact ⟨rfl, rfl, rfl, rfl, rfl⟩

theorem sizeLastChunk_eofFlag (s1 : CsvHandlerState)
    (hm : s1._loadDataModeFlag = .load_in_chunks) (he : s1._eofFlag = false) :
    (sizeLastChunk s1)._eofFlag
      = decide ((s1._chunksCount + 1) * s1._readBufferSize > s1._inFileStreamSize) := by
  unfold sizeLastChunk
  by_cases h : (s1._chunksCount + 1) * s1._readBufferSize > s1._inFileStreamSize
  · rw [if_pos ⟨hm, h⟩]; simp [h]
  · rw [if_neg (fun hh => h hh.2), he]; simp [h]

theorem loadChunkOfFile_ok (x : CsvHandlerState) (pos size : Int) (file : List Char)
    (hpos : x._inFileReadLastPosition = pos) (hsize : x._readBufferSize = size)
    (hfile : x.inFile = file) (h0 : 0 ≤ size) (hp : 0 ≤ pos)
    (hle : pos + size ≤ (file.length : Int)) :
    loadChunkOfFile x
      = ({ x with _inFileReadLastPosition := pos + size },
          .ok ((file.drop pos.toNat).take size.toNat)) := by
  subst hpos hsize hfile
  unfold loadChunkOfFile
  rw [if_neg (by omega), if_neg (by omega)]
  by_cases hz : x._readBufferSize = 0
  · rw [if_pos hz]
    have e1 : x._inFileReadLastPosition + x._readBufferSize = x._inFileReadLastPosition := by
      omega
    have e2 : x._readBufferSize.toNat = 0 := by omega
    rw [e1, e2]
    rfl
  · rw [if_neg hz, if_pos hle]

/-- One call of `loadEntries` in chunk mode before the end of the file: the bytes
asked for are read at `_inFileReadLastPosition`, and the call returns `true`
unless loading the entries of the chunk throws. -/
theorem loadEntries_chunk_step (pf : Platform) (mode : _errorHandlingMode)
    (s : CsvHandlerState) (hm : s._loadDataModeFlag = .load_in_chunks)
    (he : s._eofFlag = false) (hF : s._inFileStreamSize = (s.inFile.length : Int))
    (hpos : s._inFileReadLastPosition = s._chunksCount * s._readBufferSize)
    (hc : 0 ≤ s._chunksCount) (hB : 1 ≤ s._readBufferSize)
    (hfit : s._chunksCount * s._readBufferSize ≤ s._inFileStreamSize) :
    ∃ s4 : CsvHandlerState,
      s4.inFile = s.inFile ∧ s4._loadDataModeFlag = .load_in_chunks ∧
      s4._inFileStreamSize = s._inFileStreamSize ∧
      s4._chunksCount = s._chunksCount + 1 ∧
      s4._inFileReadLastPosition = s._inFileReadLastPosition + requestedReadSize s ∧
      s4._readBufferSize = requestedReadSize s ∧
      s4._eofFlag = decide ((s._chunksCount + 1) * s._readBufferSize > s._inFileStreamSize) ∧
      loadEntries pf mode s =
        match loadEntriesOfFormat pf
          ((s.inFile.drop s._inFileReadLastPosition.toNat).take (requestedReadSize s).toNat)
          mode s4 with
        | (s5, .error e) => (s5, .error e)
        | (s5, .ok _) => (s5, .ok true) := by
  have hp0 : 0 ≤ s._inFileReadLastPosition := by
    rw [hpos]; exact mul_nonneg hc (by omega)
  obtain ⟨hxf, hxm, hxs, hxp, hxc⟩ := sizeLastChunk_fields (clearStorage s)
  have hxe := sizeLastChunk_eofFlag (clearStorage s) hm he
  have hmul : s._readBufferSize * s._chunksCount = s._chunksCount * s._readBufferSize :=
    mul_comm _ _
  have hexp : (s._chunksCount + 1) * s._readBufferSize
      = s._chunksCount * s._readBufferSize + s._readBufferSize := by ring
  have hsize : 0 ≤ requestedReadSize s
      ∧ s._inFileReadLastPosition + requestedReadSize s ≤ (s.inFile.length : Int) := by
    by_cases hlast : (s._chunksCount + 1) * s._readBufferSize > s._inFileStreamSize
    · rw [requestedReadSize_last_chunk s hm hlast, hmul, hpos, ← hF]; omega
    · rw [requestedReadSize_whole_chunk s (by omega), hpos, ← hF]; omega
  have hload := loadChunkOfFile_ok (sizeLastChunk (clearStorage s)) s._inFileReadLastPosition
    (requestedReadSize s) s.inFile hxp rfl hxf hsize.1 hp0 hsize.2
  refine ⟨{ sizeLastChunk (clearStorage s) with
        _inFileReadLastPosition := s._inFileReadLastPosition + requestedReadSize s
        _chunksCount := s._chunksCount + 1 },
      hxf, hxm.trans hm, hxs, rfl, rfl, rfl, hxe, ?_⟩
  unfold loadEntries loadEntriesRead
  rw [if_pos hm, if_neg (by rw [he]; decide), hload]
  simp only [hxm.trans hm, if_true, hxc]
  rfl

theorem loadEntries_chunk_step_state (pf : Platform) (mode : _errorHandlingMode)
    (s : CsvHandlerState) (hm : s._loadDataModeFlag = .load_in_chunks)
    (he : s._eofFlag = false) (hF : s._inFileStreamSize = (s.inFile.length : Int))
    (hpos : s._inFileReadLastPosition = s._chunksCount * s._readBufferSize)
    (hc : 0 ≤ s._chunksCount) (hB : 1 ≤ s._readBufferSize)
    (hfit : s._chunksCount * s._readBufferSize ≤ s._inFileStreamSize) :
    (loadEntries pf mode s).1.inFile = s.inFile ∧
    (loadEntries pf mode s).1._loadDataModeFlag = .load_in_chunks ∧
    (loadEntries pf mode s).1._inFileStreamSize = s._inFileStreamSize ∧
    (loadEntries pf mode s).1._chunksCount = s._chunksCount + 1 ∧
    (loadEntries pf mode s).1._inFileReadLastPosition
      = s._inFileReadLastPosition + requestedReadSize s ∧
    (loadEntries pf mode s).1._readBufferSize = requestedReadSize s ∧
    (loadEntries pf mode s).1._eofFlag
      = decide ((s._chunksCount + 1) * s._readBufferSize > s._inFileStreamSize) := by
  obtain ⟨s4, h1, h2, h3, h4, h5, h6, h7, heq⟩ :=
    loadEntries_chunk_step pf mode s hm he hF hpos hc hB hfit
  have hfst : (loadEntries pf mode s).1
      = (loadEntriesOfFormat pf
          ((s.inFile.drop s._inFileReadLastPosition.toNat).take (requestedReadSize s).toNat)
          mode s4).1 := by
    rw [heq]
    split <;> (rename_i h; rw [h])
  have hfr : ∀ {α : Type} (π : CsvHandlerState → α), IgnoresLoadedData π →
      π (loadEntries pf mode s).1 = π s4 := by
    intro α π hπ
    rw [hfst]
    exact loadEntriesOfFormat_frame π hπ pf _ mode s4
  refine ⟨?_, ?_, ?_, ?_, ?_, ?_, ?_⟩
  · exact (hfr (fun s => s.inFile) (fun _ _ _ _ _ _ _ _ _ _ _ => rfl)).trans h1
  · exact (hfr (fun s => s._loadDataModeFlag) (fun _ _ _ _ _ _ _ _ _ _ _ => rfl)).trans h2
  · exact (hfr (fun s => s._inFileStreamSize) (fun _ _ _ _ _ _ _ _ _ _ _ => rfl)).trans h3
  · exact (hfr (fun s => s._chunksCount) (fun _ _ _ _ _ _ _ _ _ _ _ => rfl)).trans h4
  · exact (hfr (fun s => s._inFileReadLastPosition) (fun _ _ _ _ _ _ _ _ _ _ _ => rfl)).trans h5
  · exact (hfr (fun s => s._readBufferSize) (fun _ _ _ _ _ _ _ _ _ _ _ => rfl)).trans h6
  · exact (hfr (fun s => s._eofFlag) (fun _ _ _ _ _ _ _ _ _ _ _ => rfl)).trans h7

theorem chunk_quotient_bounds (F : Nat) (B : Int) (hB : 1 ≤ B) :
    ((((F : Int) / B).toNat : Nat) : Int) * B ≤ F
      ∧ (F : Int) < ((((F : Int) / B).toNat : Nat) + 1) * B := by
  have hq : ((((F : Int) / B).toNat : Nat) : Int) = (F : Int) / B :=
    Int.toNat_of_nonneg (Int.ediv_nonneg (by omega) (by omega))
  rw [hq]
  exact ⟨Int.ediv_mul_le _ (by omega), Int.lt_ediv_add_one_mul_self _ (by omega)⟩

/-- The handler before the call number `k + 1` of `loadEntries`, for `k` up to
`F / B`: the end of the file is not reached and `k` chunks of `B` bytes are
read. -/
theorem loadEntriesTimes_chunk_state (pf : Platform) (mode : _errorHandlingMode)
    (inFile : List Char) (B : Int) (fileFormat : _fileFormat) (delimiter : Char)
    (headerMode : _headerMode) (hB : 1 ≤ B) :
    ∀ k : Nat, k ≤ ((inFile.length : Int) / B).toNat →
      (loadEntriesTimes pf mode k
        (constructed inFile B .load_in_chunks fileFormat delimiter headerMode)).inFile = inFile ∧
      (loadEntriesTimes pf mode k
        (constructed inFile B .load_in_chunks fileFormat delimiter headerMode))._loadDataModeFlag
          = .load_in_chunks ∧
      (loadEntriesTimes pf mode k
        (constructed inFile B .load_in_chunks fileFormat delimiter headerMode))._eofFlag
          = false ∧
      (loadEntriesTimes pf mode k
        (constructed inFile B .load_in_chunks fileFormat delimiter headerMode))._inFileStreamSize
          = (inFile.length : Int) ∧
      (loadEntriesTimes pf mode k
        (constructed inFile B .load_in_chunks fileFormat delimiter
          headerMode))._inFileReadLastPosition = (k : Int) * B ∧
      (loadEntriesTimes pf mode k
        (constructed inFile B .load_in_chunks fileFormat delimiter headerMode))._readBufferSize
          = B ∧
      (loadEntriesTimes pf mode k
        (constructed inFile B .load_in_chunks fileFormat delimiter headerMode))._chunksCount
          = (k : Int) := by
  obtain ⟨hq1, hq2⟩ := chunk_quotient_bounds inFile.length B hB
  intro k
  induction k with
  | zero =>
    intro _
    refine ⟨rfl, rfl, rfl, rfl, ?_, rfl, rfl⟩
    simp [loadEntriesTimes, constructed]
  | succ k ih =>
    intro hk
    obtain ⟨i1, i2, i3, i4, i5, i6, i7⟩ := ih (by omega)
    rw [loadEntriesTimes_succ]
    have hkq : ((k : Int) + 1) * B ≤ (inFile.length : Int) := by
      have : ((k : Int) + 1) ≤ ((((inFile.length : Int) / B).toNat : Nat) : Int) := by
        exact_mod_cast hk
      calc ((k : Int) + 1) * B
          ≤ ((((inFile.length : Int) / B).toNat : Nat) : Int) * B :=
            mul_le_mul_of_nonneg_right this (by omega)
        _ ≤ _ := hq1
    have hkq0 : (k : Int) * B ≤ (inFile.length : Int) := by
      have : ((k : Int) + 1) * B = (k : Int) * B + B := by ring
      omega
    obtain ⟨j1, j2, j3, j4, j5, j6, j7⟩ := loadEntries_chunk_step_state pf mode
      (loadEntriesTimes pf mode k
        (constructed inFile B .load_in_chunks fileFormat delimiter headerMode))
      i2 i3 (by rw [i4, i1]) (by rw [i5, i7, i6]) (by rw [i7]; omega) (by rw [i6]; exact hB)
      (by rw [i7, i6, i4]; exact hkq0)
    have hsz : requestedReadSize (loadEntriesTimes pf mode k
        (constructed inFile B .load_in_chunks fileFormat delimiter headerMode)) = B := by
      rw [requestedReadSize_whole_chunk _ (by rw [i7, i6, i4]; exact hkq), i6]
    refine ⟨j1.trans i1, j2, ?_, j3.trans i4, ?_, ?_, ?_⟩
    · rw [j7, i7, i6, i4]
      simp only [gt_iff_lt, decide_eq_false_iff_not, not_lt]
      exact hkq
    · rw [j5, hsz, i5]; push_cast; ring
    · rw [j6, hsz]
    · rw [j4, i7]; push_cast; ring

theorem requestedReadSize_sum (size : Nat → Int) (B : Int) :
    ∀ n : Nat, (∀ k, k < n → size k = B) →
      ((List.range n).map size).sum = (n : Int) * B := by
  intro n
  induction n with
  | zero => intro _; simp
  | succ n ih =>
    intro h
    rw [List.range_succ, List.map_append, List.sum_append, ih (fun k hk => h k (by omega)),
      List.map_singleton, List.sum_singleton, h n (by omega)]
    push_cast
    ring

/-- In chunk mode the constructor throws `UnableToReadFileInChunks` exactly
when the buffer size `B` is larger than the file size `F`.  For `1 ≤ B ≤ F` and
`q = F / B`: each of the first `q` calls of `loadEntries` asks for `B` bytes and
the call `q + 1` for the `F - q * B` bytes left, a number from `0` up to `B - 1`,
so that the sizes add up to `F`; before each of these `q + 1` calls `_eofFlag`
is clear, the call reads its bytes and returns `true` unless loading the entries
of the chunk throws; after the call `q + 1` the flag `_eofFlag` is set and the
next call returns `false`. -/
theorem loadEntries_chunk_arithmetic_calls (pf : Platform) (mode : _errorHandlingMode)
    (inFile : List Char) (B : Int) (fileFormat : _fileFormat) (delimiter : Char)
    (headerMode : _headerMode) :
    (CsvHandler_new inFile B .load_in_chunks fileFormat delimiter headerMode
        = .error (.UnableToReadFileInChunks inFile.length) ↔ B > (inFile.length : Int)) ∧
    (B ≤ (inFile.length : Int) →
      CsvHandler_new inFile B .load_in_chunks fileFormat delimiter headerMode
        = .ok (constructed inFile B .load_in_chunks fileFormat delimiter headerMode)) ∧
    (1 ≤ B → B ≤ (inFile.length : Int) →
      (∀ k : Nat, k < ((inFile.length : Int) / B).toNat →
        requestedReadSize
          (chunkedHandler pf mode inFile B fileFormat delimiter headerMode k) = B) ∧
      requestedReadSize (chunkedHandler pf mode inFile B fileFormat delimiter headerMode
          ((inFile.length : Int) / B).toNat)
        = (inFile.length : Int) - (((inFile.length : Int) / B).toNat : Int) * B ∧
      0 ≤ requestedReadSize (chunkedHandler pf mode inFile B fileFormat delimiter headerMode
          ((inFile.length : Int) / B).toNat) ∧
      requestedReadSize (chunkedHandler pf mode inFile B fileFormat delimiter headerMode
          ((inFile.length : Int) / B).toNat) < B ∧
      ((List.range (((inFile.length : Int) / B).toNat + 1)).map (fun k =>
          requestedReadSize
            (chunkedHandler pf mode inFile B fileFormat delimiter headerMode k))).sum
        = (inFile.length : Int) ∧
      (∀ k : Nat, k ≤ ((inFile.length : Int) / B).toNat →
        (chunkedHandler pf mode inFile B fileFormat delimiter headerMode k)._eofFlag = false ∧
        ∃ s4 : CsvHandlerState,
          loadEntries pf mode (chunkedHandler pf mode inFile B fileFormat delimiter headerMode k)
            = match loadEntriesOfFormat pf
                ((inFile.drop ((k : Int) * B).toNat).take (requestedReadSize
                  (chunkedHandler pf mode inFile B fileFormat delimiter headerMode k)).toNat)
                mode s4 with
              | (s5, .error e) => (s5, .error e)
              | (s5, .ok _) => (s5, .ok true)) ∧
      (chunkedHandler pf mode inFile B fileFormat delimiter headerMode
        (((inFile.length : Int) / B).toNat + 1))._eofFlag = true ∧
      (loadEntries pf mode (chunkedHandler pf mode inFile B fileFormat delimiter headerMode
        (((inFile.length : Int) / B).toNat + 1))).2 = .ok false) := by
  refine ⟨?_, ?_, ?_⟩
  · unfold CsvHandler_new
    by_cases h : B > (inFile.length : Int)
    · simp [h]
    · simp [h]
  · intro h
    unfold CsvHandler_new
    rw [if_neg (by omega)]
  · intro hB hBF
    obtain ⟨hq1, hq2⟩ := chunk_quotient_bounds inFile.length B hB
    have hst := loadEntriesTimes_chunk_state pf mode inFile B fileFormat delimiter headerMode hB
    unfold chunkedHandler
    generalize constructed inFile B .load_in_chunks fileFormat delimiter headerMode = s0
      at hst ⊢
    have hkB : ∀ k : Nat, k ≤ ((inFile.length : Int) / B).toNat →
        (k : Int) * B ≤ (inFile.length : Int) := by
      intro k hk
      have : (k : Int) ≤ ((((inFile.length : Int) / B).toNat : Nat) : Int) := by
        exact_mod_cast hk
      exact le_trans (mul_le_mul_of_nonneg_right this (by omega)) hq1
    have hwhole : ∀ k : Nat, k < ((inFile.length : Int) / B).toNat →
        requestedReadSize
          (loadEntriesTimes pf mode k s0) = B := by
      intro k hk
      obtain ⟨i1, i2, i3, i4, i5, i6, i7⟩ := hst k (by omega)
      rw [requestedReadSize_whole_chunk _ (by
        rw [i7, i6, i4]
        have := hkB (k + 1) (by omega)
        push_cast at this
        exact this), i6]
    obtain ⟨q1, q2, q3, q4, q5, q6, q7⟩ := hst ((inFile.length : Int) / B).toNat (le_refl _)
    have hlastgt : ((loadEntriesTimes pf mode ((inFile.length : Int) / B).toNat s0)._chunksCount + 1)
        * (loadEntriesTimes pf mode ((inFile.length : Int) / B).toNat s0)._readBufferSize
        > (loadEntriesTimes pf mode ((inFile.length : Int) / B).toNat s0)._inFileStreamSize := by
      rw [q7, q6, q4]
      exact hq2
    have hlast : requestedReadSize (loadEntriesTimes pf mode ((inFile.length : Int) / B).toNat s0)
        = (inFile.length : Int) - (((inFile.length : Int) / B).toNat : Int) * B := by
      rw [requestedReadSize_last_chunk _ q2 hlastgt]
      rw [q4, q6, q7]
      ring
    have hexp : ((((inFile.length : Int) / B).toNat : Nat) + 1 : Int) * B
        = ((((inFile.length : Int) / B).toNat : Nat) : Int) * B + B := by ring
    refine ⟨hwhole, hlast, ?_, ?_, ?_, ?_, ?_, ?_⟩
    · rw [hlast]; omega
    · rw [hlast]; omega
    · rw [List.range_succ, List.map_append, List.sum_append,
        requestedReadSize_sum _ B _ hwhole, List.map_singleton, List.sum_singleton, hlast]
      ring
    · intro k hk
      obtain ⟨i1, i2, i3, i4, i5, i6, i7⟩ := hst k hk
      refine ⟨i3, ?_⟩
      obtain ⟨s4, _, _, _, _, _, _, _, heq⟩ := loadEntries_chunk_step pf mode
        (loadEntriesTimes pf mode k s0)
        i2 i3 (by rw [i4, i1])
        (by rw [i5, i7, i6])
        (by rw [i7]; omega)
        (by rw [i6]; exact hB)
        (by rw [i7, i6, i4]; exact hkB k hk)
      refine ⟨s4, ?_⟩
      rw [heq]
      have e1 : (loadEntriesTimes pf mode k s0).inFile
          = inFile := i1
      have e2 : (loadEntriesTimes pf mode k s0)._inFileReadLastPosition = (k : Int) * B := i5
      rw [e1, e2]
    · have hstep := loadEntries_chunk_step_state pf mode
        (loadEntriesTimes pf mode ((inFile.length : Int) / B).toNat s0)
        q2 q3 (by rw [q4, q1])
        (by rw [q5, q7, q6])
        (by rw [q7]; omega)
        (by rw [q6]; exact hB)
        (by rw [q7, q6, q4]; exact hq1)
      have : loadEntriesTimes pf mode (((inFile.length : Int) / B).toNat + 1) s0
          = (loadEntries pf mode (loadEntriesTimes pf mode ((inFile.length : Int) / B).toNat s0)).1 := loadEntriesTimes_succ pf mode _ _
      rw [this, hstep.2.2.2.2.2.2]
      exact decide_eq_true hlastgt
    · have hstep := loadEntries_chunk_step_state pf mode
        (loadEntriesTimes pf mode ((inFile.length : Int) / B).toNat s0)
        q2 q3 (by rw [q4, q1])
        (by rw [q5, q7, q6])
        (by rw [q7]; omega)
        (by rw [q6]; exact hB)
        (by rw [q7, q6, q4]; exact hq1)
      have : loadEntriesTimes pf mode (((inFile.length : Int) / B).toNat + 1) s0
          = (loadEntries pf mode (loadEntriesTimes pf mode ((inFile.length : Int) / B).toNat s0)).1 := loadEntriesTimes_succ pf mode _ _
      rw [this]
      have hmode := hstep.2.1
      have heof : (loadEntries pf mode (loadEntriesTimes pf mode ((inFile.length : Int) / B).toNat s0)).1._eofFlag = true := by
        rw [hstep.2.2.2.2.2.2]; exact decide_eq_true hlastgt
      generalize (loadEntries pf mode (loadEntriesTimes pf mode ((inFile.length : Int) / B).toNat s0)).1 = t at hmode heof
      unfold loadEntries
      rw [if_pos hmode, if_pos heof]

/-- C17 (amended): in chunk mode the constructor throws `UnableToReadFileInChunks`
exactly when the buffer size `B` is larger than the file size `F`.  For
`1 ≤ B ≤ F` and `q = F / B`: each of the first `q` calls of `loadEntries` asks
for `B` bytes and the call `q + 1` for the `F - q * B` bytes left, a number from
`0` up to `B - 1`, so that the sizes add up to `F`; before each of these `q + 1`
calls `_eofFlag` is clear, and each of them returns `true` unless it throws;
after the call `q + 1` the flag `_eofFlag` is set and the next call returns
`false`. -/
theorem loadEntries_chunk_arithmetic (pf : Platform) (mode : _errorHandlingMode)
    (inFile : List Char) (B : Int) (fileFormat : _fileFormat) (delimiter : Char)
    (headerMode : _headerMode) :
    (CsvHandler_new inFile B .load_in_chunks fileFormat delimiter headerMode
        = .error (.UnableToReadFileInChunks inFile.length) ↔ B > (inFile.length : Int)) ∧
    (B ≤ (inFile.length : Int) →
      CsvHandler_new inFile B .load_in_chunks fileFormat delimiter headerMode
        = .ok (constructed inFile B .load_in_chunks fileFormat delimiter headerMode)) ∧
    (1 ≤ B → B ≤ (inFile.length : Int) →
      (∀ k : Nat, k < ((inFile.length : Int) / B).toNat →
        requestedReadSize
          (chunkedHandler pf mode inFile B fileFormat delimiter headerMode k) = B) ∧
      requestedReadSize (chunkedHandler pf mode inFile B fileFormat delimiter headerMode
          ((inFile.length : Int) / B).toNat)
        = (inFile.length : Int) - (((inFile.length : Int) / B).toNat : Int) * B ∧
      0 ≤ requestedReadSize (chunkedHandler pf mode inFile B fileFormat delimiter headerMode
          ((inFile.length : Int) / B).toNat) ∧
      requestedReadSize (chunkedHandler pf mode inFile B fileFormat delimiter headerMode
          ((inFile.length : Int) / B).toNat) < B ∧
      ((List.range (((inFile.length : Int) / B).toNat + 1)).map (fun k =>
          requestedReadSize
            (chunkedHandler pf mode inFile B fileFormat delimiter headerMode k))).sum
        = (inFile.length : Int) ∧
      (∀ k : Nat, k ≤ ((inFile.length : Int) / B).toNat →
        (chunkedHandler pf mode inFile B fileFormat delimiter headerMode k)._eofFlag = false ∧
        ((loadEntries pf mode
            (chunkedHandler pf mode inFile B fileFormat delimiter headerMode k)).2 = .ok true ∨
          ∃ e, (loadEntries pf mode
            (chunkedHandler pf mode inFile B fileFormat delimiter headerMode k)).2
              = .error e)) ∧
      (chunkedHandler pf mode inFile B fileFormat delimiter headerMode
        (((inFile.length : Int) / B).toNat + 1))._eofFlag = true ∧
      (loadEntries pf mode (chunkedHandler pf mode inFile B fileFormat delimiter headerMode
        (((inFile.length : Int) / B).toNat + 1))).2 = .ok false) := by
  obtain ⟨h1, h2, h3⟩ := loadEntries_chunk_arithmetic_calls pf mode inFile B fileFormat
    delimiter headerMode
  refine ⟨h1, h2, fun hB hBF => ?_⟩
  obtain ⟨a, b, c, d, e, f, g, h⟩ := h3 hB hBF
  refine ⟨a, b, c, d, e, fun k hk => ⟨(f k hk).1, ?_⟩, g, h⟩
  obtain ⟨s4, hs4⟩ := (f k hk).2
  rw [hs4]
  generalize loadEntriesOfFormat pf _ mode s4 = r
  obtain ⟨s5, r5⟩ := r
  cases r5 with
  | error e => exact Or.inr ⟨e, rfl⟩
  | ok v => exact Or.inl rfl

set_option maxRecDepth 100000 in
/-- C17 (amended) on the file `a,b⏎c,d⏎` of eight bytes read in chunks of three bytes: the
calls ask for `3`, `3` and `2` bytes, all three return `true`, and the fourth
returns `false`. -/
theorem loadEntries_chunk_arithmetic_witness :
    ((∀ k : Nat, k < 2 →
        requestedReadSize
          (chunkedHandler refPlatform .stop_on_error "a,b\nc,d\n".toList 3 .CSV ','
            .no_header k) = 3) ∧
      requestedReadSize (chunkedHandler refPlatform .stop_on_error "a,b\nc,d\n".toList 3 .CSV ','
          .no_header 2) = 8 - 2 * 3 ∧
      0 ≤ requestedReadSize (chunkedHandler refPlatform .stop_on_error "a,b\nc,d\n".toList 3
          .CSV ',' .no_header 2) ∧
      requestedReadSize (chunkedHandler refPlatform .stop_on_error "a,b\nc,d\n".toList 3 .CSV ','
          .no_header 2) < 3 ∧
      ((List.range (2 + 1)).map (fun k =>
          requestedReadSize
            (chunkedHandler refPlatform .stop_on_error "a,b\nc,d\n".toList 3 .CSV ','
              .no_header k))).sum = 8 ∧
      (∀ k : Nat, k ≤ 2 →
        (chunkedHandler refPlatform .stop_on_error "a,b\nc,d\n".toList 3 .CSV ','
          .no_header k)._eofFlag = false ∧
        ((loadEntries refPlatform .stop_on_error
            (chunkedHandler refPlatform .stop_on_error "a,b\nc,d\n".toList 3 .CSV ','
              .no_header k)).2 = .ok true ∨
          ∃ e, (loadEntries refPlatform .stop_on_error
            (chunkedHandler refPlatform .stop_on_error "a,b\nc,d\n".toList 3 .CSV ','
              .no_header k)).2 = .error e)) ∧
      (chunkedHandler refPlatform .stop_on_error "a,b\nc,d\n".toList 3 .CSV ','
        .no_header (2 + 1))._eofFlag = true ∧
      (loadEntries refPlatform .stop_on_error
        (chunkedHandler refPlatform .stop_on_error "a,b\nc,d\n".toList 3 .CSV ','
          .no_header (2 + 1))).2 = .ok false) ∧
    (List.range 3).map (fun k => (loadEntries refPlatform .stop_on_error
        (chunkedHandler refPlatform .stop_on_error "a,b\nc,d\n".toList 3 .CSV ','
          .no_header k)).2) = [.ok true, .ok true, .ok true] :=
  ⟨(loadEntries_chunk_arithmetic refPlatform .stop_on_error "a,b\nc,d\n".toList 3 .CSV ','
    .no_header).2.2 (by decide) (by decide), by decide⟩


/-! ## Fields that cannot be converted (C20) -/

theorem mapFind_mapInsert (key : Str) (v : _dataTypes) (key1 : Str) :
    ∀ m : DataTypesMap, mapFind m key = none →
      mapFind (mapInsert m key v) key1 = if key = key1 then some v else mapFind m key1 := by
  intro m
  induction m with
  | nil => intro _; simp [mapInsert, mapFind]
  | cons p rest ih =>
    obtain ⟨k, w⟩ := p
    intro h
    simp only [mapFind] at h
    by_cases hk : k = key
    · rw [if_pos hk] at h; cases h
    · rw [if_neg hk] at h
      simp only [mapInsert]
      by_cases hlt : strLt key k = true
      · rw [if_pos hlt]
        simp only [mapFind]
      · rw [if_neg hlt]
        simp only [mapFind, ih h]
        by_cases h1 : k = key1
        · have : ¬ key = key1 := fun h2 => hk (h1.trans h2.symm)
          simp [h1, this]
        · simp [h1]

theorem mapSubscript_stable (m : DataTypesMap) (key key1 : Str) :
    (mapSubscript (mapSubscript m key).2 key1).1 = (mapSubscript m key1).1 := by
  unfold mapSubscript
  cases h : mapFind m key with
  | some v => rfl
  | none =>
    simp only [mapFind_mapInsert key .type_double key1 m h]
    by_cases hk : key = key1
    · subst hk; simp [h]
    · simp only [if_neg hk]
      cases mapFind m key1 <;> rfl

theorem fieldAt_ok_iff (s : CsvHandlerState) (c : Nat) (idx : Int) (field : CsvEntryElement)
    (h : fieldAt s (c : Int) idx = .ok field) :
    0 ≤ idx ∧ ∃ column, s._sourceFileVector[c]? = some column
      ∧ column[idx.toNat]? = some field := by
  unfold fieldAt vecIndex at h
  simp only [Int.natCast_nonneg, if_true, Int.toNat_ofNat] at h
  cases hc : s._sourceFileVector[c]? with
  | none => rw [hc] at h; cases h
  | some column =>
    rw [hc] at h
    simp only [] at h
    by_cases h0 : 0 ≤ idx
    · rw [if_pos h0] at h
      cases hf : column[idx.toNat]? with
      | none => rw [hf] at h; cases h
      | some f =>
        rw [hf] at h
        cases h
        exact ⟨h0, column, rfl, hf⟩
    · rw [if_neg h0] at h; cases h

theorem fieldAt_putFieldAt_same (s : CsvHandlerState) (c : Nat) (idx : Int)
    (f old : CsvEntryElement) (h : fieldAt s (c : Int) idx = .ok old) :
    fieldAt (putFieldAt s (c : Int) idx f) (c : Int) idx = .ok f := by
  obtain ⟨h0, column, hc, hf⟩ := fieldAt_ok_iff s c idx old h
  have hlt : idx.toNat < column.length := by
    rcases Nat.lt_or_ge idx.toNat column.length with h1 | h1
    · exact h1
    · rw [List.getElem?_eq_none h1] at hf; cases hf
  unfold fieldAt putFieldAt vecIndex
  simp only [Int.natCast_nonneg, if_true, Int.toNat_ofNat, List.getElem?_modify_eq, hc,
    Option.map_eq_map, Option.map_some', if_pos h0, List.getElem?_set_self hlt]

theorem fieldAt_putFieldAt_ne (s : CsvHandlerState) (c c1 : Nat) (idx idx1 : Int)
    (f : CsvEntryElement) (hne : c ≠ c1) :
    fieldAt (putFieldAt s (c : Int) idx f) (c1 : Int) idx1 = fieldAt s (c1 : Int) idx1 := by
  unfold fieldAt putFieldAt vecIndex
  simp only [Int.natCast_nonneg, if_true, Int.toNat_ofNat, List.getElem?_modify_ne _ _ hne]

theorem cellReady_types (s : CsvHandlerState) (entryIndex : Int) (c : Nat)
    (h : cellReady s entryIndex c = true) :
    ∃ typeName field, s._sourceFileColumnTypes[c]? = some typeName
      ∧ fieldAt s (c : Int) entryIndex = .ok field
      ∧ sameClass (newField (mapSubscript s._dataTypesMap typeName).1) field = true := by
  unfold cellReady at h
  cases ht : s._sourceFileColumnTypes[c]? with
  | none => rw [ht] at h; cases h
  | some typeName =>
    cases hf : fieldAt s (c : Int) entryIndex with
    | error e => rw [ht, hf] at h; cases h
    | ok field =>
      rw [ht, hf] at h
      exact ⟨typeName, field, rfl, rfl, h⟩

theorem setColumnsForEntryLoop_cons_ready (entryIndex : Int) (mode : _errorHandlingMode)
    (text : Str) (rest : List Str) (c : Nat) (s : CsvHandlerState) (typeName : Str)
    (hready : cellReady s entryIndex c = true)
    (ht : s._sourceFileColumnTypes[c]? = some typeName) :
    setColumnsForEntryLoop entryIndex mode (text :: rest) (c : Int) s =
      match cellOutcome mode (mapSubscript s._dataTypesMap typeName).1 text with
      | .ok cell =>
        setColumnsForEntryLoop entryIndex mode rest ((c : Int) + 1)
          (putFieldAt { s with _dataTypesMap := (mapSubscript s._dataTypesMap typeName).2 }
            (c : Int) entryIndex cell)
      | .error e =>
        ({ s with _dataTypesMap := (mapSubscript s._dataTypesMap typeName).2 }, .error e) := by
  obtain ⟨typeName1, field, ht1, hf, hcl⟩ := cellReady_types s entryIndex c hready
  rw [ht] at ht1
  cases ht1
  have hf1 : ∀ m, fieldAt { s with _dataTypesMap := m } (c : Int) entryIndex = .ok field :=
    fun _ => hf
  rw [setColumnsForEntryLoop, vecIndex_natCast _ c _ ht]
  simp only []
  generalize (mapSubscript s._dataTypesMap typeName).1 = dt at hcl ⊢
  generalize (mapSubscript s._dataTypesMap typeName).2 = m
  cases dt <;> cases field <;> simp only [newField, sameClass] at hcl <;>
    try (cases hcl)
  · simp only [cellOutcome, setConverted]
    cases hconv : convertString_double text with
    | ok v => simp [Except.map, hf1, setSingleEntryElementValue]
    | error exc =>
      cases mode <;>
        simp [Except.map, hf1, setSingleEntryElementValue, CsvEntryElement.notSet]
  · simp only [cellOutcome, setConverted]
    cases hconv : convertString_int text with
    | ok v => simp [Except.map, hf1, setSingleEntryElementValue]
    | error exc =>
      cases mode <;>
        simp [Except.map, hf1, setSingleEntryElementValue, CsvEntryElement.notSet]
  · simp [cellOutcome, setConverted, hf1, setSingleEntryElementValue]
  · simp [cellOutcome, setConverted, hf1, setSingleEntryElementValue]

theorem cellReady_after_put (s : CsvHandlerState) (entryIndex : Int) (c c1 : Nat)
    (typeName : Str) (cell : CsvEntryElement) (hne : c ≠ c1) :
    cellReady (putFieldAt { s with _dataTypesMap := (mapSubscript s._dataTypesMap typeName).2 }
      (c : Int) entryIndex cell) entryIndex c1 = cellReady s entryIndex c1 := by
  unfold cellReady
  rw [fieldAt_putFieldAt_ne _ c c1 entryIndex entryIndex cell hne]
  have e1 : (putFieldAt { s with _dataTypesMap := (mapSubscript s._dataTypesMap typeName).2 }
      (c : Int) entryIndex cell)._sourceFileColumnTypes = s._sourceFileColumnTypes := rfl
  have e2 : (putFieldAt { s with _dataTypesMap := (mapSubscript s._dataTypesMap typeName).2 }
      (c : Int) entryIndex cell)._dataTypesMap = (mapSubscript s._dataTypesMap typeName).2 := rfl
  have e3 : fieldAt { s with _dataTypesMap := (mapSubscript s._dataTypesMap typeName).2 }
      (c1 : Int) entryIndex = fieldAt s (c1 : Int) entryIndex := rfl
  rw [e1, e2, e3]
  cases s._sourceFileColumnTypes[c1]? with
  | none => rfl
  | some tn =>
    cases fieldAt s (c1 : Int) entryIndex with
    | error e => rfl
    | ok field => simp only [mapSubscript_stable]

theorem cellOutcome_ignore_errors (dt : _dataTypes) (text : Str) :
    ∃ cell, cellOutcome .ignore_errors dt text = .ok cell := by
  unfold cellOutcome
  cases dt
  · cases convertString_double text <;> simp
  · cases convertString_int text <;> simp
  · exact ⟨_, rfl⟩
  · exact ⟨_, rfl⟩

theorem convertString_int_error (text : Str) (e : Exception)
    (h : convertString_int text = .error e) :
    ∃ why, e = .UnableToConvertFieldTypeException why := by
  unfold convertString_int at h
  split at h
  · split at h
    · cases h
    · cases h; exact ⟨_, rfl⟩
  · cases h; exact ⟨_, rfl⟩
  · cases h; exact ⟨_, rfl⟩

theorem convertString_double_error (text : Str) (e : Exception)
    (h : convertString_double text = .error e) :
    ∃ why, e = .UnableToConvertFieldTypeException why := by
  unfold convertString_double at h
  split at h
  · split at h
    · cases h
    · cases h; exact ⟨_, rfl⟩
  · cases h; exact ⟨_, rfl⟩
  · cases h; exact ⟨_, rfl⟩

theorem cellOutcome_error (mode : _errorHandlingMode) (dt : _dataTypes) (text : Str)
    (e : Exception) (h : cellOutcome mode dt text = .error e) :
    ∃ why, e = .UnableToConvertFieldTypeException why := by
  unfold cellOutcome at h
  cases dt
  · cases hc : convertString_double text with
    | ok v => rw [hc] at h; cases h
    | error exc =>
      rw [hc] at h
      simp only [] at h
      split at h
      · cases h
      · cases h; exact convertString_double_error text _ hc
  · cases hc : convertString_int text with
    | ok v => rw [hc] at h; cases h
    | error exc =>
      rw [hc] at h
      simp only [] at h
      split at h
      · cases h
      · cases h; exact convertString_int_error text _ hc
  · cases h
  · cases h

/-- In `ignore_errors` mode `setColumnsForEntry` returns, and every field of the
row is what `cellOutcome` tells for its text and the type of its column. -/
theorem setColumnsForEntryLoop_ignore_errors (entryIndex : Int) :
    ∀ (entry : List Str) (c0 : Nat) (s : CsvHandlerState),
      (∀ i, i < entry.length → cellReady s entryIndex (c0 + i) = true) →
      ∃ s1 : CsvHandlerState,
        setColumnsForEntryLoop entryIndex .ignore_errors entry (c0 : Int) s = (s1, .ok ()) ∧
        (∀ c, c < c0 → fieldAt s1 (c : Int) entryIndex = fieldAt s (c : Int) entryIndex) ∧
        (∀ i text typeName, entry[i]? = some text →
          s._sourceFileColumnTypes[c0 + i]? = some typeName →
          fieldAt s1 ((c0 + i : Nat) : Int) entryIndex
            = cellOutcome .ignore_errors (mapSubscript s._dataTypesMap typeName).1 text) := by
  intro entry
  induction entry with
  | nil =>
    intro c0 s _
    refine ⟨s, rfl, fun _ _ => rfl, ?_⟩
    intro i text typeName h
    cases h
  | cons text rest ih =>
    intro c0 s hready
    have hr0 : cellReady s entryIndex c0 = true := hready 0 (by simp)
    obtain ⟨typeName, field, ht, hf, _⟩ := cellReady_types s entryIndex c0 hr0
    obtain ⟨cell, hcell⟩ := cellOutcome_ignore_errors (mapSubscript s._dataTypesMap typeName).1
      text
    rw [setColumnsForEntryLoop_cons_ready entryIndex .ignore_errors text rest c0 s typeName
      hr0 ht, hcell]
    simp only []
    obtain ⟨s1, hrun, hbefore, hcells⟩ := ih (c0 + 1)
      (putFieldAt { s with _dataTypesMap := (mapSubscript s._dataTypesMap typeName).2 }
        (c0 : Int) entryIndex cell)
      (by
        intro i hi
        rw [cellReady_after_put s entryIndex c0 (c0 + 1 + i) typeName cell (by omega)]
        have := hready (i + 1) (by simp; omega)
        rw [show c0 + 1 + i = c0 + (i + 1) by omega]
        exact this)
    rw [Nat.cast_add, Nat.cast_one] at hrun
    refine ⟨s1, hrun, ?_, ?_⟩
    · intro c hc
      rw [hbefore c (by omega), fieldAt_putFieldAt_ne _ c0 c entryIndex entryIndex cell (by omega)]
      rfl
    · intro i text1 typeName1 hi ht1
      cases i with
      | zero =>
        simp only [List.getElem?_cons_zero, Option.some.injEq] at hi
        subst hi
        rw [Nat.add_zero] at ht1 ⊢
        rw [ht] at ht1
        cases ht1
        rw [hbefore c0 (by omega), hcell]
        exact fieldAt_putFieldAt_same _ c0 entryIndex cell field hf
      | succ i =>
        simp only [List.getElem?_cons_succ] at hi
        have := hcells i text1 typeName1 hi (by
          rw [show c0 + 1 + i = c0 + (i + 1) by omega]; exact ht1)
        rw [show c0 + (i + 1) = c0 + 1 + i by omega, this]
        exact congrArg (fun dt => cellOutcome .ignore_errors dt text1)
          (mapSubscript_stable s._dataTypesMap typeName typeName1)

/-- In `stop_on_error` mode `setColumnsForEntry` throws
`UnableToConvertFieldTypeException` when the text of one of the fields cannot be
converted to the type of its column. -/
theorem setColumnsForEntryLoop_stop_on_error (entryIndex : Int) :
    ∀ (entry : List Str) (c0 : Nat) (s : CsvHandlerState) (j : Nat) (text typeName : Str)
      (e : Exception),
      (∀ i, i < entry.length → cellReady s entryIndex (c0 + i) = true) →
      entry[j]? = some text → s._sourceFileColumnTypes[c0 + j]? = some typeName →
      cellOutcome .stop_on_error (mapSubscript s._dataTypesMap typeName).1 text = .error e →
      ∃ (s1 : CsvHandlerState) (why : ConvertFailure),
        setColumnsForEntryLoop entryIndex .stop_on_error entry (c0 : Int) s
          = (s1, .error (.UnableToConvertFieldTypeException why)) := by
  intro entry
  induction entry with
  | nil =>
    intro c0 s j text typeName e _ hj
    cases hj
  | cons text0 rest ih =>
    intro c0 s j text typeName e hready hj ht hbad
    have hr0 : cellReady s entryIndex c0 = true := hready 0 (by simp)
    obtain ⟨typeName0, field, ht0, hf, _⟩ := cellReady_types s entryIndex c0 hr0
    rw [setColumnsForEntryLoop_cons_ready entryIndex .stop_on_error text0 rest c0 s typeName0
      hr0 ht0]
    cases hcell : cellOutcome .stop_on_error (mapSubscript s._dataTypesMap typeName0).1 text0 with
    | error e0 =>
      obtain ⟨why, rfl⟩ := cellOutcome_error _ _ _ _ hcell
      exact ⟨_, why, rfl⟩
    | ok cell =>
      simp only []
      cases j with
      | zero =>
        simp only [List.getElem?_cons_zero, Option.some.injEq] at hj
        subst hj
        rw [Nat.add_zero, ht0] at ht
        cases ht
        rw [hcell] at hbad
        cases hbad
      | succ j =>
        simp only [List.getElem?_cons_succ] at hj
        have := ih (c0 + 1)
          (putFieldAt { s with _dataTypesMap := (mapSubscript s._dataTypesMap typeName0).2 }
            (c0 : Int) entryIndex cell) j text typeName e
          (by
            intro i hi
            rw [cellReady_after_put s entryIndex c0 (c0 + 1 + i) typeName0 cell (by omega)]
            have := hready (i + 1) (by simp; omega)
            rw [show c0 + 1 + i = c0 + (i + 1) by omega]
            exact this)
          hj
          (by rw [show c0 + 1 + j = c0 + (j + 1) by omega]; exact ht)
          (by
            have e2 : (putFieldAt
                { s with _dataTypesMap := (mapSubscript s._dataTypesMap typeName0).2 }
                (c0 : Int) entryIndex cell)._dataTypesMap
                = (mapSubscript s._dataTypesMap typeName0).2 := rfl
            rw [e2, mapSubscript_stable]
            exact hbad)
        rw [Nat.cast_add, Nat.cast_one] at this
        exact this

/-- C20: let the row `entryIndex` of the table be initialised for the columns of
`entry`, and let the text of the field `j` of `entry` not convert to the type,
`int` or `double`, of its column.  In `ignore_errors` mode `setColumnsForEntry`
returns; the field `j` of the row then holds the zero of its type and is not
set, so that `storeFieldsInFile_CSV` writes nothing for it; and every other
field of the row holds the value converted from its own text, when that
converts, and is set.  In `stop_on_error` mode the call throws
`UnableToConvertFieldTypeException`. -/
theorem setColumnsForEntry_unparsable_field (pf : Platform) (s : CsvHandlerState)
    (entry : List Str) (entryIndex : Int) (j : Nat) (text typeName : Str) (e : Exception)
    (hready : ∀ c, c < entry.length → cellReady s entryIndex c = true)
    (hj : entry[j]? = some text) (ht : s._sourceFileColumnTypes[j]? = some typeName)
    (hbad : ((mapSubscript s._dataTypesMap typeName).1 = .type_int
        ∧ convertString_int text = .error e)
      ∨ ((mapSubscript s._dataTypesMap typeName).1 = .type_double
        ∧ convertString_double text = .error e)) :
    (∃ (s1 : CsvHandlerState) (cell : CsvEntryElement),
      setColumnsForEntry entry entryIndex .ignore_errors s = (s1, .ok ()) ∧
      fieldAt s1 (j : Int) entryIndex = .ok cell ∧
      ((mapSubscript s._dataTypesMap typeName).1 = .type_int →
        cell = .csv_intField (some 0) false) ∧
      ((mapSubscript s._dataTypesMap typeName).1 = .type_double →
        cell = .csv_doubleField (some zeroDouble) false) ∧
      cell.isSet = false ∧
      fieldText pf cell = .ok [] ∧
      ∀ (c : Nat) (text1 typeName1 : Str), c ≠ j → entry[c]? = some text1 →
        s._sourceFileColumnTypes[c]? = some typeName1 →
        (∀ v, (mapSubscript s._dataTypesMap typeName1).1 = .type_int →
          convertString_int text1 = .ok v →
          fieldAt s1 (c : Int) entryIndex = .ok (.csv_intField (some v) true)) ∧
        (∀ v, (mapSubscript s._dataTypesMap typeName1).1 = .type_double →
          convertString_double text1 = .ok v →
          fieldAt s1 (c : Int) entryIndex = .ok (.csv_doubleField (some v) true)) ∧
        ((mapSubscript s._dataTypesMap typeName1).1 ≠ .type_int →
          (mapSubscript s._dataTypesMap typeName1).1 ≠ .type_double →
          fieldAt s1 (c : Int) entryIndex = .ok (.csv_stringField text1 true))) ∧
    (∃ (s1 : CsvHandlerState) (why : ConvertFailure),
      setColumnsForEntry entry entryIndex .stop_on_error s
        = (s1, .error (.UnableToConvertFieldTypeException why))) := by
  have hready0 : ∀ i, i < entry.length → cellReady s entryIndex (0 + i) = true := by
    intro i hi; rw [Nat.zero_add]; exact hready i hi
  constructor
  · obtain ⟨s1, hrun, _, hcells⟩ := setColumnsForEntryLoop_ignore_errors entryIndex entry 0 s
      hready0
    have hcell := hcells j text typeName hj (by rw [Nat.zero_add]; exact ht)
    rw [Nat.zero_add] at hcell
    rcases hbad with ⟨hdt, hconv⟩ | ⟨hdt, hconv⟩
    · refine ⟨s1, .csv_intField (some 0) false, hrun, ?_, fun _ => rfl, ?_, rfl, rfl, ?_⟩
      · rw [hcell, hdt]; simp [cellOutcome, hconv]
      · intro h; rw [hdt] at h; cases h
      · intro c text1 typeName1 _ hc htc
        have h1 := hcells c text1 typeName1 hc (by rw [Nat.zero_add]; exact htc)
        rw [Nat.zero_add] at h1
        refine ⟨?_, ?_, ?_⟩
        · intro v hd hv; rw [h1, hd]; simp [cellOutcome, hv]
        · intro v hd hv; rw [h1, hd]; simp [cellOutcome, hv]
        · intro hn1 hn2
          rw [h1]
          cases hd : (mapSubscript s._dataTypesMap typeName1).1 with
          | type_double => exact absurd hd hn2
          | type_int => exact absurd hd hn1
          | type_string => rfl
          | type_date => rfl
    · refine ⟨s1, .csv_doubleField (some zeroDouble) false, hrun, ?_, ?_, fun _ => rfl, rfl, rfl,
        ?_⟩
      · rw [hcell, hdt]; simp [cellOutcome, hconv]
      · intro h; rw [hdt] at h; cases h
      · intro c text1 typeName1 _ hc htc
        have h1 := hcells c text1 typeName1 hc (by rw [Nat.zero_add]; exact htc)
        rw [Nat.zero_add] at h1
        refine ⟨?_, ?_, ?_⟩
        · intro v hd hv; rw [h1, hd]; simp [cellOutcome, hv]
        · intro v hd hv; rw [h1, hd]; simp [cellOutcome, hv]
        · intro hn1 hn2
          rw [h1]
          cases hd : (mapSubscript s._dataTypesMap typeName1).1 with
          | type_double => exact absurd hd hn2
          | type_int => exact absurd hd hn1
          | type_string => rfl
          | type_date => rfl
  · have hout : cellOutcome .stop_on_error (mapSubscript s._dataTypesMap typeName).1 text
        = .error e := by
      rcases hbad with ⟨hdt, hconv⟩ | ⟨hdt, hconv⟩
      · rw [hdt]; simp [cellOutcome, hconv]
      · rw [hdt]; simp [cellOutcome, hconv]
    exact setColumnsForEntryLoop_stop_on_error entryIndex entry 0 s j text typeName e hready0 hj
      (by rw [Nat.zero_add]; exact ht) hout

set_option maxRecDepth 100000 in
/-- C20 on the table of the file `1,b⏎2,d⏎`, for the entry `x,q` put in row `1`:
the text `x` is no `int`.  Also, the file `1,b⏎x,d⏎3,g⏎` loaded in `ignore_errors`
mode is written back with an empty first field in its second line. -/
theorem setColumnsForEntry_unparsable_field_witness :
    ((∃ (s1 : CsvHandlerState) (cell : CsvEntryElement),
      setColumnsForEntry ["x".toList, "q".toList] 1 .ignore_errors
          (loadedHandler "1,b\n2,d\n".toList 0 .load_whole_file .no_header .stop_on_error 1)
        = (s1, .ok ()) ∧
      fieldAt s1 ((0 : Nat) : Int) 1 = .ok cell ∧
      ((mapSubscript (loadedHandler "1,b\n2,d\n".toList 0 .load_whole_file .no_header
          .stop_on_error 1)._dataTypesMap _tInt).1 = .type_int →
        cell = .csv_intField (some 0) false) ∧
      ((mapSubscript (loadedHandler "1,b\n2,d\n".toList 0 .load_whole_file .no_header
          .stop_on_error 1)._dataTypesMap _tInt).1 = .type_double →
        cell = .csv_doubleField (some zeroDouble) false) ∧
      cell.isSet = false ∧
      fieldText refPlatform cell = .ok [] ∧
      ∀ (c : Nat) (text1 typeName1 : Str), c ≠ 0 →
        ["x".toList, "q".toList][c]? = some text1 →
        (loadedHandler "1,b\n2,d\n".toList 0 .load_whole_file .no_header
          .stop_on_error 1)._sourceFileColumnTypes[c]? = some typeName1 →
        (∀ v, (mapSubscript (loadedHandler "1,b\n2,d\n".toList 0 .load_whole_file .no_header
            .stop_on_error 1)._dataTypesMap typeName1).1 = .type_int →
          convertString_int text1 = .ok v →
          fieldAt s1 (c : Int) 1 = .ok (.csv_intField (some v) true)) ∧
        (∀ v, (mapSubscript (loadedHandler "1,b\n2,d\n".toList 0 .load_whole_file .no_header
            .stop_on_error 1)._dataTypesMap typeName1).1 = .type_double →
          convertString_double text1 = .ok v →
          fieldAt s1 (c : Int) 1 = .ok (.csv_doubleField (some v) true)) ∧
        ((mapSubscript (loadedHandler "1,b\n2,d\n".toList 0 .load_whole_file .no_header
            .stop_on_error 1)._dataTypesMap typeName1).1 ≠ .type_int →
          (mapSubscript (loadedHandler "1,b\n2,d\n".toList 0 .load_whole_file .no_header
            .stop_on_error 1)._dataTypesMap typeName1).1 ≠ .type_double →
          fieldAt s1 (c : Int) 1 = .ok (.csv_stringField text1 true))) ∧
    (∃ (s1 : CsvHandlerState) (why : ConvertFailure),
      setColumnsForEntry ["x".toList, "q".toList] 1 .stop_on_error
          (loadedHandler "1,b\n2,d\n".toList 0 .load_whole_file .no_header .stop_on_error 1)
        = (s1, .error (.UnableToConvertFieldTypeException why)))) ∧
    storeFieldsInFile_CSV refPlatform
        (loadedHandler "1,b\nx,d\n3,g\n".toList 0 .load_whole_file .no_header .ignore_errors 1)
        ','
      = .ok "1,b\n,d\n3,g\n".toList ∧
    (loadEntries refPlatform .stop_on_error
        (constructed "1,b\nx,d\n3,g\n".toList 0 .load_whole_file .CSV ',' .no_header)).2
      = .error (.UnableToConvertFieldTypeException .invalidArgument) :=
  ⟨setColumnsForEntry_unparsable_field refPlatform
    (loadedHandler "1,b\n2,d\n".toList 0 .load_whole_file .no_header .stop_on_error 1)
    ["x".toList, "q".toList] 1 0 "x".toList _tInt
    (.UnableToConvertFieldTypeException .invalidArgument)
    (by decide) (by decide) (by decide) (Or.inl (by decide)), by decide, by decide⟩


/-! ## Where the length of the window is kept -/

theorem windowInvariant_congr (s t : CsvHandlerState) (h : windowOf t = windowOf s)
    (hs : windowInvariant s) : windowInvariant t := by
  unfold windowOf at h
  unfold windowInvariant at hs ⊢
  have h1 := congrArg (fun p : Int × Int × Int => p.1) h
  have h2 := congrArg (fun p : Int × Int × Int => p.2.1) h
  have h3 := congrArg (fun p : Int × Int × Int => p.2.2) h
  simp only [] at h1 h2 h3
  omega

theorem windowOf_ignoresTable : IgnoresTable windowOf :=
  fun _ _ _ _ _ _ _ _ => rfl

theorem windowOf_ignores_fields (s : CsvHandlerState) (m : DataTypesMap)
    (v : List (List CsvEntryElement)) :
    windowOf { s with _dataTypesMap := m, _sourceFileVector := v } = windowOf s := rfl

theorem emplaceEntriesInStorageLoop_window (pf : Platform) (fileFormat : _fileFormat)
    (errorHandlingMode : _errorHandlingMode) :
    ∀ (fuel cEntry : Nat) (entryLines : List Str) (s : CsvHandlerState), windowInvariant s →
      windowInvariant
        (emplaceEntriesInStorageLoop pf fileFormat errorHandlingMode fuel cEntry entryLines s).1
    := by
  intro fuel
  induction fuel with
  | zero => intro _ _ s hs; exact hs
  | succ fuel ih =>
    intro cEntry entryLines s hs
    unfold emplaceEntriesInStorageLoop
    split
    · exact hs
    · split
      · exact hs
      · split
        · have hset := setColumnsForEntryLoop_frame windowOf windowOf_ignores_fields (cEntry : Int)
            errorHandlingMode ‹List Str› 0 s
          unfold setColumnsForEntry
          split
          · rename_i s1 u heq
            rw [heq] at hset
            exact ih _ _ _ (windowInvariant_congr s s1 hset hs)
          · rename_i s1 e heq
            rw [heq] at hset
            exact windowInvariant_congr s s1 hset hs
        · split
          · exact hs
          · split
            · exact hs
            · apply ih
              unfold windowInvariant at hs ⊢
              simp only []
              omega

theorem storeEntryLines_window (pf : Platform) (entryLines : List Str)
    (fileFormat : _fileFormat) (errMode : _errorHandlingMode) (s : CsvHandlerState) :
    windowInvariant (storeEntryLines pf entryLines fileFormat errMode s).1 := by
  unfold storeEntryLines
  simp only []
  have h1 : ∀ t, windowInvariant t → windowInvariant (initializeStorage t).1 := fun t ht =>
    windowInvariant_congr t _ (initializeStorageLoop_frame windowOf windowOf_ignoresTable _ t) ht
  have h0 : windowInvariant { s with
      _sourceFileColumnTypes := s._inFileColumnTypes
      _sourceFileHeader := s._inFileHeader
      _absoluteEndingIndex := s._absoluteEndingIndex + entryLines.length
      _absoluteBeginningIndex := s._absoluteEndingIndex + entryLines.length - entryLines.length
      _entriesInCurrentChunk := entryLines.length } := by
    unfold windowInvariant
    simp only []
    omega
  have h2 := h1 _ h0
  split
  · rename_i s2 e heq
    rw [heq] at h2
    exact h2
  · rename_i s2 u heq
    rw [heq] at h2
    have h3 := emplaceEntriesInStorageLoop_window pf fileFormat errMode entryLines.length 0
      entryLines s2 h2
    unfold emplaceEntriesInStorage
    split
    · rename_i s3 e heq3
      rw [heq3] at h3
      exact h3
    · rename_i s3 u3 heq3
      rw [heq3] at h3
      exact h3

theorem loadEntries_CSV_window (pf : Platform) (data : List Char)
    (errMode : _errorHandlingMode) (s : CsvHandlerState) (hs : windowInvariant s) :
    windowInvariant (loadEntries_CSV pf data errMode s).1 := by
  unfold loadEntries_CSV
  simp only []
  have hdet : windowOf (if s._sourceFileColumnTypes.isEmpty = true then
      autoDetectTypesForColumns pf s else (s, Except.ok ())).1 = windowOf s := by
    split
    · exact autoDetectTypesForColumns_frame windowOf windowOf_ignoresTable pf s
    · rfl
  split
  · rename_i s1 e heq
    rw [heq] at hdet
    exact windowInvariant_congr s s1 hdet hs
  · rename_i s1 u heq
    rw [heq] at hdet
    split
    · exact windowInvariant_congr s _ hdet hs
    · split
      · rename_i s3 e heq3
        have := loadHeaderLine_frame windowOf windowOf_ignoresTable pf ‹Str›
          { s1 with _buffLeftovers := (convertCharBufferIntoCSVentryStrings
              s1._sourceFileColumnTypes.length s1._eofFlag s1._buffLeftovers data).2 }
        rw [heq3] at this
        exact windowInvariant_congr s s3 (this.trans hdet) hs
      · exact storeEntryLines_window pf _ _ _ _

theorem loadEntries_JSON_window (pf : Platform) (data : List Char)
    (errMode : _errorHandlingMode) (s : CsvHandlerState) (hs : windowInvariant s) :
    windowInvariant (loadEntries_JSON pf data errMode s).1 := by
  unfold loadEntries_JSON
  simp only []
  split
  · exact hs
  · rename_i front more hl
    split
    · rename_i s2 e heq
      split at heq
      · split at heq
        · rw [← (Prod.mk.inj heq).1]; exact hs
        · rw [← (Prod.mk.inj heq).1]
          exact windowInvariant_congr _ _
            (loadHeader_frame windowOf windowOf_ignoresTable _ _) hs
      · rw [← (Prod.mk.inj heq).1]; exact hs
    · rename_i s2 u heq
      split
      · rename_i s3 e heq3
        have h2 : windowInvariant s2 := by
          split at heq
          · split at heq
            · rw [← (Prod.mk.inj heq).1]; exact hs
            · rw [← (Prod.mk.inj heq).1]
              exact windowInvariant_congr _ _
                (loadHeader_frame windowOf windowOf_ignoresTable _ _) hs
          · rw [← (Prod.mk.inj heq).1]; exact hs
        split at heq3
        · split at heq3
          · rw [← (Prod.mk.inj heq3).1]; exact h2
          · rw [← (Prod.mk.inj heq3).1]
            exact windowInvariant_congr s2 _ (windowOf_ignoresTable s2 _ _ _ _ _ _ _) h2
        · rw [← (Prod.mk.inj heq3).1]; exact h2
      · exact storeEntryLines_window pf _ _ _ _

theorem loadEntriesRead_window (pf : Platform) (mode : _errorHandlingMode)
    (s : CsvHandlerState) (hs : windowInvariant s) :
    windowInvariant (loadEntriesRead pf mode s).1 := by
  have h1 : windowInvariant (sizeLastChunk (clearStorage s)) := by
    unfold sizeLastChunk
    split
    · exact hs
    · exact hs
  have h2 : windowInvariant (loadChunkOfFile (sizeLastChunk (clearStorage s))).1 := by
    unfold loadChunkOfFile
    split
    · exact h1
    · split
      · exact h1
      · split
        · exact h1
        · split
          · exact h1
          · exact h1
  unfold loadEntriesRead
  split
  · rename_i s3 e heq
    rw [heq] at h2
    exact h2
  · rename_i s3 data heq
    rw [heq] at h2
    have h4 : windowInvariant (if s3._loadDataModeFlag = .load_in_chunks then
        { s3 with _chunksCount := s3._chunksCount + 1 } else s3) := by
      split
      · exact h2
      · exact h2
    have h5 : windowInvariant (loadEntriesOfFormat pf data mode
        (if s3._loadDataModeFlag = .load_in_chunks then
          { s3 with _chunksCount := s3._chunksCount + 1 } else s3)).1 := by
      unfold loadEntriesOfFormat
      split
      · exact loadEntries_CSV_window pf data mode _ h4
      · exact loadEntries_JSON_window pf data mode _ h4
    simp only []
    split
    · rename_i s5 e heq5
      rw [heq5] at h5
      exact h5
    · rename_i s5 u heq5
      rw [heq5] at h5
      exact h5

theorem removeRowLoop_frame {α : Type} (π : CsvHandlerState → α)
    (hπ : ∀ (s : CsvHandlerState) m v,
      π { s with _dataTypesMap := m, _sourceFileVector := v } = π s) (pos : Int) :
    ∀ (fuel : Nat) (colID : Int) (s : CsvHandlerState),
      π (removeRowLoop pos fuel colID s).1 = π s := by
  intro fuel
  induction fuel with
  | zero => intros; rfl
  | succ fuel ih =>
    intro colID s
    unfold removeRowLoop
    split
    · rfl
    · split
      · rfl
      · split
        · rfl
        · rw [ih]; exact hπ s s._dataTypesMap _

theorem initializeNewEntryLoop_frame {α : Type} (π : CsvHandlerState → α)
    (hπ : ∀ (s : CsvHandlerState) m v,
      π { s with _dataTypesMap := m, _sourceFileVector := v } = π s) (newEntryPos : Int) :
    ∀ (types : List Str) (columnId : Int) (s : CsvHandlerState),
      π (initializeNewEntryLoop newEntryPos types columnId s).1 = π s := by
  intro types
  induction types with
  | nil => intros; rfl
  | cons typeName rest ih =>
    intro columnId s
    unfold initializeNewEntryLoop
    simp only []
    split
    · exact hπ s _ s._sourceFileVector
    · split
      · exact hπ s _ s._sourceFileVector
      · rw [ih]; exact hπ s _ _

theorem insertRowAt_window (entry : List Str) (newEntryPos : Int)
    (mode : _errorHandlingMode) (s : CsvHandlerState) (hs : windowInvariant s) :
    windowInvariant (insertRowAt entry newEntryPos mode s).1 := by
  unfold insertRowAt
  have h1 := initializeNewEntryLoop_frame windowOf windowOf_ignores_fields newEntryPos
    s._sourceFileColumnTypes 0 s
  unfold initializeNewEntry
  split
  · rename_i s1 e heq
    rw [heq] at h1
    exact windowInvariant_congr s s1 h1 hs
  · rename_i s1 u heq
    rw [heq] at h1
    have h2 := setColumnsForEntryLoop_frame windowOf windowOf_ignores_fields newEntryPos mode
      entry 0 s1
    unfold setColumnsForEntry
    split
    · rename_i s2 e heq2
      rw [heq2] at h2
      exact windowInvariant_congr s s2 (h2.trans h1) hs
    · rename_i s2 u2 heq2
      rw [heq2] at h2
      have h3 := windowInvariant_congr s s2 (h2.trans h1) hs
      unfold windowInvariant at h3 ⊢
      simp only []
      omega

/-- A call of `loadEntries` in chunk mode before the end of the file, `insertRow`
and `removeRow` keep
`_absoluteEndingIndex - _absoluteBeginningIndex = _entriesInCurrentChunk`, in
both error modes and also when they throw. -/
theorem windowInvariant_preserved (pf : Platform) (mode : _errorHandlingMode)
    (s : CsvHandlerState) (hs : windowInvariant s) :
    (s._loadDataModeFlag = .load_in_chunks → s._eofFlag = false →
      windowInvariant (loadEntries pf mode s).1) ∧
    (∀ (entry : List Str) (pos : Int), windowInvariant (insertRow entry pos mode s).1) ∧
    (∀ rowIndex : Int, windowInvariant (removeRow rowIndex s).1) := by
  refine ⟨?_, ?_, ?_⟩
  · intro hm he
    unfold loadEntries
    rw [if_pos hm, if_neg (by rw [he]; decide)]
    exact loadEntriesRead_window pf mode s hs
  · intro entry pos
    unfold insertRow
    split
    · exact insertRowAt_window _ _ _ _ hs
    · split
      · exact insertRowAt_window _ _ _ _ hs
      · split
        · exact hs
        · exact hs
  · intro rowIndex
    unfold removeRow
    split
    · have h1 := removeRowLoop_frame windowOf windowOf_ignores_fields
        (s._entriesInCurrentChunk - (s._absoluteEndingIndex - rowIndex))
        s._sourceFileColumnTypes.length 0 s
      split
      · rename_i s1 e heq
        rw [heq] at h1
        exact windowInvariant_congr s s1 h1 hs
      · rename_i s1 u heq
        rw [heq] at h1
        have h3 := windowInvariant_congr s s1 h1 hs
        unfold windowInvariant at h3 ⊢
        simp only []
        omega
    · split
      · exact hs
      · exact hs


/-! ## Removing a column (C26) -/

theorem vecErase_natCast {α : Type} (v : List α) (i : Nat) (h : i < v.length) :
    vecErase v (i : Int) = .ok (v.eraseIdx i) := by
  unfold vecErase
  rw [if_pos ⟨Int.natCast_nonneg i, by simpa using h⟩]
  simp

/-- C26 (amended): in a table with as many type tags as columns and, when there
is a header, as many captions, `removeColumn(i)` for `i` below the number of
columns returns,
and the handler afterwards is the handler before without the column `i`, the
type tag `i` and, when there is a header, the caption `i`: the other elements
keep their order, each of the sequences is one shorter, and nothing else
changes, the window and the number of rows included. -/
theorem removeColumn_removes_column (s : CsvHandlerState) (i : Nat) (hl : lockstep s)
    (hi : i < s._sourceFileVector.length) :
    removeColumn (i : Int) s
      = ({ s with
            _sourceFileColumnTypes :=
              s._sourceFileColumnTypes.take i ++ s._sourceFileColumnTypes.drop (i + 1)
            _sourceFileHeader := s._sourceFileHeader.take i ++ s._sourceFileHeader.drop (i + 1)
            _sourceFileVector := s._sourceFileVector.take i ++ s._sourceFileVector.drop (i + 1) },
          .ok ()) ∧
    (s._sourceFileColumnTypes.take i ++ s._sourceFileColumnTypes.drop (i + 1)).length + 1
      = s._sourceFileColumnTypes.length ∧
    (s._sourceFileVector.take i ++ s._sourceFileVector.drop (i + 1)).length + 1
      = s._sourceFileVector.length ∧
    (s._sourceFileHeader ≠ [] →
      (s._sourceFileHeader.take i ++ s._sourceFileHeader.drop (i + 1)).length + 1
        = s._sourceFileHeader.length) := by
  obtain ⟨ht, hh⟩ := hl
  have hit : i < s._sourceFileColumnTypes.length := by omega
  refine ⟨?_, ?_, ?_, ?_⟩
  · unfold removeColumn
    rw [vecErase_natCast _ i hit]
    simp only []
    by_cases hemp : s._sourceFileHeader = []
    · simp only [hemp, List.isEmpty_nil, if_true, List.take_nil, List.drop_nil, List.append_nil]
      rw [vecErase_natCast _ i hi]
      simp only [List.eraseIdx_eq_take_drop_succ]
    · have hih : i < s._sourceFileHeader.length := by rw [hh hemp]; exact hi
      have hne : s._sourceFileHeader.isEmpty = false := by
        cases hs : s._sourceFileHeader with
        | nil => exact absurd hs hemp
        | cons a b => rfl
      simp only [hne, Bool.false_eq_true, if_false]
      rw [vecErase_natCast _ i hih]
      simp only []
      rw [vecErase_natCast _ i hi]
      simp only [List.eraseIdx_eq_take_drop_succ]
  · simp only [List.length_append, List.length_take, List.length_drop]; omega
  · simp only [List.length_append, List.length_take, List.length_drop]; omega
  · intro hemp
    have := hh hemp
    simp only [List.length_append, List.length_take, List.length_drop]; omega

set_option maxRecDepth 100000 in
/-- C26 (amended) on the table of the file `name,age⏎Alice,30⏎Bob,45⏎` and its column `0`: the
column `age` is left. -/
theorem removeColumn_removes_column_witness :
    (removeColumn ((0 : Nat) : Int)
        (loadedHandler "name,age\nAlice,30\nBob,45\n".toList 0 .load_whole_file .include_header
          .stop_on_error 1)
      = ({ loadedHandler "name,age\nAlice,30\nBob,45\n".toList 0 .load_whole_file
            .include_header .stop_on_error 1 with
            _sourceFileColumnTypes :=
              (loadedHandler "name,age\nAlice,30\nBob,45\n".toList 0 .load_whole_file
                .include_header .stop_on_error 1)._sourceFileColumnTypes.take 0 ++
              (loadedHandler "name,age\nAlice,30\nBob,45\n".toList 0 .load_whole_file
                .include_header .stop_on_error 1)._sourceFileColumnTypes.drop (0 + 1)
            _sourceFileHeader :=
              (loadedHandler "name,age\nAlice,30\nBob,45\n".toList 0 .load_whole_file
                .include_header .stop_on_error 1)._sourceFileHeader.take 0 ++
              (loadedHandler "name,age\nAlice,30\nBob,45\n".toList 0 .load_whole_file
                .include_header .stop_on_error 1)._sourceFileHeader.drop (0 + 1)
            _sourceFileVector :=
              (loadedHandler "name,age\nAlice,30\nBob,45\n".toList 0 .load_whole_file
                .include_header .stop_on_error 1)._sourceFileVector.take 0 ++
              (loadedHandler "name,age\nAlice,30\nBob,45\n".toList 0 .load_whole_file
                .include_header .stop_on_error 1)._sourceFileVector.drop (0 + 1) },
          .ok ())) ∧
    (removeColumn 0 (loadedHandler "name,age\nAlice,30\nBob,45\n".toList 0 .load_whole_file
        .include_header .stop_on_error 1)).1._sourceFileHeader = ["age".toList] ∧
    (removeColumn 0 (loadedHandler "name,age\nAlice,30\nBob,45\n".toList 0 .load_whole_file
        .include_header .stop_on_error 1)).1._sourceFileColumnTypes = [_tInt] ∧
    (removeColumn 0 (loadedHandler "name,age\nAlice,30\nBob,45\n".toList 0 .load_whole_file
        .include_header .stop_on_error 1)).1._sourceFileVector
      = [[.csv_intField (some 30) true, .csv_intField (some 45) true]] :=
  ⟨(removeColumn_removes_column
    (loadedHandler "name,age\nAlice,30\nBob,45\n".toList 0 .load_whole_file .include_header
      .stop_on_error 1) 0 ⟨by decide, by decide⟩ (by decide)).1, by decide, by decide, by decide⟩


/-! ## `replaceAll` (C29, C30) -/

theorem replaceAllMatches_error (newValue : Str) :
    ∀ (ms : List Str) (field : CsvEntryElement) (replaced : Int) (e : Exception),
      (replaceAllMatches newValue ms field replaced).2 = .error e → e = .undefinedBehaviour := by
  intro ms
  induction ms with
  | nil => intro field replaced e h; cases h
  | cons m more ih =>
    intro field replaced e h
    unfold replaceAllMatches at h
    split at h
    · split at h
      · exact ih _ _ _ h
      · cases h; rfl
    · exact ih _ _ _ h

theorem getStringValue_error (pf : Platform) (field : CsvEntryElement) (e : Exception)
    (h : field.getStringValue pf = .error e) : e = .undefinedBehaviour := by
  cases field with
  | csv_intField v b => cases v <;> simp [CsvEntryElement.getStringValue] at h; exact h.symm
  | csv_doubleField v b => cases v <;> simp [CsvEntryElement.getStringValue] at h; exact h.symm
  | csv_stringField v b => simp [CsvEntryElement.getStringValue] at h

theorem replaceAllLoop_error (rx : RegexLib) (pf : Platform) (regex replacement : Str) :
    ∀ (column : List CsvEntryElement) (replaced : Int) (e : Exception),
      (replaceAllLoop rx pf regex replacement column replaced).2 = .error e →
        e = .undefinedBehaviour := by
  intro column
  induction column with
  | nil => intro replaced e h; cases h
  | cons field rest ih =>
    intro replaced e h
    unfold replaceAllLoop at h
    split at h
    · rename_i e1 hgs
      cases h
      exact getStringValue_error pf field _ hgs
    · split at h
      · rename_i field1 e1 hm
        cases h
        exact replaceAllMatches_error _ _ _ _ _ (by rw [hm])
      · exact ih _ _ h

/-- C30 (amended): `replaceAll` throws `std::out_of_range` exactly when
`columnPos` is negative, when it is not below the number of type tags, when the
type tag of the column is another one than `string`, as the tags `int`, `double`
and `date` are, or when, the pattern being one the regex library accepts, there
is no stored column at `columnPos`.  In a table with as many columns as type
tags the last case is one of the others.  A call that throws it leaves the
handler as it was. -/
theorem replaceAll_out_of_range_iff (rx : RegexLib) (pf : Platform) (s : CsvHandlerState)
    (columnPos : Int) (regex replacement : Str) :
    ((replaceAll rx pf columnPos regex replacement s).2 = .error .out_of_range ↔
      (columnPos < 0 ∨ ¬ columnPos < (s._sourceFileColumnTypes.length : Int) ∨
        s._sourceFileColumnTypes[columnPos.toNat]? ≠ some _tString ∨
        (rx.valid regex = true ∧ ¬ columnPos < (s._sourceFileVector.length : Int)))) ∧
    (s._sourceFileVector.length = s._sourceFileColumnTypes.length →
      ((replaceAll rx pf columnPos regex replacement s).2 = .error .out_of_range ↔
        (columnPos < 0 ∨ ¬ columnPos < (s._sourceFileColumnTypes.length : Int) ∨
          s._sourceFileColumnTypes[columnPos.toNat]? ≠ some _tString))) ∧
    ((replaceAll rx pf columnPos regex replacement s).2 = .error .out_of_range →
      (replaceAll rx pf columnPos regex replacement s).1 = s) ∧
    (_tInt ≠ _tString ∧ _tDouble ≠ _tString ∧ _tDate ≠ _tString) := by
  have key : (replaceAll rx pf columnPos regex replacement s).2 = .error .out_of_range →
      (columnPos < 0 ∨ ¬ columnPos < (s._sourceFileColumnTypes.length : Int) ∨
        s._sourceFileColumnTypes[columnPos.toNat]? ≠ some _tString ∨
        (rx.valid regex = true ∧ ¬ columnPos < (s._sourceFileVector.length : Int))) := by
    intro h
    by_contra hcon
    push_neg at hcon
    obtain ⟨h0, hlt, hty, hvec⟩ := hcon
    have hat : vecAt s._sourceFileColumnTypes columnPos = .ok _tString := by
      unfold vecAt
      rw [if_pos h0, hty]
    unfold replaceAll at h
    rw [if_pos hlt, hat] at h
    simp only [if_true] at h
    by_cases hv : rx.valid regex = true
    · have hlt2 : columnPos.toNat < s._sourceFileVector.length := by
        have := hvec hv
        omega
      have hat2 : vecAt s._sourceFileVector columnPos
          = .ok (s._sourceFileVector[columnPos.toNat]) := by
        unfold vecAt
        rw [if_pos h0, List.getElem?_eq_getElem hlt2]
      rw [if_pos hv, hat2] at h
      simp only [] at h
      have := replaceAllLoop_error rx pf regex replacement _ _ _ h
      cases this
    · rw [if_neg hv] at h
      cases h
  have back : (columnPos < 0 ∨ ¬ columnPos < (s._sourceFileColumnTypes.length : Int) ∨
        s._sourceFileColumnTypes[columnPos.toNat]? ≠ some _tString ∨
        (rx.valid regex = true ∧ ¬ columnPos < (s._sourceFileVector.length : Int))) →
      replaceAll rx pf columnPos regex replacement s = (s, .error .out_of_range) := by
    intro h
    unfold replaceAll
    by_cases hlt : columnPos < (s._sourceFileColumnTypes.length : Int)
    · rw [if_pos hlt]
      by_cases h0 : 0 ≤ columnPos
      · have hlt2 : columnPos.toNat < s._sourceFileColumnTypes.length := by omega
        have hat : vecAt s._sourceFileColumnTypes columnPos
            = .ok (s._sourceFileColumnTypes[columnPos.toNat]) := by
          unfold vecAt
          rw [if_pos h0, List.getElem?_eq_getElem hlt2]
        rw [hat]
        simp only []
        by_cases hty : s._sourceFileColumnTypes[columnPos.toNat] = _tString
        · rw [if_pos hty]
          rcases h with h | h | h | h
          · omega
          · exact absurd hlt h
          · exfalso
            apply h
            rw [List.getElem?_eq_getElem hlt2, hty]
          · rw [if_pos h.1]
            have hat2 : vecAt s._sourceFileVector columnPos = .error .out_of_range := by
              unfold vecAt
              rw [if_pos h0, List.getElem?_eq_none (by have := h.2; omega)]
            rw [hat2]
        · rw [if_neg hty]
      · have hat : vecAt s._sourceFileColumnTypes columnPos = .error .out_of_range := by
          unfold vecAt
          rw [if_neg h0]
        rw [hat]
    · rw [if_neg hlt]
  refine ⟨⟨key, fun h => by rw [back h]⟩, ?_, ?_, by decide⟩
  · intro hcols
    constructor
    · intro h
      rcases key h with h1 | h1 | h1 | h1
      · exact Or.inl h1
      · exact Or.inr (Or.inl h1)
      · exact Or.inr (Or.inr h1)
      · exact Or.inr (Or.inl (by rw [← hcols]; exact h1.2))
    · intro h
      rw [back (by
        rcases h with h1 | h1 | h1
        · exact Or.inl h1
        · exact Or.inr (Or.inl h1)
        · exact Or.inr (Or.inr (Or.inl h1)))]
  · intro h
    rw [back (key h)]

set_option maxRecDepth 100000 in
/-- C30 (amended) on the table of the file `name,age⏎Alice,30⏎Bob,45⏎` with the
types `string` and `int`, which has as many columns as type tags, for the column
`age`. -/
theorem replaceAll_out_of_range_iff_witness :
    ((replaceAll fragmentRegex refPlatform 1 "0".toList "1".toList
        (typedHandler "name,age\nAlice,30\nBob,45\n".toList [.type_string, .type_int]
          .include_header .stop_on_error)).2 = .error .out_of_range ↔
      ((1 : Int) < 0 ∨ ¬ (1 : Int) < ((typedHandler "name,age\nAlice,30\nBob,45\n".toList
          [.type_string, .type_int] .include_header
          .stop_on_error)._sourceFileColumnTypes.length : Int) ∨
        (typedHandler "name,age\nAlice,30\nBob,45\n".toList [.type_string, .type_int]
          .include_header .stop_on_error)._sourceFileColumnTypes[(1 : Int).toNat]?
            ≠ some _tString)) ∧
    (replaceAll fragmentRegex refPlatform 1 "0".toList "1".toList
        (typedHandler "name,age\nAlice,30\nBob,45\n".toList [.type_string, .type_int]
          .include_header .stop_on_error)).2 = .error .out_of_range ∧
    (replaceAll fragmentRegex refPlatform 1 "0".toList "1".toList
        (typedHandler "name,age\nAlice,30\nBob,45\n".toList [.type_string, .type_int]
          .include_header .stop_on_error)).1
      = typedHandler "name,age\nAlice,30\nBob,45\n".toList [.type_string, .type_int]
          .include_header .stop_on_error :=
  ⟨(replaceAll_out_of_range_iff fragmentRegex refPlatform
    (typedHandler "name,age\nAlice,30\nBob,45\n".toList [.type_string, .type_int]
      .include_header .stop_on_error) 1 "0".toList "1".toList).2.1 (by decide), by decide,
   (replaceAll_out_of_range_iff fragmentRegex refPlatform
    (typedHandler "name,age\nAlice,30\nBob,45\n".toList [.type_string, .type_int]
      .include_header .stop_on_error) 1 "0".toList "1".toList).2.2.1 (by decide)⟩

set_option maxRecDepth 100000 in
/-- C29 fails on the table of the file `name,age⏎Alice,30⏎Bob,45⏎` with the types
`string` and `int`.  For the pattern `^A` and the replacement `Z` the call
returns `1` and the column becomes `Zlice`, `Bob`.  For the pattern `^(A)`,
which matches the same single field, the call returns `2`: the counter is
increased for the match and again for its group.  For the pattern `^`, which
matches both fields with an empty match, the call returns `0` and replaces
nothing, while `std::regex_replace` makes `ZAlice` of `Alice`. -/
theorem replaceAll_counts_sub_matches :
    (typedHandler "name,age\nAlice,30\nBob,45\n".toList [.type_string, .type_int]
      .include_header .stop_on_error)._sourceFileVector
      = [[.csv_stringField "Alice".toList true, .csv_stringField "Bob".toList true],
         [.csv_intField (some 30) true, .csv_intField (some 45) true]] ∧
    (replaceAll fragmentRegex refPlatform 0 "^A".toList "Z".toList
      (typedHandler "name,age\nAlice,30\nBob,45\n".toList [.type_string, .type_int]
        .include_header .stop_on_error)).2 = .ok 1 ∧
    (replaceAll fragmentRegex refPlatform 0 "^A".toList "Z".toList
      (typedHandler "name,age\nAlice,30\nBob,45\n".toList [.type_string, .type_int]
        .include_header .stop_on_error)).1._sourceFileVector
      = [[.csv_stringField "Zlice".toList true, .csv_stringField "Bob".toList true],
         [.csv_intField (some 30) true, .csv_intField (some 45) true]] ∧
    fragmentRegex.regex_search "Alice".toList "^(A)".toList = ["A".toList, "A".toList] ∧
    fragmentRegex.regex_search "Bob".toList "^(A)".toList = [] ∧
    (replaceAll fragmentRegex refPlatform 0 "^(A)".toList "Z".toList
      (typedHandler "name,age\nAlice,30\nBob,45\n".toList [.type_string, .type_int]
        .include_header .stop_on_error)).2 = .ok 2 ∧
    fragmentRegex.regex_search "Alice".toList "^".toList = [[]] ∧
    fragmentRegex.regex_search "Bob".toList "^".toList = [[]] ∧
    fragmentRegex.regex_replace "Alice".toList "^".toList "Z".toList = "ZAlice".toList ∧
    replaceAll fragmentRegex refPlatform 0 "^".toList "Z".toList
        (typedHandler "name,age\nAlice,30\nBob,45\n".toList [.type_string, .type_int]
          .include_header .stop_on_error)
      = (typedHandler "name,age\nAlice,30\nBob,45\n".toList [.type_string, .type_int]
          .include_header .stop_on_error, .ok 0) := by
  decide


theorem replaceAllMatches_string (newValue : Str) :
    ∀ (ms : List Str) (v : Str) (b : Bool) (replaced : Int),
      replaceAllMatches newValue ms (.csv_stringField v b) replaced
        = (if ms.any (fun m => decide (m ≠ [])) = true then .csv_stringField newValue true
            else .csv_stringField v b,
          .ok (replaced + ((ms.countP (fun m => decide (m ≠ [])) : Nat) : Int))) := by
  intro ms
  induction ms with
  | nil => intro v b replaced; simp [replaceAllMatches]
  | cons m more ih =>
    intro v b replaced
    unfold replaceAllMatches
    by_cases hm : m ≠ []
    · rw [if_pos hm]
      simp only []
      rw [ih]
      have h1 : (m :: more).any (fun m => decide (m ≠ [])) = true := by
        simp [List.any_cons, hm]
      have h2 : (m :: more).countP (fun m => decide (m ≠ []))
          = more.countP (fun m => decide (m ≠ [])) + 1 := by
        rw [List.countP_cons_of_pos]; simpa using hm
      rw [h1, h2]
      simp only [if_true]
      by_cases h3 : more.any (fun m => decide (m ≠ [])) = true
      · rw [if_pos h3]; congr 2; push_cast; ring
      · rw [if_neg h3]; congr 2; push_cast; ring
    · rw [if_neg hm, ih]
      have hm2 : m = [] := by simpa using hm
      subst hm2
      simp [List.any_cons]

/-- What `replaceAll` does with a column of string fields, whatever the library
answers: a field is replaced when `std::regex_search` leaves a sub-match that is
not empty, and the counter grows by the number of such sub-matches of every
field. -/
theorem replaceAllLoop_strings (rx : RegexLib) (pf : Platform) (regex replacement : Str) :
    ∀ (values : List (Str × Bool)) (replaced : Int),
      replaceAllLoop rx pf regex replacement
          (values.map (fun v => CsvEntryElement.csv_stringField v.1 v.2)) replaced
        = (values.map (fun v =>
            if (rx.regex_search v.1 regex).any (fun m => decide (m ≠ [])) = true then
              CsvEntryElement.csv_stringField (rx.regex_replace v.1 regex replacement) true
            else CsvEntryElement.csv_stringField v.1 v.2),
          .ok (replaced + (((values.map (fun v =>
            (rx.regex_search v.1 regex).countP (fun m => decide (m ≠ [])))).sum : Nat) : Int)))
    := by
  intro values
  induction values with
  | nil => intro replaced; simp [replaceAllLoop]
  | cons v rest ih =>
    intro replaced
    simp only [List.map_cons, replaceAllLoop, CsvEntryElement.getStringValue,
      replaceAllMatches_string, ih, List.sum_cons]
    congr 2
    push_cast
    ring


/-! ## Rows of the table -/

theorem fieldAt_of_rowCells (s : CsvHandlerState) (c k : Nat) :
    fieldAt s (c : Int) (k : Int) =
      match (rowCells s._sourceFileVector k)[c]? with
      | some (some field) => .ok field
      | _ => .error .undefinedBehaviour := by
  unfold fieldAt vecIndex rowCells
  simp only [Int.natCast_nonneg, if_true, Int.toNat_ofNat, List.getElem?_map]
  cases s._sourceFileVector[c]? with
  | none => rfl
  | some column =>
    simp only [Option.map_some']
    cases column[k]? <;> rfl

theorem getRowLoop_congr (pf : Platform) (s t : CsvHandlerState) (k k1 : Nat)
    (h : rowCells s._sourceFileVector k = rowCells t._sourceFileVector k1) :
    ∀ (n : Nat) (c : Nat) (acc : List Str),
      getRowLoop pf s (k : Int) n (c : Int) acc = getRowLoop pf t (k1 : Int) n (c : Int) acc := by
  intro n
  induction n with
  | zero => intros; rfl
  | succ n ih =>
    intro c acc
    unfold getRowLoop
    rw [fieldAt_of_rowCells s c k, fieldAt_of_rowCells t c k1, h]
    split
    · rfl
    · split
      · rfl
      · have := ih (c + 1) (acc ++ [‹Str›])
        rw [Nat.cast_add, Nat.cast_one] at this
        exact this

/-- The row that `getRow` returns depends on the handler through the window, the
number of type tags and the fields at the position of the row only. -/
theorem getRow_congr (pf : Platform) (s t : CsvHandlerState) (j j1 : Int) (k k1 : Nat)
    (hs : s._absoluteBeginningIndex ≤ j ∧ j < s._absoluteEndingIndex)
    (ht : t._absoluteBeginningIndex ≤ j1 ∧ j1 < t._absoluteEndingIndex)
    (hk : s._entriesInCurrentChunk - (s._absoluteEndingIndex - j) = (k : Int))
    (hk1 : t._entriesInCurrentChunk - (t._absoluteEndingIndex - j1) = (k1 : Int))
    (hn : s._sourceFileColumnTypes.length = t._sourceFileColumnTypes.length)
    (h : rowCells s._sourceFileVector k = rowCells t._sourceFileVector k1) :
    getRow pf s j = getRow pf t j1 := by
  unfold getRow
  rw [if_pos ⟨hs.1, hs.2⟩, if_pos ⟨ht.1, ht.2⟩, hk, hk1, hn]
  have := getRowLoop_congr pf s t k k1 h t._sourceFileColumnTypes.length 0 []
  rw [Nat.cast_zero] at this
  exact this

/-- The row that `getRow` returns when every column has a field at the position of
the row. -/
theorem getRow_of_rowCells (pf : Platform) (s : CsvHandlerState) (j : Int) (k : Nat)
    (fields : List CsvEntryElement)
    (hs : s._absoluteBeginningIndex ≤ j ∧ j < s._absoluteEndingIndex)
    (hk : s._entriesInCurrentChunk - (s._absoluteEndingIndex - j) = (k : Int))
    (hn : s._sourceFileColumnTypes.length = fields.length)
    (h : rowCells s._sourceFileVector k = fields.map some) :
    getRow pf s j = stringValues pf fields := by
  unfold getRow
  rw [if_pos ⟨hs.1, hs.2⟩, hk]
  have := getRowLoop_eq pf s k fields h s._sourceFileColumnTypes.length 0 [] (by omega)
  rw [Nat.cast_zero] at this
  rw [this]
  simp only [List.drop_zero, List.nil_append]
  cases stringValues pf fields <;> rfl

theorem rowCells_eraseIdx (columns : List (List CsvEntryElement)) (p k : Nat) :
    rowCells (columns.map (fun column => column.eraseIdx p)) k
      = rowCells columns (if k < p then k else k + 1) := by
  unfold rowCells
  rw [List.map_map]
  apply List.map_congr_left
  intro column _
  simp only [Function.comp]
  rw [List.getElem?_eraseIdx]
  split <;> rfl

/-! ## Removing a row (C21, C22) -/

theorem vecIndex_append_length {α : Type} (pre post : List α) (x : α) :
    vecIndex (pre ++ x :: post) (pre.length : Int) = .ok x := by
  apply vecIndex_natCast
  rw [List.getElem?_append_right (le_refl _)]
  simp

theorem removeRowLoop_erases (p : Nat) :
    ∀ (post pre : List (List CsvEntryElement)) (s : CsvHandlerState),
      s._sourceFileVector = pre ++ post → (∀ column ∈ post, p < column.length) →
      removeRowLoop (p : Int) post.length (pre.length : Int) s
        = ({ s with _sourceFileVector := pre ++ post.map (fun column => column.eraseIdx p) },
            .ok ()) := by
  intro post
  induction post with
  | nil =>
    intro pre s hv _
    simp only [List.length_nil, removeRowLoop, List.map_nil]
    rw [← hv]
  | cons column rest ih =>
    intro pre s hv hp
    have hpc : p < column.length := hp column (List.mem_cons_self _ _)
    simp only [List.length_cons, removeRowLoop]
    rw [hv, vecIndex_append_length]
    simp only []
    have hat : vecAt column (p : Int) = .ok column[p] := by
      unfold vecAt
      simp [List.getElem?_eq_getElem hpc]
    rw [hat, vecErase_natCast _ p hpc]
    simp only [Int.toNat_ofNat]
    have hset : (pre ++ column :: rest).set pre.length (column.eraseIdx p)
        = (pre ++ [column.eraseIdx p]) ++ rest := by
      rw [List.set_append]
      simp
    have := ih (pre ++ [column.eraseIdx p])
      { s with _sourceFileVector := (pre ++ column :: rest).set pre.length (column.eraseIdx p) }
      hset (fun c hc => hp c (List.mem_cons_of_mem _ hc))
    rw [List.length_append, List.length_singleton, Nat.cast_add, Nat.cast_one] at this
    rw [this]
    simp only [List.map_cons, List.append_assoc, List.singleton_append]

/-- What `removeRow` does in a table with as many columns as type tags, each of
`_entriesInCurrentChunk` fields, whose window is that long, for a row of the
window. -/
theorem removeRow_eq (s : CsvHandlerState) (rowIndex : Int) (hw : windowInvariant s)
    (hl : s._sourceFileColumnTypes.length = s._sourceFileVector.length) (hr : rectangular s)
    (hlo : s._absoluteBeginningIndex ≤ rowIndex) (hhi : rowIndex < s._absoluteEndingIndex) :
    removeRow rowIndex s
      = ({ s with
            _sourceFileVector := s._sourceFileVector.map (fun column =>
              column.eraseIdx (rowIndex - s._absoluteBeginningIndex).toNat)
            _entriesInCurrentChunk := s._entriesInCurrentChunk - 1
            _absoluteEndingIndex := s._absoluteEndingIndex - 1 }, .ok ()) := by
  unfold windowInvariant at hw
  obtain ⟨p, hp⟩ : ∃ p : Nat, rowIndex - s._absoluteBeginningIndex = (p : Int) :=
    ⟨(rowIndex - s._absoluteBeginningIndex).toNat, by omega⟩
  have hpos : s._entriesInCurrentChunk - (s._absoluteEndingIndex - rowIndex) = (p : Int) := by
    omega
  have hcol : ∀ column ∈ s._sourceFileVector, p < column.length := by
    intro column hc
    have := hr column hc
    omega
  unfold removeRow
  rw [if_pos ⟨hlo, hhi⟩, hpos, hl]
  have := removeRowLoop_erases p s._sourceFileVector [] s rfl hcol
  rw [List.length_nil, Nat.cast_zero] at this
  rw [this, hp]
  simp only [List.nil_append, Int.toNat_ofNat]


/-- The rows after `removeRow`: the rows before the removed one are as they were,
and the row `j` from the removed one on is the former row `j + 1`. -/
theorem getRow_after_removeRow (pf : Platform) (s : CsvHandlerState) (rowIndex : Int)
    (hw : windowInvariant s)
    (hl : s._sourceFileColumnTypes.length = s._sourceFileVector.length) (hr : rectangular s)
    (hlo : s._absoluteBeginningIndex ≤ rowIndex) (hhi : rowIndex < s._absoluteEndingIndex) :
    (∀ j, s._absoluteBeginningIndex ≤ j → j < rowIndex →
      getRow pf (removeRow rowIndex s).1 j = getRow pf s j) ∧
    (∀ j, rowIndex ≤ j → j < s._absoluteEndingIndex - 1 →
      getRow pf (removeRow rowIndex s).1 j = getRow pf s (j + 1)) := by
  rw [removeRow_eq s rowIndex hw hl hr hlo hhi]
  dsimp only
  have hw1 := hw
  unfold windowInvariant at hw1
  constructor
  · intro j hj1 hj2
    obtain ⟨k, hk⟩ : ∃ k : Nat, j - s._absoluteBeginningIndex = (k : Int) :=
      ⟨(j - s._absoluteBeginningIndex).toNat, by omega⟩
    apply getRow_congr pf _ s j j k k
    · exact ⟨hj1, by dsimp only; omega⟩
    · exact ⟨hj1, by omega⟩
    · dsimp only; omega
    · omega
    · rfl
    · dsimp only
      rw [rowCells_eraseIdx, if_pos (by omega)]
  · intro j hj1 hj2
    obtain ⟨k, hk⟩ : ∃ k : Nat, j - s._absoluteBeginningIndex = (k : Int) :=
      ⟨(j - s._absoluteBeginningIndex).toNat, by omega⟩
    apply getRow_congr pf _ s j (j + 1) k (k + 1)
    · exact ⟨by dsimp only; omega, by dsimp only; omega⟩
    · exact ⟨by omega, by omega⟩
    · dsimp only; omega
    · push_cast; omega
    · rfl
    · dsimp only
      rw [rowCells_eraseIdx, if_neg (by omega)]

/-- C21 (amended): in a table with as many columns as type tags, each of
`_entriesInCurrentChunk` fields, whose window is that long, `removeRow(rowIndex)`
for a row of the window returns after erasing the field at the position
`rowIndex - _absoluteBeginningIndex` of every column: `_entriesInCurrentChunk`
and `_absoluteEndingIndex` are one smaller, `_absoluteBeginningIndex` is as it
was, `getRow(j)` is as it was for a row `j` before `rowIndex`, and is the former
`getRow(j + 1)` for a row `j` from `rowIndex` on. -/
theorem removeRow_removes_row (pf : Platform) (s : CsvHandlerState) (rowIndex : Int)
    (hw : windowInvariant s)
    (hl : s._sourceFileColumnTypes.length = s._sourceFileVector.length) (hr : rectangular s)
    (hlo : s._absoluteBeginningIndex ≤ rowIndex) (hhi : rowIndex < s._absoluteEndingIndex) :
    (removeRow rowIndex s).2 = .ok () ∧
    (removeRow rowIndex s).1._sourceFileVector
      = s._sourceFileVector.map (fun column =>
          column.eraseIdx (rowIndex - s._absoluteBeginningIndex).toNat) ∧
    (removeRow rowIndex s).1._entriesInCurrentChunk = s._entriesInCurrentChunk - 1 ∧
    (removeRow rowIndex s).1._absoluteEndingIndex = s._absoluteEndingIndex - 1 ∧
    (removeRow rowIndex s).1._absoluteBeginningIndex = s._absoluteBeginningIndex ∧
    (∀ j, s._absoluteBeginningIndex ≤ j → j < rowIndex →
      getRow pf (removeRow rowIndex s).1 j = getRow pf s j) ∧
    (∀ j, rowIndex ≤ j → j < (removeRow rowIndex s).1._absoluteEndingIndex →
      getRow pf (removeRow rowIndex s).1 j = getRow pf s (j + 1)) := by
  obtain ⟨h1, h2⟩ := getRow_after_removeRow pf s rowIndex hw hl hr hlo hhi
  have he := removeRow_eq s rowIndex hw hl hr hlo hhi
  refine ⟨by rw [he], by rw [he], by rw [he], by rw [he], by rw [he], h1, ?_⟩
  intro j hj1 hj2
  apply h2 j hj1
  rw [he] at hj2
  exact hj2

set_option maxRecDepth 100000 in
/-- C21 (amended) on the table of the file `a,b⏎c,d⏎e,f⏎` and its row `1`. -/
theorem removeRow_removes_row_witness :
    ((removeRow 1 (loadedHandler "a,b\nc,d\ne,f\n".toList 0 .load_whole_file .no_header
        .stop_on_error 1)).2 = .ok () ∧
    (removeRow 1 (loadedHandler "a,b\nc,d\ne,f\n".toList 0 .load_whole_file .no_header
        .stop_on_error 1)).1._sourceFileVector
      = (loadedHandler "a,b\nc,d\ne,f\n".toList 0 .load_whole_file .no_header
          .stop_on_error 1)._sourceFileVector.map (fun column =>
          column.eraseIdx ((1 : Int) - (loadedHandler "a,b\nc,d\ne,f\n".toList 0
            .load_whole_file .no_header .stop_on_error 1)._absoluteBeginningIndex).toNat) ∧
    (removeRow 1 (loadedHandler "a,b\nc,d\ne,f\n".toList 0 .load_whole_file .no_header
        .stop_on_error 1)).1._entriesInCurrentChunk
      = (loadedHandler "a,b\nc,d\ne,f\n".toList 0 .load_whole_file .no_header
          .stop_on_error 1)._entriesInCurrentChunk - 1 ∧
    (removeRow 1 (loadedHandler "a,b\nc,d\ne,f\n".toList 0 .load_whole_file .no_header
        .stop_on_error 1)).1._absoluteEndingIndex
      = (loadedHandler "a,b\nc,d\ne,f\n".toList 0 .load_whole_file .no_header
          .stop_on_error 1)._absoluteEndingIndex - 1 ∧
    (removeRow 1 (loadedHandler "a,b\nc,d\ne,f\n".toList 0 .load_whole_file .no_header
        .stop_on_error 1)).1._absoluteBeginningIndex
      = (loadedHandler "a,b\nc,d\ne,f\n".toList 0 .load_whole_file .no_header
          .stop_on_error 1)._absoluteBeginningIndex ∧
    (∀ j, (loadedHandler "a,b\nc,d\ne,f\n".toList 0 .load_whole_file .no_header
        .stop_on_error 1)._absoluteBeginningIndex ≤ j → j < 1 →
      getRow refPlatform (removeRow 1 (loadedHandler "a,b\nc,d\ne,f\n".toList 0
          .load_whole_file .no_header .stop_on_error 1)).1 j
        = getRow refPlatform (loadedHandler "a,b\nc,d\ne,f\n".toList 0 .load_whole_file
          .no_header .stop_on_error 1) j) ∧
    (∀ j, 1 ≤ j → j < (removeRow 1 (loadedHandler "a,b\nc,d\ne,f\n".toList 0
          .load_whole_file .no_header .stop_on_error 1)).1._absoluteEndingIndex →
      getRow refPlatform (removeRow 1 (loadedHandler "a,b\nc,d\ne,f\n".toList 0
          .load_whole_file .no_header .stop_on_error 1)).1 j
        = getRow refPlatform (loadedHandler "a,b\nc,d\ne,f\n".toList 0 .load_whole_file
          .no_header .stop_on_error 1) (j + 1))) ∧
    getRow refPlatform (removeRow 1 (loadedHandler "a,b\nc,d\ne,f\n".toList 0
        .load_whole_file .no_header .stop_on_error 1)).1 0 = .ok ["a".toList, "b".toList] ∧
    getRow refPlatform (removeRow 1 (loadedHandler "a,b\nc,d\ne,f\n".toList 0
        .load_whole_file .no_header .stop_on_error 1)).1 1 = .ok ["e".toList, "f".toList] :=
  ⟨removeRow_removes_row refPlatform
    (loadedHandler "a,b\nc,d\ne,f\n".toList 0 .load_whole_file .no_header .stop_on_error 1) 1
    (by unfold windowInvariant; decide) (by decide) (by unfold rectangular; decide)
    (by decide) (by decide), by decide, by decide⟩

/-- C22, as amended: after `removeRow(rowIndex)` for a row of the window, in a table
with as many columns as type tags, each of `_entriesInCurrentChunk` fields,
whose window is that long: when the row was the last of the window,
`getRow(rowIndex)` throws `std::out_of_range` exactly when `_eofFlag` is set, and
returns an empty row when it is clear; when it was not the last, `getRow(rowIndex)`
returns what `getRow(rowIndex + 1)` returned before, whether `_eofFlag` is set
or not. -/
theorem getRow_at_removed_row (pf : Platform) (s : CsvHandlerState) (rowIndex : Int)
    (hw : windowInvariant s)
    (hl : s._sourceFileColumnTypes.length = s._sourceFileVector.length) (hr : rectangular s)
    (hlo : s._absoluteBeginningIndex ≤ rowIndex) (hhi : rowIndex < s._absoluteEndingIndex) :
    (rowIndex = s._absoluteEndingIndex - 1 →
      (getRow pf (removeRow rowIndex s).1 rowIndex = .error .out_of_range ↔ s._eofFlag = true) ∧
      (s._eofFlag = false → getRow pf (removeRow rowIndex s).1 rowIndex = .ok [])) ∧
    (rowIndex < s._absoluteEndingIndex - 1 →
      getRow pf (removeRow rowIndex s).1 rowIndex = getRow pf s (rowIndex + 1)) := by
  constructor
  · intro hlast
    rw [removeRow_eq s rowIndex hw hl hr hlo hhi]
    unfold getRow
    simp only []
    rw [if_neg (by omega)]
    by_cases he : s._eofFlag = true
    · rw [if_pos ⟨he, by omega⟩]
      simp [he]
    · rw [if_neg (fun h => he h.1)]
      simp [he]
  · intro hnot
    exact (getRow_after_removeRow pf s rowIndex hw hl hr hlo hhi).2 rowIndex (le_refl _) hnot

set_option maxRecDepth 100000 in
/-- C22 (amended) on the table of the file `a,b⏎c,d⏎e,f⏎`, read as a whole, and its
last row `2`. -/
theorem getRow_at_removed_row_witness :
    ((2 : Int) = (loadedHandler "a,b\nc,d\ne,f\n".toList 0 .load_whole_file .no_header
        .stop_on_error 1)._absoluteEndingIndex - 1 →
      (getRow refPlatform (removeRow 2 (loadedHandler "a,b\nc,d\ne,f\n".toList 0
          .load_whole_file .no_header .stop_on_error 1)).1 2 = .error .out_of_range ↔
        (loadedHandler "a,b\nc,d\ne,f\n".toList 0 .load_whole_file .no_header
          .stop_on_error 1)._eofFlag = true) ∧
      ((loadedHandler "a,b\nc,d\ne,f\n".toList 0 .load_whole_file .no_header
          .stop_on_error 1)._eofFlag = false →
        getRow refPlatform (removeRow 2 (loadedHandler "a,b\nc,d\ne,f\n".toList 0
          .load_whole_file .no_header .stop_on_error 1)).1 2 = .ok [])) ∧
    ((2 : Int) < (loadedHandler "a,b\nc,d\ne,f\n".toList 0 .load_whole_file .no_header
        .stop_on_error 1)._absoluteEndingIndex - 1 →
      getRow refPlatform (removeRow 2 (loadedHandler "a,b\nc,d\ne,f\n".toList 0
          .load_whole_file .no_header .stop_on_error 1)).1 2
        = getRow refPlatform (loadedHandler "a,b\nc,d\ne,f\n".toList 0 .load_whole_file
          .no_header .stop_on_error 1) (2 + 1)) :=
  getRow_at_removed_row refPlatform
    (loadedHandler "a,b\nc,d\ne,f\n".toList 0 .load_whole_file .no_header .stop_on_error 1) 2
    (by unfold windowInvariant; decide) (by decide) (by unfold rectangular; decide)
    (by decide) (by decide)

set_option maxRecDepth 100000 in
/-- C22 as stated fails: the file `a,b⏎c,d⏎e,f⏎` is read as a whole, so that
`_eofFlag` is set; after `removeRow(0)` the call `getRow(0)` throws nothing and
returns the former row `1`. -/
theorem getRow_at_removed_row_counterexample :
    (loadedHandler "a,b\nc,d\ne,f\n".toList 0 .load_whole_file .no_header .stop_on_error 1
      )._eofFlag = true ∧
    (removeRow 0 (loadedHandler "a,b\nc,d\ne,f\n".toList 0 .load_whole_file .no_header
      .stop_on_error 1)).2 = .ok () ∧
    getRow refPlatform (removeRow 0 (loadedHandler "a,b\nc,d\ne,f\n".toList 0
        .load_whole_file .no_header .stop_on_error 1)).1 0 = .ok ["c".toList, "d".toList] := by
  decide


/-! ## Inserting a row (C23, C24) -/

/-- The position that `insertRow` computes for a row of the window is
`_entriesInCurrentChunk - _absoluteEndingIndex - pos`, which in a window as
long as the chunk has rows is `-_absoluteBeginningIndex - pos`: for every row
but the row `0` of a window that begins at `0` it is negative, and the
insertion before the beginning of the first column is undefined. -/
theorem insertRow_in_window_undefined (s : CsvHandlerState) (entry : List Str) (pos : Int)
    (mode : _errorHandlingMode) (hw : windowInvariant s)
    (hlo : s._absoluteBeginningIndex ≤ pos) (hhi : pos < s._absoluteEndingIndex)
    (hpos : 0 < s._absoluteBeginningIndex + pos)
    (ht : s._sourceFileColumnTypes ≠ []) (hv : s._sourceFileVector ≠ []) :
    s._entriesInCurrentChunk - s._absoluteEndingIndex - pos < 0 ∧
    (insertRow entry pos mode s).2 = .error .undefinedBehaviour := by
  unfold windowInvariant at hw
  have hneg : s._entriesInCurrentChunk - s._absoluteEndingIndex - pos < 0 := by omega
  refine ⟨hneg, ?_⟩
  unfold insertRow
  rw [if_neg (by omega), if_pos ⟨hlo, hhi⟩]
  unfold insertRowAt initializeNewEntry
  cases htl : s._sourceFileColumnTypes with
  | nil => exact absurd htl ht
  | cons typeName rest =>
    cases hvl : s._sourceFileVector with
    | nil => exact absurd hvl hv
    | cons column more =>
      simp only [initializeNewEntryLoop, vecIndex, hvl, le_refl, if_true, Int.toNat_zero,
        List.getElem?_cons_zero, vecInsert]
      rw [if_neg (by omega)]

set_option maxRecDepth 100000 in
/-- C24 fails on the table of the file `name,age⏎Alice,30⏎Bob,45⏎`, whose window is
`[0, 2)`: for `insertRow(entry, 1)` the position computed is `2 - 2 - 1 = -1`,
not the offset `1`, and the insertion before the beginning of a column is
undefined.  Only for the row `0` the position computed, `0`, is the offset. -/
theorem insertRow_in_window_wrong_position :
    (loadedHandler "name,age\nAlice,30\nBob,45\n".toList 0 .load_whole_file .include_header
      .stop_on_error 1)._absoluteBeginningIndex = 0 ∧
    (loadedHandler "name,age\nAlice,30\nBob,45\n".toList 0 .load_whole_file .include_header
      .stop_on_error 1)._absoluteEndingIndex = 2 ∧
    (loadedHandler "name,age\nAlice,30\nBob,45\n".toList 0 .load_whole_file .include_header
      .stop_on_error 1)._entriesInCurrentChunk = 2 ∧
    (insertRow ["Carl".toList, "7".toList] 1 .stop_on_error
      (loadedHandler "name,age\nAlice,30\nBob,45\n".toList 0 .load_whole_file .include_header
        .stop_on_error 1)).2 = .error .undefinedBehaviour ∧
    (insertRow ["Carl".toList, "7".toList] 1 .ignore_errors
      (loadedHandler "name,age\nAlice,30\nBob,45\n".toList 0 .load_whole_file .include_header
        .stop_on_error 1)).2 = .error .undefinedBehaviour ∧
    (insertRow ["x".toList, "y".toList] 2 .stop_on_error
      (loadedHandler "a,b\nc,d\ne,f\n".toList 5 .load_in_chunks .no_header
        .stop_on_error 3)).2 = .error .undefinedBehaviour ∧
    getRow refPlatform (insertRow ["Carl".toList, "7".toList] 0 .stop_on_error
      (loadedHandler "name,age\nAlice,30\nBob,45\n".toList 0 .load_whole_file .include_header
        .stop_on_error 1)).1 0 = .ok ["Carl".toList, "7".toList] := by
  decide


theorem vecInsert_natCast {α : Type} (v : List α) (i : Nat) (x : α) (h : i ≤ v.length) :
    vecInsert v (i : Int) x = .ok (v.take i ++ x :: v.drop i) := by
  unfold vecInsert
  rw [if_pos ⟨Int.natCast_nonneg i, by simpa using h⟩]
  simp

theorem initializeNewEntryLoop_inserts (p : Nat) :
    ∀ (types : List Str) (post pre : List (List CsvEntryElement)) (s : CsvHandlerState)
      (m : DataTypesMap),
      s._sourceFileVector = pre ++ post → types.length = post.length →
      (∀ column ∈ post, p ≤ column.length) →
      (∀ key, (mapSubscript s._dataTypesMap key).1 = (mapSubscript m key).1) →
      ∃ m1 : DataTypesMap,
        initializeNewEntryLoop (p : Int) types (pre.length : Int) s
          = ({ s with _dataTypesMap := m1,
                      _sourceFileVector := pre ++ withNewEntry m p post types }, .ok ()) ∧
        ∀ key, (mapSubscript m1 key).1 = (mapSubscript m key).1 := by
  intro types
  induction types with
  | nil =>
    intro post pre s m hv hlen _ hm
    have hpost : post = [] := List.eq_nil_of_length_eq_zero hlen.symm
    subst hpost
    refine ⟨s._dataTypesMap, ?_, hm⟩
    simp only [initializeNewEntryLoop, withNewEntry]
    rw [← hv]
  | cons typeName rest ih =>
    intro post pre s m hv hlen hp hm
    cases post with
    | nil => simp at hlen
    | cons column more =>
      have hpc : p ≤ column.length := hp column (List.mem_cons_self _ _)
      have hset : (pre ++ column :: more).set pre.length
            (column.take p ++ newField (mapSubscript s._dataTypesMap typeName).1 ::
              column.drop p)
          = (pre ++ [column.take p ++ newField (mapSubscript m typeName).1 :: column.drop p])
            ++ more := by
        rw [List.set_append, hm]
        simp
      obtain ⟨m1, hrun, hm1⟩ := ih more
        (pre ++ [column.take p ++ newField (mapSubscript m typeName).1 :: column.drop p])
        { s with
          _dataTypesMap := (mapSubscript s._dataTypesMap typeName).2
          _sourceFileVector := (pre ++ column :: more).set pre.length
            (column.take p ++ newField (mapSubscript s._dataTypesMap typeName).1 ::
              column.drop p) }
        m hset (by simpa using hlen) (fun c hc => hp c (List.mem_cons_of_mem _ hc))
        (fun key => by
          show (mapSubscript (mapSubscript s._dataTypesMap typeName).2 key).1 = _
          rw [mapSubscript_stable]; exact hm key)
      rw [List.length_append, List.length_singleton, Nat.cast_add, Nat.cast_one] at hrun
      refine ⟨m1, ?_, hm1⟩
      simp only [initializeNewEntryLoop]
      rw [hv, vecIndex_append_length]
      simp only []
      rw [vecInsert_natCast _ p _ hpc]
      simp only [Int.toNat_ofNat]
      rw [hrun]
      simp only [withNewEntry, List.append_assoc, List.singleton_append]


theorem entryCells_congr (mode : _errorHandlingMode) (m m1 : DataTypesMap)
    (h : ∀ key, (mapSubscript m1 key).1 = (mapSubscript m key).1) :
    ∀ (entry types : List Str), entryCells mode m1 entry types = entryCells mode m entry types
    := by
  intro entry
  induction entry with
  | nil => intro types; rfl
  | cons text rest ih =>
    intro types
    cases types with
    | nil => rfl
    | cons typeName types => simp only [entryCells, h, ih]

/-- When the texts of an entry make the fields `cells`, `setColumnsForEntry` returns
and leaves these fields in the row. -/
theorem setColumnsForEntryLoop_cells (entryIndex : Int) (mode : _errorHandlingMode) :
    ∀ (entry : List Str) (c0 : Nat) (s : CsvHandlerState) (cells : List CsvEntryElement),
      (∀ i, i < entry.length → cellReady s entryIndex (c0 + i) = true) →
      entryCells mode s._dataTypesMap entry (s._sourceFileColumnTypes.drop c0) = .ok cells →
      ∃ s1 : CsvHandlerState,
        setColumnsForEntryLoop entryIndex mode entry (c0 : Int) s = (s1, .ok ()) ∧
        (∀ c, c < c0 → fieldAt s1 (c : Int) entryIndex = fieldAt s (c : Int) entryIndex) ∧
        (∀ i cell, cells[i]? = some cell →
          fieldAt s1 ((c0 + i : Nat) : Int) entryIndex = .ok cell) := by
  intro entry
  induction entry with
  | nil =>
    intro c0 s cells _ hc
    simp only [entryCells] at hc
    cases hc
    refine ⟨s, rfl, fun _ _ => rfl, ?_⟩
    intro i cell h
    cases h
  | cons text rest ih =>
    intro c0 s cells hready hc
    have hr0 : cellReady s entryIndex c0 = true := hready 0 (by simp)
    obtain ⟨typeName, field, ht, hf, _⟩ := cellReady_types s entryIndex c0 hr0
    have hc0 : c0 < s._sourceFileColumnTypes.length := by
      rcases Nat.lt_or_ge c0 s._sourceFileColumnTypes.length with h | h
      · exact h
      · rw [List.getElem?_eq_none h] at ht; cases ht
    have hdrop : s._sourceFileColumnTypes.drop c0
        = typeName :: s._sourceFileColumnTypes.drop (c0 + 1) := by
      rw [List.drop_eq_getElem_cons hc0]
      congr 1
      rw [List.getElem?_eq_getElem hc0] at ht
      exact Option.some.inj ht
    rw [hdrop] at hc
    simp only [entryCells] at hc
    cases hcell : cellOutcome mode (mapSubscript s._dataTypesMap typeName).1 text with
    | error e => rw [hcell] at hc; cases hc
    | ok cell =>
      rw [hcell] at hc
      simp only [] at hc
      cases hrest : entryCells mode s._dataTypesMap rest (s._sourceFileColumnTypes.drop (c0 + 1))
        with
      | error e => rw [hrest] at hc; cases hc
      | ok cells1 =>
        rw [hrest] at hc
        cases hc
        rw [setColumnsForEntryLoop_cons_ready entryIndex mode text rest c0 s typeName hr0 ht,
          hcell]
        simp only []
        obtain ⟨s1, hrun, hbefore, hcells⟩ := ih (c0 + 1)
          (putFieldAt { s with _dataTypesMap := (mapSubscript s._dataTypesMap typeName).2 }
            (c0 : Int) entryIndex cell) cells1
          (by
            intro i hi
            rw [cellReady_after_put s entryIndex c0 (c0 + 1 + i) typeName cell (by omega)]
            have := hready (i + 1) (by simp; omega)
            rw [show c0 + 1 + i = c0 + (i + 1) by omega]
            exact this)
          (by
            have e2 : (putFieldAt
                { s with _dataTypesMap := (mapSubscript s._dataTypesMap typeName).2 }
                (c0 : Int) entryIndex cell)._dataTypesMap
                = (mapSubscript s._dataTypesMap typeName).2 := rfl
            have e3 : (putFieldAt
                { s with _dataTypesMap := (mapSubscript s._dataTypesMap typeName).2 }
                (c0 : Int) entryIndex cell)._sourceFileColumnTypes
                = s._sourceFileColumnTypes := rfl
            rw [e2, e3, entryCells_congr mode s._dataTypesMap _
              (fun key => mapSubscript_stable s._dataTypesMap typeName key)]
            exact hrest)
        rw [Nat.cast_add, Nat.cast_one] at hrun
        refine ⟨s1, hrun, ?_, ?_⟩
        · intro c hc
          rw [hbefore c (by omega),
            fieldAt_putFieldAt_ne _ c0 c entryIndex entryIndex cell (by omega)]
          rfl
        · intro i cell1 hi
          cases i with
          | zero =>
            simp only [List.getElem?_cons_zero, Option.some.injEq] at hi
            subst hi
            rw [Nat.add_zero, hbefore c0 (by omega)]
            exact fieldAt_putFieldAt_same _ c0 entryIndex _ field hf
          | succ i =>
            simp only [List.getElem?_cons_succ] at hi
            have := hcells i cell1 hi
            rw [show c0 + (i + 1) = c0 + 1 + i by omega]
            exact this

theorem map_modify_of_invariant {α β : Type} (g : α → β) (h : α → α)
    (hg : ∀ a, g (h a) = g a) (v : List α) (c : Nat) :
    (v.modify h c).map g = v.map g := by
  apply List.ext_getElem?
  intro n
  simp only [List.getElem?_map, List.getElem?_modify]
  cases v[n]? with
  | none => rfl
  | some a =>
    simp only [Option.map_eq_map, Option.map_some']
    by_cases hc : c = n
    · rw [if_pos hc, hg]
    · rw [if_neg hc]

/-- A function of a column that does not read its field `entryIndex` has the same
values on the columns after `setColumnsForEntry`. -/
theorem setColumnsForEntryLoop_map {β : Type} (g : List CsvEntryElement → β)
    (entryIndex : Int) (hg : ∀ column f, g (column.set entryIndex.toNat f) = g column)
    (mode : _errorHandlingMode) :
    ∀ (entry : List Str) (columnIndex : Int) (s : CsvHandlerState),
      (setColumnsForEntryLoop entryIndex mode entry columnIndex s).1._sourceFileVector.map g
        = s._sourceFileVector.map g := by
  have hput : ∀ (t : CsvHandlerState) (c : Int) (f : CsvEntryElement),
      (putFieldAt t c entryIndex f)._sourceFileVector.map g = t._sourceFileVector.map g :=
    fun t c f => map_modify_of_invariant g _ (fun a => hg a f) _ _
  have hconv : ∀ (t : CsvHandlerState) (c : Int) conv zero,
      (setConverted t c entryIndex conv zero mode).1._sourceFileVector.map g
        = t._sourceFileVector.map g := by
    intro t c conv zero
    unfold setConverted
    cases conv with
    | ok value =>
      simp only []
      cases fieldAt t c entryIndex with
      | error e => rfl
      | ok field =>
        simp only []
        cases setSingleEntryElementValue field value with
        | error e => rfl
        | ok field1 => exact hput _ _ _
    | error exc =>
      simp only []
      split
      · cases fieldAt t c entryIndex with
        | error e => rfl
        | ok field =>
          simp only []
          cases setSingleEntryElementValue field zero with
          | error e => rfl
          | ok field1 => exact hput _ _ _
      · rfl
  intro entry
  induction entry with
  | nil => intro columnIndex s; rfl
  | cons entryElement rest ih =>
    intro columnIndex s
    unfold setColumnsForEntryLoop
    cases vecIndex s._sourceFileColumnTypes columnIndex with
    | error e => rfl
    | ok typeName =>
      simp only []
      split
      · rw [ih]
        split <;> exact hconv _ _ _ _
      · simp only []
        split <;> exact hconv _ _ _ _


theorem withNewEntry_getElem? (m : DataTypesMap) (p : Nat) :
    ∀ (columns : List (List CsvEntryElement)) (types : List Str) (c : Nat),
      (withNewEntry m p columns types)[c]? =
        match columns[c]?, types[c]? with
        | some column, some typeName =>
          some (column.take p ++ newField (mapSubscript m typeName).1 :: column.drop p)
        | _, _ => none := by
  intro columns
  induction columns with
  | nil => intro types c; simp [withNewEntry]
  | cons column rest ih =>
    intro types c
    cases types with
    | nil =>
      simp only [withNewEntry, List.getElem?_nil]
      cases (column :: rest)[c]? <;> rfl
    | cons typeName types =>
      cases c with
      | zero => simp [withNewEntry]
      | succ c => simp only [withNewEntry, List.getElem?_cons_succ, ih]

theorem withNewEntry_length (m : DataTypesMap) (p : Nat) :
    ∀ (columns : List (List CsvEntryElement)) (types : List Str),
      types.length = columns.length → (withNewEntry m p columns types).length = columns.length
    := by
  intro columns
  induction columns with
  | nil => intro types _; cases types <;> rfl
  | cons column rest ih =>
    intro types h
    cases types with
    | nil => simp at h
    | cons typeName types =>
      simp only [withNewEntry, List.length_cons, ih types (by simpa using h)]

theorem sameClass_newField (dt : _dataTypes) : sameClass (newField dt) (newField dt) = true := by
  cases dt <;> rfl

theorem cellOutcome_of_stop (mode : _errorHandlingMode) (dt : _dataTypes) (text : Str)
    (cell : CsvEntryElement) (h : cellOutcome .stop_on_error dt text = .ok cell) :
    cellOutcome mode dt text = .ok cell := by
  unfold cellOutcome at h ⊢
  cases dt with
  | type_double =>
    simp only [] at h ⊢
    cases hc : convertString_double text with
    | ok v => rw [hc] at h; exact h
    | error e => rw [hc] at h; simp at h
  | type_int =>
    simp only [] at h ⊢
    cases hc : convertString_int text with
    | ok v => rw [hc] at h; exact h
    | error e => rw [hc] at h; simp at h
  | type_string => exact h
  | type_date => exact h

theorem entryCells_of_stop (mode : _errorHandlingMode) (m : DataTypesMap) :
    ∀ (entry types : List Str) (cells : List CsvEntryElement),
      entryCells .stop_on_error m entry types = .ok cells →
      entryCells mode m entry types = .ok cells := by
  intro entry
  induction entry with
  | nil => intro types cells h; exact h
  | cons text rest ih =>
    intro types cells h
    cases types with
    | nil => cases h
    | cons typeName types =>
      simp only [entryCells] at h ⊢
      cases hc : cellOutcome .stop_on_error (mapSubscript m typeName).1 text with
      | error e => rw [hc] at h; cases h
      | ok cell =>
        rw [hc] at h
        rw [cellOutcome_of_stop mode _ _ _ hc]
        simp only [] at h ⊢
        cases hr : entryCells .stop_on_error m rest types with
        | error e => rw [hr] at h; cases h
        | ok cells1 =>
          rw [hr] at h
          rw [ih types cells1 hr]
          exact h

theorem entryCells_length (mode : _errorHandlingMode) (m : DataTypesMap) :
    ∀ (entry types : List Str) (cells : List CsvEntryElement),
      entryCells mode m entry types = .ok cells → cells.length = entry.length := by
  intro entry
  induction entry with
  | nil => intro types cells h; cases h; rfl
  | cons text rest ih =>
    intro types cells h
    cases types with
    | nil => cases h
    | cons typeName types =>
      simp only [entryCells] at h
      cases hc : cellOutcome mode (mapSubscript m typeName).1 text with
      | error e => rw [hc] at h; cases h
      | ok cell =>
        rw [hc] at h
        simp only [] at h
        cases hr : entryCells mode m rest types with
        | error e => rw [hr] at h; cases h
        | ok cells1 =>
          rw [hr] at h
          cases h
          simp only [List.length_cons, ih types cells1 hr]

/-- What the four statements of the inserting branches of `insertRow` do for the
position `_entriesInCurrentChunk`, in a table with as many columns as type
tags, each of `_entriesInCurrentChunk` fields, for an entry whose texts make the
fields `cells`: the rows are as they were and the new row holds `cells`. -/
theorem insertRowAt_end (s : CsvHandlerState) (entry : List Str) (mode : _errorHandlingMode)
    (cells : List CsvEntryElement) (e : Nat)
    (he : s._entriesInCurrentChunk = (e : Int))
    (hl : s._sourceFileColumnTypes.length = s._sourceFileVector.length) (hr : rectangular s)
    (hlen : entry.length = s._sourceFileColumnTypes.length)
    (hcells : entryCells mode s._dataTypesMap entry s._sourceFileColumnTypes = .ok cells) :
    ∃ s2 : CsvHandlerState,
      insertRowAt entry (e : Int) mode s
        = ({ s2 with
              _entriesInCurrentChunk := s2._entriesInCurrentChunk + 1
              _absoluteEndingIndex := s2._absoluteEndingIndex + 1 }, .ok ()) ∧
      s2._entriesInCurrentChunk = s._entriesInCurrentChunk ∧
      s2._absoluteEndingIndex = s._absoluteEndingIndex ∧
      s2._absoluteBeginningIndex = s._absoluteBeginningIndex ∧
      s2._eofFlag = s._eofFlag ∧
      s2._sourceFileColumnTypes = s._sourceFileColumnTypes ∧
      s2._sourceFileHeader = s._sourceFileHeader ∧
      s2._sourceFileVector.length = s._sourceFileVector.length ∧
      (∀ k, k < e → rowCells s2._sourceFileVector k = rowCells s._sourceFileVector k) ∧
      rowCells s2._sourceFileVector e = cells.map some ∧
      (∀ column ∈ s2._sourceFileVector, column.length = e + 1) := by
  have hcol : ∀ column ∈ s._sourceFileVector, column.length = e := by
    intro column hc
    have := hr column hc
    omega
  obtain ⟨m1, hinit, hm1⟩ := initializeNewEntryLoop_inserts e s._sourceFileColumnTypes
    s._sourceFileVector [] s s._dataTypesMap rfl hl (fun c hc => le_of_eq (hcol c hc).symm)
    (fun _ => rfl)
  rw [List.length_nil, Nat.cast_zero, List.nil_append] at hinit
  have hwl := withNewEntry_length s._dataTypesMap e s._sourceFileVector s._sourceFileColumnTypes hl
  obtain ⟨s1, hs1⟩ : ∃ s1 : CsvHandlerState, s1 = { s with
      _dataTypesMap := m1
      _sourceFileVector :=
        (withNewEntry s._dataTypesMap e s._sourceFileVector s._sourceFileColumnTypes) } :=
    ⟨_, rfl⟩
  rw [← hs1] at hinit
  have hs1t : s1._sourceFileColumnTypes = s._sourceFileColumnTypes := by rw [hs1]
  have hs1m : s1._dataTypesMap = m1 := by rw [hs1]
  have hs1v : s1._sourceFileVector
      = withNewEntry s._dataTypesMap e s._sourceFileVector s._sourceFileColumnTypes := by
    rw [hs1]
  have hready : ∀ i, i < entry.length → cellReady s1 (e : Int) (0 + i) = true := by
    intro i hi
    rw [Nat.zero_add]
    have hi1 : i < s._sourceFileColumnTypes.length := by omega
    have hi2 : i < s._sourceFileVector.length := by omega
    have hcl := hcol _ (List.getElem_mem hi2)
    have hfa : fieldAt s1 (i : Int) (e : Int)
        = .ok (newField (mapSubscript s._dataTypesMap s._sourceFileColumnTypes[i]).1) := by
      unfold fieldAt
      have hg : s1._sourceFileVector[i]? = some (s._sourceFileVector[i].take e ++
          newField (mapSubscript s._dataTypesMap s._sourceFileColumnTypes[i]).1 ::
            s._sourceFileVector[i].drop e) := by
        rw [hs1v, withNewEntry_getElem?, List.getElem?_eq_getElem hi2,
          List.getElem?_eq_getElem hi1]
      rw [vecIndex_natCast _ i _ hg]
      simp only []
      apply vecIndex_natCast
      rw [List.getElem?_append_right (by simp [hcl])]
      simp [hcl]
    unfold cellReady
    rw [hfa, hs1t, hs1m]
    simp only [List.getElem?_eq_getElem hi1, hm1]
    exact sameClass_newField _
  obtain ⟨s2, hrun, _, hfields⟩ := setColumnsForEntryLoop_cells (e : Int) mode entry 0 s1
    cells hready (by
      rw [List.drop_zero, hs1t, hs1m, entryCells_congr mode s._dataTypesMap m1 hm1]
      exact hcells)
  rw [Nat.cast_zero] at hrun
  have hfr : ∀ {α : Type} (π : CsvHandlerState → α),
      (∀ (t : CsvHandlerState) m v,
        π { t with _dataTypesMap := m, _sourceFileVector := v } = π t) → π s2 = π s := by
    intro α π hπ
    have := setColumnsForEntryLoop_frame π hπ (e : Int) mode entry 0 s1
    rw [hrun] at this
    rw [this, hs1]
    exact hπ s _ _
  have hmap : ∀ {β : Type} (g : List CsvEntryElement → β),
      (∀ column f, g (column.set e f) = g column) →
      s2._sourceFileVector.map g
        = (withNewEntry s._dataTypesMap e s._sourceFileVector s._sourceFileColumnTypes).map g
      := by
    intro β g hg
    have := setColumnsForEntryLoop_map g (e : Int) (by simpa using hg) mode entry 0 s1
    rw [hrun, hs1v] at this
    exact this
  have hlen2 : s2._sourceFileVector.length = s._sourceFileVector.length := by
    have := congrArg List.length (hmap List.length (fun column f => by simp))
    simpa [hwl] using this
  refine ⟨s2, ?_, hfr (fun t => t._entriesInCurrentChunk) (fun _ _ _ => rfl),
    hfr (fun t => t._absoluteEndingIndex) (fun _ _ _ => rfl),
    hfr (fun t => t._absoluteBeginningIndex) (fun _ _ _ => rfl),
    hfr (fun t => t._eofFlag) (fun _ _ _ => rfl),
    hfr (fun t => t._sourceFileColumnTypes) (fun _ _ _ => rfl),
    hfr (fun t => t._sourceFileHeader) (fun _ _ _ => rfl), hlen2, ?_, ?_, ?_⟩
  · unfold insertRowAt initializeNewEntry
    rw [hinit]
    simp only []
    unfold setColumnsForEntry
    rw [hrun]
  · intro k hk
    unfold rowCells
    rw [hmap (fun column => column[k]?) (fun column f => List.getElem?_set_ne (by omega))]
    apply List.ext_getElem?
    intro c
    simp only [List.getElem?_map, withNewEntry_getElem?]
    cases hc : s._sourceFileVector[c]? with
    | none => rfl
    | some column =>
      have hc2 : c < s._sourceFileColumnTypes.length := by
        rcases Nat.lt_or_ge c s._sourceFileVector.length with h | h
        · omega
        · rw [List.getElem?_eq_none h] at hc; cases hc
      rw [List.getElem?_eq_getElem hc2]
      simp only [Option.map_some']
      have hcl := hcol column (List.getElem?_mem hc)
      rw [List.getElem?_append_left (by simp [hcl]; exact hk)]
      rw [List.getElem?_take_of_lt hk]
  · apply List.ext_getElem?
    intro c
    have hcl := entryCells_length mode _ _ _ _ hcells
    by_cases hc : c < cells.length
    · have h1 := hfields c cells[c] (List.getElem?_eq_getElem hc)
      rw [Nat.zero_add, fieldAt_of_rowCells] at h1
      rw [List.getElem?_map, List.getElem?_eq_getElem hc]
      simp only [Option.map_some']
      split at h1
      · rename_i field heq
        cases h1
        exact heq
      · cases h1
    · have hlen3 : (rowCells s2._sourceFileVector e).length = cells.length := by
        unfold rowCells
        rw [List.length_map, hlen2]
        omega
      rw [List.getElem?_eq_none (by omega), List.getElem?_eq_none (by simp; omega)]
  · intro column hc
    have h1 := hmap List.length (fun column f => by simp)
    have h2 : column.length ∈ s2._sourceFileVector.map List.length :=
      List.mem_map_of_mem _ hc
    rw [h1] at h2
    obtain ⟨col1, hmem, hcl1⟩ := List.mem_map.mp h2
    obtain ⟨c, hclt, hcget⟩ := List.getElem_of_mem hmem
    have hget2 := withNewEntry_getElem? s._dataTypesMap e s._sourceFileVector
      s._sourceFileColumnTypes c
    rw [List.getElem?_eq_getElem hclt, hcget] at hget2
    cases hv : s._sourceFileVector[c]? with
    | none => rw [hv] at hget2; cases hget2
    | some column0 =>
      rw [hv] at hget2
      cases ht : s._sourceFileColumnTypes[c]? with
      | none => rw [ht] at hget2; cases hget2
      | some typeName =>
        rw [ht] at hget2
        simp only [Option.some.injEq] at hget2
        have hcl0 := hcol column0 (List.getElem?_mem hv)
        rw [← hcl1, hget2]
        simp [hcl0]


/-- C23, as amended: once `_eofFlag` is set, as it always is for a file read as a
whole, `insertRow` with the position `-1` appends.  In a table with as many
columns as type tags, each of `_entriesInCurrentChunk` fields, whose window is
that long, and for an entry with one text per column that all convert, to the
fields `cells`: the call returns, `_entriesInCurrentChunk` and
`_absoluteEndingIndex` are one larger, the rows of the window are as they were,
and `getRow` of the former `_absoluteEndingIndex` returns the string values of
`cells`.  While `_eofFlag` is clear the call with the position `-1` returns and
changes nothing. -/
theorem insertRow_unspecified_position (pf : Platform) (s : CsvHandlerState)
    (entry : List Str) (mode : _errorHandlingMode) (cells : List CsvEntryElement) :
    (s._eofFlag = true → windowInvariant s →
      s._sourceFileColumnTypes.length = s._sourceFileVector.length → rectangular s →
      0 ≤ s._entriesInCurrentChunk → entry.length = s._sourceFileColumnTypes.length →
      entryCells .stop_on_error s._dataTypesMap entry s._sourceFileColumnTypes = .ok cells →
      (insertRow entry (-1) mode s).2 = .ok () ∧
      (insertRow entry (-1) mode s).1._entriesInCurrentChunk = s._entriesInCurrentChunk + 1 ∧
      (insertRow entry (-1) mode s).1._absoluteEndingIndex = s._absoluteEndingIndex + 1 ∧
      (insertRow entry (-1) mode s).1._absoluteBeginningIndex = s._absoluteBeginningIndex ∧
      (∀ j, s._absoluteBeginningIndex ≤ j → j < s._absoluteEndingIndex →
        getRow pf (insertRow entry (-1) mode s).1 j = getRow pf s j) ∧
      getRow pf (insertRow entry (-1) mode s).1 s._absoluteEndingIndex
        = stringValues pf cells) ∧
    (s._eofFlag = false → 0 ≤ s._absoluteBeginningIndex →
      insertRow entry (-1) mode s = (s, .ok ())) := by
  constructor
  · intro heof hw hl hr h0 hlen hcells
    obtain ⟨e, he⟩ : ∃ e : Nat, s._entriesInCurrentChunk = (e : Int) :=
      ⟨s._entriesInCurrentChunk.toNat, by omega⟩
    obtain ⟨s2, hrun, h1, h2, h3, _, h5, _, _, h8, h9, _⟩ := insertRowAt_end s entry mode cells e
      he hl hr hlen (entryCells_of_stop mode _ _ _ _ hcells)
    have hins : insertRow entry (-1) mode s
        = ({ s2 with
              _entriesInCurrentChunk := s2._entriesInCurrentChunk + 1
              _absoluteEndingIndex := s2._absoluteEndingIndex + 1 }, .ok ()) := by
      unfold insertRow
      rw [if_pos ⟨rfl, heof⟩, he]
      exact hrun
    unfold windowInvariant at hw
    rw [hins]
    dsimp only
    refine ⟨rfl, by rw [h1], by rw [h2], h3, ?_, ?_⟩
    · intro j hj1 hj2
      obtain ⟨k, hk⟩ : ∃ k : Nat, j - s._absoluteBeginningIndex = (k : Int) :=
        ⟨(j - s._absoluteBeginningIndex).toNat, by omega⟩
      apply getRow_congr pf _ s j j k k
      · exact ⟨by dsimp only; omega, by dsimp only; omega⟩
      · exact ⟨hj1, hj2⟩
      · dsimp only; omega
      · omega
      · exact congrArg List.length h5
      · exact h8 k (by omega)
    · apply getRow_of_rowCells pf _ s._absoluteEndingIndex e cells
      · exact ⟨by dsimp only; omega, by dsimp only; omega⟩
      · dsimp only; omega
      · dsimp only
        rw [h5, entryCells_length _ _ _ _ _ hcells, hlen]
      · exact h9
  · intro heof hb
    unfold insertRow
    rw [if_neg (by rw [heof]; simp), if_neg (by omega), if_neg (by rw [heof]; simp)]

set_option maxRecDepth 100000 in
/-- C23 (amended) on the table of the file `name,age⏎Alice,30⏎Bob,45⏎`, read as a
whole, and the entry `Carl,7`. -/
theorem insertRow_unspecified_position_witness :
    ((insertRow ["Carl".toList, "7".toList] (-1) .stop_on_error
        (loadedHandler "name,age\nAlice,30\nBob,45\n".toList 0 .load_whole_file
          .include_header .stop_on_error 1)).2 = .ok () ∧
      (insertRow ["Carl".toList, "7".toList] (-1) .stop_on_error
        (loadedHandler "name,age\nAlice,30\nBob,45\n".toList 0 .load_whole_file
          .include_header .stop_on_error 1)).1._entriesInCurrentChunk
        = (loadedHandler "name,age\nAlice,30\nBob,45\n".toList 0 .load_whole_file
          .include_header .stop_on_error 1)._entriesInCurrentChunk + 1 ∧
      (insertRow ["Carl".toList, "7".toList] (-1) .stop_on_error
        (loadedHandler "name,age\nAlice,30\nBob,45\n".toList 0 .load_whole_file
          .include_header .stop_on_error 1)).1._absoluteEndingIndex
        = (loadedHandler "name,age\nAlice,30\nBob,45\n".toList 0 .load_whole_file
          .include_header .stop_on_error 1)._absoluteEndingIndex + 1 ∧
      (insertRow ["Carl".toList, "7".toList] (-1) .stop_on_error
        (loadedHandler "name,age\nAlice,30\nBob,45\n".toList 0 .load_whole_file
          .include_header .stop_on_error 1)).1._absoluteBeginningIndex
        = (loadedHandler "name,age\nAlice,30\nBob,45\n".toList 0 .load_whole_file
          .include_header .stop_on_error 1)._absoluteBeginningIndex ∧
      (∀ j, (loadedHandler "name,age\nAlice,30\nBob,45\n".toList 0 .load_whole_file
          .include_header .stop_on_error 1)._absoluteBeginningIndex ≤ j →
        j < (loadedHandler "name,age\nAlice,30\nBob,45\n".toList 0 .load_whole_file
          .include_header .stop_on_error 1)._absoluteEndingIndex →
        getRow refPlatform (insertRow ["Carl".toList, "7".toList] (-1) .stop_on_error
          (loadedHandler "name,age\nAlice,30\nBob,45\n".toList 0 .load_whole_file
            .include_header .stop_on_error 1)).1 j
          = getRow refPlatform (loadedHandler "name,age\nAlice,30\nBob,45\n".toList 0
            .load_whole_file .include_header .stop_on_error 1) j) ∧
      getRow refPlatform (insertRow ["Carl".toList, "7".toList] (-1) .stop_on_error
          (loadedHandler "name,age\nAlice,30\nBob,45\n".toList 0 .load_whole_file
            .include_header .stop_on_error 1)).1
          (loadedHandler "name,age\nAlice,30\nBob,45\n".toList 0 .load_whole_file
            .include_header .stop_on_error 1)._absoluteEndingIndex
        = stringValues refPlatform
            [.csv_stringField "Carl".toList true, .csv_intField (some 7) true]) ∧
    getRow refPlatform (insertRow ["Carl".toList, "7".toList] (-1) .stop_on_error
        (loadedHandler "name,age\nAlice,30\nBob,45\n".toList 0 .load_whole_file
          .include_header .stop_on_error 1)).1 2 = .ok ["Carl".toList, "7".toList] :=
  ⟨(insertRow_unspecified_position refPlatform
    (loadedHandler "name,age\nAlice,30\nBob,45\n".toList 0 .load_whole_file .include_header
      .stop_on_error 1) ["Carl".toList, "7".toList] .stop_on_error
    [.csv_stringField "Carl".toList true, .csv_intField (some 7) true]).1
    (by decide) (by unfold windowInvariant; decide) (by decide) (by unfold rectangular; decide)
    (by decide) (by decide) (by decide), by decide⟩

set_option maxRecDepth 100000 in
/-- C23 as stated fails for a table loaded in chunks before the end of the file: after
the second chunk of the file `a,b⏎c,d⏎e,f⏎` read in chunks of five bytes,
`insertRow` with the position `-1` returns and leaves the handler as it was. -/
theorem insertRow_unspecified_position_counterexample :
    (loadedHandler "a,b\nc,d\ne,f\n".toList 5 .load_in_chunks .no_header .stop_on_error 2
      )._eofFlag = false ∧
    (loadedHandler "a,b\nc,d\ne,f\n".toList 5 .load_in_chunks .no_header .stop_on_error 2
      )._sourceFileVector
      = [[.csv_stringField "c".toList true], [.csv_stringField "d".toList true]] ∧
    insertRow ["x".toList, "y".toList] (-1) .stop_on_error
        (loadedHandler "a,b\nc,d\ne,f\n".toList 5 .load_in_chunks .no_header .stop_on_error 2)
      = (loadedHandler "a,b\nc,d\ne,f\n".toList 5 .load_in_chunks .no_header .stop_on_error 2,
          .ok ()) := by
  decide


/-! ## Inserting a column (C25) -/

theorem stringValues_ok_iff (pf : Platform) :
    ∀ (fields : List CsvEntryElement) (row : List Str),
      stringValues pf fields = .ok row ↔
        fields.map (fun field => field.getStringValue pf) = row.map Except.ok := by
  intro fields
  induction fields with
  | nil =>
    intro row
    cases row with
    | nil => simp [stringValues]
    | cons a b => simp [stringValues]
  | cons field rest ih =>
    intro row
    simp only [stringValues, List.map_cons]
    cases hf : field.getStringValue pf with
    | error e =>
      simp only []
      cases row with
      | nil => simp
      | cons a b => simp
    | ok text =>
      simp only []
      cases hr : stringValues pf rest with
      | error e =>
        simp only []
        cases row with
        | nil => simp
        | cons a b =>
          simp only [List.map_cons, List.cons.injEq, Except.ok.injEq]
          constructor
          · intro h; cases h
          · intro h
            have h2 := h.2
            rw [← ih b, hr] at h2
            cases h2
      | ok texts =>
        simp only [Except.ok.injEq]
        cases row with
        | nil => simp
        | cons a b =>
          simp only [List.map_cons, List.cons.injEq, Except.ok.injEq]
          rw [← ih b, hr]
          simp

theorem rowCells_of_lengths (columns : List (List CsvEntryElement)) (k : Nat)
    (h : ∀ column ∈ columns, k < column.length) :
    ∃ fields : List CsvEntryElement,
      rowCells columns k = fields.map some ∧ fields.length = columns.length := by
  induction columns with
  | nil => exact ⟨[], rfl, rfl⟩
  | cons column rest ih =>
    obtain ⟨fs, hfs, hl⟩ := ih (fun c hc => h c (List.mem_cons_of_mem _ hc))
    have hk := h column (List.mem_cons_self _ _)
    refine ⟨column[k] :: fs, ?_, by simp [hl]⟩
    unfold rowCells at hfs ⊢
    simp [hfs, List.getElem?_eq_getElem hk]

theorem vecInsert_ok_iff {α : Type} (v : List α) (i : Int) (x : α) (w : List α)
    (h : vecInsert v i x = .ok w) :
    0 ≤ i ∧ i.toNat ≤ v.length ∧ w = v.take i.toNat ++ x :: v.drop i.toNat := by
  unfold vecInsert at h
  split at h
  · rename_i hc
    cases h
    exact ⟨hc.1, hc.2, rfl⟩
  · cases h

/-- What `insertColumn` with data and caption does in a table with a header, as many
type tags and captions as columns, for a position up to the number of
columns. -/
theorem insertColumnCaption_eq (s : CsvHandlerState) (data : List CsvEntryElement)
    (caption : Str) (type : _dataTypes) (p : Nat) (hhead : s._sourceFileHeader ≠ [])
    (hl : lockstep s) (hp : p ≤ s._sourceFileVector.length) :
    insertColumnCaption data caption type (p : Int) s
      = ({ s with
            _sourceFileVector := s._sourceFileVector.take p ++ data :: s._sourceFileVector.drop p
            _sourceFileColumnTypes :=
              (s._sourceFileColumnTypes.take p ++ getDataTypeAsString s type ::
                s._sourceFileColumnTypes.drop p)
            _sourceFileHeader :=
              s._sourceFileHeader.take p ++ caption :: s._sourceFileHeader.drop p },
          .ok ()) := by
  obtain ⟨ht, hh⟩ := hl
  have hne : s._sourceFileHeader.isEmpty = false := by
    cases hs : s._sourceFileHeader with
    | nil => exact absurd hs hhead
    | cons a b => rfl
  have hp1 : (p : Int) ≠ -1 := by omega
  unfold insertColumnCaption insertColumn
  simp only [hne, Bool.false_eq_true, if_false, hp1]
  rw [if_neg (by omega)]
  rw [vecInsert_natCast _ p _ hp]
  simp only []
  rw [vecInsert_natCast _ p _ (by omega)]
  simp only []
  rw [vecInsert_natCast _ p _ (by rw [hh hhead]; exact hp)]
  rfl


/-- C25 (amended): `insertColumn` with data and a caption throws
`HeaderNotAvailableException` and changes nothing when the header is empty.
In a table with a header, as
many type tags and captions as columns, each column of `_entriesInCurrentChunk`
fields, and a window that long, for a position `p` up to the number of columns
and data of `_entriesInCurrentChunk` fields: the call returns, the header is
the old one with the caption put at `p`, the type tags are the old ones with
the tag of the type put at `p`, the columns are the old ones with the data put
at `p`, nothing else changes, and `getRow` of a row of the window returns the
old row with the string value of the field of the data for that row put at
`p`. -/
theorem insertColumn_data_caption (pf : Platform) (s : CsvHandlerState)
    (data : List CsvEntryElement) (caption : Str) (type : _dataTypes) (p : Nat) :
    (∀ pos : Int, s._sourceFileHeader = [] →
      insertColumnCaption data caption type pos s = (s, .error .HeaderNotAvailableException)) ∧
    (s._sourceFileHeader ≠ [] → lockstep s → rectangular s → windowInvariant s →
      p ≤ s._sourceFileVector.length → (data.length : Int) = s._entriesInCurrentChunk →
      insertColumnCaption data caption type (p : Int) s
        = ({ s with
              _sourceFileVector :=
                s._sourceFileVector.take p ++ data :: s._sourceFileVector.drop p
              _sourceFileColumnTypes :=
                (s._sourceFileColumnTypes.take p ++ getDataTypeAsString s type ::
                  s._sourceFileColumnTypes.drop p)
              _sourceFileHeader :=
                s._sourceFileHeader.take p ++ caption :: s._sourceFileHeader.drop p },
            .ok ()) ∧
      ∀ (rowIndex : Int) (row : List Str) (field : CsvEntryElement) (text : Str),
        s._absoluteBeginningIndex ≤ rowIndex → rowIndex < s._absoluteEndingIndex →
        getRow pf s rowIndex = .ok row →
        data[(rowIndex - s._absoluteBeginningIndex).toNat]? = some field →
        field.getStringValue pf = .ok text →
        getRow pf (insertColumnCaption data caption type (p : Int) s).1 rowIndex
          = .ok (row.take p ++ text :: row.drop p)) := by
  constructor
  · intro pos hemp
    unfold insertColumnCaption
    rw [hemp]
    rfl
  · intro hhead hl hr hw hp hdata
    have heq := insertColumnCaption_eq s data caption type p hhead hl hp
    refine ⟨heq, ?_⟩
    intro rowIndex row field text hlo hhi hrow hfield htext
    rw [heq]
    unfold windowInvariant at hw
    obtain ⟨k, hk⟩ : ∃ k : Nat, rowIndex - s._absoluteBeginningIndex = (k : Int) :=
      ⟨(rowIndex - s._absoluteBeginningIndex).toNat, by omega⟩
    have hkn : (rowIndex - s._absoluteBeginningIndex).toNat = k := by omega
    rw [hkn] at hfield
    have hkpos : s._entriesInCurrentChunk - (s._absoluteEndingIndex - rowIndex) = (k : Int) := by
      omega
    obtain ⟨fields, hfields, hflen⟩ := rowCells_of_lengths s._sourceFileVector k (by
      intro column hc
      have := hr column hc
      omega)
    have hold := getRow_of_rowCells pf s rowIndex k fields ⟨hlo, hhi⟩ hkpos
      (by rw [hflen]; exact hl.1) hfields
    rw [hold] at hrow
    have hnew := getRow_of_rowCells pf
      { s with
        _sourceFileVector := s._sourceFileVector.take p ++ data :: s._sourceFileVector.drop p
        _sourceFileColumnTypes :=
          (s._sourceFileColumnTypes.take p ++ getDataTypeAsString s type ::
            s._sourceFileColumnTypes.drop p)
        _sourceFileHeader :=
          s._sourceFileHeader.take p ++ caption :: s._sourceFileHeader.drop p }
      rowIndex k (fields.take p ++ field :: fields.drop p) ⟨hlo, hhi⟩ hkpos
      (by
        dsimp only
        have := hl.1
        simp only [List.length_append, List.length_take, List.length_cons, List.length_drop]
        omega)
      (by
        dsimp only
        unfold rowCells at hfields ⊢
        simp only [List.map_append, List.map_take, List.map_cons, List.map_drop, hfields, hfield])
    dsimp only
    rw [hnew]
    rw [stringValues_ok_iff] at hrow ⊢
    simp only [List.map_append, List.map_take, List.map_cons, List.map_drop, hrow, htext]

set_option maxRecDepth 100000 in
/-- C25 (amended) on the table of the file `name,age⏎Zlice,30⏎Bob,45⏎`: the column `id` of
type `int` with the values `0` and `1` is put at `0`; the header becomes `id`,
`name`, `age` and the row `0` becomes `0`, `Zlice`, `30`. -/
theorem insertColumn_data_caption_witness :
    (insertColumnCaption [.csv_intField (some 0) true, .csv_intField (some 1) true]
        "id".toList .type_int ((0 : Nat) : Int)
        (loadedHandler "name,age\nZlice,30\nBob,45\n".toList 0 .load_whole_file
          .include_header .stop_on_error 1)).1._sourceFileHeader
      = ["id".toList, "name".toList, "age".toList] ∧
    (insertColumnCaption [.csv_intField (some 0) true, .csv_intField (some 1) true]
        "id".toList .type_int ((0 : Nat) : Int)
        (loadedHandler "name,age\nZlice,30\nBob,45\n".toList 0 .load_whole_file
          .include_header .stop_on_error 1)).1._sourceFileColumnTypes
      = [_tInt, _tDate, _tInt] ∧
    getRow refPlatform
        (insertColumnCaption [.csv_intField (some 0) true, .csv_intField (some 1) true]
          "id".toList .type_int ((0 : Nat) : Int)
          (loadedHandler "name,age\nZlice,30\nBob,45\n".toList 0 .load_whole_file
            .include_header .stop_on_error 1)).1 0
      = .ok (["Zlice".toList, "30".toList].take 0 ++ "0".toList ::
          ["Zlice".toList, "30".toList].drop 0) :=
  ⟨by decide, by decide,
    ((insertColumn_data_caption refPlatform
      (loadedHandler "name,age\nZlice,30\nBob,45\n".toList 0 .load_whole_file .include_header
        .stop_on_error 1)
      [.csv_intField (some 0) true, .csv_intField (some 1) true] "id".toList .type_int 0).2
      (by decide) ⟨by decide, by decide⟩ (by unfold rectangular; decide)
      (by unfold windowInvariant; decide) (by decide) (by decide)).2 0
      ["Zlice".toList, "30".toList] (.csv_intField (some 0) true) "0".toList
      (by decide) (by decide) (by decide) (by decide) (by decide)⟩


/-! ## Type tags, captions and columns in step (C27) -/

theorem vecInsert_length {α : Type} (v : List α) (i : Int) (x : α) (w : List α)
    (h : vecInsert v i x = .ok w) : w.length = v.length + 1 := by
  obtain ⟨_, h2, h3⟩ := vecInsert_ok_iff v i x w h
  rw [h3]
  simp only [List.length_append, List.length_take, List.length_cons, List.length_drop]
  omega

theorem vecInsert_mem {α : Type} (v : List α) (i : Int) (x : α) (w : List α)
    (h : vecInsert v i x = .ok w) (y : α) : y ∈ w ↔ y = x ∨ y ∈ v := by
  obtain ⟨_, h2, h3⟩ := vecInsert_ok_iff v i x w h
  rw [h3]
  constructor
  · intro hy
    rcases List.mem_append.mp hy with h1 | h1
    · exact Or.inr (List.mem_of_mem_take h1)
    · rcases List.mem_cons.mp h1 with h4 | h4
      · exact Or.inl h4
      · exact Or.inr (List.mem_of_mem_drop h4)
  · intro hy
    rcases hy with h1 | h1
    · exact List.mem_append_right _ (by rw [h1]; exact List.mem_cons_self _ _)
    · have : y ∈ v.take i.toNat ++ v.drop i.toNat := by rw [List.take_append_drop]; exact h1
      rcases List.mem_append.mp this with h4 | h4
      · exact List.mem_append_left _ h4
      · exact List.mem_append_right _ (List.mem_cons_of_mem _ h4)

theorem vecErase_ok_iff {α : Type} (v : List α) (i : Int) (w : List α)
    (h : vecErase v i = .ok w) : 0 ≤ i ∧ i.toNat < v.length ∧ w = v.eraseIdx i.toNat := by
  unfold vecErase at h
  split at h
  · rename_i hc
    cases h
    exact ⟨hc.1, hc.2, rfl⟩
  · cases h

theorem vecErase_length {α : Type} (v : List α) (i : Int) (w : List α)
    (h : vecErase v i = .ok w) : w.length + 1 = v.length := by
  obtain ⟨_, h2, h3⟩ := vecErase_ok_iff v i w h
  rw [h3, List.length_eraseIdx, if_pos h2]
  omega

theorem vecIndex_ok_iff {α : Type} (v : List α) (i : Int) (x : α) (h : vecIndex v i = .ok x) :
    0 ≤ i ∧ v[i.toNat]? = some x := by
  unfold vecIndex at h
  split at h
  · rename_i h0
    cases hv : v[i.toNat]? with
    | none => rw [hv] at h; cases h
    | some y => rw [hv] at h; cases h; exact ⟨h0, rfl⟩
  · cases h

/-- The lengths of the columns after a `removeRow` loop that returns: every column
that the loop visits is one field shorter. -/
theorem removeRowLoop_ok_lengths (pos : Int) :
    ∀ (post pre : List (List CsvEntryElement)) (s s1 : CsvHandlerState),
      s._sourceFileVector = pre ++ post →
      removeRowLoop pos post.length (pre.length : Int) s = (s1, .ok ()) →
      s1._sourceFileVector.map List.length
          = pre.map List.length ++ post.map (fun column => column.length - 1) ∧
        ∀ column ∈ post, 1 ≤ column.length := by
  intro post
  induction post with
  | nil =>
    intro pre s s1 hv hrun
    simp only [List.length_nil, removeRowLoop] at hrun
    cases hrun
    simp [hv]
  | cons column rest ih =>
    intro pre s s1 hv hrun
    simp only [List.length_cons, removeRowLoop] at hrun
    rw [hv, vecIndex_append_length] at hrun
    simp only [] at hrun
    cases hat : vecAt column pos with
    | error e => rw [hat] at hrun; cases hrun
    | ok f =>
      rw [hat] at hrun
      simp only [] at hrun
      cases her : vecErase column pos with
      | error e => rw [her] at hrun; cases hrun
      | ok column1 =>
        rw [her] at hrun
        simp only [Int.toNat_ofNat] at hrun
        have hlen := vecErase_length _ _ _ her
        have hset : (pre ++ column :: rest).set pre.length column1
            = (pre ++ [column1]) ++ rest := by
          rw [List.set_append]
          simp
        have hrun2 : removeRowLoop pos rest.length (((pre ++ [column1]).length : Nat) : Int)
            { s with _sourceFileVector := (pre ++ column :: rest).set pre.length column1 }
            = (s1, .ok ()) := by
          rw [List.length_append, List.length_singleton, Nat.cast_add, Nat.cast_one]
          exact hrun
        obtain ⟨h1, h2⟩ := ih (pre ++ [column1]) _ s1 hset hrun2
        constructor
        · rw [h1]
          simp only [List.map_append, List.map_cons, List.map_nil, List.append_assoc,
            List.singleton_append]
          congr 2
          omega
        · intro c hc
          rcases List.mem_cons.mp hc with h | h
          · rw [h]; omega
          · exact h2 c h

/-- The lengths of the columns after an `initializeNewEntry` loop that returns:
every column that the loop visits is one field longer. -/
theorem initializeNewEntryLoop_ok_lengths (newEntryPos : Int) :
    ∀ (types : List Str) (post pre : List (List CsvEntryElement)) (s s1 : CsvHandlerState),
      s._sourceFileVector = pre ++ post → types.length = post.length →
      initializeNewEntryLoop newEntryPos types (pre.length : Int) s = (s1, .ok ()) →
      s1._sourceFileVector.map List.length
          = pre.map List.length ++ post.map (fun column => column.length + 1) := by
  intro types
  induction types with
  | nil =>
    intro post pre s s1 hv hlen hrun
    have hpost : post = [] := List.eq_nil_of_length_eq_zero hlen.symm
    subst hpost
    simp only [initializeNewEntryLoop] at hrun
    cases hrun
    simp [hv]
  | cons typeName rest ih =>
    intro post pre s s1 hv hlen hrun
    cases post with
    | nil => simp at hlen
    | cons column more =>
      simp only [initializeNewEntryLoop] at hrun
      rw [hv, vecIndex_append_length] at hrun
      simp only [] at hrun
      cases hin : vecInsert column newEntryPos
          (newField (mapSubscript s._dataTypesMap typeName).1) with
      | error e => rw [hin] at hrun; cases hrun
      | ok column1 =>
        rw [hin] at hrun
        simp only [Int.toNat_ofNat] at hrun
        have hl1 := vecInsert_length _ _ _ _ hin
        have hset : (pre ++ column :: more).set pre.length column1
            = (pre ++ [column1]) ++ more := by
          rw [List.set_append]
          simp
        have hrun2 : initializeNewEntryLoop newEntryPos rest
            (((pre ++ [column1]).length : Nat) : Int)
            { s with
              _dataTypesMap := (mapSubscript s._dataTypesMap typeName).2
              _sourceFileVector := (pre ++ column :: more).set pre.length column1 }
            = (s1, .ok ()) := by
          rw [List.length_append, List.length_singleton, Nat.cast_add, Nat.cast_one]
          exact hrun
        have h1 := ih more (pre ++ [column1]) _ s1 hset (by simpa using hlen) hrun2
        rw [h1]
        simp only [List.map_append, List.map_cons, List.map_nil, List.append_assoc,
          List.singleton_append, hl1]


/-- What a call of `insertRowAt` that returns leaves: the type tags and the header
are the ones before, every column is one field longer and the row counter is one
higher. -/
theorem insertRowAt_ok_shape (entry : List Str) (newEntryPos : Int)
    (mode : _errorHandlingMode) (s s1 : CsvHandlerState)
    (hl : s._sourceFileColumnTypes.length = s._sourceFileVector.length)
    (hrun : insertRowAt entry newEntryPos mode s = (s1, .ok ())) :
    s1._sourceFileColumnTypes = s._sourceFileColumnTypes ∧
      s1._sourceFileHeader = s._sourceFileHeader ∧
      s1._sourceFileVector.map List.length
        = s._sourceFileVector.map (fun column => column.length + 1) ∧
      s1._entriesInCurrentChunk = s._entriesInCurrentChunk + 1 := by
  unfold insertRowAt initializeNewEntry setColumnsForEntry at hrun
  generalize h1 : initializeNewEntryLoop newEntryPos s._sourceFileColumnTypes 0 s = r1 at hrun
  obtain ⟨sa, ra⟩ := r1
  cases ra with
  | error e => cases hrun
  | ok u =>
    simp only [] at hrun
    generalize h2 : setColumnsForEntryLoop newEntryPos mode entry 0 sa = r2 at hrun
    obtain ⟨sb, rb⟩ := r2
    cases rb with
    | error e => cases hrun
    | ok u2 =>
      simp only [Prod.mk.injEq, and_true] at hrun
      have hat : sa._sourceFileColumnTypes = s._sourceFileColumnTypes := by
        have := initializeNewEntryLoop_frame (fun t => t._sourceFileColumnTypes)
          (fun _ _ _ => rfl) newEntryPos s._sourceFileColumnTypes 0 s
        rw [h1] at this; exact this
      have hah : sa._sourceFileHeader = s._sourceFileHeader := by
        have := initializeNewEntryLoop_frame (fun t => t._sourceFileHeader)
          (fun _ _ _ => rfl) newEntryPos s._sourceFileColumnTypes 0 s
        rw [h1] at this; exact this
      have hae : sa._entriesInCurrentChunk = s._entriesInCurrentChunk := by
        have := initializeNewEntryLoop_frame (fun t => t._entriesInCurrentChunk)
          (fun _ _ _ => rfl) newEntryPos s._sourceFileColumnTypes 0 s
        rw [h1] at this; exact this
      have hbt : sb._sourceFileColumnTypes = sa._sourceFileColumnTypes := by
        have := setColumnsForEntryLoop_frame (fun t => t._sourceFileColumnTypes)
          (fun _ _ _ => rfl) newEntryPos mode entry 0 sa
        rw [h2] at this; exact this
      have hbh : sb._sourceFileHeader = sa._sourceFileHeader := by
        have := setColumnsForEntryLoop_frame (fun t => t._sourceFileHeader)
          (fun _ _ _ => rfl) newEntryPos mode entry 0 sa
        rw [h2] at this; exact this
      have hbe : sb._entriesInCurrentChunk = sa._entriesInCurrentChunk := by
        have := setColumnsForEntryLoop_frame (fun t => t._entriesInCurrentChunk)
          (fun _ _ _ => rfl) newEntryPos mode entry 0 sa
        rw [h2] at this; exact this
      have hav := initializeNewEntryLoop_ok_lengths newEntryPos s._sourceFileColumnTypes
        s._sourceFileVector [] s sa rfl hl (by cases u; exact h1)
      have hbv : sb._sourceFileVector.map List.length = sa._sourceFileVector.map List.length := by
        have := setColumnsForEntryLoop_map List.length newEntryPos
          (fun column f => List.length_set _ _ _) mode entry 0 sa
        rw [h2] at this; exact this
      subst hrun
      refine ⟨by rw [← hat, ← hbt], by rw [← hah, ← hbh], ?_, ?_⟩
      · show sb._sourceFileVector.map List.length = _
        rw [hbv, hav]; rfl
      · show sb._entriesInCurrentChunk + 1 = _
        rw [hbe, hae]

/-- What a call of `insertRow` that returns leaves: either the table as it was, or
every column one field longer and the row counter one higher; the type tags and
the header are the ones before. -/
theorem insertRow_ok_shape (entry : List Str) (pos : Int) (mode : _errorHandlingMode)
    (s s1 : CsvHandlerState)
    (hl : s._sourceFileColumnTypes.length = s._sourceFileVector.length)
    (hrun : insertRow entry pos mode s = (s1, .ok ())) :
    s1._sourceFileColumnTypes = s._sourceFileColumnTypes ∧
      s1._sourceFileHeader = s._sourceFileHeader ∧
      (s1 = s ∨
        (s1._sourceFileVector.map List.length
            = s._sourceFileVector.map (fun column => column.length + 1) ∧
          s1._entriesInCurrentChunk = s._entriesInCurrentChunk + 1)) := by
  unfold insertRow at hrun
  split at hrun
  · obtain ⟨h1, h2, h3, h4⟩ := insertRowAt_ok_shape _ _ _ _ _ hl hrun
    exact ⟨h1, h2, Or.inr ⟨h3, h4⟩⟩
  · split at hrun
    · obtain ⟨h1, h2, h3, h4⟩ := insertRowAt_ok_shape _ _ _ _ _ hl hrun
      exact ⟨h1, h2, Or.inr ⟨h3, h4⟩⟩
    · split at hrun
      · cases hrun
      · cases hrun
        exact ⟨rfl, rfl, Or.inl rfl⟩

/-- What a call of `removeRow` that returns leaves: either the table as it was, or
every column one field shorter and the row counter one lower; the type tags and
the header are the ones before. -/
theorem removeRow_ok_shape (rowIndex : Int) (s s1 : CsvHandlerState)
    (hl : s._sourceFileColumnTypes.length = s._sourceFileVector.length)
    (hrun : removeRow rowIndex s = (s1, .ok ())) :
    s1._sourceFileColumnTypes = s._sourceFileColumnTypes ∧
      s1._sourceFileHeader = s._sourceFileHeader ∧
      (s1 = s ∨
        (s1._sourceFileVector.map List.length
            = s._sourceFileVector.map (fun column => column.length - 1) ∧
          (∀ column ∈ s._sourceFileVector, 1 ≤ column.length) ∧
          s1._entriesInCurrentChunk = s._entriesInCurrentChunk - 1)) := by
  unfold removeRow at hrun
  split at hrun
  · generalize h1 : removeRowLoop
      (s._entriesInCurrentChunk - (s._absoluteEndingIndex - rowIndex))
      s._sourceFileColumnTypes.length 0 s = r1 at hrun
    obtain ⟨sa, ra⟩ := r1
    cases ra with
    | error e => cases hrun
    | ok u =>
      simp only [Prod.mk.injEq, and_true] at hrun
      have hat : sa._sourceFileColumnTypes = s._sourceFileColumnTypes := by
        have := removeRowLoop_frame (fun t => t._sourceFileColumnTypes)
          (fun _ _ _ => rfl) (s._entriesInCurrentChunk - (s._absoluteEndingIndex - rowIndex))
          s._sourceFileColumnTypes.length 0 s
        rw [h1] at this; exact this
      have hah : sa._sourceFileHeader = s._sourceFileHeader := by
        have := removeRowLoop_frame (fun t => t._sourceFileHeader)
          (fun _ _ _ => rfl) (s._entriesInCurrentChunk - (s._absoluteEndingIndex - rowIndex))
          s._sourceFileColumnTypes.length 0 s
        rw [h1] at this; exact this
      have hae : sa._entriesInCurrentChunk = s._entriesInCurrentChunk := by
        have := removeRowLoop_frame (fun t => t._entriesInCurrentChunk)
          (fun _ _ _ => rfl) (s._entriesInCurrentChunk - (s._absoluteEndingIndex - rowIndex))
          s._sourceFileColumnTypes.length 0 s
        rw [h1] at this; exact this
      have h1b : removeRowLoop (s._entriesInCurrentChunk - (s._absoluteEndingIndex - rowIndex))
          s._sourceFileVector.length (([] : List (List CsvEntryElement)).length : Int) s
          = (sa, .ok ()) := by
        rw [← hl]; cases u; exact h1
      obtain ⟨hav, hpos⟩ := removeRowLoop_ok_lengths _ s._sourceFileVector [] s sa rfl h1b
      subst hrun
      refine ⟨hat, hah, Or.inr ⟨?_, hpos, ?_⟩⟩
      · show sa._sourceFileVector.map List.length = _
        rw [hav]; rfl
      · show sa._entriesInCurrentChunk - 1 = _
        rw [hae]
  · split at hrun
    · cases hrun
    · cases hrun
      exact ⟨rfl, rfl, Or.inl rfl⟩

/-- What a call of the overload of `insertColumn` with data and without caption
leaves when it returns. -/
theorem insertColumn_ok_shape (data : List CsvEntryElement) (type : _dataTypes) (pos : Int)
    (s s1 : CsvHandlerState) (hrun : insertColumn data type pos s = (s1, .ok ())) :
    s1._sourceFileColumnTypes.length = s._sourceFileColumnTypes.length + 1 ∧
      s1._sourceFileVector.length = s._sourceFileVector.length + 1 ∧
      s1._sourceFileHeader = s._sourceFileHeader ∧
      s1._entriesInCurrentChunk = s._entriesInCurrentChunk ∧
      (∀ column, column ∈ s1._sourceFileVector ↔ column = data ∨ column ∈ s._sourceFileVector) := by
  unfold insertColumn at hrun
  split at hrun
  · cases hrun
  · simp only [] at hrun
    split at hrun
    · cases hrun
    · rename_i columns hv
      split at hrun
      · cases hrun
      · rename_i types ht
        simp only [Prod.mk.injEq, and_true] at hrun
        subst hrun
        exact ⟨vecInsert_length _ _ _ _ ht, vecInsert_length _ _ _ _ hv, rfl, rfl,
          vecInsert_mem _ _ _ _ hv⟩

/-- What a call of the overload of `insertColumn` without data and without caption
leaves when it returns. -/
theorem insertColumnEmpty_ok_shape (type : _dataTypes) (pos : Int)
    (s s1 : CsvHandlerState) (hrun : insertColumnEmpty type pos s = (s1, .ok ())) :
    s1._sourceFileColumnTypes.length = s._sourceFileColumnTypes.length + 1 ∧
      s1._sourceFileVector.length = s._sourceFileVector.length + 1 ∧
      s1._sourceFileHeader = s._sourceFileHeader ∧
      s1._entriesInCurrentChunk = s._entriesInCurrentChunk ∧
      s1._chunksCount = s._chunksCount ∧
      ∃ data : List CsvEntryElement, (data.length : Int) = s._entriesInCurrentChunk ∧
        ∀ column, column ∈ s1._sourceFileVector ↔ column = data ∨ column ∈ s._sourceFileVector := by
  unfold insertColumnEmpty at hrun
  split at hrun
  · cases hrun
  · simp only [] at hrun
    split at hrun
    · cases hrun
    · rename_i types ht
      split at hrun
      · cases hrun
      · rename_i column hc
        split at hrun
        · cases hrun
        · rename_i columns hv
          simp only [Prod.mk.injEq, and_true] at hrun
          subst hrun
          refine ⟨vecInsert_length _ _ _ _ ht, vecInsert_length _ _ _ _ hv, rfl, rfl, rfl,
            column, ?_, vecInsert_mem _ _ _ _ hv⟩
          have hinit : ∀ t, initializeEntriesForColumn t
              { s with _sourceFileColumnTypes := types } = .ok column →
              (column.length : Int) = s._entriesInCurrentChunk := by
            intro t h
            unfold initializeEntriesForColumn at h
            split at h
            · cases h
            · rename_i hneg
              cases h
              simp only [List.length_replicate]
              have : (0 : Int) ≤ s._entriesInCurrentChunk := by
                simpa using hneg
              exact Int.toNat_of_nonneg this
          unfold initializeNewColumn at hc
          split at hc <;> exact hinit _ hc

/-- What a call of `removeColumn` that returns leaves. -/
theorem removeColumn_ok_shape (columnIndex : Int) (s s1 : CsvHandlerState)
    (hrun : removeColumn columnIndex s = (s1, .ok ())) :
    s1._sourceFileColumnTypes.length + 1 = s._sourceFileColumnTypes.length ∧
      s1._sourceFileVector.length + 1 = s._sourceFileVector.length ∧
      (s._sourceFileHeader = [] → s1._sourceFileHeader = []) ∧
      (s._sourceFileHeader ≠ [] → s1._sourceFileHeader.length + 1 = s._sourceFileHeader.length) ∧
      s1._entriesInCurrentChunk = s._entriesInCurrentChunk ∧
      (∀ column ∈ s1._sourceFileVector, column ∈ s._sourceFileVector) := by
  unfold removeColumn at hrun
  split at hrun
  · cases hrun
  · rename_i types ht
    simp only [] at hrun
    split at hrun
    · cases hrun
    · rename_i header hh
      split at hrun
      · cases hrun
      · rename_i columns hv
        simp only [Prod.mk.injEq, and_true] at hrun
        subst hrun
        refine ⟨vecErase_length _ _ _ ht, vecErase_length _ _ _ hv, ?_, ?_, rfl, ?_⟩
        · intro he
          rw [he] at hh
          simp only [List.isEmpty_nil, if_true] at hh
          cases hh
          rfl
        · intro hne
          have : s._sourceFileHeader.isEmpty = false := by
            cases hs : s._sourceFileHeader with
            | nil => exact absurd hs hne
            | cons a l => rfl
          rw [this] at hh
          simp only [Bool.false_eq_true, if_false] at hh
          exact vecErase_length _ _ _ hh
        · intro column hcol
          obtain ⟨_, _, h3⟩ := vecErase_ok_iff _ _ _ hv
          rw [h3] at hcol
          exact List.mem_of_mem_eraseIdx hcol


/-- What a call of the overload of `insertColumn` with data and caption leaves when
it returns: the handler had a header, the overload without caption returned, and
the header has one caption more. -/
theorem insertColumnCaption_ok_shape (data : List CsvEntryElement) (caption : Str)
    (type : _dataTypes) (pos : Int) (s s1 : CsvHandlerState)
    (hrun : insertColumnCaption data caption type pos s = (s1, .ok ())) :
    s._sourceFileHeader ≠ [] ∧
      ∃ sa, insertColumn data type pos s = (sa, .ok ()) ∧
        s1._sourceFileVector = sa._sourceFileVector ∧
        s1._sourceFileColumnTypes = sa._sourceFileColumnTypes ∧
        s1._entriesInCurrentChunk = sa._entriesInCurrentChunk ∧
        s1._sourceFileHeader.length = sa._sourceFileHeader.length + 1 := by
  unfold insertColumnCaption at hrun
  split at hrun
  · cases hrun
  · rename_i hne
    simp only [] at hrun
    generalize h1 : insertColumn data type pos s = r1 at hrun
    obtain ⟨sa, ra⟩ := r1
    cases ra with
    | error e => cases hrun
    | ok u =>
      simp only [] at hrun
      split at hrun
      · cases hrun
      · rename_i header hh
        simp only [Prod.mk.injEq, and_true] at hrun
        subst hrun
        refine ⟨?_, sa, rfl, rfl, rfl, rfl, vecInsert_length _ _ _ _ hh⟩
        intro he
        rw [he] at hne
        exact hne rfl

/-- What a call of the overload of `insertColumn` with a caption and without data
leaves when it returns: the handler had a header, the overload without caption
returned, and the header has one caption more when `_chunksCount` is `1` and is
the one before otherwise. -/
theorem insertColumnEmptyCaption_ok_shape (caption : Str) (type : _dataTypes) (pos : Int)
    (s s1 : CsvHandlerState)
    (hrun : insertColumnEmptyCaption caption type pos s = (s1, .ok ())) :
    s._sourceFileHeader ≠ [] ∧
      ∃ sa, insertColumnEmpty type pos s = (sa, .ok ()) ∧
        s1._sourceFileVector = sa._sourceFileVector ∧
        s1._sourceFileColumnTypes = sa._sourceFileColumnTypes ∧
        s1._entriesInCurrentChunk = sa._entriesInCurrentChunk ∧
        ((sa._chunksCount = 1 ∧ s1._sourceFileHeader.length = sa._sourceFileHeader.length + 1) ∨
          (sa._chunksCount ≠ 1 ∧ s1._sourceFileHeader = sa._sourceFileHeader)) := by
  unfold insertColumnEmptyCaption at hrun
  split at hrun
  · cases hrun
  · rename_i hne
    simp only [] at hrun
    generalize h1 : insertColumnEmpty type pos s = r1 at hrun
    obtain ⟨sa, ra⟩ := r1
    cases ra with
    | error e => cases hrun
    | ok u =>
      simp only [] at hrun
      have hhead : s._sourceFileHeader ≠ [] := by
        intro he
        rw [he] at hne
        exact hne rfl
      split at hrun
      · rename_i hc
        split at hrun
        · cases hrun
        · rename_i header hh
          simp only [Prod.mk.injEq, and_true] at hrun
          subst hrun
          exact ⟨hhead, sa, rfl, rfl, rfl, rfl, Or.inl ⟨hc, vecInsert_length _ _ _ _ hh⟩⟩
      · rename_i hc
        simp only [Prod.mk.injEq, and_true] at hrun
        subst hrun
        exact ⟨hhead, _, rfl, rfl, rfl, rfl, Or.inr ⟨hc, rfl⟩⟩

/-- C27 (amended): in a handler with as many type tags as columns and, when it has a
header, as many captions as columns, the same holds after `removeColumn`,
`insertRow`, `removeRow` and the overload of `insertColumn` with data and caption,
whenever they return; after each of the two overloads of `insertColumn` without
caption it holds exactly when the handler has no header; after the overload with
a caption and without data it holds exactly when `_chunksCount` is `1`. -/
theorem lockstep_after_structural_edit (s : CsvHandlerState) (hl : lockstep s) :
    (∀ data caption type pos s1,
      insertColumnCaption data caption type pos s = (s1, .ok ()) → lockstep s1) ∧
    (∀ data type pos s1, insertColumn data type pos s = (s1, .ok ()) →
      (lockstep s1 ↔ s._sourceFileHeader = [])) ∧
    (∀ type pos s1, insertColumnEmpty type pos s = (s1, .ok ()) →
      (lockstep s1 ↔ s._sourceFileHeader = [])) ∧
    (∀ caption type pos s1, insertColumnEmptyCaption caption type pos s = (s1, .ok ()) →
      (lockstep s1 ↔ s._chunksCount = 1)) ∧
    (∀ columnIndex s1, removeColumn columnIndex s = (s1, .ok ()) → lockstep s1) ∧
    (∀ entry pos mode s1, insertRow entry pos mode s = (s1, .ok ()) → lockstep s1) ∧
    (∀ rowIndex s1, removeRow rowIndex s = (s1, .ok ()) → lockstep s1) := by
  obtain ⟨ht, hh⟩ := hl
  have hplain : ∀ s1 : CsvHandlerState,
      s1._sourceFileColumnTypes.length = s._sourceFileColumnTypes.length + 1 →
      s1._sourceFileVector.length = s._sourceFileVector.length + 1 →
      s1._sourceFileHeader = s._sourceFileHeader →
      (lockstep s1 ↔ s._sourceFileHeader = []) := by
    intro s1 h1 h2 h3
    constructor
    · intro hl1
      by_contra hne
      have ha := hh hne
      have hb := hl1.2 (by rw [h3]; exact hne)
      rw [h3] at hb
      omega
    · intro he
      refine ⟨by omega, fun hne => ?_⟩
      rw [h3] at hne
      exact absurd he hne
  have hrows : ∀ s1 : CsvHandlerState,
      s1._sourceFileColumnTypes = s._sourceFileColumnTypes →
      s1._sourceFileHeader = s._sourceFileHeader →
      s1._sourceFileVector.length = s._sourceFileVector.length → lockstep s1 := by
    intro s1 h1 h2 h3
    refine ⟨by rw [h1, h3]; exact ht, fun hne => ?_⟩
    rw [h2] at hne ⊢
    rw [h3]
    exact hh hne
  refine ⟨?_, ?_, ?_, ?_, ?_, ?_, ?_⟩
  · intro data caption type pos s1 hrun
    obtain ⟨hne, sa, hsa, h1, h2, _, h4⟩ := insertColumnCaption_ok_shape _ _ _ _ _ _ hrun
    obtain ⟨g1, g2, g3, _, _⟩ := insertColumn_ok_shape _ _ _ _ _ hsa
    have ha := hh hne
    refine ⟨by rw [h1, h2]; omega, fun _ => ?_⟩
    rw [h4, h1, g3]
    omega
  · intro data type pos s1 hrun
    obtain ⟨g1, g2, g3, _, _⟩ := insertColumn_ok_shape _ _ _ _ _ hrun
    exact hplain s1 g1 g2 g3
  · intro type pos s1 hrun
    obtain ⟨g1, g2, g3, _, _, _⟩ := insertColumnEmpty_ok_shape _ _ _ _ hrun
    exact hplain s1 g1 g2 g3
  · intro caption type pos s1 hrun
    obtain ⟨hne, sa, hsa, h1, h2, _, h4⟩ := insertColumnEmptyCaption_ok_shape _ _ _ _ _ hrun
    obtain ⟨g1, g2, g3, _, g5, _⟩ := insertColumnEmpty_ok_shape _ _ _ _ hsa
    have ha := hh hne
    rcases h4 with ⟨hc, h4⟩ | ⟨hc, h4⟩
    · constructor
      · intro _
        rw [← g5]; exact hc
      · intro _
        refine ⟨by rw [h1, h2]; omega, fun _ => ?_⟩
        rw [h4, h1, g3]
        omega
    · constructor
      · intro hl1
        have hb := hl1.2 (by rw [h4, g3]; exact hne)
        rw [h4, g3, h1] at hb
        omega
      · intro hc1
        rw [← g5] at hc1
        exact absurd hc1 hc
  · intro columnIndex s1 hrun
    obtain ⟨g1, g2, g3, g4, _, _⟩ := removeColumn_ok_shape _ _ _ hrun
    refine ⟨by omega, fun hne1 => ?_⟩
    by_cases he : s._sourceFileHeader = []
    · exact absurd (g3 he) hne1
    · have ha := hh he
      have hb := g4 he
      omega
  · intro entry pos mode s1 hrun
    obtain ⟨g1, g2, g3⟩ := insertRow_ok_shape _ _ _ _ _ ht hrun
    apply hrows s1 g1 g2
    rcases g3 with h | ⟨h, _⟩
    · rw [h]
    · simpa using congrArg List.length h
  · intro rowIndex s1 hrun
    obtain ⟨g1, g2, g3⟩ := removeRow_ok_shape _ _ _ ht hrun
    apply hrows s1 g1 g2
    rcases g3 with h | ⟨h, _⟩
    · rw [h]
    · simpa using congrArg List.length h

set_option maxRecDepth 100000 in
/-- C27 (amended) on the table of the file `name,age⏎Zlice,30⏎Bob,45⏎` read whole with
its header: two type tags, two captions and two columns; after `removeColumn(0)`
there is one of each. -/
theorem lockstep_after_structural_edit_witness :
    lockstep (loadedHandler "name,age\nZlice,30\nBob,45\n".toList 0 .load_whole_file
      .include_header .stop_on_error 1) ∧
    lockstep (removeColumn 0 (loadedHandler "name,age\nZlice,30\nBob,45\n".toList 0
      .load_whole_file .include_header .stop_on_error 1)).1 ∧
    (removeColumn 0 (loadedHandler "name,age\nZlice,30\nBob,45\n".toList 0
      .load_whole_file .include_header .stop_on_error 1)).1._sourceFileHeader
      = ["age".toList] :=
  ⟨⟨by decide, by decide⟩,
    (lockstep_after_structural_edit
      (loadedHandler "name,age\nZlice,30\nBob,45\n".toList 0 .load_whole_file
        .include_header .stop_on_error 1) ⟨by decide, by decide⟩).2.2.2.2.1 0 _ (by decide),
    by decide⟩

set_option maxRecDepth 100000 in
/-- C27 as stated fails for the overloads of `insertColumn` without caption in a
table with a header, and for the overload with a caption and without data after
the first chunk.  In the table of the file `name,age⏎Zlice,30⏎Bob,45⏎` read whole
with its header, `insertColumn(type_string, -1)` returns and leaves two captions
for three type tags and three columns.  After the second chunk of six bytes of
the file `h1,h2⏎a,b⏎c,d⏎` read with its header, `insertColumn("x", type_string,
-1)` returns and leaves two captions for three type tags and three columns. -/
theorem lockstep_after_structural_edit_counterexample :
    (lockstep (loadedHandler "name,age\nZlice,30\nBob,45\n".toList 0 .load_whole_file
        .include_header .stop_on_error 1) ∧
      (insertColumnEmpty .type_string (-1)
        (loadedHandler "name,age\nZlice,30\nBob,45\n".toList 0 .load_whole_file
          .include_header .stop_on_error 1)).2 = .ok () ∧
      (insertColumnEmpty .type_string (-1)
        (loadedHandler "name,age\nZlice,30\nBob,45\n".toList 0 .load_whole_file
          .include_header .stop_on_error 1)).1._sourceFileHeader.length = 2 ∧
      (insertColumnEmpty .type_string (-1)
        (loadedHandler "name,age\nZlice,30\nBob,45\n".toList 0 .load_whole_file
          .include_header .stop_on_error 1)).1._sourceFileColumnTypes.length = 3 ∧
      (insertColumnEmpty .type_string (-1)
        (loadedHandler "name,age\nZlice,30\nBob,45\n".toList 0 .load_whole_file
          .include_header .stop_on_error 1)).1._sourceFileVector.length = 3) ∧
    (lockstep (loadedHandler "h1,h2\na,b\nc,d\n".toList 6 .load_in_chunks
        .include_header .stop_on_error 2) ∧
      (insertColumnEmptyCaption "x".toList .type_string (-1)
        (loadedHandler "h1,h2\na,b\nc,d\n".toList 6 .load_in_chunks
          .include_header .stop_on_error 2)).2 = .ok () ∧
      (insertColumnEmptyCaption "x".toList .type_string (-1)
        (loadedHandler "h1,h2\na,b\nc,d\n".toList 6 .load_in_chunks
          .include_header .stop_on_error 2)).1._sourceFileHeader.length = 2 ∧
      (insertColumnEmptyCaption "x".toList .type_string (-1)
        (loadedHandler "h1,h2\na,b\nc,d\n".toList 6 .load_in_chunks
          .include_header .stop_on_error 2)).1._sourceFileColumnTypes.length = 3 ∧
      (insertColumnEmptyCaption "x".toList .type_string (-1)
        (loadedHandler "h1,h2\na,b\nc,d\n".toList 6 .load_in_chunks
          .include_header .stop_on_error 2)).1._sourceFileVector.length = 3) :=
  ⟨⟨⟨by decide, by decide⟩, by decide, by decide, by decide, by decide⟩,
    ⟨⟨by decide, by decide⟩, by decide, by decide, by decide, by decide⟩⟩


/-! ## Columns as long as the row counter says (C28) -/

theorem rectangular_nil (s : CsvHandlerState) (hv : s._sourceFileVector = []) :
    rectangular s := by
  intro column hc
  rw [hv] at hc
  cases hc

theorem rectangular_of_map_length (s t : CsvHandlerState)
    (hv : t._sourceFileVector.map List.length = s._sourceFileVector.map List.length)
    (he : t._entriesInCurrentChunk = s._entriesInCurrentChunk) (hr : rectangular s) :
    rectangular t := by
  intro column hc
  have hmem : column.length ∈ t._sourceFileVector.map List.length := List.mem_map_of_mem _ hc
  rw [hv] at hmem
  obtain ⟨c0, hc0, hlen⟩ := List.mem_map.mp hmem
  rw [he, ← hlen]
  exact hr c0 hc0

theorem initializeStorageLoop_rectangular :
    ∀ (types : List Str) (s : CsvHandlerState), rectangular s →
      rectangular (initializeStorageLoop types s).1 := by
  intro types
  induction types with
  | nil => intro s hr; exact hr
  | cons typeName rest ih =>
    intro s hr
    unfold initializeStorageLoop
    simp only []
    split
    · rename_i column hinit
      apply ih
      intro c hc
      simp only [List.mem_append, List.mem_singleton] at hc
      rcases hc with h | h
      · exact hr c h
      · subst h
        unfold initializeEntriesForColumn at hinit
        split at hinit
        · cases hinit
        · rename_i hneg
          cases hinit
          simp only [List.length_replicate]
          have h0 : (0 : Int) ≤ s._entriesInCurrentChunk := by simpa using hneg
          exact Int.toNat_of_nonneg h0
    · exact fun c hc => hr c hc

theorem setColumnsForEntryLoop_rectangular (entryIndex : Int) (mode : _errorHandlingMode)
    (entry : List Str) (columnIndex : Int) (s : CsvHandlerState) (hr : rectangular s) :
    rectangular (setColumnsForEntryLoop entryIndex mode entry columnIndex s).1 :=
  rectangular_of_map_length s _
    (setColumnsForEntryLoop_map List.length entryIndex
      (fun _ _ => List.length_set _ _ _) mode entry columnIndex s)
    (setColumnsForEntryLoop_frame (fun t => t._entriesInCurrentChunk) (fun _ _ _ => rfl)
      entryIndex mode entry columnIndex s) hr

theorem eraseEntryInColumns_lengths (cEntry : Int) :
    ∀ (columns result : List (List CsvEntryElement)),
      eraseEntryInColumns cEntry columns = .ok result →
      ∀ column1 ∈ result, ∃ column ∈ columns, column1.length + 1 = column.length := by
  intro columns
  induction columns with
  | nil =>
    intro result h column1 hc
    simp only [eraseEntryInColumns] at h
    cases h
    cases hc
  | cons cCol rest ih =>
    intro result h column1 hc
    simp only [eraseEntryInColumns] at h
    cases her : vecErase cCol cEntry with
    | error e => rw [her] at h; cases h
    | ok cCol1 =>
      rw [her] at h
      simp only [] at h
      cases hrest : eraseEntryInColumns cEntry rest with
      | error e => rw [hrest] at h; cases h
      | ok rest1 =>
        rw [hrest] at h
        simp only [] at h
        cases h
        rcases List.mem_cons.mp hc with h1 | h1
        · subst h1
          exact ⟨cCol, List.mem_cons_self _ _, vecErase_length _ _ _ her⟩
        · obtain ⟨c0, hc0, hlen⟩ := ih rest1 hrest column1 h1
          exact ⟨c0, List.mem_cons_of_mem _ hc0, hlen⟩

theorem emplaceEntriesInStorageLoop_rectangular (pf : Platform) (fileFormat : _fileFormat)
    (errorHandlingMode : _errorHandlingMode) :
    ∀ (fuel cEntry : Nat) (entryLines : List Str) (s : CsvHandlerState), rectangular s →
      rectangular
        (emplaceEntriesInStorageLoop pf fileFormat errorHandlingMode fuel cEntry entryLines s).1 := by
  intro fuel
  induction fuel with
  | zero => intro _ _ s hr; exact hr
  | succ fuel ih =>
    intro cEntry entryLines s hr
    unfold emplaceEntriesInStorageLoop
    split
    · exact hr
    · split
      · exact hr
      · split
        · have hset := setColumnsForEntryLoop_rectangular (cEntry : Int) errorHandlingMode
            ‹List Str› 0 s hr
          unfold setColumnsForEntry
          split
          · rename_i s1 u heq
            rw [heq] at hset
            exact ih _ _ _ hset
          · rename_i s1 e heq
            rw [heq] at hset
            exact hset
        · split
          · exact hr
          · split
            · exact hr
            · rename_i columns her
              apply ih
              intro column1 hc
              obtain ⟨c0, hc0, hlen⟩ := eraseEntryInColumns_lengths _ _ _ her column1 hc
              have := hr c0 hc0
              show (column1.length : Int) = s._entriesInCurrentChunk - 1
              omega

theorem storeEntryLines_rectangular (pf : Platform) (entryLines : List Str)
    (fileFormat : _fileFormat) (errMode : _errorHandlingMode) (s : CsvHandlerState)
    (hv : s._sourceFileVector = []) :
    rectangular (storeEntryLines pf entryLines fileFormat errMode s).1 := by
  unfold storeEntryLines
  simp only []
  have h1 : ∀ t, rectangular t → rectangular (initializeStorage t).1 := fun t ht =>
    initializeStorageLoop_rectangular _ t ht
  have h2 : ∀ t, rectangular t →
      rectangular (emplaceEntriesInStorage pf entryLines fileFormat errMode t).1 :=
    fun t ht => emplaceEntriesInStorageLoop_rectangular pf fileFormat errMode _ _ _ t ht
  have h0 := h1 _ (rectangular_nil
    { s with
      _sourceFileColumnTypes := s._inFileColumnTypes
      _sourceFileHeader := s._inFileHeader
      _absoluteEndingIndex := s._absoluteEndingIndex + entryLines.length
      _absoluteBeginningIndex := s._absoluteEndingIndex + entryLines.length - entryLines.length
      _entriesInCurrentChunk := entryLines.length } hv)
  split
  · rename_i s2 e heq
    rw [heq] at h0; exact h0
  · rename_i s2 u heq
    rw [heq] at h0
    have h3 := h2 s2 h0
    split
    · rename_i s3 e heq3
      rw [heq3] at h3; exact h3
    · rename_i s3 u3 heq3
      rw [heq3] at h3; exact h3

theorem loadHeader_vector (entryLine : List Str) (s : CsvHandlerState) :
    (loadHeader entryLine s).1._sourceFileVector = s._sourceFileVector := by
  unfold loadHeader
  split
  · split
    · rfl
    · split <;> rfl
  · rfl

theorem loadHeaderLine_vector (pf : Platform) (line : Str) (s : CsvHandlerState) :
    (loadHeaderLine pf line s).1._sourceFileVector = s._sourceFileVector := by
  unfold loadHeaderLine
  split
  · exact loadHeader_vector _ _
  · rfl

theorem autoDetectTypesForColumns_vector (pf : Platform) (s : CsvHandlerState) :
    (autoDetectTypesForColumns pf s).1._sourceFileVector = s._sourceFileVector := by
  unfold autoDetectTypesForColumns
  simp only []
  split
  · split <;> rfl
  · rfl

theorem loadEntries_CSV_rectangular (pf : Platform) (data : List Char)
    (errMode : _errorHandlingMode) (s : CsvHandlerState) (hv : s._sourceFileVector = []) :
    rectangular (loadEntries_CSV pf data errMode s).1 := by
  unfold loadEntries_CSV
  simp only []
  have hdet : (if s._sourceFileColumnTypes.isEmpty = true then autoDetectTypesForColumns pf s
      else (s, Except.ok ())).1._sourceFileVector = [] := by
    split
    · rw [autoDetectTypesForColumns_vector]; exact hv
    · exact hv
  split
  · rename_i s1 e heq
    rw [heq] at hdet
    exact rectangular_nil _ hdet
  · rename_i s1 u heq
    rw [heq] at hdet
    split
    · exact rectangular_nil _ hdet
    · rename_i front more hl
      have hhl := loadHeaderLine_vector pf front
        { s1 with _buffLeftovers := (convertCharBufferIntoCSVentryStrings
            s1._sourceFileColumnTypes.length s1._eofFlag s1._buffLeftovers data).2 }
      split
      · rename_i s3 e heq3
        rw [heq3] at hhl
        exact rectangular_nil _ (hhl.trans hdet)
      · rename_i s3 isHeader heq3
        rw [heq3] at hhl
        exact storeEntryLines_rectangular pf _ _ _ s3 (hhl.trans hdet)

theorem loadEntries_JSON_rectangular (pf : Platform) (data : List Char)
    (errMode : _errorHandlingMode) (s : CsvHandlerState) (hv : s._sourceFileVector = []) :
    rectangular (loadEntries_JSON pf data errMode s).1 := by
  unfold loadEntries_JSON
  simp only []
  split
  · exact rectangular_nil _ hv
  · rename_i front more hl
    split
    · rename_i s2 e heq
      have : s2._sourceFileVector = [] := by
        split at heq
        · split at heq
          · rw [← (Prod.mk.inj heq).1]; exact hv
          · rw [← (Prod.mk.inj heq).1, loadHeader_vector]; exact hv
        · rw [← (Prod.mk.inj heq).1]; exact hv
      exact rectangular_nil _ this
    · rename_i s2 u heq
      have h2 : s2._sourceFileVector = [] := by
        split at heq
        · split at heq
          · rw [← (Prod.mk.inj heq).1]; exact hv
          · rw [← (Prod.mk.inj heq).1, loadHeader_vector]; exact hv
        · rw [← (Prod.mk.inj heq).1]; exact hv
      split
      · rename_i s3 e heq3
        have : s3._sourceFileVector = [] := by
          split at heq3
          · split at heq3
            · rw [← (Prod.mk.inj heq3).1]; exact h2
            · rw [← (Prod.mk.inj heq3).1]; exact h2
          · rw [← (Prod.mk.inj heq3).1]; exact h2
        exact rectangular_nil _ this
      · rename_i s3 u3 heq3
        apply storeEntryLines_rectangular
        split at heq3
        · split at heq3
          · rw [← (Prod.mk.inj heq3).1]; exact h2
          · rw [← (Prod.mk.inj heq3).1]; exact h2
        · rw [← (Prod.mk.inj heq3).1]; exact h2

theorem loadEntriesRead_rectangular (pf : Platform) (errorHandlingMode : _errorHandlingMode)
    (s : CsvHandlerState) : rectangular (loadEntriesRead pf errorHandlingMode s).1 := by
  unfold loadEntriesRead
  have hsize : (sizeLastChunk (clearStorage s))._sourceFileVector = [] := by
    unfold sizeLastChunk clearStorage
    split <;> rfl
  have hchunk : (loadChunkOfFile (sizeLastChunk (clearStorage s))).1._sourceFileVector = [] := by
    unfold loadChunkOfFile
    split
    · exact hsize
    · split
      · exact hsize
      · split
        · exact hsize
        · split
          · exact hsize
          · exact hsize
  split
  · rename_i s3 e heq
    rw [heq] at hchunk
    exact rectangular_nil _ hchunk
  · rename_i s3 data heq
    rw [heq] at hchunk
    simp only []
    have h4 : (if s3._loadDataModeFlag = .load_in_chunks then
        { s3 with _chunksCount := s3._chunksCount + 1 } else s3)._sourceFileVector = [] := by
      split
      · exact hchunk
      · exact hchunk
    have h5 : ∀ t : CsvHandlerState, t._sourceFileVector = [] →
        rectangular (loadEntriesOfFormat pf data errorHandlingMode t).1 := by
      intro t ht
      unfold loadEntriesOfFormat
      split
      · exact loadEntries_CSV_rectangular pf data _ t ht
      · exact loadEntries_JSON_rectangular pf data _ t ht
    have h6 := h5 _ h4
    split
    · rename_i s5 e heq5
      rw [heq5] at h6; exact h6
    · rename_i s5 u heq5
      rw [heq5] at h6; exact h6

/-- After `loadEntries`, however it ends, every column of the table has as many
fields as the row counter says, when that was so before the call. -/
theorem loadEntries_rectangular (pf : Platform) (errorHandlingMode : _errorHandlingMode)
    (s : CsvHandlerState) (hr : rectangular s) :
    rectangular (loadEntries pf errorHandlingMode s).1 := by
  unfold loadEntries
  split
  · split
    · exact fun c hc => hr c hc
    · exact loadEntriesRead_rectangular pf _ s
  · exact loadEntriesRead_rectangular pf _ _


/-- C28 (amended): in a handler where every column has as many fields as the row
counter `_entriesInCurrentChunk` says, the same holds after `loadEntries` in
either error mode, however it ends; after `insertRow` and `removeRow` when they
return, provided there are as many type tags as columns; after `removeColumn` and
the two overloads of `insertColumn` without data when they return; and after each
of the two overloads of `insertColumn` with data, when it returns, exactly when
the data has as many fields as the row counter says. -/
theorem rectangular_after_operation (pf : Platform) (s : CsvHandlerState)
    (hr : rectangular s) :
    (∀ mode, rectangular (loadEntries pf mode s).1) ∧
    (s._sourceFileColumnTypes.length = s._sourceFileVector.length →
      (∀ entry pos mode s1, insertRow entry pos mode s = (s1, .ok ()) → rectangular s1) ∧
      (∀ rowIndex s1, removeRow rowIndex s = (s1, .ok ()) → rectangular s1)) ∧
    (∀ columnIndex s1, removeColumn columnIndex s = (s1, .ok ()) → rectangular s1) ∧
    (∀ type pos s1, insertColumnEmpty type pos s = (s1, .ok ()) → rectangular s1) ∧
    (∀ caption type pos s1, insertColumnEmptyCaption caption type pos s = (s1, .ok ()) →
      rectangular s1) ∧
    (∀ data type pos s1, insertColumn data type pos s = (s1, .ok ()) →
      (rectangular s1 ↔ (data.length : Int) = s._entriesInCurrentChunk)) ∧
    (∀ data caption type pos s1, insertColumnCaption data caption type pos s = (s1, .ok ()) →
      (rectangular s1 ↔ (data.length : Int) = s._entriesInCurrentChunk)) := by
  have hnew : ∀ (s1 : CsvHandlerState) (data : List CsvEntryElement),
      s1._entriesInCurrentChunk = s._entriesInCurrentChunk →
      (∀ column, column ∈ s1._sourceFileVector ↔ column = data ∨ column ∈ s._sourceFileVector) →
      (rectangular s1 ↔ (data.length : Int) = s._entriesInCurrentChunk) := by
    intro s1 data he hmem
    constructor
    · intro hr1
      rw [← he]
      exact hr1 data ((hmem data).mpr (Or.inl rfl))
    · intro hd column hc
      rw [he]
      rcases (hmem column).mp hc with h | h
      · rw [h]; exact hd
      · exact hr column h
  refine ⟨fun mode => loadEntries_rectangular pf mode s hr, fun hl => ⟨?_, ?_⟩, ?_, ?_, ?_, ?_, ?_⟩
  · intro entry pos mode s1 hrun
    obtain ⟨_, _, g3⟩ := insertRow_ok_shape _ _ _ _ _ hl hrun
    rcases g3 with h | ⟨hv, he⟩
    · rw [h]; exact hr
    · intro column hc
      have hmem : column.length ∈ s1._sourceFileVector.map List.length :=
        List.mem_map_of_mem _ hc
      rw [hv] at hmem
      obtain ⟨c0, hc0, hlen⟩ := List.mem_map.mp hmem
      have := hr c0 hc0
      rw [he]
      omega
  · intro rowIndex s1 hrun
    obtain ⟨_, _, g3⟩ := removeRow_ok_shape _ _ _ hl hrun
    rcases g3 with h | ⟨hv, hpos, he⟩
    · rw [h]; exact hr
    · intro column hc
      have hmem : column.length ∈ s1._sourceFileVector.map List.length :=
        List.mem_map_of_mem _ hc
      rw [hv] at hmem
      obtain ⟨c0, hc0, hlen⟩ := List.mem_map.mp hmem
      have := hr c0 hc0
      have := hpos c0 hc0
      rw [he]
      omega
  · intro columnIndex s1 hrun
    obtain ⟨_, _, _, _, g5, g6⟩ := removeColumn_ok_shape _ _ _ hrun
    intro column hc
    rw [g5]
    exact hr column (g6 column hc)
  · intro type pos s1 hrun
    obtain ⟨_, _, _, g4, _, data, hd, hmem⟩ := insertColumnEmpty_ok_shape _ _ _ _ hrun
    exact (hnew s1 data g4 hmem).mpr hd
  · intro caption type pos s1 hrun
    obtain ⟨_, sa, hsa, h1, _, h3, _⟩ := insertColumnEmptyCaption_ok_shape _ _ _ _ _ hrun
    obtain ⟨_, _, _, g4, _, data, hd, hmem⟩ := insertColumnEmpty_ok_shape _ _ _ _ hsa
    exact (hnew s1 data (h3.trans g4) (by rw [h1]; exact hmem)).mpr hd
  · intro data type pos s1 hrun
    obtain ⟨_, _, _, g4, hmem⟩ := insertColumn_ok_shape _ _ _ _ _ hrun
    exact hnew s1 data g4 hmem
  · intro data caption type pos s1 hrun
    obtain ⟨_, sa, hsa, h1, _, h3, _⟩ := insertColumnCaption_ok_shape _ _ _ _ _ _ hrun
    obtain ⟨_, _, _, g4, hmem⟩ := insertColumn_ok_shape _ _ _ _ _ hsa
    exact hnew s1 data (h3.trans g4) (by rw [h1]; exact hmem)

set_option maxRecDepth 100000 in
/-- C28 (amended) on the table of the file `name,age⏎Zlice,30⏎Bob,45⏎` read whole with
its header, two columns of two fields: after `removeRow(0)` the two columns have
one field and the row counter is `1`. -/
theorem rectangular_after_operation_witness :
    rectangular (loadedHandler "name,age\nZlice,30\nBob,45\n".toList 0 .load_whole_file
      .include_header .stop_on_error 1) ∧
    rectangular (removeRow 0 (loadedHandler "name,age\nZlice,30\nBob,45\n".toList 0
      .load_whole_file .include_header .stop_on_error 1)).1 ∧
    (removeRow 0 (loadedHandler "name,age\nZlice,30\nBob,45\n".toList 0
      .load_whole_file .include_header .stop_on_error 1)).1._sourceFileVector.map List.length
      = [1, 1] ∧
    (removeRow 0 (loadedHandler "name,age\nZlice,30\nBob,45\n".toList 0
      .load_whole_file .include_header .stop_on_error 1)).1._entriesInCurrentChunk = 1 :=
  ⟨by unfold rectangular; decide,
    ((rectangular_after_operation refPlatform
      (loadedHandler "name,age\nZlice,30\nBob,45\n".toList 0 .load_whole_file
        .include_header .stop_on_error 1) (by unfold rectangular; decide)).2.1
      (by decide)).2 0 _ (by decide),
    by decide, by decide⟩

set_option maxRecDepth 100000 in
/-- C28 as stated fails for the overloads of `insertColumn` with data, which do not
look at the length of the data.  In the table of the file
`name,age⏎Zlice,30⏎Bob,45⏎` read whole with its header, two columns of two fields,
`insertColumn` with a column of one field of type `int` at position `0` returns
and leaves a column of one field before two columns of two fields, the row
counter being `2`. -/
theorem rectangular_after_operation_counterexample :
    rectangular (loadedHandler "name,age\nZlice,30\nBob,45\n".toList 0 .load_whole_file
      .include_header .stop_on_error 1) ∧
    (insertColumn [.csv_intField (some 0) true] .type_int 0
      (loadedHandler "name,age\nZlice,30\nBob,45\n".toList 0 .load_whole_file
        .include_header .stop_on_error 1)).2 = .ok () ∧
    (insertColumn [.csv_intField (some 0) true] .type_int 0
      (loadedHandler "name,age\nZlice,30\nBob,45\n".toList 0 .load_whole_file
        .include_header .stop_on_error 1)).1._sourceFileVector.map List.length = [1, 2, 2] ∧
    (insertColumn [.csv_intField (some 0) true] .type_int 0
      (loadedHandler "name,age\nZlice,30\nBob,45\n".toList 0 .load_whole_file
        .include_header .stop_on_error 1)).1._entriesInCurrentChunk = 2 ∧
    ¬ rectangular (insertColumn [.csv_intField (some 0) true] .type_int 0
      (loadedHandler "name,age\nZlice,30\nBob,45\n".toList 0 .load_whole_file
        .include_header .stop_on_error 1)).1 :=
  ⟨by unfold rectangular; decide, by decide, by decide, by decide,
    fun h => absurd (h [.csv_intField (some 0) true] (by decide)) (by decide)⟩


/-! ## Quotation marks around the elements of a vector (C35) -/

theorem isFieldDoubleQuotted_iff (field : Str) :
    isFieldDoubleQuotted field = true ↔ field.head? = some '"' := by
  cases field with
  | nil => simp [isFieldDoubleQuotted]
  | cons c cs => simp [isFieldDoubleQuotted, _quotationMark]

theorem surroundFieldsInVectorWithQuotationMarksLoop_eq :
    ∀ (post pre : List Str),
      surroundFieldsInVectorWithQuotationMarksLoop post.length (pre.length : Int) (pre ++ post)
        = .ok (pre ++ post.map (fun s => if s.head? = some '"' then s else '"' :: (s ++ ['"']))) := by
  intro post
  induction post with
  | nil => intro pre; simp [surroundFieldsInVectorWithQuotationMarksLoop]
  | cons field rest ih =>
    intro pre
    have hat : vecAt (pre ++ field :: rest) (pre.length : Int) = .ok field := by
      unfold vecAt
      rw [if_pos (Int.natCast_nonneg _), Int.toNat_ofNat,
        List.getElem?_append_right (le_refl _)]
      simp
    simp only [List.length_cons, surroundFieldsInVectorWithQuotationMarksLoop, hat,
      Int.toNat_ofNat]
    have hnext : ((pre.length : Int) + 1) = (((pre ++ [field]).length : Nat) : Int) := by
      simp
    by_cases hq : field.head? = some '"'
    · have hq1 : isFieldDoubleQuotted field = true := (isFieldDoubleQuotted_iff field).mpr hq
      have h := ih (pre ++ [field])
      rw [List.append_assoc, List.singleton_append] at h
      simp only [hq1, Bool.not_true, Bool.false_eq_true, if_false, List.map_cons, hq, if_true]
      rw [hnext, h]
      simp
    · have hq1 : isFieldDoubleQuotted field = false := by
        cases hb : isFieldDoubleQuotted field with
        | false => rfl
        | true => exact absurd ((isFieldDoubleQuotted_iff field).mp hb) hq
      have hset : (pre ++ field :: rest).set pre.length (addQuotationMarks field)
          = (pre ++ [addQuotationMarks field]) ++ rest := by
        rw [List.set_append]
        simp
      have h := ih (pre ++ [addQuotationMarks field])
      simp only [hq1, Bool.not_false, if_true, List.map_cons, hq, if_false, hset]
      have hnext2 : ((pre.length : Int) + 1)
          = (((pre ++ [addQuotationMarks field]).length : Nat) : Int) := by
        simp
      rw [hnext2, h]
      simp [addQuotationMarks]

/-- C35: `surroundFieldsInVectorWithQuotationMarks` on a vector of strings returns
the vector in which every element that begins with a double quote is as it was
and every other element `s`, the empty string too, is `"` + `s` + `"`, in the
same order; on that vector it returns that vector again. -/
theorem surroundFieldsInVector_quotes_once (vect : List Str) :
    surroundFieldsInVectorWithQuotationMarks vect
      = .ok (vect.map (fun s => if s.head? = some '"' then s else '"' :: (s ++ ['"']))) ∧
    (vect.map (fun s => if s.head? = some '"' then s else '"' :: (s ++ ['"']))).length
      = vect.length ∧
    surroundFieldsInVectorWithQuotationMarks
        (vect.map (fun s => if s.head? = some '"' then s else '"' :: (s ++ ['"'])))
      = .ok (vect.map (fun s => if s.head? = some '"' then s else '"' :: (s ++ ['"']))) := by
  have h : ∀ v : List Str, surroundFieldsInVectorWithQuotationMarks v
      = .ok (v.map (fun s => if s.head? = some '"' then s else '"' :: (s ++ ['"']))) := by
    intro v
    have := surroundFieldsInVectorWithQuotationMarksLoop_eq v []
    simpa [surroundFieldsInVectorWithQuotationMarks] using this
  refine ⟨h vect, List.length_map _ _, ?_⟩
  rw [h]
  congr 1
  rw [List.map_map]
  apply List.map_congr_left
  intro s _
  by_cases hq : s.head? = some '"'
  · simp [hq]
  · simp [hq]


/-! ## `findAll` and `findAllRows` (C31, C32) -/

theorem findAllMatches_eq (field : CsvEntryElement) :
    ∀ (subs : List Str) (fFields : List CsvEntryElement),
      findAllMatches field subs fFields
        = fFields ++ List.replicate (subs.filter (fun ms => decide (ms ≠ []))).length field := by
  intro subs
  induction subs with
  | nil => intro fFields; simp [findAllMatches]
  | cons ms more ih =>
    intro fFields
    simp only [findAllMatches]
    by_cases h : ms = []
    · simp [h, ih]
    · simp [h, ih, List.replicate_succ]

/-- What the loop of `findAll` returns for fields that have string values `texts`:
every field as many times as `std::regex_search` leaves sub-matches that are not
empty for its value. -/
theorem findAllLoop_eq (rx : RegexLib) (pf : Platform) (regex : Str) :
    ∀ (column : List CsvEntryElement) (texts : List Str) (fFields : List CsvEntryElement),
      column.map (fun field => field.getStringValue pf) = texts.map Except.ok →
      findAllLoop rx pf regex column fFields
        = .ok (fFields ++ ((column.zip texts).map (fun p =>
            List.replicate
              ((rx.regex_search p.2 regex).filter (fun ms => decide (ms ≠ []))).length
              p.1)).flatten) := by
  intro column
  induction column with
  | nil =>
    intro texts fFields _
    simp [findAllLoop]
  | cons field rest ih =>
    intro texts fFields h
    cases texts with
    | nil => simp at h
    | cons text more =>
      simp only [List.map_cons, List.cons.injEq] at h
      simp only [findAllLoop, h.1]
      rw [ih more _ h.2, findAllMatches_eq]
      simp

set_option maxRecDepth 100000 in
/-- C31 fails on the table of the file `name,age⏎Alice,30⏎Bob,45⏎` with the types
`string` and `int`, whose first column holds the two fields `Alice` and `Bob`.
For the pattern `^A` the call returns the field `Alice` once.  For the pattern
`(.)(.)`, which matches both values, the call returns six fields, each of the two
three times: once for the match and once for each group.  For the pattern `^`,
which matches both values with an empty match, the call returns no field. -/
theorem findAll_repeats_fields :
    (typedHandler "name,age\nAlice,30\nBob,45\n".toList [.type_string, .type_int]
      .include_header .stop_on_error)._sourceFileVector
      = [[.csv_stringField "Alice".toList true, .csv_stringField "Bob".toList true],
         [.csv_intField (some 30) true, .csv_intField (some 45) true]] ∧
    findAll fragmentRegex refPlatform 0 "^A".toList
        (typedHandler "name,age\nAlice,30\nBob,45\n".toList [.type_string, .type_int]
          .include_header .stop_on_error)
      = .ok [.csv_stringField "Alice".toList true] ∧
    fragmentRegex.regex_search "Alice".toList "(.)(.)".toList
      = ["Al".toList, "A".toList, "l".toList] ∧
    fragmentRegex.regex_search "Bob".toList "(.)(.)".toList
      = ["Bo".toList, "B".toList, "o".toList] ∧
    findAll fragmentRegex refPlatform 0 "(.)(.)".toList
        (typedHandler "name,age\nAlice,30\nBob,45\n".toList [.type_string, .type_int]
          .include_header .stop_on_error)
      = .ok [.csv_stringField "Alice".toList true, .csv_stringField "Alice".toList true,
          .csv_stringField "Alice".toList true, .csv_stringField "Bob".toList true,
          .csv_stringField "Bob".toList true, .csv_stringField "Bob".toList true] ∧
    fragmentRegex.regex_search "Alice".toList "^".toList = [[]] ∧
    fragmentRegex.regex_search "Bob".toList "^".toList = [[]] ∧
    findAll fragmentRegex refPlatform 0 "^".toList
        (typedHandler "name,age\nAlice,30\nBob,45\n".toList [.type_string, .type_int]
          .include_header .stop_on_error)
      = .ok [] := by
  decide

theorem findAllRowsMatches_eq (pf : Platform) (s : CsvHandlerState) (rowIndex : Int)
    (row : List Str) (hrow : getRow pf s rowIndex = .ok row) :
    ∀ (subs : List Str) (rows : List (List Str)),
      findAllRowsMatches pf s rowIndex subs rows
        = .ok (rows ++ List.replicate (subs.filter (fun ms => decide (ms ≠ []))).length row) := by
  intro subs
  induction subs with
  | nil => intro rows; simp [findAllRowsMatches]
  | cons ms more ih =>
    intro rows
    simp only [findAllRowsMatches, hrow]
    by_cases h : ms = []
    · simp [h, ih]
    · simp [h, ih, List.replicate_succ]

/-- What the loop of `findAllRows` returns while its counter stays below the window
of the chunk, before the end of the file or with a window that is not empty: only
empty rows, since `getRow` is asked for the place of the field in the chunk and
answers a row index below the window with an empty row. -/
theorem findAllRowsLoop_below_window (rx : RegexLib) (pf : Platform) (s : CsvHandlerState)
    (regex : Str) (hwin : s._absoluteBeginningIndex ≤ s._absoluteEndingIndex) :
    ∀ (column : List CsvEntryElement) (k : Int) (rows : List (List Str)),
      k + column.length ≤ s._absoluteBeginningIndex →
      (∀ field ∈ column, ∃ text, field.getStringValue pf = .ok text) →
      ∃ n, findAllRowsLoop rx pf s regex column k rows = .ok (rows ++ List.replicate n []) := by
  intro column
  induction column with
  | nil =>
    intro k rows _ _
    exact ⟨0, by simp [findAllRowsLoop]⟩
  | cons field rest ih =>
    intro k rows hk htext
    obtain ⟨text, ht⟩ := htext field (List.mem_cons_self _ _)
    have hlen : ((field :: rest).length : Int) = (rest.length : Int) + 1 := by simp
    have hrow : getRow pf s k = .ok [] := by
      unfold getRow
      rw [if_neg (by omega), if_neg (by omega)]
    simp only [findAllRowsLoop, ht]
    rw [findAllRowsMatches_eq pf s k [] hrow]
    simp only []
    obtain ⟨n, hn⟩ := ih (k + 1) (rows ++ List.replicate
      ((rx.regex_search text regex).filter (fun ms => decide (ms ≠ []))).length [])
      (by omega) (fun f hf => htext f (List.mem_cons_of_mem _ hf))
    refine ⟨((rx.regex_search text regex).filter (fun ms => decide (ms ≠ []))).length + n, ?_⟩
    rw [hn, List.append_assoc, ← List.replicate_add]

set_option maxRecDepth 100000 in
/-- C32 fails after the first chunk and for patterns with groups.  The example of the
claim holds: in the table of the file `name,age⏎Alice,30⏎Bob,45⏎` read whole, the
rows whose `age` the pattern `^4.$` matches are the one row `Bob`, `45`; but for
the pattern `^(4).$`, which matches the same field, that row is returned twice.
After the second chunk of five bytes of the file `a,b⏎c,d⏎e,f⏎`, whose window
holds the row `1` only, `c`, `d`, the call for the column `0` and the pattern `c`
returns one empty row: `getRow` is asked for the row `0`. -/
theorem findAllRows_wrong_rows :
    findAllRowsByCaption fragmentRegex refPlatform "age".toList "^4.$".toList
        (typedHandler "name,age\nAlice,30\nBob,45\n".toList [.type_string, .type_int]
          .include_header .stop_on_error)
      = .ok [["Bob".toList, "45".toList]] ∧
    findAllRowsByCaption fragmentRegex refPlatform "age".toList "^(4).$".toList
        (typedHandler "name,age\nAlice,30\nBob,45\n".toList [.type_string, .type_int]
          .include_header .stop_on_error)
      = .ok [["Bob".toList, "45".toList], ["Bob".toList, "45".toList]] ∧
    windowOf (loadedHandler "a,b\nc,d\ne,f\n".toList 5 .load_in_chunks .no_header
      .stop_on_error 2) = (1, 2, 1) ∧
    getRow refPlatform (loadedHandler "a,b\nc,d\ne,f\n".toList 5 .load_in_chunks .no_header
      .stop_on_error 2) 1 = .ok ["c".toList, "d".toList] ∧
    findAllRows fragmentRegex refPlatform 0 "c".toList
        (loadedHandler "a,b\nc,d\ne,f\n".toList 5 .load_in_chunks .no_header
          .stop_on_error 2)
      = .ok [[]] := by
  decide


/-! ## An `insertRow` that fails on a conversion (C39) -/

theorem eraseIdx_take_cons_drop {α : Type} (x : α) :
    ∀ (l : List α) (n : Nat), n ≤ l.length → (l.take n ++ x :: l.drop n).eraseIdx n = l := by
  intro l
  induction l with
  | nil =>
    intro n hn
    have : n = 0 := by simpa using hn
    subst this
    rfl
  | cons a rest ih =>
    intro n hn
    cases n with
    | zero => rfl
    | succ m =>
      simp only [List.take_succ_cons, List.drop_succ_cons, List.cons_append,
        List.eraseIdx_cons_succ]
      rw [ih m (by simpa using hn)]

theorem eraseIdx_set_same {α : Type} (x : α) :
    ∀ (l : List α) (n : Nat), (l.set n x).eraseIdx n = l.eraseIdx n := by
  intro l
  induction l with
  | nil => intro n; rfl
  | cons a rest ih =>
    intro n
    cases n with
    | zero => rfl
    | succ m =>
      simp only [List.set_cons_succ, List.eraseIdx_cons_succ]
      rw [ih m]

/-- The loop of `initializeNewEntry` throws nothing: a run that does not return
has left the language. -/
theorem initializeNewEntryLoop_error (newEntryPos : Int) :
    ∀ (types : List Str) (columnId : Int) (s s1 : CsvHandlerState) (e : Exception),
      initializeNewEntryLoop newEntryPos types columnId s = (s1, .error e) →
      e = .undefinedBehaviour := by
  intro types
  induction types with
  | nil =>
    intro columnId s s1 e h
    simp only [initializeNewEntryLoop] at h
    cases h
  | cons typeName rest ih =>
    intro columnId s s1 e h
    simp only [initializeNewEntryLoop] at h
    split at h
    · rename_i e1 hidx
      have he : e1 = e := by cases h; rfl
      subst he
      unfold vecIndex at hidx
      split at hidx
      · split at hidx
        · cases hidx
        · cases hidx; rfl
      · cases hidx; rfl
    · split at h
      · rename_i e1 hins
        have he : e1 = e := by cases h; rfl
        subst he
        unfold vecInsert at hins
        split at hins
        · cases hins
        · cases hins; rfl
      · exact ih _ _ _ _ h

/-- The columns after an `initializeNewEntry` loop that returns: without their field
at the new position, the columns that the loop visits are the ones before. -/
theorem initializeNewEntryLoop_ok_erase (newEntryPos : Int) :
    ∀ (types : List Str) (post pre : List (List CsvEntryElement)) (s s1 : CsvHandlerState),
      s._sourceFileVector = pre ++ post → types.length = post.length →
      initializeNewEntryLoop newEntryPos types (pre.length : Int) s = (s1, .ok ()) →
      s1._sourceFileVector.map (fun column => column.eraseIdx newEntryPos.toNat)
          = pre.map (fun column => column.eraseIdx newEntryPos.toNat) ++ post := by
  intro types
  induction types with
  | nil =>
    intro post pre s s1 hv hlen hrun
    have hpost : post = [] := List.eq_nil_of_length_eq_zero hlen.symm
    subst hpost
    simp only [initializeNewEntryLoop] at hrun
    cases hrun
    simp [hv]
  | cons typeName rest ih =>
    intro post pre s s1 hv hlen hrun
    cases post with
    | nil => simp at hlen
    | cons column more =>
      simp only [initializeNewEntryLoop] at hrun
      rw [hv, vecIndex_append_length] at hrun
      simp only [] at hrun
      cases hin : vecInsert column newEntryPos
          (newField (mapSubscript s._dataTypesMap typeName).1) with
      | error e => rw [hin] at hrun; cases hrun
      | ok column1 =>
        rw [hin] at hrun
        simp only [Int.toNat_ofNat] at hrun
        obtain ⟨_, hle, hc1⟩ := vecInsert_ok_iff _ _ _ _ hin
        have her : column1.eraseIdx newEntryPos.toNat = column := by
          rw [hc1]; exact eraseIdx_take_cons_drop _ _ _ hle
        have hset : (pre ++ column :: more).set pre.length column1
            = (pre ++ [column1]) ++ more := by
          rw [List.set_append]
          simp
        have hrun2 : initializeNewEntryLoop newEntryPos rest
            (((pre ++ [column1]).length : Nat) : Int)
            { s with
              _dataTypesMap := (mapSubscript s._dataTypesMap typeName).2
              _sourceFileVector := (pre ++ column :: more).set pre.length column1 }
            = (s1, .ok ()) := by
          rw [List.length_append, List.length_singleton, Nat.cast_add, Nat.cast_one]
          exact hrun
        have h1 := ih more (pre ++ [column1]) _ s1 hset (by simpa using hlen) hrun2
        rw [h1]
        simp only [List.map_append, List.map_cons, List.map_nil, List.append_assoc,
          List.singleton_append, her]

/-- What a call of `insertRowAt` leaves when it throws
`UnableToConvertFieldTypeException`: the new fields stay in the columns. -/
theorem insertRowAt_failed_conversion (entry : List Str) (newEntryPos : Int)
    (mode : _errorHandlingMode) (why : ConvertFailure) (s s1 : CsvHandlerState)
    (hl : s._sourceFileColumnTypes.length = s._sourceFileVector.length)
    (hrun : insertRowAt entry newEntryPos mode s
      = (s1, .error (.UnableToConvertFieldTypeException why))) :
    windowOf s1 = windowOf s ∧
      s1._sourceFileColumnTypes = s._sourceFileColumnTypes ∧
      s1._sourceFileHeader = s._sourceFileHeader ∧
      s1._sourceFileVector.map List.length
        = s._sourceFileVector.map (fun column => column.length + 1) ∧
      s1._sourceFileVector.map (fun column => column.eraseIdx newEntryPos.toNat)
        = s._sourceFileVector := by
  unfold insertRowAt initializeNewEntry setColumnsForEntry at hrun
  generalize h1 : initializeNewEntryLoop newEntryPos s._sourceFileColumnTypes 0 s = r1 at hrun
  obtain ⟨sa, ra⟩ := r1
  cases ra with
  | error e =>
    have := initializeNewEntryLoop_error _ _ _ _ _ _ h1
    subst this
    cases hrun
  | ok u =>
    simp only [] at hrun
    generalize h2 : setColumnsForEntryLoop newEntryPos mode entry 0 sa = r2 at hrun
    obtain ⟨sb, rb⟩ := r2
    cases rb with
    | ok u2 => cases hrun
    | error e =>
      simp only [Prod.mk.injEq] at hrun
      obtain ⟨hsb, _⟩ := hrun
      subst hsb
      have hframe : ∀ {α : Type} (π : CsvHandlerState → α),
          (∀ (t : CsvHandlerState) m v,
            π { t with _dataTypesMap := m, _sourceFileVector := v } = π t) → π sb = π s := by
        intro α π hπ
        have ha := initializeNewEntryLoop_frame π hπ newEntryPos s._sourceFileColumnTypes 0 s
        have hb := setColumnsForEntryLoop_frame π hπ newEntryPos mode entry 0 sa
        rw [h1] at ha
        rw [h2] at hb
        exact hb.trans ha
      have hav := initializeNewEntryLoop_ok_lengths newEntryPos s._sourceFileColumnTypes
        s._sourceFileVector [] s sa rfl hl (by cases u; exact h1)
      have hae := initializeNewEntryLoop_ok_erase newEntryPos s._sourceFileColumnTypes
        s._sourceFileVector [] s sa rfl hl (by cases u; exact h1)
      have hbv : sb._sourceFileVector.map List.length = sa._sourceFileVector.map List.length := by
        have := setColumnsForEntryLoop_map List.length newEntryPos
          (fun column f => List.length_set _ _ _) mode entry 0 sa
        rw [h2] at this; exact this
      have hbe : sb._sourceFileVector.map (fun column => column.eraseIdx newEntryPos.toNat)
          = sa._sourceFileVector.map (fun column => column.eraseIdx newEntryPos.toNat) := by
        have := setColumnsForEntryLoop_map (fun column => column.eraseIdx newEntryPos.toNat)
          newEntryPos (fun column f => eraseIdx_set_same f column _) mode entry 0 sa
        rw [h2] at this; exact this
      refine ⟨hframe windowOf (fun _ _ _ => rfl),
        hframe (fun t => t._sourceFileColumnTypes) (fun _ _ _ => rfl),
        hframe (fun t => t._sourceFileHeader) (fun _ _ _ => rfl), ?_, ?_⟩
      · rw [hbv, hav]; rfl
      · rw [hbe, hae]; rfl

/-- C39 (amended): when `insertRow` throws `UnableToConvertFieldTypeException`, in a
table with as many type tags as columns, the row counter, the window, the type
tags and the header are the ones before the call, but every column is one field
longer: the fields made for the new row stay in the table, at one position `p` in
every column, and without them the columns are the ones before. -/
theorem insertRow_failed_conversion (entry : List Str) (pos : Int)
    (mode : _errorHandlingMode) (why : ConvertFailure) (s s1 : CsvHandlerState)
    (hl : s._sourceFileColumnTypes.length = s._sourceFileVector.length)
    (hrun : insertRow entry pos mode s
      = (s1, .error (.UnableToConvertFieldTypeException why))) :
    s1._entriesInCurrentChunk = s._entriesInCurrentChunk ∧
      s1._absoluteBeginningIndex = s._absoluteBeginningIndex ∧
      s1._absoluteEndingIndex = s._absoluteEndingIndex ∧
      s1._sourceFileColumnTypes = s._sourceFileColumnTypes ∧
      s1._sourceFileHeader = s._sourceFileHeader ∧
      s1._sourceFileVector.map List.length
        = s._sourceFileVector.map (fun column => column.length + 1) ∧
      ∃ p : Nat, s1._sourceFileVector.map (fun column => column.eraseIdx p)
        = s._sourceFileVector := by
  have key : ∀ newEntryPos : Int,
      insertRowAt entry newEntryPos mode s
        = (s1, .error (.UnableToConvertFieldTypeException why)) →
      s1._entriesInCurrentChunk = s._entriesInCurrentChunk ∧
        s1._absoluteBeginningIndex = s._absoluteBeginningIndex ∧
        s1._absoluteEndingIndex = s._absoluteEndingIndex ∧
        s1._sourceFileColumnTypes = s._sourceFileColumnTypes ∧
        s1._sourceFileHeader = s._sourceFileHeader ∧
        s1._sourceFileVector.map List.length
          = s._sourceFileVector.map (fun column => column.length + 1) ∧
        ∃ p : Nat, s1._sourceFileVector.map (fun column => column.eraseIdx p)
          = s._sourceFileVector := by
    intro newEntryPos h
    obtain ⟨hw, ht, hh, hlen, her⟩ := insertRowAt_failed_conversion _ _ _ _ _ _ hl h
    unfold windowOf at hw
    simp only [Prod.mk.injEq] at hw
    exact ⟨hw.2.2, hw.1, hw.2.1, ht, hh, hlen, newEntryPos.toNat, her⟩
  unfold insertRow at hrun
  split at hrun
  · exact key _ hrun
  · split at hrun
    · exact key _ hrun
    · split at hrun
      · cases hrun
      · cases hrun

set_option maxRecDepth 100000 in
/-- C39 (amended) on the table of the file `name,age⏎Alice,30⏎Bob,45⏎` read whole with
its header: `insertRow` of `Carl`, `x` at the end throws on `x`, which is no
`int`; the row counter is `2` as before and the two columns have three fields. -/
theorem insertRow_failed_conversion_witness :
    insertRow ["Carl".toList, "x".toList] (-1) .stop_on_error
        (loadedHandler "name,age\nAlice,30\nBob,45\n".toList 0 .load_whole_file
          .include_header .stop_on_error 1)
      = ((insertRow ["Carl".toList, "x".toList] (-1) .stop_on_error
          (loadedHandler "name,age\nAlice,30\nBob,45\n".toList 0 .load_whole_file
            .include_header .stop_on_error 1)).1,
        .error (.UnableToConvertFieldTypeException .invalidArgument)) ∧
    (insertRow ["Carl".toList, "x".toList] (-1) .stop_on_error
      (loadedHandler "name,age\nAlice,30\nBob,45\n".toList 0 .load_whole_file
        .include_header .stop_on_error 1)).1._entriesInCurrentChunk = 2 ∧
    (insertRow ["Carl".toList, "x".toList] (-1) .stop_on_error
      (loadedHandler "name,age\nAlice,30\nBob,45\n".toList 0 .load_whole_file
        .include_header .stop_on_error 1)).1._sourceFileVector.map List.length
      = [2, 2].map (fun n => n + 1) :=
  ⟨by decide, by decide,
    (insertRow_failed_conversion ["Carl".toList, "x".toList] (-1) .stop_on_error
      .invalidArgument
      (loadedHandler "name,age\nAlice,30\nBob,45\n".toList 0 .load_whole_file
        .include_header .stop_on_error 1) _ (by decide) (by decide)).2.2.2.2.2.1.trans
      (by decide)⟩

set_option maxRecDepth 100000 in
/-- C39 as stated fails on the table of the file `name,age⏎Alice,30⏎Bob,45⏎` read
whole with its header: `insertRow` of `Carl`, `x` at the end in `stop_on_error`
mode throws `UnableToConvertFieldTypeException` and leaves the column `name`
with the third field `Carl` and the column `age` with a third field that holds
no value, the row counter being `2` and the window `0` to `2` as before. -/
theorem insertRow_failed_conversion_counterexample :
    (loadedHandler "name,age\nAlice,30\nBob,45\n".toList 0 .load_whole_file
      .include_header .stop_on_error 1)._sourceFileVector
      = [[.csv_stringField "Alice".toList true, .csv_stringField "Bob".toList true],
         [.csv_intField (some 30) true, .csv_intField (some 45) true]] ∧
    windowOf (loadedHandler "name,age\nAlice,30\nBob,45\n".toList 0 .load_whole_file
      .include_header .stop_on_error 1) = (0, 2, 2) ∧
    (insertRow ["Carl".toList, "x".toList] (-1) .stop_on_error
      (loadedHandler "name,age\nAlice,30\nBob,45\n".toList 0 .load_whole_file
        .include_header .stop_on_error 1)).2
      = .error (.UnableToConvertFieldTypeException .invalidArgument) ∧
    (insertRow ["Carl".toList, "x".toList] (-1) .stop_on_error
      (loadedHandler "name,age\nAlice,30\nBob,45\n".toList 0 .load_whole_file
        .include_header .stop_on_error 1)).1._sourceFileVector
      = [[.csv_stringField "Alice".toList true, .csv_stringField "Bob".toList true,
          .csv_stringField "Carl".toList true],
         [.csv_intField (some 30) true, .csv_intField (some 45) true,
          .csv_intField none false]] ∧
    windowOf (insertRow ["Carl".toList, "x".toList] (-1) .stop_on_error
      (loadedHandler "name,age\nAlice,30\nBob,45\n".toList 0 .load_whole_file
        .include_header .stop_on_error 1)).1 = (0, 2, 2) := by
  decide


/-! ## What writing JSON does to the table (C40) -/

/-- The header after a `storeFieldsInFile_JSON` that returns: every caption that
did not begin with a double quote is now between double quotes. -/
theorem storeFieldsInFile_JSON_header (pf : Platform) (s s1 : CsvHandlerState)
    (text : List Char) (hrun : storeFieldsInFile_JSON pf s = (s1, .ok text)) :
    s1._sourceFileHeader
      = s._sourceFileHeader.map
          (fun caption => if caption.head? = some '"' then caption
            else '"' :: (caption ++ ['"'])) := by
  unfold storeFieldsInFile_JSON at hrun
  split at hrun
  · cases hrun
  · have hsur := surroundFieldsInVectorWithQuotationMarksLoop_eq s._sourceFileHeader []
    simp only [List.length_nil, Nat.cast_zero, List.nil_append] at hsur
    unfold surroundFieldsInVectorWithQuotationMarks at hrun
    rw [hsur] at hrun
    simp only [] at hrun
    unfold surroundStringFieldsWithQuotationMarks at hrun
    simp only [] at hrun
    split at hrun
    · cases hrun
    · rename_i s2 u heq
      split at hrun
      · cases hrun
      · simp only [Prod.mk.injEq] at hrun heq
        rw [← hrun.1, ← heq.1]

set_option maxRecDepth 100000 in
/-- C40 fails on the table of the file `name,age⏎Alice,30⏎Bob,45⏎` with the types
`string` and `int` and a new empty column `note` of type `string`.  Before
`storeDataInFile` in JSON format `getColumnId("name")` is `0`, the row `0` is
`Alice`, `30` and an empty string, and the fields of `note` are not set.  After
the call the captions are `"name"`, `"age"` and `"note"` with their quotation
marks, `getColumnId("name")` throws `InvalidColumnCaptionException`, the row `0`
is `"Alice"`, `30`, `""` with the quotation marks, and the fields of `note` are
set. -/
theorem storeDataInFile_JSON_changes_table :
    getColumnId
        (insertColumnEmptyCaption "note".toList .type_string (-1)
          (typedHandler "name,age\nAlice,30\nBob,45\n".toList [.type_string, .type_int]
            .include_header .stop_on_error)).1._sourceFileHeader "name".toList
      = .ok 0 ∧
    getRow refPlatform
        (insertColumnEmptyCaption "note".toList .type_string (-1)
          (typedHandler "name,age\nAlice,30\nBob,45\n".toList [.type_string, .type_int]
            .include_header .stop_on_error)).1 0
      = .ok ["Alice".toList, "30".toList, []] ∧
    (insertColumnEmptyCaption "note".toList .type_string (-1)
      (typedHandler "name,age\nAlice,30\nBob,45\n".toList [.type_string, .type_int]
        .include_header .stop_on_error)).1._sourceFileVector.map
        (fun column => column.map CsvEntryElement.isSet)
      = [[true, true], [true, true], [false, false]] ∧
    (storeDataInFile refPlatform [] .JSON ','
      (insertColumnEmptyCaption "note".toList .type_string (-1)
        (typedHandler "name,age\nAlice,30\nBob,45\n".toList [.type_string, .type_int]
          .include_header .stop_on_error)).1).2.toOption.isSome = true ∧
    (storeDataInFile refPlatform [] .JSON ','
      (insertColumnEmptyCaption "note".toList .type_string (-1)
        (typedHandler "name,age\nAlice,30\nBob,45\n".toList [.type_string, .type_int]
          .include_header .stop_on_error)).1).1._sourceFileHeader
      = [addQuotationMarks "name".toList, addQuotationMarks "age".toList,
          addQuotationMarks "note".toList] ∧
    getColumnId
        (storeDataInFile refPlatform [] .JSON ','
          (insertColumnEmptyCaption "note".toList .type_string (-1)
            (typedHandler "name,age\nAlice,30\nBob,45\n".toList [.type_string, .type_int]
              .include_header .stop_on_error)).1).1._sourceFileHeader "name".toList
      = .error .InvalidColumnCaptionException ∧
    getRow refPlatform
        (storeDataInFile refPlatform [] .JSON ','
          (insertColumnEmptyCaption "note".toList .type_string (-1)
            (typedHandler "name,age\nAlice,30\nBob,45\n".toList [.type_string, .type_int]
              .include_header .stop_on_error)).1).1 0
      = .ok [addQuotationMarks "Alice".toList, "30".toList, addQuotationMarks []] ∧
    (storeDataInFile refPlatform [] .JSON ','
      (insertColumnEmptyCaption "note".toList .type_string (-1)
        (typedHandler "name,age\nAlice,30\nBob,45\n".toList [.type_string, .type_int]
          .include_header .stop_on_error)).1).1._sourceFileVector.map
        (fun column => column.map CsvEntryElement.isSet)
      = [[true, true], [true, true], [true, true]] := by
  decide


/-! ## The text of the CSV writer (C33) -/

theorem vecAt_natCast {α : Type} (v : List α) (i : Nat) (x : α) (h : v[i]? = some x) :
    vecAt v (i : Int) = .ok x := by
  simp [vecAt, h]

/-- The field `k` of a column whose fields have the texts `texts` under `g`. -/
theorem cell_of_texts {α : Type} (g : α → Except Exception Str) (column : List α)
    (texts : List Str) (k : Nat) (h : column.map g = texts.map Except.ok)
    (hk : k < column.length) :
    ∃ field, column[k]? = some field ∧ g field = .ok (texts.getD k []) := by
  have hlen : column.length = texts.length := by
    simpa using congrArg List.length h
  refine ⟨column[k], List.getElem?_eq_getElem hk, ?_⟩
  have h1 : (column.map g)[k]? = (texts.map Except.ok)[k]? := by rw [h]
  rw [List.getElem?_map, List.getElem?_map, List.getElem?_eq_getElem hk,
    List.getElem?_eq_getElem (by omega : k < texts.length)] at h1
  simp only [Option.map_some', Option.some.injEq] at h1
  rw [h1, List.getD_eq_getElem?_getD, List.getElem?_eq_getElem (by omega : k < texts.length)]
  rfl

theorem storeFieldsInFile_CSV_columns_eq (pf : Platform) (delimiter : Char) (k : Nat) :
    ∀ (columns : List (List CsvEntryElement)) (texts : List (List Str)),
      columns.map (fun column => column.map (fieldText pf))
        = texts.map (fun column => column.map Except.ok) →
      (∀ column ∈ columns, k < column.length) →
      storeFieldsInFile_CSV_columns pf delimiter (k : Int) columns
        = .ok ((texts.map (fun column => delimiter :: column.getD k [])).flatten) := by
  intro columns
  induction columns with
  | nil =>
    intro texts h _
    cases texts with
    | nil => rfl
    | cons a b => simp at h
  | cons column rest ih =>
    intro texts h hk
    cases texts with
    | nil => simp at h
    | cons tc more =>
      simp only [List.map_cons, List.cons.injEq] at h
      obtain ⟨field, hf, ht⟩ := cell_of_texts (fieldText pf) column tc k h.1
        (hk column (List.mem_cons_self _ _))
      simp only [storeFieldsInFile_CSV_columns, vecAt_natCast _ _ _ hf, ht,
        ih more h.2 (fun c hc => hk c (List.mem_cons_of_mem _ hc))]
      simp

theorem storeFieldsInFile_CSV_line_eq (pf : Platform) (s : CsvHandlerState) (delimiter : Char)
    (k : Nat) (texts : List (List Str)) (hne : s._sourceFileVector ≠ [])
    (htexts : s._sourceFileVector.map (fun column => column.map (fieldText pf))
      = texts.map (fun column => column.map Except.ok))
    (hk : ∀ column ∈ s._sourceFileVector, k < column.length) :
    storeFieldsInFile_CSV_line pf s delimiter (k : Int)
      = .ok (joinFields delimiter (texts.map (fun column => column.getD k [])) ++ lineEnd s) := by
  unfold storeFieldsInFile_CSV_line
  cases hv : s._sourceFileVector with
  | nil => exact absurd hv hne
  | cons front rest =>
    rw [hv] at htexts hk
    cases texts with
    | nil => simp at htexts
    | cons tf more =>
      simp only [List.map_cons, List.cons.injEq] at htexts
      obtain ⟨field, hf, ht⟩ := cell_of_texts (fieldText pf) front tf k htexts.1
        (hk front (List.mem_cons_self _ _))
      simp only [vecAt_natCast _ _ _ hf, ht,
        storeFieldsInFile_CSV_columns_eq pf delimiter k rest more htexts.2
          (fun c hc => hk c (List.mem_cons_of_mem _ hc))]
      simp [joinFields, lineEnd, List.map_map, Function.comp_def]

theorem storeFieldsInFile_CSV_loop_eq (pf : Platform) (s : CsvHandlerState) (delimiter : Char)
    (line : Nat → List Char) :
    ∀ (fuel c : Nat),
      (∀ k, c ≤ k → k < c + fuel →
        storeFieldsInFile_CSV_line pf s delimiter (k : Int) = .ok (line k)) →
      storeFieldsInFile_CSV_loop pf s delimiter fuel (c : Int)
        = .ok (((List.range' c fuel).map line).flatten) := by
  intro fuel
  induction fuel with
  | zero => intro c _; rfl
  | succ fuel ih =>
    intro c h
    have hnext : ((c : Int) + 1) = ((c + 1 : Nat) : Int) := by simp
    simp only [storeFieldsInFile_CSV_loop, h c (le_refl _) (by omega)]
    rw [hnext, ih (c + 1) (fun k h1 h2 => h k (by omega) (by omega))]
    simp [List.range'_succ]

theorem joinFields_count (d : Char) (row : List Str) :
    (joinFields d row).count d = row.length - 1 + (row.map (List.count d)).sum := by
  cases row with
  | nil => rfl
  | cons f fs =>
    have h : ∀ gs : List Str, ((gs.map (fun g => d :: g)).flatten).count d
        = gs.length + (gs.map (List.count d)).sum := by
      intro gs
      induction gs with
      | nil => rfl
      | cons g rest ih =>
        simp only [List.map_cons, List.flatten_cons, List.count_append, List.count_cons_self,
          ih, List.length_cons, List.sum_cons]
        omega
    simp only [joinFields, List.count_append, h, List.length_cons, List.map_cons, List.sum_cons]
    omega

theorem lineEnd_constructed (inFile : List Char) (readBufferSize : Int)
    (loadDataMode : _loadDataMode) (fileFormat : _fileFormat) (delimiter : Char)
    (headerMode : _headerMode) :
    lineEnd (constructed inFile readBufferSize loadDataMode fileFormat delimiter headerMode)
        = [_CR, _LF] ∨
      lineEnd (constructed inFile readBufferSize loadDataMode fileFormat delimiter headerMode)
        = [_LF] ∨
      lineEnd (constructed inFile readBufferSize loadDataMode fileFormat delimiter headerMode)
        = [_CR] := by
  have h : ∀ l : List Char, determineLineEnding l = (_LF, true)
      ∨ determineLineEnding l = (_LF, false) ∨ determineLineEnding l = (_CR, false) := by
    intro l
    induction l with
    | nil => right; left; rfl
    | cons c rest ih =>
      unfold determineLineEnding
      split
      · split
        · split
          · left; rfl
          · right; right; rfl
        · right; right; rfl
      · split
        · right; left; rfl
        · exact ih
  unfold lineEnd constructed
  simp only []
  rcases h inFile with h1 | h1 | h1 <;> rw [h1] <;> simp

/-- C33 (amended): for a table that is not empty, with columns as long as the row
counter says and fields whose texts are `texts` (the string value of a field that
is set, nothing for one that is not), `storeDataInFile` in CSV format leaves the
handler as it was and the file with this content: when `_chunksCount` is `1`, the
captions joined by the delimiter and a line ending if there is a header, nothing
otherwise; when it is not `1`, what the file held; then for each row in order the
texts of its fields joined by the delimiter and a line ending.  The line ending
is CR before the line-ending character for an input detected as CRLF, and the
line-ending character alone otherwise; for a handler as constructed it is CR LF,
LF, or CR.  A row line holds one delimiter less than there are columns, and those
inside its texts. -/
theorem storeDataInFile_CSV_text (pf : Platform) (s : CsvHandlerState) (delimiter : Char)
    (file : List Char) (texts : List (List Str)) (hne : s._sourceFileVector ≠ [])
    (hr : rectangular s)
    (htexts : s._sourceFileVector.map (fun column => column.map (fieldText pf))
      = texts.map (fun column => column.map Except.ok)) :
    storeDataInFile pf file .CSV delimiter s
      = (s, .ok ((if s._chunksCount = 1 then
            (if s._sourceFileHeader = [] then []
              else joinFields delimiter s._sourceFileHeader ++ lineEnd s)
          else file) ++
          ((List.range s._entriesInCurrentChunk.toNat).map (fun k =>
            joinFields delimiter (texts.map (fun column => column.getD k [])) ++ lineEnd s)
            ).flatten)) ∧
    (∀ field : CsvEntryElement, field.isSet = false → fieldText pf field = .ok []) ∧
    (∀ k, (joinFields delimiter (texts.map (fun column => column.getD k []))).count delimiter
      = s._sourceFileVector.length - 1
        + ((texts.map (fun column => column.getD k [])).map (List.count delimiter)).sum) ∧
    lineEnd s = (if s._CRLF = true then [_CR] else []) ++ [s._inFileLineEnding] ∧
    (∀ inFile readBufferSize loadDataMode fileFormat d headerMode,
      lineEnd (constructed inFile readBufferSize loadDataMode fileFormat d headerMode)
          = [_CR, _LF] ∨
        lineEnd (constructed inFile readBufferSize loadDataMode fileFormat d headerMode)
          = [_LF] ∨
        lineEnd (constructed inFile readBufferSize loadDataMode fileFormat d headerMode)
          = [_CR]) := by
  refine ⟨?_, ?_, ?_, rfl, lineEnd_constructed⟩
  · have hlines : ∀ k, 0 ≤ k → k < 0 + s._entriesInCurrentChunk.toNat →
        storeFieldsInFile_CSV_line pf s delimiter (k : Int)
          = .ok (joinFields delimiter (texts.map (fun column => column.getD k []))
              ++ lineEnd s) := by
      intro k _ hk
      apply storeFieldsInFile_CSV_line_eq pf s delimiter k texts hne htexts
      intro column hc
      have := hr column hc
      omega
    have hloop := storeFieldsInFile_CSV_loop_eq pf s delimiter _ _ 0 hlines
    have hempty : s._sourceFileVector.isEmpty = false := by
      cases hv : s._sourceFileVector with
      | nil => exact absurd hv hne
      | cons a b => rfl
    have hhead : storeHeaderInFile_CSV s delimiter file
        = (if s._chunksCount = 1 then
            (if s._sourceFileHeader = [] then []
              else joinFields delimiter s._sourceFileHeader ++ lineEnd s)
          else file) := by
      unfold storeHeaderInFile_CSV
      split
      · cases hh : s._sourceFileHeader with
        | nil => simp
        | cons a b => simp [joinFields]
      · rfl
    unfold storeDataInFile storeFieldsInFile_CSV
    rw [hempty]
    simp only [Bool.not_false, if_true, Nat.cast_zero] at hloop ⊢
    rw [hloop, hhead, List.range_eq_range']
  · intro field hf
    unfold fieldText
    rw [hf]
    rfl
  · intro k
    rw [joinFields_count, List.length_map]
    have : texts.length = s._sourceFileVector.length := by
      simpa using (congrArg List.length htexts).symm
    rw [this]


set_option maxRecDepth 100000 in
/-- C33 (amended) on the table of the file `name,age⏎Alice,30⏎Bob,45⏎` with the types
`string` and `int`, read whole with its header: the file written is the header
line and the two row lines, each ended by LF. -/
theorem storeDataInFile_CSV_text_witness :
    storeDataInFile refPlatform [] .CSV ','
        (typedHandler "name,age\nAlice,30\nBob,45\n".toList [.type_string, .type_int]
          .include_header .stop_on_error)
      = (typedHandler "name,age\nAlice,30\nBob,45\n".toList [.type_string, .type_int]
          .include_header .stop_on_error,
        .ok "name,age\nAlice,30\nBob,45\n".toList) :=
  (storeDataInFile_CSV_text refPlatform
    (typedHandler "name,age\nAlice,30\nBob,45\n".toList [.type_string, .type_int]
      .include_header .stop_on_error) ',' []
    [["Alice".toList, "Bob".toList], ["30".toList, "45".toList]]
    (by decide) (by unfold rectangular; decide) (by decide)).1.trans (by decide)

set_option maxRecDepth 100000 in
/-- C33 as stated fails for an input whose lines end with a lone CR and for values
that hold the delimiter.  The file `a,b␍c,d␍` is not detected as CRLF and its
table is written with the line ending CR, not LF.  The file `"x,y",b⏎` has two
columns, and its one row line holds two delimiters. -/
theorem storeDataInFile_CSV_text_counterexample :
    (loadedHandler "a,b\rc,d\r".toList 0 .load_whole_file .no_header .stop_on_error 1)._CRLF
      = false ∧
    (storeDataInFile refPlatform [] .CSV ','
      (loadedHandler "a,b\rc,d\r".toList 0 .load_whole_file .no_header .stop_on_error 1)).2
      = .ok "a,b\rc,d\r".toList ∧
    (loadedHandler "\"x,y\",b\n".toList 0 .load_whole_file .no_header
      .stop_on_error 1)._sourceFileVector.length = 2 ∧
    (storeDataInFile refPlatform [] .CSV ','
      (loadedHandler "\"x,y\",b\n".toList 0 .load_whole_file .no_header .stop_on_error 1)).2
      = .ok "\"x,y\",b\n".toList ∧
    "\"x,y\",b".toList.count ',' = 2 := by
  decide


/-! ## The text of the JSON writer (C34) -/

theorem splitAtLastRightBrace_mem (x a b : Str) (h : splitAtLastRightBrace x = some (a, b)) :
    ∀ c ∈ a, c ∈ x := by
  intro c hc
  rw [splitAtLastRightBrace_some x a b h]
  exact List.mem_append_left _ hc

/-- A match of `rEntry` is a span of the text between a `\x7b` and a `\x7d` that holds
no `\x7b`. -/
theorem regex_search_rEntry_span (s m suf : Str) (h : regex_search_rEntry s = some (m, suf)) :
    ∃ pre a, s = pre ++ m ++ suf ∧ m = _leftBrace :: a ++ [_rightBrace] ∧ _leftBrace ∉ a := by
  induction s with
  | nil => simp [regex_search_rEntry] at h
  | cons c cs ih =>
    simp only [regex_search_rEntry] at h
    by_cases hc : c = _leftBrace
    · simp only [hc, if_true] at h
      cases hsp : splitAtLastRightBrace (cs.takeWhile (fun x => x != _leftBrace)) with
      | some p =>
        obtain ⟨a, b⟩ := p
        simp only [hsp, Option.some.injEq, Prod.mk.injEq] at h
        refine ⟨[], a, ?_, h.1.symm, ?_⟩
        · have h1 := splitAtLastRightBrace_some _ a b hsp
          have h2 := List.takeWhile_append_dropWhile (fun x => x != _leftBrace) cs
          rw [← h.1, ← h.2, hc]
          simp only [List.nil_append, List.cons_append, List.append_assoc,
            List.singleton_append, List.cons.injEq, true_and]
          conv_lhs => rw [← h2, h1]
          simp
        · intro hmem
          have h3 := splitAtLastRightBrace_mem _ a b hsp _ hmem
          have h4 := List.mem_takeWhile_imp h3
          simp at h4
      | none =>
        simp only [hsp] at h
        obtain ⟨pre, a, h1, h2, h3⟩ := ih h
        exact ⟨c :: pre, a, by simp [h1], h2, h3⟩
    · simp only [hc, if_false] at h
      obtain ⟨pre, a, h1, h2, h3⟩ := ih h
      exact ⟨c :: pre, a, by simp [h1], h2, h3⟩

theorem zip_map_fst_snd {α β : Type} (l : List (α × β)) :
    (l.map Prod.fst).zip (l.map Prod.snd) = l := by
  induction l with
  | nil => rfl
  | cons p rest ih => simp [ih]

/-- The loop of the JSON extractor cuts the text into gaps, spans and what is left:
the records are the insides of the spans, in order. -/
theorem convertCharBufferIntoJSONentryStringsLoop_spans :
    ∀ (fuel : Nat) (s : Str),
      ∃ spans : List (Str × Str),
        (convertCharBufferIntoJSONentryStringsLoop fuel s []).1 = spans.map Prod.snd ∧
        s = (spans.map (fun p => p.1 ++ _leftBrace :: p.2 ++ [_rightBrace])).flatten
          ++ (convertCharBufferIntoJSONentryStringsLoop fuel s []).2 ∧
        ∀ p ∈ spans, _leftBrace ∉ p.2 := by
  intro fuel
  induction fuel with
  | zero =>
    intro s
    exact ⟨[], rfl, by simp [convertCharBufferIntoJSONentryStringsLoop], by simp⟩
  | succ fuel ih =>
    intro s
    cases hr : regex_search_rEntry s with
    | none =>
      refine ⟨[], ?_, ?_, by simp⟩
      · simp [convertCharBufferIntoJSONentryStringsLoop, hr]
      · simp [convertCharBufferIntoJSONentryStringsLoop, hr]
    | some p =>
      obtain ⟨m, suf⟩ := p
      obtain ⟨pre, a, h1, h2, h3⟩ := regex_search_rEntry_span s m suf hr
      obtain ⟨spans, g1, g2, g3⟩ := ih suf
      have hrec : (m.drop 1).take (m.length - 2) = a := by
        rw [h2]
        simp
      refine ⟨(pre, a) :: spans, ?_, ?_, ?_⟩
      · simp only [convertCharBufferIntoJSONentryStringsLoop, hr, hrec, List.nil_append]
        rw [jsonLoop_acc]
        simp [g1]
      · simp only [convertCharBufferIntoJSONentryStringsLoop, hr, hrec, List.nil_append]
        rw [jsonLoop_acc]
        simp only [List.map_cons, List.flatten_cons]
        rw [List.append_assoc, ← g2, h1, h2]
        simp
      · intro p hp
        rcases List.mem_cons.mp hp with h | h
        · rw [h]; exact h3
        · exact g3 p h

/-- With more fuel than the text has characters, the loop of the JSON extractor
ends because no span is left. -/
theorem convertCharBufferIntoJSONentryStringsLoop_done :
    ∀ (fuel : Nat) (s : Str), s.length < fuel →
      regex_search_rEntry (convertCharBufferIntoJSONentryStringsLoop fuel s []).2 = none := by
  intro fuel
  induction fuel with
  | zero => intro s h; omega
  | succ fuel ih =>
    intro s h
    cases hr : regex_search_rEntry s with
    | none => simp [convertCharBufferIntoJSONentryStringsLoop, hr]
    | some p =>
      obtain ⟨m, suf⟩ := p
      have hlen := regex_search_rEntry_length s m suf hr
      simp only [convertCharBufferIntoJSONentryStringsLoop, hr]
      rw [jsonLoop_acc]
      exact ih suf (by omega)

/-- C37: for every carry-over and chunk, the text, which is the carry-over followed
by the chunk without its CR and LF characters, is cut by
`convertCharBufferIntoJSONentryStrings` into a gap and a span `\x7b`…`\x7d` for each
record emitted, in order, and the new carry-over after the last span; a record is
the inside of its span and holds no `\x7b`; no span is left in the new
carry-over; and when the carry-over holds no CR and no LF, neither do the records
and the new carry-over. -/
theorem json_extraction_records_are_spans (buffLeftovers : Str) (partialData : List Char) :
    ∃ gaps : List Str,
      gaps.length = (convertCharBufferIntoJSONentryStrings buffLeftovers partialData).1.length ∧
      buffLeftovers ++ partialData.filter (fun character => character != _LF && character != _CR)
        = ((gaps.zip (convertCharBufferIntoJSONentryStrings buffLeftovers partialData).1).map
            (fun p => p.1 ++ _leftBrace :: p.2 ++ [_rightBrace])).flatten
          ++ (convertCharBufferIntoJSONentryStrings buffLeftovers partialData).2 ∧
      (∀ record ∈ (convertCharBufferIntoJSONentryStrings buffLeftovers partialData).1,
        _leftBrace ∉ record) ∧
      regex_search_rEntry (convertCharBufferIntoJSONentryStrings buffLeftovers partialData).2
        = none ∧
      (_CR ∉ buffLeftovers ∧ _LF ∉ buffLeftovers →
        (∀ record ∈ (convertCharBufferIntoJSONentryStrings buffLeftovers partialData).1,
          _CR ∉ record ∧ _LF ∉ record) ∧
        _CR ∉ (convertCharBufferIntoJSONentryStrings buffLeftovers partialData).2 ∧
        _LF ∉ (convertCharBufferIntoJSONentryStrings buffLeftovers partialData).2) := by
  obtain ⟨spans, g1, g2, g3⟩ := convertCharBufferIntoJSONentryStringsLoop_spans
    ((buffLeftovers ++ partialData.filter
      (fun character => character != _LF && character != _CR)).length + 1)
    (buffLeftovers ++ partialData.filter (fun character => character != _LF && character != _CR))
  have hdef : convertCharBufferIntoJSONentryStrings buffLeftovers partialData
      = convertCharBufferIntoJSONentryStringsLoop
          ((buffLeftovers ++ partialData.filter
            (fun character => character != _LF && character != _CR)).length + 1)
          (buffLeftovers ++ partialData.filter
            (fun character => character != _LF && character != _CR)) [] := rfl
  have hdone := convertCharBufferIntoJSONentryStringsLoop_done
    ((buffLeftovers ++ partialData.filter
      (fun character => character != _LF && character != _CR)).length + 1)
    (buffLeftovers ++ partialData.filter (fun character => character != _LF && character != _CR))
    (Nat.lt_succ_self _)
  rw [hdef, g1]
  refine ⟨spans.map Prod.fst, by simp, ?_, ?_, hdone, ?_⟩
  · rw [zip_map_fst_snd]
    exact g2
  · intro record hrec
    obtain ⟨p, hp, hpr⟩ := List.mem_map.mp hrec
    rw [← hpr]
    exact g3 p hp
  · rintro ⟨hcr, hlf⟩
    have htext : ∀ c, c ∈ buffLeftovers ++ partialData.filter
        (fun character => character != _LF && character != _CR) → c ≠ _CR ∧ c ≠ _LF := by
      intro c hc
      rcases List.mem_append.mp hc with h | h
      · exact ⟨fun e => hcr (e ▸ h), fun e => hlf (e ▸ h)⟩
      · have := (List.mem_filter.mp h).2
        simp only [Bool.and_eq_true, bne_iff_ne, ne_eq] at this
        exact ⟨this.2, this.1⟩
    have hrecmem : ∀ p ∈ spans, ∀ c ∈ p.2, c ∈ buffLeftovers ++ partialData.filter
        (fun character => character != _LF && character != _CR) := by
      intro p hp c hc
      rw [g2]
      apply List.mem_append_left
      apply List.mem_flatten.mpr
      refine ⟨p.1 ++ _leftBrace :: p.2 ++ [_rightBrace], List.mem_map.mpr ⟨p, hp, rfl⟩, ?_⟩
      simp [hc]
    have hcarry : ∀ c ∈ (convertCharBufferIntoJSONentryStringsLoop
        ((buffLeftovers ++ partialData.filter
          (fun character => character != _LF && character != _CR)).length + 1)
        (buffLeftovers ++ partialData.filter
          (fun character => character != _LF && character != _CR)) []).2,
        c ∈ buffLeftovers ++ partialData.filter
          (fun character => character != _LF && character != _CR) := by
      intro c hc
      rw [g2]
      exact List.mem_append_right _ hc
    refine ⟨?_, fun h => (htext _ (hcarry _ h)).1 rfl, fun h => (htext _ (hcarry _ h)).2 rfl⟩
    intro record hrec
    obtain ⟨p, hp, hpr⟩ := List.mem_map.mp hrec
    rw [← hpr]
    exact ⟨fun h => (htext _ (hrecmem p hp _ h)).1 rfl, fun h => (htext _ (hrecmem p hp _ h)).2 rfl⟩

/-- C37 on the chunk `[\x7ba\x7d,⏎\x7bb\x7d,\x7bc` with no carry-over: the records are `a`
and `b`, and the new carry-over is `,\x7bc`. -/
theorem json_extraction_records_are_spans_witness :
    convertCharBufferIntoJSONentryStrings [] "[\x7ba\x7d,\n\x7bb\x7d,\x7bc".toList
      = (["a".toList, "b".toList], ",\x7bc".toList) ∧
    ∃ gaps : List Str,
      gaps.length
        = (convertCharBufferIntoJSONentryStrings [] "[\x7ba\x7d,\n\x7bb\x7d,\x7bc".toList).1.length ∧
      [] ++ "[\x7ba\x7d,\n\x7bb\x7d,\x7bc".toList.filter
          (fun character => character != _LF && character != _CR)
        = ((gaps.zip
            (convertCharBufferIntoJSONentryStrings [] "[\x7ba\x7d,\n\x7bb\x7d,\x7bc".toList).1).map
            (fun p => p.1 ++ _leftBrace :: p.2 ++ [_rightBrace])).flatten
          ++ (convertCharBufferIntoJSONentryStrings [] "[\x7ba\x7d,\n\x7bb\x7d,\x7bc".toList).2 :=
  ⟨by decide,
    (json_extraction_records_are_spans [] "[\x7ba\x7d,\n\x7bb\x7d,\x7bc".toList).imp
      (fun _ h => ⟨h.1, h.2.1⟩)⟩


/-! ## The positions that the tokenizer reads (C38) -/

/-- For a line that begins with the delimiter, which is no space, tab or double
quote, `emplaceSpacesFreeFieldInVector` reads `lineToSplit[-1]` for the first
field. -/
theorem splitEntryByDelimiter_reads_before_line (oob delimiter : Char) (rest : Str)
    (hs : delimiter ≠ _space) (ht : delimiter ≠ _tab) (hq : delimiter ≠ _quotationMark) :
    (-1 : Int) ∈ splitEntryByDelimiterReads oob (delimiter :: rest) delimiter := by
  have hmem : delimiter ∉ _whitespace := by
    simp only [_whitespace, List.mem_cons, List.mem_singleton, List.not_mem_nil, or_false,
      not_or]
    exact ⟨hs, ht⟩
  have hfirst : find_first_not_of (delimiter :: rest) _whitespace 0 = 0 := by
    simp [find_first_not_of, List.takeWhile, hmem]
  have hof : find_first_of (delimiter :: rest) delimiter 0 = 0 := by
    simp [find_first_of, List.takeWhile]
  have hchar : charAt oob (delimiter :: rest) 0 = delimiter := by
    simp [charAt]
  have key : ∀ fuel : Nat,
      (-1 : Int) ∈ splitEntryByDelimiterLoopReads oob (delimiter :: rest) delimiter
        (fuel + 1) 0 0 := by
    intro fuel
    rw [splitEntryByDelimiterLoopReads]
    rw [if_pos ⟨by simp only [List.length_cons, Nat.cast_add, Nat.cast_one]; omega, by decide⟩,
      if_neg (by simp only [List.length_cons, Nat.cast_add, Nat.cast_one]; omega)]
    simp only [hfirst]
    rw [if_neg (by decide), hchar, if_neg hq]
    simp only [hof]
    apply List.mem_cons_of_mem
    apply List.mem_append_left
    unfold emplaceSpacesFreeFieldInVectorReads
    rw [if_neg (by decide)]
    split <;> simp
  exact key _

/-- C38 fails for a line that begins with the delimiter.  For the line `,a` and the
delimiter `,` the tokenizer returns the fields `` and `a`, and the reads
`lineToSplit[i]` it makes are at `0`, `-1`, `-1`, `1`, `1`, `1`: for the first
field, which ends at `pose = 0`, `emplaceSpacesFreeFieldInVector` reads
`lineToSplit[pose - 1]`.  For the line `a,b` every read is inside the line. -/
theorem splitEntryByDelimiter_reads_outside_line :
    splitEntryByDelimiter '\x00' ",a".toList [] ',' = some [[], "a".toList] ∧
    splitEntryByDelimiterReads '\x00' ",a".toList ',' = [0, -1, -1, 1, 1, 1] ∧
    splitEntryByDelimiterReads '\x00' "a,b".toList ',' = [0, 0, 0, 2, 2, 2] := by
  decide


theorem find_first_not_of_range (s chars : Str) (pos : Int)
    (h : find_first_not_of s chars pos ≠ -1) :
    pos ≤ find_first_not_of s chars pos ∧ 0 ≤ pos ∧
      find_first_not_of s chars pos < (s.length : Int) := by
  unfold find_first_not_of at h ⊢
  split at h
  · exact absurd rfl h
  · rename_i hpos
    simp only [] at h ⊢
    split at h
    · rename_i hlt
      rw [if_pos hlt]
      omega
    · exact absurd rfl h

theorem find_first_of_range (s : Str) (c : Char) (pos : Int)
    (h : find_first_of s c pos ≠ -1) :
    pos ≤ find_first_of s c pos ∧ 0 ≤ pos ∧ find_first_of s c pos < (s.length : Int) := by
  unfold find_first_of at h ⊢
  split at h
  · exact absurd rfl h
  · rename_i hpos
    simp only [] at h ⊢
    split at h
    · rename_i hlt
      rw [if_pos hlt]
      omega
    · exact absurd rfl h

/-- Where the first delimiter from position `0` on is the position `0`, the line
begins with the delimiter. -/
theorem find_first_of_zero (s : Str) (c : Char) (h : find_first_of s c 0 = 0) :
    s.head? = some c := by
  unfold find_first_of at h
  rw [if_neg (by decide)] at h
  simp only [Int.toNat_zero, List.drop_zero, Nat.zero_add] at h
  cases s with
  | nil => simp at h
  | cons a rest =>
    by_cases hc : a = c
    · rw [hc]; rfl
    · have hne : (a != c) = true := by simpa using hc
      simp only [List.takeWhile, hne, List.length_cons] at h
      split at h
      · omega
      · cases h

theorem getDoubleQuottedFieldEndingLoop_range (oob : Char) (lineToSplit : Str)
    (delimiter : Char) :
    ∀ (fuel nqMarks posc : Nat), posc ≤ lineToSplit.length →
      posc ≤ getDoubleQuottedFieldEndingLoop oob lineToSplit delimiter fuel nqMarks posc ∧
        getDoubleQuottedFieldEndingLoop oob lineToSplit delimiter fuel nqMarks posc
          ≤ lineToSplit.length := by
  intro fuel
  induction fuel with
  | zero => intro _ posc h; exact ⟨le_refl _, h⟩
  | succ fuel ih =>
    intro nqMarks posc h
    simp only [getDoubleQuottedFieldEndingLoop]
    split
    · rename_i hc
      have := ih (if charAt oob lineToSplit posc = _quotationMark then (nqMarks + 1) % 2 ^ 32
        else nqMarks) (posc + 1) (by omega)
      omega
    · exact ⟨le_refl _, h⟩

theorem getDoubleQuottedFieldEndingReads_range (oob : Char) (lineToSplit : Str)
    (delimiter : Char) :
    ∀ (fuel nqMarks posc : Nat),
      ∀ i ∈ getDoubleQuottedFieldEndingReads oob lineToSplit delimiter fuel nqMarks posc,
        0 ≤ i ∧ i < (lineToSplit.length : Int) := by
  intro fuel
  induction fuel with
  | zero => intro _ _ i hi; cases hi
  | succ fuel ih =>
    intro nqMarks posc i hi
    simp only [getDoubleQuottedFieldEndingReads] at hi
    split at hi
    · rename_i hlt
      split at hi
      · rcases List.mem_cons.mp hi with h | h
        · rw [h]; omega
        · exact ih _ _ i h
      · split at hi
        · rcases List.mem_cons.mp hi with h | h
          · rw [h]; omega
          · rcases List.mem_cons.mp h with h | h
            · rw [h]; omega
            · exact ih _ _ i h
        · rcases List.mem_cons.mp hi with h | h
          · rw [h]; omega
          · cases h
    · cases hi

theorem emplaceSpacesFreeFieldInVectorReads_range (oob : Char) (lineToSplit : Str) (pose : Int)
    (hne : lineToSplit ≠ [])
    (hpose : pose = -1 ∨ (1 ≤ pose ∧ pose ≤ (lineToSplit.length : Int))) :
    ∀ i ∈ emplaceSpacesFreeFieldInVectorReads oob lineToSplit pose,
      0 ≤ i ∧ i < (lineToSplit.length : Int) := by
  have hlen : 0 < lineToSplit.length := List.length_pos.mpr hne
  intro i hi
  unfold emplaceSpacesFreeFieldInVectorReads at hi
  split at hi
  · split at hi
    · simp only [List.mem_singleton] at hi
      omega
    · simp only [List.mem_cons, List.mem_singleton, List.not_mem_nil, or_false, or_self] at hi
      omega
  · rename_i hp
    have hp2 : 1 ≤ pose ∧ pose ≤ (lineToSplit.length : Int) := by
      rcases hpose with h | h
      · exact absurd h hp
      · exact h
    split at hi
    · simp only [List.mem_singleton] at hi
      omega
    · simp only [List.mem_cons, List.mem_singleton, List.not_mem_nil, or_false, or_self] at hi
      omega

/-- The reads of the tokenizer's loop are inside the line from every position but
the start of a line that begins with the delimiter. -/
theorem splitEntryByDelimiterLoopReads_range (oob : Char) (lineToSplit : Str)
    (delimiter : Char) :
    ∀ (fuel : Nat) (poss pose : Int),
      (pose = -1 ∨ 1 ≤ poss ∨ (poss = 0 ∧ lineToSplit.head? ≠ some delimiter)) →
      ∀ i ∈ splitEntryByDelimiterLoopReads oob lineToSplit delimiter fuel poss pose,
        0 ≤ i ∧ i < (lineToSplit.length : Int) := by
  intro fuel
  induction fuel with
  | zero => intro _ _ _ i hi; cases hi
  | succ fuel ih =>
    intro poss pose hposs i hi
    simp only [splitEntryByDelimiterLoopReads] at hi
    split at hi
    · rename_i hcond
      have hposs2 : 1 ≤ poss ∨ (poss = 0 ∧ lineToSplit.head? ≠ some delimiter) := by
        rcases hposs with h | h
        · exact absurd h hcond.2
        · exact h
      split at hi
      · exact ih _ _ (Or.inl rfl) i hi
      · rename_i hnotend
        have hne : lineToSplit ≠ [] := by
          intro he
          rw [he] at hcond hnotend hposs2
          simp only [List.length_nil, Nat.cast_zero, List.head?_nil] at hcond hnotend hposs2
          omega
        split at hi
        · exact ih _ _ (Or.inl rfl) i hi
        · rename_i hfound
          obtain ⟨r1, r2, r3⟩ := find_first_not_of_range lineToSplit _whitespace poss hfound
          split at hi
          · rcases List.mem_cons.mp hi with h | h
            · rw [h]; omega
            · have hq := getDoubleQuottedFieldEndingLoop_range oob lineToSplit delimiter
                lineToSplit.length 1 (find_first_not_of lineToSplit _whitespace poss + 1).toNat
                (by omega)
              have hpose1 : 1 ≤ getDoubleQuottedFieldEnding oob lineToSplit
                    (find_first_not_of lineToSplit _whitespace poss) delimiter ∧
                  getDoubleQuottedFieldEnding oob lineToSplit
                    (find_first_not_of lineToSplit _whitespace poss) delimiter
                    ≤ (lineToSplit.length : Int) := by
                unfold getDoubleQuottedFieldEnding
                omega
              rcases List.mem_append.mp h with h1 | h1
              · rcases List.mem_append.mp h1 with h2 | h2
                · exact getDoubleQuottedFieldEndingReads_range _ _ _ _ _ _ i h2
                · exact emplaceSpacesFreeFieldInVectorReads_range oob lineToSplit _ hne
                    (Or.inr hpose1) i h2
              · split at h1
                · cases h1
                · exact ih _ _ (Or.inr (Or.inl (by omega))) i h1
          · rcases List.mem_cons.mp hi with h | h
            · rw [h]; omega
            · have hpose1 : find_first_of lineToSplit delimiter
                    (find_first_not_of lineToSplit _whitespace poss) = -1 ∨
                  (1 ≤ find_first_of lineToSplit delimiter
                      (find_first_not_of lineToSplit _whitespace poss) ∧
                    find_first_of lineToSplit delimiter
                      (find_first_not_of lineToSplit _whitespace poss)
                      ≤ (lineToSplit.length : Int)) := by
                by_cases hm : find_first_of lineToSplit delimiter
                    (find_first_not_of lineToSplit _whitespace poss) = -1
                · exact Or.inl hm
                · right
                  obtain ⟨q1, q2, q3⟩ := find_first_of_range lineToSplit delimiter _ hm
                  refine ⟨?_, by omega⟩
                  rcases hposs2 with hp | hp
                  · omega
                  · by_contra hlow
                    have hz1 : find_first_not_of lineToSplit _whitespace poss = 0 := by omega
                    have hz2 : find_first_of lineToSplit delimiter 0 = 0 := by
                      rw [hz1] at q1 hlow
                      omega
                    exact hp.2 (find_first_of_zero lineToSplit delimiter hz2)
              rcases List.mem_append.mp h with h1 | h1
              · exact emplaceSpacesFreeFieldInVectorReads_range oob lineToSplit _ hne hpose1 i h1
              · split at h1
                · cases h1
                · rcases hpose1 with hm | hm
                  · exact ih _ _ (Or.inl hm) i h1
                  · exact ih _ _ (Or.inr (Or.inl (by omega))) i h1
    · cases hi

/-- The tokenizer reads outside the line exactly for a line that begins with the
delimiter, when that is no space, tab or double quote: every read of any other
line is at a position of the line. -/
theorem splitEntryByDelimiterReads_in_line (oob : Char) (lineToSplit : Str) (delimiter : Char)
    (h : lineToSplit.head? ≠ some delimiter) :
    ∀ i ∈ splitEntryByDelimiterReads oob lineToSplit delimiter,
      0 ≤ i ∧ i < (lineToSplit.length : Int) :=
  splitEntryByDelimiterLoopReads_range oob lineToSplit delimiter _ 0 0 (Or.inr (Or.inr ⟨rfl, h⟩))

set_option maxRecDepth 100000 in
/-- C14 as stated fails in the state after a chunk without a record.  The file
`a,b⏎c,d⏎` is read in chunks of four bytes; the third call of `loadEntries`
reads no byte, returns `true` and clears the table, while the window stays
`[1, 2)` and the chunk row count `1`, so that the window is as long as the row
count.  There are two type tags and no column: `getRow(1)` and `getField(0, 1)`
index the empty `_sourceFileVector`. -/
theorem getRow_getField_in_window_counterexample :
    (loadEntries refPlatform .stop_on_error
      (loadedHandler "a,b\nc,d\n".toList 4 .load_in_chunks .no_header .stop_on_error 2)).2
      = .ok true ∧
    windowOf (loadedHandler "a,b\nc,d\n".toList 4 .load_in_chunks .no_header .stop_on_error 3)
      = (1, 2, 1) ∧
    (2 : Int) - 1 = 1 ∧
    (loadedHandler "a,b\nc,d\n".toList 4 .load_in_chunks .no_header
      .stop_on_error 3)._sourceFileVector = [] ∧
    (loadedHandler "a,b\nc,d\n".toList 4 .load_in_chunks .no_header
      .stop_on_error 3)._sourceFileColumnTypes.length = 2 ∧
    getRow refPlatform
      (loadedHandler "a,b\nc,d\n".toList 4 .load_in_chunks .no_header .stop_on_error 3) 1
      = .error .undefinedBehaviour ∧
    getField
      (loadedHandler "a,b\nc,d\n".toList 4 .load_in_chunks .no_header .stop_on_error 3) 0 1
      = .error .undefinedBehaviour := by
  decide

set_option maxRecDepth 100000 in
/-- C21 as stated fails in the state after a chunk without a record.  The file
`a,b⏎c,d⏎` is read in chunks of four bytes; after the third call of
`loadEntries` the window is `[1, 2)`, the chunk row count is `1` and the table
has no column.  The row index `1` is inside the window, and `removeRow(1)` indexes
the empty `_sourceFileVector`; the counters are not changed. -/
theorem removeRow_removes_row_counterexample :
    windowOf (loadedHandler "a,b\nc,d\n".toList 4 .load_in_chunks .no_header .stop_on_error 3)
      = (1, 2, 1) ∧
    (loadedHandler "a,b\nc,d\n".toList 4 .load_in_chunks .no_header
      .stop_on_error 3)._sourceFileVector = [] ∧
    (loadedHandler "a,b\nc,d\n".toList 4 .load_in_chunks .no_header
      .stop_on_error 3)._sourceFileColumnTypes.length = 2 ∧
    (removeRow 1
      (loadedHandler "a,b\nc,d\n".toList 4 .load_in_chunks .no_header .stop_on_error 3)).2
      = .error .undefinedBehaviour ∧
    windowOf (removeRow 1
      (loadedHandler "a,b\nc,d\n".toList 4 .load_in_chunks .no_header .stop_on_error 3)).1
      = (1, 2, 1) := by
  decide

set_option maxRecDepth 100000 in
/-- C25 as stated fails on a table with more columns than captions.  On the
table of the file `name,age⏎Zlice,30⏎Bob,45⏎`, `insertColumn(type_string)`
appends an empty column and its type tag and no caption: the table has a header
of two captions, three columns and two rows.  `insertColumn` with the data
`[0, 1]`, the caption `id` and the position `3`, the number of columns, inserts
the caption past the end of the header. -/
theorem insertColumn_data_caption_counterexample :
    (insertColumnEmpty .type_string (-1)
      (loadedHandler "name,age\nZlice,30\nBob,45\n".toList 0 .load_whole_file .include_header
        .stop_on_error 1)).2 = .ok () ∧
    (insertColumnEmpty .type_string (-1)
      (loadedHandler "name,age\nZlice,30\nBob,45\n".toList 0 .load_whole_file .include_header
        .stop_on_error 1)).1._sourceFileHeader = ["name".toList, "age".toList] ∧
    (insertColumnEmpty .type_string (-1)
      (loadedHandler "name,age\nZlice,30\nBob,45\n".toList 0 .load_whole_file .include_header
        .stop_on_error 1)).1._sourceFileVector.length = 3 ∧
    (insertColumnEmpty .type_string (-1)
      (loadedHandler "name,age\nZlice,30\nBob,45\n".toList 0 .load_whole_file .include_header
        .stop_on_error 1)).1._sourceFileColumnTypes.length = 3 ∧
    windowOf (insertColumnEmpty .type_string (-1)
      (loadedHandler "name,age\nZlice,30\nBob,45\n".toList 0 .load_whole_file .include_header
        .stop_on_error 1)).1 = (0, 2, 2) ∧
    (insertColumnCaption [.csv_intField (some 0) true, .csv_intField (some 1) true]
      "id".toList .type_int 3
      (insertColumnEmpty .type_string (-1)
        (loadedHandler "name,age\nZlice,30\nBob,45\n".toList 0 .load_whole_file .include_header
          .stop_on_error 1)).1).2 = .error .undefinedBehaviour := by
  decide

set_option maxRecDepth 100000 in
/-- C26 as stated fails on a table with more columns than captions.  On the
table of the file `name,age⏎Zlice,30⏎Bob,45⏎`, `insertColumn(type_string)`
appends an empty column and its type tag and no caption: the table has three
columns and a header of two captions.  `removeColumn(2)` erases at the end of
the header. -/
theorem removeColumn_removes_column_counterexample :
    (insertColumnEmpty .type_string (-1)
      (loadedHandler "name,age\nZlice,30\nBob,45\n".toList 0 .load_whole_file .include_header
        .stop_on_error 1)).1._sourceFileHeader = ["name".toList, "age".toList] ∧
    (insertColumnEmpty .type_string (-1)
      (loadedHandler "name,age\nZlice,30\nBob,45\n".toList 0 .load_whole_file .include_header
        .stop_on_error 1)).1._sourceFileVector.length = 3 ∧
    (insertColumnEmpty .type_string (-1)
      (loadedHandler "name,age\nZlice,30\nBob,45\n".toList 0 .load_whole_file .include_header
        .stop_on_error 1)).1._sourceFileColumnTypes.length = 3 ∧
    (removeColumn 2
      (insertColumnEmpty .type_string (-1)
        (loadedHandler "name,age\nZlice,30\nBob,45\n".toList 0 .load_whole_file .include_header
          .stop_on_error 1)).1).2 = .error .undefinedBehaviour := by
  decide

set_option maxRecDepth 100000 in
/-- C30 as stated fails in the state after a chunk without a record.  The file
`a,b⏎c,d⏎` is read in chunks of four bytes with the types `string`, `string`
given by the caller; after the third call of `loadEntries` there are two type
tags and no column.  The index `0` is below the number of type tags, which
`getAmountOfColumns` returns, and the tag at `0` is `string`; `replaceAll(0, ..)`
throws `std::out_of_range`, from `_sourceFileVector.at`. -/
theorem replaceAll_out_of_range_iff_counterexample :
    (loadEntriesTimes refPlatform .stop_on_error 3
      (provideTypesForColumns [.type_string, .type_string]
        (constructed "a,b\nc,d\n".toList 4 .load_in_chunks .CSV ','
          .no_header)))._sourceFileColumnTypes = [_tString, _tString] ∧
    (loadEntriesTimes refPlatform .stop_on_error 3
      (provideTypesForColumns [.type_string, .type_string]
        (constructed "a,b\nc,d\n".toList 4 .load_in_chunks .CSV ','
          .no_header)))._sourceFileVector = [] ∧
    (replaceAll fragmentRegex refPlatform 0 "a".toList "b".toList
      (loadEntriesTimes refPlatform .stop_on_error 3
        (provideTypesForColumns [.type_string, .type_string]
          (constructed "a,b\nc,d\n".toList 4 .load_in_chunks .CSV ','
            .no_header)))).2 = .error .out_of_range := by
  decide

set_option maxRecDepth 100000 in
/-- C17 as stated fails on the file `a,b⏎c,d,e⏎f,g⏎` of fourteen bytes read in
chunks of five bytes in `stop_on_error` mode.  Here `floor(F/B) + 1 = 3`; the
first and the third call of `loadEntries` return `true`, the second call throws
`UnableToSplitEntryException(1)`, and the fourth returns `false`: two calls
return `true`, not three. -/
theorem loadEntries_chunk_arithmetic_counterexample :
    ((("a,b\nc,d,e\nf,g\n".toList.length : Nat) : Int) / 5).toNat + 1 = 3 ∧
    (List.range 4).map (fun k => (loadEntries refPlatform .stop_on_error
        (chunkedHandler refPlatform .stop_on_error "a,b\nc,d,e\nf,g\n".toList 5 .CSV ','
          .no_header k)).2)
      = [.ok true, .error (.UnableToSplitEntryException 1), .ok true, .ok false] := by
  decide

end CsvHandler
